import Mathlib

/-!
Shallow embedding of `thpoker/core.py` (YegorDB/phnl): card primitives,
repetition analysis, sequence (straight) analysis, the combination selector
`Combo.find_combo`, the comparator and the hand-contribution classifier.

Python machine details modelled explicitly:
* Python's `list.sort()` is a stable ascending sort driven by `Card.__lt__`
  (weight order).  A stable sort w.r.t. a total preorder has a unique result,
  so it is embedded as a structurally recursive stable insertion sort.
* Fallible constructions (Python exceptions) become `Option`/`none`.
* `dict` buckets (insertion ordered) become association lists.
-/

/-- `Card.Weight`: `symbol` is one of `"123456789TJQKA"`, `number` its index
(0..13); `'1'` and `'A'` both denote an ace, with numbers 0 and 13. -/
structure Weight where
  symbol : Char
  number : Nat
deriving DecidableEq, Repr

/-- The weight symbol string `Card.Weight.symbols`. -/
def Weight.symbols : List Char :=
  ['1', '2', '3', '4', '5', '6', '7', '8', '9', 'T', 'J', 'Q', 'K', 'A']

/-- `Card.Weight.numbers`: symbol to index lookup. -/
def Weight.numberOf (c : Char) : Option Nat :=
  Weight.symbols.findIdx? (fun s => s == c)

/-- Building `Weight(symbol)`; `none` models `CardWeightSymbolError`. -/
def Weight.ofSymbol (c : Char) : Option Weight :=
  match Weight.numberOf c with
  | some n => some { symbol := c, number := n }
  | none => none

/-- Symbol of a weight number (used to build the abstract rank cards). -/
def Weight.symbolOf (i : Nat) : Char := Weight.symbols.getD i ' '

/-- `Card.Suit`: symbol is one of `"cdhs"`. -/
structure Suit where
  symbol : Char
deriving DecidableEq, Repr

/-- Building `Suit(symbol)`; `none` models `CardSuitSymbolError`. -/
def Suit.ofSymbol (c : Char) : Option Suit :=
  if c == 'c' || c == 'd' || c == 'h' || c == 's' then some { symbol := c } else none

/-- A card: concrete (both fields `some`) or abstract (weight-only or
suit-only, used internally as comparison keys).  `in_hand` marks a player's
private card. -/
structure Card where
  weight : Option Weight
  suit : Option Suit
  in_hand : Bool := false
deriving DecidableEq, Repr

/-- `Card.__eq__`: weight comparison when both cards carry a weight, else suit
comparison.  (The final fallback `false` is unreachable in the engine: the
source would raise there.) -/
def cardEq (a b : Card) : Bool :=
  match a.weight, b.weight with
  | some wa, some wb => wa.number == wb.number
  | _, _ =>
    match a.suit, b.suit with
    | some sa, some sb => sa.symbol == sb.symbol
    | _, _ => false

/-- `Card.__ne__` (the literal negation of `Card.__eq__` on every input the
engine compares). -/
def cardNe (a b : Card) : Bool := !(cardEq a b)

/-- `Card.__lt__`: weight order.  Comparing an abstract suit-only card is
unreachable in the engine (the source would raise). -/
def cardLt (a b : Card) : Bool :=
  match a.weight, b.weight with
  | some wa, some wb => wa.number < wb.number
  | _, _ => false

/-- `Card.__gt__`. -/
def cardGt (a b : Card) : Bool :=
  match a.weight, b.weight with
  | some wa, some wb => wb.number < wa.number
  | _, _ => false

/-- `not (b < a)`: the non-strict order a stable ascending sort by
`Card.__lt__` realises. -/
def cardLe (a b : Card) : Bool := !(cardLt b a)

/-- Stable insertion of a card into an ascending list. -/
def orderedInsertCard (a : Card) : List Card → List Card
  | [] => [a]
  | b :: l => if cardLe a b then a :: b :: l else b :: orderedInsertCard a l

/-- `list.sort()`: the unique stable ascending sort by card weight. -/
def sortCards (l : List Card) : List Card := l.foldr orderedInsertCard []

/-- A standard two-symbol card such as `Card('5s')`. -/
def Card.ofSymbols (w s : Char) : Card :=
  { weight := Weight.ofSymbol w, suit := Suit.ofSymbol s, in_hand := false }

/-- An abstract weight-only card such as `Card('5')`. -/
def Card.abstractW (w : Char) : Card :=
  { weight := Weight.ofSymbol w, suit := none, in_hand := false }

/-- An abstract suit-only card such as `Card('s')`. -/
def Card.abstractS (s : Char) : Card :=
  { weight := none, suit := Suit.ofSymbol s, in_hand := false }

/-- `Card(card.weight.symbol)` built inside `get_all_repeats`. -/
def weightCardOf (c : Card) : Card := { weight := c.weight, suit := none, in_hand := false }

/-- `Card(card.suit.symbol)` built inside `get_all_repeats`. -/
def suitCardOf (c : Card) : Card := { weight := none, suit := c.suit, in_hand := false }

/-- The repeat dictionary `BaseRepeats.all`: count, bucket of abstract cards,
in insertion order. -/
abbrev RepDict := List (Nat × List Card)

/-- `self.all[key]` lookup. -/
def dictFind (d : RepDict) (k : Nat) : Option (List Card) :=
  match d.find? (fun p => p.1 == k) with
  | some p => some p.2
  | none => none

/-- `repeats[cnt].append(card)` with the `KeyError` fallback `repeats[cnt] = [card]`. -/
def dictAdd (d : RepDict) (k : Nat) (c : Card) : RepDict :=
  match dictFind d k with
  | some _ => d.map (fun p => if p.1 == k then (p.1, p.2 ++ [c]) else p)
  | none => d ++ [(k, [c])]

/-- `self.cards.count(card)` inside `get_all_repeats` (each list element is
compared with the abstract key card; `cardEq` is symmetric). -/
def countCardEq (cards : List Card) (key : Card) : Nat :=
  (cards.filter (fun e => cardEq e key)).length

/-- State of one `BaseRepeats` object during `get_all_repeats`. -/
structure RepeatsAcc where
  cards : List Card
  all : RepDict
deriving Repr, DecidableEq

/-- One iteration of the inner loop of `Combo.Repeats.get_all_repeats` for a
single abstract key card against one `BaseRepeats` object. -/
def repeatsStep (full : List Card) (acc : RepeatsAcc) (key : Card) : RepeatsAcc :=
  if acc.cards.any (fun e => cardEq e key) then acc
  else
    { cards := acc.cards ++ [key],
      all := dictAdd acc.all (countCardEq full key) key }

/-- `Combo.Repeats.get_all_repeats`: one pass over the cards feeding the
weight accumulator and the suit accumulator. -/
def get_all_repeats (cards : List Card) : RepeatsAcc × RepeatsAcc :=
  cards.foldl
    (fun acc card =>
      (repeatsStep cards acc.1 (weightCardOf card),
       repeatsStep cards acc.2 (suitCardOf card)))
    (⟨[], []⟩, ⟨[], []⟩)

/-- `Combo.Repeats.WeightRepeats` after `get_repeat_kind`. -/
structure WeightRepeats where
  all : RepDict
  four : Option Card := none
  three : Option Card := none
  double_three : Bool := false
  two : Option Card := none
  double_two : Option (List Card) := none
  triple_two : Bool := false
deriving Repr, DecidableEq

/-- `Combo.Repeats.WeightRepeats.get_repeat_kind`.  Indexing a bucket is
embedded with `head?`/`getLast?`; the buckets are never empty when present. -/
def get_repeat_kind (all : RepDict) : WeightRepeats :=
  match dictFind all 4 with
  | some l4 => { all := all, four := l4.head? }
  | none =>
    match dictFind all 3 with
    | some l3 =>
      let withTwo : Option Card :=
        match dictFind all 2 with
        | some l2 => l2.getLast?
        | none => none
      if l3.length == 2 then
        { all := all, three := l3.getLast?, two := l3.dropLast.getLast?,
          double_three := true }
      else
        { all := all, three := l3.getLast?, two := withTwo }
    | none =>
      match dictFind all 2 with
      | some l2 =>
        if l2.length > 1 then
          { all := all, double_two := some (l2.drop (l2.length - 2)),
            triple_two := l2.length == 3 }
        else
          { all := all, two := l2.getLast? }
      | none => { all := all }

/-- `Combo.Repeats.SuitRepeats` after `flush_or_not`. -/
structure SuitRepeats where
  all : RepDict
  max_repeats : Nat
  five_or_more : Bool
  flush_card : Option Card
deriving Repr, DecidableEq

/-- `Combo.Repeats.SuitRepeats.flush_or_not`; `max` of an empty dictionary
raises `ValueError`, modelled as `none` (only an empty card group gets here). -/
def flush_or_not (all : RepDict) : Option SuitRepeats :=
  match all with
  | [] => none
  | _ =>
    let m := (all.map (fun p => p.1)).foldl Nat.max 0
    some { all := all, max_repeats := m, five_or_more := decide (5 ≤ m),
           flush_card := (dictFind all m).bind List.head? }

/-- The abstract `Card('A')` used by `Combo.Sequence`. -/
def aceKey : Card := Card.abstractW 'A'

/-- `Combo.Sequence.one_more_ace`: prepend an extra ace of weight number 0,
built from the last ace in the (sorted) card list, inheriting its `in_hand`
flag. -/
def one_more_ace (cards : List Card) : List Card :=
  match (cards.filter (fun card => cardEq card aceKey)).getLast? with
  | some ace =>
    { weight := some { symbol := '1', number := 0 }, suit := ace.suit,
      in_hand := ace.in_hand } :: cards
  | none => cards

/-- `Combo.Sequence.get_rank`: a 14-slot table of abstract rank cards,
overwritten by the real cards, then reversed (slot `i` holds weight `13-i`). -/
def get_rank (cards : List Card) : List Card :=
  let init := (List.range 14).map (fun i =>
    ({ weight := some { symbol := Weight.symbolOf i, number := i }, suit := none,
       in_hand := false } : Card))
  (cards.foldl
    (fun rank card =>
      match card.weight with
      | some w => rank.set w.number card
      | none => rank)
    init).reverse

/-- The scanning loop of `Combo.Sequence.find_order`: walks the reversed rank
table; a slot counts when it holds a real card (`rank[i].suit` truthy).
Returns the base index of the first five-in-a-row (if any) and the history of
run lengths. -/
def find_order_go : List Card → Nat → Nat → Nat → List Nat → Option Nat × List Nat
  | [], _, _, _, history => (none, history)
  | c :: rest, i, base, row, history =>
    match c.suit with
    | some _ =>
      if row + 1 == 5 then (some base, history ++ [row + 1])
      else find_order_go rest (i + 1) base (row + 1) (history ++ [row + 1])
    | none => find_order_go rest (i + 1) (i + 1) 0 history

/-- `Combo.Sequence` after construction. -/
structure Sequence where
  order_cards : Option (List Card)
  five_in_a_row : Bool
  max_in_a_row : Nat
  cards : List Card
deriving Repr, DecidableEq

/-- The card list a `Sequence` works on: the input, with the low ace
prepended when an ace is present. -/
def seq_source (cards0 : List Card) : List Card :=
  if cards0.any (fun e => cardEq e aceKey) then one_more_ace cards0 else cards0

/-- `Combo.Sequence.__init__` + `find_order` (with `one_more_ace` when an ace
is present).  `max(history)` on an empty history would raise; modelled as 0. -/
def mkSequence (cards0 : List Card) : Sequence :=
  match find_order_go (get_rank (seq_source cards0)) 0 0 0 [] with
  | (some base, history) =>
    { order_cards := some (((get_rank (seq_source cards0)).drop base).take 5),
      five_in_a_row := true,
      max_in_a_row := history.foldl Nat.max 0, cards := seq_source cards0 }
  | (none, history) =>
    { order_cards := none, five_in_a_row := false,
      max_in_a_row := history.foldl Nat.max 0, cards := seq_source cards0 }

/-- Combination kind tags (`Combo.HIGH_CARD` .. `Combo.STRAIGHT_FLUSH`). -/
def HIGH_CARD : Nat := 1
/-- `Combo.ONE_PAIR`. -/
def ONE_PAIR : Nat := 2
/-- `Combo.TWO_PAIRS`. -/
def TWO_PAIRS : Nat := 3
/-- `Combo.THREE_OF_A_KIND`. -/
def THREE_OF_A_KIND : Nat := 4
/-- `Combo.STRAIGHT`. -/
def STRAIGHT : Nat := 5
/-- `Combo.FLUSH`. -/
def FLUSH : Nat := 6
/-- `Combo.FULL_HOUSE`. -/
def FULL_HOUSE : Nat := 7
/-- `Combo.FOUR_OF_A_KIND`. -/
def FOUR_OF_A_KIND : Nat := 8
/-- `Combo.STRAIGHT_FLUSH`. -/
def STRAIGHT_FLUSH : Nat := 9

/-- `Combo.Cards.get_other_cards`: append, from the sorted group, the cards
whose weight does not occur among the already chosen ones, in reverse
(descending) order, up to 5 total. -/
def get_other_cards (self_items : List Card) (all_cards : List Card) : List Card :=
  match all_cards.filter (fun card => !(self_items.any (fun e => cardEq e card))) with
  | [] => self_items
  | _ =>
    self_items
      ++ ((all_cards.filter (fun card => !(self_items.any (fun e => cardEq e card)))).reverse.take
          (5 - self_items.length))

/-- The classified combination (`Combo` after `find_combo`). -/
structure Combo where
  type : Nat
  cards : List Card
  init_cards : List Card
  weight : WeightRepeats
  suit : SuitRepeats
  sequence : Sequence
  is_real : Bool := false
  is_nominal : Bool := false
  is_half_nominal : Bool := false
deriving Repr, DecidableEq

/-- `Combo.get_four_of_a_kind` card selection. -/
def four_of_a_kind_cards (init_cards : List Card) (f : Card) : List Card :=
  get_other_cards (init_cards.filter (fun card => cardEq card f)) init_cards

/-- `Combo.get_full_house` card selection. -/
def full_house_cards (init_cards : List Card) (t p : Card) : List Card :=
  (init_cards.filter (fun card => cardEq card t))
    ++ (init_cards.filter (fun card => cardEq card p)).take 2

/-- `Combo.get_flush` card selection (`sequence.cards[-5:]` reversed). -/
def flush_pick (seq_cards : List Card) : List Card :=
  (seq_cards.drop (seq_cards.length - 5)).reverse

/-- `Combo.get_three_of_a_kind` card selection. -/
def three_of_a_kind_cards (init_cards : List Card) (t : Card) : List Card :=
  get_other_cards (init_cards.filter (fun card => cardEq card t)) init_cards

/-- `Combo.get_two_pairs` card selection. -/
def two_pairs_cards (init_cards : List Card) (dd : List Card) : List Card :=
  get_other_cards
    ((init_cards.filter (fun card => dd.any (fun e => cardEq e card))).drop 2
      ++ (init_cards.filter (fun card => dd.any (fun e => cardEq e card))).take 2)
    init_cards

/-- `Combo.get_one_pair` card selection. -/
def one_pair_cards (init_cards : List Card) (p : Card) : List Card :=
  get_other_cards (init_cards.filter (fun card => cardEq card p)) init_cards

/-- `Combo.get_high_card` card selection (`init_cards[-5:]` reversed). -/
def high_card_cards (init_cards : List Card) : List Card :=
  (init_cards.drop (init_cards.length - 5)).reverse

/-- The priority chain of `Combo.find_combo`, returning the kind tag, the five
combination cards and the sequence analysis used.  The inner `none` fallbacks
are unreachable (in the source they would be attribute errors on `None`). -/
def select_combo (init_cards : List Card) (weight : WeightRepeats) (suit : SuitRepeats) :
    Option (Nat × List Card × Sequence) :=
  if !suit.five_or_more then
    if weight.four.isSome then
      match weight.four with
      | some f =>
        some (FOUR_OF_A_KIND, four_of_a_kind_cards init_cards f, mkSequence init_cards)
      | none => none
    else if weight.three.isSome && weight.two.isSome then
      match weight.three, weight.two with
      | some t, some p =>
        some (FULL_HOUSE, full_house_cards init_cards t p, mkSequence init_cards)
      | _, _ => none
    else if (mkSequence init_cards).five_in_a_row then
      match (mkSequence init_cards).order_cards with
      | some oc => some (STRAIGHT, oc, mkSequence init_cards)
      | none => none
    else if weight.three.isSome then
      match weight.three with
      | some t =>
        some (THREE_OF_A_KIND, three_of_a_kind_cards init_cards t, mkSequence init_cards)
      | none => none
    else if weight.double_two.isSome then
      match weight.double_two with
      | some dd => some (TWO_PAIRS, two_pairs_cards init_cards dd, mkSequence init_cards)
      | none => none
    else if weight.two.isSome then
      match weight.two with
      | some p => some (ONE_PAIR, one_pair_cards init_cards p, mkSequence init_cards)
      | none => none
    else
      some (HIGH_CARD, high_card_cards init_cards, mkSequence init_cards)
  else
    match suit.flush_card with
    | none => none
    | some fc =>
      if (mkSequence (init_cards.filter (fun card => cardEq card fc))).five_in_a_row then
        match (mkSequence (init_cards.filter (fun card => cardEq card fc))).order_cards with
        | some oc =>
          some (STRAIGHT_FLUSH, oc,
            mkSequence (init_cards.filter (fun card => cardEq card fc)))
        | none => none
      else
        some (FLUSH,
          flush_pick (mkSequence (init_cards.filter (fun card => cardEq card fc))).cards,
          mkSequence (init_cards.filter (fun card => cardEq card fc)))

/-- `Combo.find_combo`: sort the group, run the repeat analysis, then pick the
combination per the source's priority chain.  `none` models the exception on
an empty group (`max` of an empty suit dictionary). -/
def find_combo (init0 : List Card) : Option Combo :=
  match flush_or_not (get_all_repeats (sortCards init0)).2.all with
  | none => none
  | some suit =>
    match select_combo (sortCards init0)
        (get_repeat_kind (get_all_repeats (sortCards init0)).1.all) suit with
    | some (ty, cs, seq) =>
      some { type := ty, cards := cs, init_cards := sortCards init0,
             weight := get_repeat_kind (get_all_repeats (sortCards init0)).1.all,
             suit := suit, sequence := seq }
    | none => none

/-- `Combo.half_nominal_finder`: each of the two groups contributes once when
any of its cards is in hand. -/
def half_nominal_finder (c : Combo) (g1 g2 : List Card) : Combo :=
  let cnt := (if g1.any (fun card => card.in_hand) then 1 else 0)
    + (if g2.any (fun card => card.in_hand) then 1 else 0)
  if cnt == 2 then { c with is_real := true }
  else if cnt == 1 then { c with is_half_nominal := true }
  else { c with is_nominal := true }

/-- `Combo.check_nominal_combo`.  For a full house the two groups are all the
cards of `repeats.weight.three` and all the cards of `repeats.weight.two`
(the dead branch where those are unset is the identity). -/
def check_nominal_combo (c : Combo) : Combo :=
  if c.type == FULL_HOUSE then
    match c.weight.three, c.weight.two with
    | some t, some p =>
      half_nominal_finder c
        (c.init_cards.filter (fun card => cardEq card t))
        (c.init_cards.filter (fun card => cardEq card p))
    | _, _ => c
  else if c.type == TWO_PAIRS then
    half_nominal_finder c (c.cards.take 2) ((c.cards.drop 2).take 2)
  else
    if (if c.type == FOUR_OF_A_KIND then c.cards.take 4
        else if c.type == THREE_OF_A_KIND then c.cards.take 3
        else if c.type == ONE_PAIR then c.cards.take 2
        else c.cards).any (fun card => card.in_hand)
    then { c with is_real := true }
    else { c with is_nominal := true }

/-- `Combo.__init__` essentials: classify, then optionally run the
contribution pass. -/
def comboClassify (init0 : List Card) (nominal_check : Bool) : Option Combo :=
  match find_combo init0 with
  | some c => some (if nominal_check then check_nominal_combo c else c)
  | none => none

/-- `Combo.Cards.compare`: walk both 5-card lists, the first pair differing
under `Card.__ne__` decides via `condition`; `even` when no pair differs. -/
def cardsCompare (xs ys : List Card) (condition : Card → Card → Bool) (even : Bool) : Bool :=
  match xs, ys with
  | x :: xs', y :: ys' =>
    if cardNe x y then condition x y else cardsCompare xs' ys' condition even
  | _, _ => even

/-- `Combo.Cards.__lt__`. -/
def comboCardsLt (xs ys : List Card) : Bool := cardsCompare xs ys cardLt false

/-- `Combo.Cards.__gt__`. -/
def comboCardsGt (xs ys : List Card) : Bool := cardsCompare xs ys cardGt false

/-- `Combo.Cards.__eq__`. -/
def comboCardsEq (xs ys : List Card) : Bool := cardsCompare xs ys cardEq true

/-- `Combo.__lt__`: Python tuple comparison of `(type, cards)`. -/
def comboLt (a b : Combo) : Bool :=
  if a.type == b.type then
    if comboCardsEq a.cards b.cards then false else comboCardsLt a.cards b.cards
  else decide (a.type < b.type)

/-- `Combo.__gt__`. -/
def comboGt (a b : Combo) : Bool :=
  if a.type == b.type then
    if comboCardsEq a.cards b.cards then false else comboCardsGt a.cards b.cards
  else decide (b.type < a.type)

/-- `Combo.__eq__`. -/
def comboEq (a b : Combo) : Bool :=
  a.type == b.type && comboCardsEq a.cards b.cards

/-- `Combo(cards=...)`: `init_cards` aliases the caller's `cards.items`, and
`find_combo` sorts that list in place, so the caller's items afterwards are
the sorted list.  Returns the combo and the caller-visible items. -/
def combo_from_cards (items : List Card) : Option Combo × List Card :=
  (comboClassify items false, sortCards items)

/-- `Combo(table=..., hand=...)`: `table.items + hand.items` builds a fresh
list, so the callers' lists are untouched.  Returns the combo and the
caller-visible table and hand items. -/
def combo_from_table_hand (table hand : List Card) (nominal_check : Bool) :
    Option Combo × List Card × List Card :=
  (comboClassify (table ++ hand) nominal_check, table, hand)

/-! ## Auxiliary predicates used by the claim statements -/

/-- The weight number of a card (`0` for the unreachable weightless case). -/
def wNum (c : Card) : Nat :=
  match c.weight with
  | some w => w.number
  | none => 0

/-- Every card in the list carries a weight. -/
def allWeighted (l : List Card) : Bool := l.all (fun c => c.weight.isSome)

/-- Every card is a fully concrete playing card: weight (with a valid number)
and suit both present. -/
def validCards (l : List Card) : Bool :=
  l.all (fun c => c.weight.isSome && decide (wNum c < 14) && c.suit.isSome)

/-- Some two cards of the list denote the same playing card (same weight
number and suit). -/
def hasDupCard : List Card → Bool
  | [] => false
  | c :: r => r.any (fun e => wNum e == wNum c && e.suit == c.suit) || hasDupCard r

/-- Weight numbers of a card list. -/
def weightsOf (l : List Card) : List Nat := l.map wNum

/-- Spec-side comparison of two weight lists: the first differing position
decides (claim C3's description of the card-by-card tie-break). -/
def lexWeightLt : List Nat → List Nat → Bool
  | x :: xs, y :: ys => if x == y then lexWeightLt xs ys else decide (x < y)
  | _, _ => false

/-! ## Sorting lemmas -/

theorem orderedInsertCard_perm (a : Card) (l : List Card) :
    (orderedInsertCard a l).Perm (a :: l) := by
  induction l with
  | nil => simp [orderedInsertCard]
  | cons b t ih =>
    unfold orderedInsertCard
    by_cases h : cardLe a b = true
    · simp [h]
    · simp only [h, if_false, Bool.false_eq_true]
      exact (ih.cons b).trans (List.Perm.swap a b t)

theorem sortCards_perm (l : List Card) : (sortCards l).Perm l := by
  induction l with
  | nil => rfl
  | cons a t ih =>
    simpa [sortCards] using (orderedInsertCard_perm a (sortCards t)).trans (ih.cons a)

theorem cardLe_of_not_cardLe {a b : Card} (h : ¬ cardLe a b = true) : cardLe b a = true := by
  unfold cardLe at *
  unfold cardLt at *
  cases ha : a.weight with
  | none => simp [ha] at h ⊢
  | some wa =>
    cases hb : b.weight with
    | none => simp [ha, hb] at h ⊢
    | some wb => simp [ha, hb] at h ⊢; omega

theorem cardLe_trans {a b c : Card} (hab : cardLe a b = true) (hbc : cardLe b c = true)
    (ha : a.weight.isSome) (hb : b.weight.isSome) (hc : c.weight.isSome) :
    cardLe a c = true := by
  unfold cardLe cardLt at *
  cases h1 : a.weight with
  | none => simp [h1] at ha
  | some wa =>
    cases h2 : b.weight with
    | none => simp [h2] at hb
    | some wb =>
      cases h3 : c.weight with
      | none => simp [h3] at hc
      | some wc => simp [h1, h2, h3] at hab hbc ⊢; omega

theorem pairwise_orderedInsertCard {a : Card} {l : List Card}
    (hl : l.Pairwise (fun x y => cardLe x y = true))
    (ha : a.weight.isSome) (hmem : ∀ c ∈ l, c.weight.isSome) :
    (orderedInsertCard a l).Pairwise (fun x y => cardLe x y = true) := by
  induction l with
  | nil => simp [orderedInsertCard]
  | cons b t ih =>
    unfold orderedInsertCard
    by_cases h : cardLe a b = true
    · simp only [h, if_true]
      refine List.Pairwise.cons ?_ hl
      intro c hc
      rcases List.mem_cons.mp hc with hc' | hc'
      · exact hc' ▸ h
      · exact cardLe_trans h (List.rel_of_pairwise_cons hl hc') ha
          (hmem b (by simp)) (hmem c (by simp [hc']))
    · simp only [h, if_false, Bool.false_eq_true]
      have hba : cardLe b a = true := cardLe_of_not_cardLe h
      refine List.Pairwise.cons ?_ (ih (List.Pairwise.of_cons hl) (fun c hc => hmem c (by simp [hc])))
      intro c hc
      rcases List.mem_cons.mp ((orderedInsertCard_perm a t).mem_iff.mp hc) with hc' | hc'
      · exact hc' ▸ hba
      · exact List.rel_of_pairwise_cons hl hc'

theorem sortCards_pairwise {l : List Card} (h : ∀ c ∈ l, c.weight.isSome) :
    (sortCards l).Pairwise (fun x y => cardLe x y = true) := by
  induction l with
  | nil => simp [sortCards]
  | cons a t ih =>
    have hmem : ∀ c ∈ sortCards t, c.weight.isSome := by
      intro c hc
      exact h c (by simp [(sortCards_perm t).mem_iff.mp hc])
    exact pairwise_orderedInsertCard (ih (fun c hc => h c (by simp [hc])))
      (h a (by simp)) hmem

/-- On weighted cards `cardLe` is exactly the weight-number order. -/
theorem cardLe_iff_wNum {a b : Card} (ha : a.weight.isSome) (hb : b.weight.isSome) :
    cardLe a b = true ↔ wNum a ≤ wNum b := by
  unfold cardLe cardLt wNum
  cases h1 : a.weight with
  | none => simp [h1] at ha
  | some wa =>
    cases h2 : b.weight with
    | none => simp [h2] at hb
    | some wb => simp [h1, h2]

theorem sortCards_sorted_wNum {l : List Card} (h : ∀ c ∈ l, c.weight.isSome) :
    (sortCards l).Pairwise (fun x y => wNum x ≤ wNum y) := by
  have hp := sortCards_pairwise h
  have hmem : ∀ c ∈ sortCards l, c.weight.isSome := fun c hc =>
    h c ((sortCards_perm l).mem_iff.mp hc)
  exact List.Pairwise.imp_of_mem
    (fun {a b} hma hmb hab => (cardLe_iff_wNum (hmem a hma) (hmem b hmb)).mp hab) hp

/-! ## Claim C10: the two ace notations -/

/-- C10: the notation accepts both `'1'` and `'A'` as an ace weight symbol but
they denote unequal weights (numbers 0 and 13); weight equality is by numeric
value only; hence `Card('1s') != Card('As')` and `Card('1s') < Card('2s')`. -/
theorem C10_two_ace_notations :
    Weight.ofSymbol '1' = some { symbol := '1', number := 0 }
    ∧ Weight.ofSymbol 'A' = some { symbol := 'A', number := 13 }
    ∧ cardEq (Card.ofSymbols '1' 's') (Card.ofSymbols 'A' 's') = false
    ∧ cardNe (Card.ofSymbols '1' 's') (Card.ofSymbols 'A' 's') = true
    ∧ cardLt (Card.ofSymbols '1' 's') (Card.ofSymbols '2' 's') = true
    ∧ (∀ (wa wb : Weight) (sa sb : Option Suit) (ia ib : Bool),
        cardEq { weight := some wa, suit := sa, in_hand := ia }
          { weight := some wb, suit := sb, in_hand := ib } = (wa.number == wb.number)) :=
  ⟨by decide, by decide, by decide, by decide, by decide,
   fun wa wb sa sb ia ib => rfl⟩

/-! ## Claim C9: mutation of the caller's card group -/

/-- A five-card group whose items are not already in ascending weight order. -/
def c9_example : List Card :=
  [Card.ofSymbols 'K' 'c', Card.ofSymbols '2' 'd', Card.ofSymbols '3' 'h',
   Card.ofSymbols '4' 's', Card.ofSymbols '5' 'c']

/-- C9 counterexample: constructing a `Combo` from a `Cards` instance leaves
the caller's `items` list changed (it is the engine's `init_cards` alias and
gets sorted in place), so the claim as stated is false. -/
theorem C9_counterexample : ¬ ((combo_from_cards c9_example).2 = c9_example) := by
  decide

/-- C9 amended: the engine preserves the multiset of the caller's cards, but
for a `Cards`-instance input it sorts the caller's `items` list in place
(afterwards the items are the ascending-weight sort of the originals); the
`table.items + hand.items` path builds a fresh list, so `Table` and `Hand`
item lists are never changed. -/
theorem C9_amended (items table hand : List Card) (nc : Bool) :
    ((combo_from_cards items).2).Perm items
    ∧ (combo_from_cards items).2 = sortCards items
    ∧ (combo_from_table_hand table hand nc).2.1 = table
    ∧ (combo_from_table_hand table hand nc).2.2 = hand :=
  ⟨sortCards_perm items, rfl, rfl, rfl⟩

/-! ## Claim C3: the comparator -/

theorem lexWeightLt_cons (x y : Nat) (xs ys : List Nat) :
    lexWeightLt (x :: xs) (y :: ys) = if x == y then lexWeightLt xs ys else decide (x < y) := rfl

theorem allWeighted_cons {x : Card} {xs : List Card} (h : allWeighted (x :: xs) = true) :
    x.weight.isSome = true ∧ allWeighted xs = true := by
  simp only [allWeighted, List.all_eq_true] at h ⊢
  exact ⟨by simpa using h x (by simp), fun c hc => h c (by simp [hc])⟩

theorem comboCardsLt_spec : ∀ (xs ys : List Card),
    allWeighted xs = true → allWeighted ys = true →
    comboCardsLt xs ys = lexWeightLt (weightsOf xs) (weightsOf ys)
  | [], [] => by intro _ _; rfl
  | [], _ :: _ => by intro _ _; rfl
  | _ :: _, [] => by intro _ _; rfl
  | x :: xs, y :: ys => by
    intro hx hy
    obtain ⟨hxw, tailx⟩ := allWeighted_cons hx
    obtain ⟨hyw, taily⟩ := allWeighted_cons hy
    obtain ⟨wx, hwx⟩ := Option.isSome_iff_exists.mp hxw
    obtain ⟨wy, hwy⟩ := Option.isSome_iff_exists.mp hyw
    have hne : cardNe x y = !(wx.number == wy.number) := by
      unfold cardNe cardEq; rw [hwx, hwy]
    have hlt : cardLt x y = decide (wx.number < wy.number) := by
      unfold cardLt; rw [hwx, hwy]
    have hwnx : wNum x = wx.number := by unfold wNum; rw [hwx]
    have hwny : wNum y = wy.number := by unfold wNum; rw [hwy]
    have hcons : weightsOf (x :: xs) = wNum x :: weightsOf xs := rfl
    have hcons' : weightsOf (y :: ys) = wNum y :: weightsOf ys := rfl
    show cardsCompare (x :: xs) (y :: ys) cardLt false = _
    unfold cardsCompare
    rw [hcons, hcons', lexWeightLt_cons]
    by_cases h : wx.number = wy.number
    · have hne2 : cardNe x y = false := by rw [hne]; simp [h]
      have hYes : (wNum x == wNum y) = true := by rw [hwnx, hwny]; simp [h]
      rw [hne2, hYes]
      simp only [Bool.false_eq_true, if_false, if_true]
      exact comboCardsLt_spec xs ys tailx taily
    · have hne2 : cardNe x y = true := by rw [hne]; simp [h]
      have hNo : (wNum x == wNum y) = false := by rw [hwnx, hwny]; simp [h]
      rw [hne2, hNo]
      simp only [Bool.false_eq_true, if_false, if_true, hlt, hwnx, hwny]

theorem comboCardsEq_spec : ∀ (xs ys : List Card),
    allWeighted xs = true → allWeighted ys = true → xs.length = ys.length →
    comboCardsEq xs ys = decide (weightsOf xs = weightsOf ys)
  | [], [] => by intro _ _ _; rfl
  | [], _ :: _ => by intro _ _ h; simp at h
  | _ :: _, [] => by intro _ _ h; simp at h
  | x :: xs, y :: ys => by
    intro hx hy hlen
    obtain ⟨hxw, tailx⟩ := allWeighted_cons hx
    obtain ⟨hyw, taily⟩ := allWeighted_cons hy
    obtain ⟨wx, hwx⟩ := Option.isSome_iff_exists.mp hxw
    obtain ⟨wy, hwy⟩ := Option.isSome_iff_exists.mp hyw
    have hne : cardNe x y = !(wx.number == wy.number) := by
      unfold cardNe cardEq; rw [hwx, hwy]
    have heq : cardEq x y = (wx.number == wy.number) := by
      unfold cardEq; rw [hwx, hwy]
    have hwnx : wNum x = wx.number := by unfold wNum; rw [hwx]
    have hwny : wNum y = wy.number := by unfold wNum; rw [hwy]
    have hcons : weightsOf (x :: xs) = wNum x :: weightsOf xs := rfl
    have hcons' : weightsOf (y :: ys) = wNum y :: weightsOf ys := rfl
    show cardsCompare (x :: xs) (y :: ys) cardEq true = _
    unfold cardsCompare
    rw [hcons, hcons']
    by_cases h : wx.number = wy.number
    · have hne2 : cardNe x y = false := by rw [hne]; simp [h]
      have hiff : (wNum x :: weightsOf xs = wNum y :: weightsOf ys)
          ↔ (weightsOf xs = weightsOf ys) := by
        rw [hwnx, hwny, h]; simp
      rw [hne2]
      simp only [Bool.false_eq_true, if_false]
      rw [decide_eq_decide.mpr hiff]
      have := comboCardsEq_spec xs ys tailx taily (by simpa using hlen)
      exact this
    · have hne2 : cardNe x y = true := by rw [hne]; simp [h]
      have hne3 : ¬ (wNum x :: weightsOf xs = wNum y :: weightsOf ys) := by
        rw [hwnx, hwny]; simp [h]
      rw [hne2]
      simp only [if_true, heq]
      simp [h, hne3]

theorem lexWeightLt_of_eq : ∀ (xs : List Nat), lexWeightLt xs xs = false
  | [] => rfl
  | x :: xs => by
    rw [lexWeightLt_cons]
    simp [lexWeightLt_of_eq xs]

/-- C3: combinations compare first by kind rank; on equal kinds the two
5-card lists compare position by position, the first differing weight
deciding; equal weight sequences compare equal regardless of suits. -/
theorem C3_comparison_order (a b : Combo)
    (ha : allWeighted a.cards = true) (hb : allWeighted b.cards = true)
    (hla : a.cards.length = 5) (hlb : b.cards.length = 5) :
    comboLt a b
      = (decide (a.type < b.type)
         || ((a.type == b.type) && lexWeightLt (weightsOf a.cards) (weightsOf b.cards)))
    ∧ comboEq a b
      = ((a.type == b.type) && decide (weightsOf a.cards = weightsOf b.cards)) := by
  have hEq := comboCardsEq_spec a.cards b.cards ha hb (hla.trans hlb.symm)
  have hLt := comboCardsLt_spec a.cards b.cards ha hb
  unfold comboLt comboEq
  by_cases ht : a.type = b.type
  · have htb : (a.type == b.type) = true := by simp [ht]
    have htlt : decide (a.type < b.type) = false := by simp [ht]
    rw [htb, htlt]
    simp only [if_true, Bool.true_and, Bool.false_or]
    constructor
    · by_cases he : weightsOf a.cards = weightsOf b.cards
      · have hq : comboCardsEq a.cards b.cards = true := by rw [hEq]; simp [he]
        rw [hq]
        simp only [if_true]
        rw [he, lexWeightLt_of_eq]
      · have hq : comboCardsEq a.cards b.cards = false := by rw [hEq]; simp [he]
        rw [hq]
        simp only [Bool.false_eq_true, if_false]
        exact hLt
    · exact hEq
  · have htb : (a.type == b.type) = false := by simp [ht]
    rw [htb]
    constructor <;> simp

/-- A bare combination record used to instantiate the comparator claims (the
comparator reads only the kind tag and the five cards). -/
def mkBareCombo (ty : Nat) (cs : List Card) : Combo :=
  { type := ty, cards := cs, init_cards := [], weight := { all := [] },
    suit := { all := [], max_repeats := 0, five_or_more := false, flush_card := none },
    sequence := { order_cards := none, five_in_a_row := false, max_in_a_row := 0, cards := [] } }

/-- A heart flush A-K-9-7-2. -/
def c3_fl_hearts : Combo :=
  mkBareCombo FLUSH
    [Card.ofSymbols 'A' 'h', Card.ofSymbols 'K' 'h', Card.ofSymbols '9' 'h',
     Card.ofSymbols '7' 'h', Card.ofSymbols '2' 'h']

/-- A spade flush with the same weights. -/
def c3_fl_spades : Combo :=
  mkBareCombo FLUSH
    [Card.ofSymbols 'A' 's', Card.ofSymbols 'K' 's', Card.ofSymbols '9' 's',
     Card.ofSymbols '7' 's', Card.ofSymbols '2' 's']

theorem C3_comparison_order_witness :
    allWeighted c3_fl_hearts.cards = true ∧ allWeighted c3_fl_spades.cards = true
    ∧ c3_fl_hearts.cards.length = 5 ∧ c3_fl_spades.cards.length = 5
    ∧ (comboLt c3_fl_hearts c3_fl_spades
        = (decide (c3_fl_hearts.type < c3_fl_spades.type)
           || ((c3_fl_hearts.type == c3_fl_spades.type)
               && lexWeightLt (weightsOf c3_fl_hearts.cards) (weightsOf c3_fl_spades.cards)))
       ∧ comboEq c3_fl_hearts c3_fl_spades
        = ((c3_fl_hearts.type == c3_fl_spades.type)
           && decide (weightsOf c3_fl_hearts.cards = weightsOf c3_fl_spades.cards))) :=
  ⟨by decide, by decide, by decide, by decide,
   C3_comparison_order c3_fl_hearts c3_fl_spades (by decide) (by decide) (by decide) (by decide)⟩

/-! ## Claim C7: the hand-contribution classifier -/

/-- Exactly one of the three contribution flags is set. -/
def exactlyOneFlag (c : Combo) : Prop :=
  (c.is_real = true ∧ c.is_nominal = false ∧ c.is_half_nominal = false)
  ∨ (c.is_real = false ∧ c.is_nominal = true ∧ c.is_half_nominal = false)
  ∨ (c.is_real = false ∧ c.is_nominal = false ∧ c.is_half_nominal = true)

theorem find_combo_some_decomp {init0 : List Card} {c : Combo}
    (h : find_combo init0 = some c) :
    ∃ suit ty cs seq,
      flush_or_not (get_all_repeats (sortCards init0)).2.all = some suit
      ∧ select_combo (sortCards init0)
          (get_repeat_kind (get_all_repeats (sortCards init0)).1.all) suit
          = some (ty, cs, seq)
      ∧ c = { type := ty, cards := cs, init_cards := sortCards init0,
              weight := get_repeat_kind (get_all_repeats (sortCards init0)).1.all,
              suit := suit, sequence := seq } := by
  unfold find_combo at h
  split at h
  · simp at h
  · rename_i suit hfn
    split at h
    · rename_i p ty cs seq hsel
      exact ⟨suit, ty, cs, seq, hfn, hsel, (Option.some.inj h).symm⟩
    · simp at h

/-- The selector leaves the three contribution flags at their `false`
defaults. -/
theorem find_combo_flags {init0 : List Card} {c : Combo}
    (h : find_combo init0 = some c) :
    c.is_real = false ∧ c.is_nominal = false ∧ c.is_half_nominal = false := by
  obtain ⟨suit, ty, cs, seq, _, _, hc⟩ := find_combo_some_decomp h
  subst hc
  exact ⟨rfl, rfl, rfl⟩

theorem half_nominal_finder_spec (c : Combo) (g1 g2 : List Card) :
    half_nominal_finder c g1 g2 =
      (if g1.any (fun card => card.in_hand) then
        (if g2.any (fun card => card.in_hand) then { c with is_real := true }
         else { c with is_half_nominal := true })
       else
        (if g2.any (fun card => card.in_hand) then { c with is_half_nominal := true }
         else { c with is_nominal := true })) := by
  unfold half_nominal_finder
  by_cases a1 : g1.any (fun card => card.in_hand) = true <;>
    by_cases a2 : g2.any (fun card => card.in_hand) = true <;>
      simp [a1, a2]

theorem half_nominal_finder_exactlyOne (c : Combo) (g1 g2 : List Card)
    (h1 : c.is_real = false) (h2 : c.is_nominal = false) (h3 : c.is_half_nominal = false) :
    exactlyOneFlag (half_nominal_finder c g1 g2) := by
  rw [half_nominal_finder_spec]
  split
  · split
    · exact Or.inl ⟨rfl, h2, h3⟩
    · exact Or.inr (Or.inr ⟨h1, h2, rfl⟩)
  · split
    · exact Or.inr (Or.inr ⟨h1, h2, rfl⟩)
    · exact Or.inr (Or.inl ⟨h1, rfl, h3⟩)

theorem check_nominal_exactlyOne (c : Combo)
    (h1 : c.is_real = false) (h2 : c.is_nominal = false) (h3 : c.is_half_nominal = false)
    (hFH : c.type = FULL_HOUSE → c.weight.three.isSome = true ∧ c.weight.two.isSome = true) :
    exactlyOneFlag (check_nominal_combo c) := by
  unfold check_nominal_combo
  split
  · rename_i hty
    have hty' : c.type = FULL_HOUSE := by simpa using hty
    obtain ⟨ht, hp⟩ := hFH hty'
    obtain ⟨t, htv⟩ := Option.isSome_iff_exists.mp ht
    obtain ⟨p, hpv⟩ := Option.isSome_iff_exists.mp hp
    rw [htv, hpv]
    exact half_nominal_finder_exactlyOne _ _ _ h1 h2 h3
  · split
    · exact half_nominal_finder_exactlyOne _ _ _ h1 h2 h3
    · split_ifs <;>
        first
          | exact Or.inl ⟨rfl, h2, h3⟩
          | exact Or.inr (Or.inl ⟨h1, rfl, h3⟩)

theorem check_nominal_preserved (c : Combo) :
    (check_nominal_combo c).type = c.type ∧ (check_nominal_combo c).cards = c.cards
    ∧ (check_nominal_combo c).init_cards = c.init_cards
    ∧ (check_nominal_combo c).weight = c.weight := by
  unfold check_nominal_combo
  split
  · split
    · rw [half_nominal_finder_spec]
      split <;> split <;> exact ⟨rfl, rfl, rfl, rfl⟩
    · exact ⟨rfl, rfl, rfl, rfl⟩
  · split
    · rw [half_nominal_finder_spec]
      split <;> split <;> exact ⟨rfl, rfl, rfl, rfl⟩
    · split_ifs <;> exact ⟨rfl, rfl, rfl, rfl⟩

/-- Full case analysis of the selector's priority chain. -/
theorem select_combo_cases {init_cards : List Card} {weight : WeightRepeats}
    {suit : SuitRepeats} {ty : Nat} {cs : List Card} {seq : Sequence}
    (h : select_combo init_cards weight suit = some (ty, cs, seq)) :
    (suit.five_or_more = false ∧ seq = mkSequence init_cards ∧
      ((∃ f, weight.four = some f ∧ ty = FOUR_OF_A_KIND
          ∧ cs = four_of_a_kind_cards init_cards f)
       ∨ (weight.four = none ∧ (∃ t p, weight.three = some t ∧ weight.two = some p
            ∧ ty = FULL_HOUSE ∧ cs = full_house_cards init_cards t p))
       ∨ (weight.four = none ∧ (weight.three.isSome && weight.two.isSome) = false
            ∧ seq.five_in_a_row = true ∧ seq.order_cards = some cs ∧ ty = STRAIGHT)
       ∨ (weight.four = none ∧ (weight.three.isSome && weight.two.isSome) = false
            ∧ seq.five_in_a_row = false ∧ (∃ t, weight.three = some t
            ∧ ty = THREE_OF_A_KIND ∧ cs = three_of_a_kind_cards init_cards t))
       ∨ (weight.four = none ∧ weight.three = none ∧ seq.five_in_a_row = false
            ∧ (∃ dd, weight.double_two = some dd ∧ ty = TWO_PAIRS
            ∧ cs = two_pairs_cards init_cards dd))
       ∨ (weight.four = none ∧ weight.three = none ∧ seq.five_in_a_row = false
            ∧ weight.double_two = none ∧ (∃ p, weight.two = some p
            ∧ ty = ONE_PAIR ∧ cs = one_pair_cards init_cards p))
       ∨ (weight.four = none ∧ weight.three = none ∧ weight.two = none
            ∧ weight.double_two = none ∧ seq.five_in_a_row = false
            ∧ ty = HIGH_CARD ∧ cs = high_card_cards init_cards)))
    ∨ (suit.five_or_more = true ∧ ∃ fc, suit.flush_card = some fc
        ∧ seq = mkSequence (init_cards.filter (fun card => cardEq card fc))
        ∧ ((seq.five_in_a_row = true ∧ seq.order_cards = some cs ∧ ty = STRAIGHT_FLUSH)
           ∨ (seq.five_in_a_row = false ∧ ty = FLUSH ∧ cs = flush_pick seq.cards))) := by
  unfold select_combo at h
  split at h
  · -- no flush
    rename_i hnotflush
    have hfom : suit.five_or_more = false := by simpa using hnotflush
    left
    split at h
    · -- four of a kind
      split at h
      · rename_i f hf
        simp only [Option.some.injEq, Prod.mk.injEq] at h
        obtain ⟨h1, h2, h3⟩ := h
        exact ⟨hfom, h3.symm, Or.inl ⟨f, hf, h1.symm, h2.symm⟩⟩
      · exact absurd h (by simp)
    · rename_i h4
      have hfour : weight.four = none := Option.not_isSome_iff_eq_none.mp (by simpa using h4)
      split at h
      · -- full house
        rename_i h32
        split at h
        · rename_i t p ht hp
          simp only [Option.some.injEq, Prod.mk.injEq] at h
          obtain ⟨h1, h2, h3⟩ := h
          exact ⟨hfom, h3.symm, Or.inr (Or.inl ⟨hfour, t, p, ht, hp, h1.symm, h2.symm⟩)⟩
        · rename_i hcontr
          exfalso
          obtain ⟨ht, hp⟩ := Bool.and_eq_true .. ▸ h32
          obtain ⟨t, htv⟩ := Option.isSome_iff_exists.mp ht
          obtain ⟨p, hpv⟩ := Option.isSome_iff_exists.mp hp
          exact hcontr t p htv hpv
      · rename_i h32
        have h32' : (weight.three.isSome && weight.two.isSome) = false := by simpa using h32
        split at h
        · -- straight
          rename_i h5
          split at h
          · rename_i oc hoc
            simp only [Option.some.injEq, Prod.mk.injEq] at h
            obtain ⟨h1, h2, h3⟩ := h
            refine ⟨hfom, h3.symm, Or.inr (Or.inr (Or.inl
              ⟨hfour, h32', h3 ▸ h5, ?_, h1.symm⟩))⟩
            rw [← h3, hoc, h2]
          · exact absurd h (by simp)
        · rename_i h5
          have h5' : (mkSequence init_cards).five_in_a_row = false := by simpa using h5
          split at h
          · -- three of a kind
            rename_i h3k
            split at h
            · rename_i t ht
              simp only [Option.some.injEq, Prod.mk.injEq] at h
              obtain ⟨h1, h2, h3⟩ := h
              exact ⟨hfom, h3.symm, Or.inr (Or.inr (Or.inr (Or.inl
                ⟨hfour, h32', h3 ▸ h5', t, ht, h1.symm, h2.symm⟩)))⟩
            · rename_i hcontr
              exfalso
              rw [hcontr] at h3k
              simp at h3k
          · rename_i h3k
            have hthree : weight.three = none :=
              Option.not_isSome_iff_eq_none.mp (by simpa using h3k)
            split at h
            · -- two pairs
              rename_i hdd
              split at h
              · rename_i dd hddv
                simp only [Option.some.injEq, Prod.mk.injEq] at h
                obtain ⟨h1, h2, h3⟩ := h
                exact ⟨hfom, h3.symm, Or.inr (Or.inr (Or.inr (Or.inr (Or.inl
                  ⟨hfour, hthree, h3 ▸ h5', dd, hddv, h1.symm, h2.symm⟩))))⟩
              · rename_i hcontr
                exfalso
                rw [hcontr] at hdd
                simp at hdd
            · rename_i hdd
              have hddn : weight.double_two = none :=
                Option.not_isSome_iff_eq_none.mp (by simpa using hdd)
              split at h
              · -- one pair
                rename_i h2p
                split at h
                · rename_i p hp
                  simp only [Option.some.injEq, Prod.mk.injEq] at h
                  obtain ⟨h1, h2, h3⟩ := h
                  exact ⟨hfom, h3.symm, Or.inr (Or.inr (Or.inr (Or.inr (Or.inr (Or.inl
                    ⟨hfour, hthree, h3 ▸ h5', hddn, p, hp, h1.symm, h2.symm⟩)))))⟩
                · rename_i hcontr
                  exfalso
                  rw [hcontr] at h2p
                  simp at h2p
              · -- high card
                rename_i h2p
                have htwo : weight.two = none :=
                  Option.not_isSome_iff_eq_none.mp (by simpa using h2p)
                simp only [Option.some.injEq, Prod.mk.injEq] at h
                obtain ⟨h1, h2, h3⟩ := h
                exact ⟨hfom, h3.symm, Or.inr (Or.inr (Or.inr (Or.inr (Or.inr (Or.inr
                  ⟨hfour, hthree, htwo, hddn, h3 ▸ h5', h1.symm, h2.symm⟩)))))⟩
  · -- flush branch
    rename_i hnotflush
    have hfom : suit.five_or_more = true := by
      cases hfv : suit.five_or_more with
      | true => rfl
      | false => rw [hfv] at hnotflush; simp at hnotflush
    right
    refine ⟨hfom, ?_⟩
    split at h
    · exact absurd h (by simp)
    · rename_i fc hfc
      refine ⟨fc, hfc, ?_⟩
      split at h
      · rename_i h5
        split at h
        · rename_i oc hoc
          simp only [Option.some.injEq, Prod.mk.injEq] at h
          obtain ⟨h1, h2, h3⟩ := h
          refine ⟨h3.symm, Or.inl ⟨h3 ▸ h5, ?_, h1.symm⟩⟩
          rw [← h3, hoc, h2]
        · exact absurd h (by simp)
      · rename_i h5
        have h5' : (mkSequence (init_cards.filter (fun card => cardEq card fc))).five_in_a_row
            = false := by simpa using h5
        simp only [Option.some.injEq, Prod.mk.injEq] at h
        obtain ⟨h1, h2, h3⟩ := h
        refine ⟨h3.symm, Or.inr ⟨h3 ▸ h5', h1.symm, ?_⟩⟩
        rw [← h3, ← h2]

theorem select_full_house_repeats {init_cards : List Card} {weight : WeightRepeats}
    {suit : SuitRepeats} {ty : Nat} {cs : List Card} {seq : Sequence}
    (h : select_combo init_cards weight suit = some (ty, cs, seq)) (hty : ty = FULL_HOUSE) :
    weight.three.isSome = true ∧ weight.two.isSome = true := by
  rcases select_combo_cases h with ⟨_, _, hcase⟩ | ⟨_, fc, _, _, hcase⟩
  · rcases hcase with ⟨f, _, hty', _⟩ | ⟨_, t, p, ht, hp, _, _⟩
      | ⟨_, _, _, _, hty'⟩ | ⟨_, _, _, t, _, hty', _⟩ | ⟨_, _, _, dd, _, hty', _⟩
      | ⟨_, _, _, _, p, _, hty', _⟩ | ⟨_, _, _, _, _, hty', _⟩
    · rw [hty] at hty'; exact absurd hty' (by decide)
    · rw [ht, hp]; exact ⟨rfl, rfl⟩
    · rw [hty] at hty'; exact absurd hty' (by decide)
    · rw [hty] at hty'; exact absurd hty' (by decide)
    · rw [hty] at hty'; exact absurd hty' (by decide)
    · rw [hty] at hty'; exact absurd hty' (by decide)
    · rw [hty] at hty'; exact absurd hty' (by decide)
  · rcases hcase with ⟨_, _, hty'⟩ | ⟨_, hty', _⟩
    · rw [hty] at hty'; exact absurd hty' (by decide)
    · rw [hty] at hty'; exact absurd hty' (by decide)

/-- C7: constructed from a table and a hand with the contribution check
requested, the three flags are all false before the pass and exactly one is
true afterwards; for a full house the two inspected groups are all the cards
of the triple weight and all the cards of the pair weight, for two pairs the
first two and next two combination cards, and the real / half-nominal /
nominal outcome follows whether both, exactly one, or neither group holds an
in-hand card. -/
theorem C7_contribution_flags (table hand : List Card) (c0 c : Combo)
    (h0 : find_combo (table ++ hand) = some c0)
    (h1 : (combo_from_table_hand table hand true).1 = some c) :
    (c0.is_real = false ∧ c0.is_nominal = false ∧ c0.is_half_nominal = false)
    ∧ c = check_nominal_combo c0
    ∧ exactlyOneFlag c
    ∧ (∀ t p, c0.type = FULL_HOUSE → c0.weight.three = some t → c0.weight.two = some p →
        (((c0.init_cards.filter (fun card => cardEq card t)).any (fun card => card.in_hand) = true
            → (c0.init_cards.filter (fun card => cardEq card p)).any (fun card => card.in_hand) = true
            → c.is_real = true)
         ∧ ((c0.init_cards.filter (fun card => cardEq card t)).any (fun card => card.in_hand) = true
            → (c0.init_cards.filter (fun card => cardEq card p)).any (fun card => card.in_hand) = false
            → c.is_half_nominal = true)
         ∧ ((c0.init_cards.filter (fun card => cardEq card t)).any (fun card => card.in_hand) = false
            → (c0.init_cards.filter (fun card => cardEq card p)).any (fun card => card.in_hand) = true
            → c.is_half_nominal = true)
         ∧ ((c0.init_cards.filter (fun card => cardEq card t)).any (fun card => card.in_hand) = false
            → (c0.init_cards.filter (fun card => cardEq card p)).any (fun card => card.in_hand) = false
            → c.is_nominal = true)))
    ∧ (c0.type = TWO_PAIRS →
        (((c0.cards.take 2).any (fun card => card.in_hand) = true
            → ((c0.cards.drop 2).take 2).any (fun card => card.in_hand) = true
            → c.is_real = true)
         ∧ ((c0.cards.take 2).any (fun card => card.in_hand) = true
            → ((c0.cards.drop 2).take 2).any (fun card => card.in_hand) = false
            → c.is_half_nominal = true)
         ∧ ((c0.cards.take 2).any (fun card => card.in_hand) = false
            → ((c0.cards.drop 2).take 2).any (fun card => card.in_hand) = true
            → c.is_half_nominal = true)
         ∧ ((c0.cards.take 2).any (fun card => card.in_hand) = false
            → ((c0.cards.drop 2).take 2).any (fun card => card.in_hand) = false
            → c.is_nominal = true))) := by
  obtain ⟨hr1, hr2, hr3⟩ := find_combo_flags h0
  have hc : c = check_nominal_combo c0 := by
    have h1' : comboClassify (table ++ hand) true = some c := h1
    unfold comboClassify at h1'
    rw [h0] at h1'
    simpa using h1'.symm
  have hFH : c0.type = FULL_HOUSE → c0.weight.three.isSome = true ∧ c0.weight.two.isSome = true := by
    intro hty
    obtain ⟨suit, ty, cs, seq, hfn, hsel, hcdef⟩ := find_combo_some_decomp h0
    have hty' : ty = FULL_HOUSE := by rw [hcdef] at hty; exact hty
    have := select_full_house_repeats hsel hty'
    rw [hcdef]
    exact this
  refine ⟨⟨hr1, hr2, hr3⟩, hc, hc ▸ check_nominal_exactlyOne c0 hr1 hr2 hr3 hFH, ?_, ?_⟩
  · intro t p hty ht hp
    have hcn : check_nominal_combo c0 =
        half_nominal_finder c0
          (c0.init_cards.filter (fun card => cardEq card t))
          (c0.init_cards.filter (fun card => cardEq card p)) := by
      unfold check_nominal_combo
      rw [if_pos (by simp [hty]), ht, hp]
    rw [hc, hcn, half_nominal_finder_spec]
    refine ⟨?_, ?_, ?_, ?_⟩ <;> intro ha1 ha2 <;> simp [ha1, ha2]
  · intro hty
    have hcn : check_nominal_combo c0 =
        half_nominal_finder c0 (c0.cards.take 2) ((c0.cards.drop 2).take 2) := by
      unfold check_nominal_combo
      rw [if_neg (by simp [hty, TWO_PAIRS, FULL_HOUSE]), if_pos (by simp [hty])]
    rw [hc, hcn, half_nominal_finder_spec]
    refine ⟨?_, ?_, ?_, ?_⟩ <;> intro ha1 ha2 <;> simp [ha1, ha2]

/-- Table `3c/3d/7c/7d/2s` for the contribution-check witness. -/
def c7_table : List Card :=
  [Card.ofSymbols '3' 'c', Card.ofSymbols '3' 'd', Card.ofSymbols '7' 'c',
   Card.ofSymbols '7' 'd', Card.ofSymbols '2' 's']

/-- Hand `3h/7h`, dealt (so `in_hand` is set). -/
def c7_hand : List Card :=
  [{ Card.ofSymbols '3' 'h' with in_hand := true },
   { Card.ofSymbols '7' 'h' with in_hand := true }]

/-- The classified combo before the nominal pass. -/
def c7_c0 : Combo := (find_combo (c7_table ++ c7_hand)).getD (mkBareCombo 0 [])

/-- The combo after the nominal pass. -/
def c7_c : Combo :=
  ((combo_from_table_hand c7_table c7_hand true).1).getD (mkBareCombo 0 [])

theorem C7_contribution_flags_witness :
    find_combo (c7_table ++ c7_hand) = some c7_c0
    ∧ (combo_from_table_hand c7_table c7_hand true).1 = some c7_c
    ∧ (c7_c0.is_real = false ∧ c7_c0.is_nominal = false ∧ c7_c0.is_half_nominal = false)
    ∧ exactlyOneFlag c7_c :=
  ⟨by decide, by decide,
   (C7_contribution_flags c7_table c7_hand c7_c0 c7_c (by decide) (by decide)).1,
   (C7_contribution_flags c7_table c7_hand c7_c0 c7_c (by decide) (by decide)).2.2.1⟩

/-! ## Characterisation of the repeat dictionaries -/

/-- `none` for an empty bucket, `some` otherwise. -/
def toOpt : List Card → Option (List Card)
  | [] => none
  | b => some b

theorem cardEq_symm (a b : Card) : cardEq a b = cardEq b a := by
  unfold cardEq
  cases a.weight <;> cases b.weight <;> cases a.suit <;> cases b.suit <;>
    simp [BEq.comm]

/-- Replacing a weight key by an equal weight key does not change any
comparison. -/
theorem cardEq_congr_w {x k : Card} (hx : x.suit = none) (hk : k.suit = none)
    (hxw : x.weight.isSome = true) (hkw : k.weight.isSome = true)
    (h : cardEq x k = true) (e : Card) : cardEq e x = cardEq e k := by
  obtain ⟨wx, hwx⟩ := Option.isSome_iff_exists.mp hxw
  obtain ⟨wk, hwk⟩ := Option.isSome_iff_exists.mp hkw
  have hnum : wx.number = wk.number := by
    unfold cardEq at h
    rw [hwx, hwk] at h
    simpa using h
  unfold cardEq
  rw [hwx, hwk, hx, hk]
  cases e.weight with
  | none => rfl
  | some we => simp [hnum]

/-- Replacing a suit key by an equal suit key does not change any
comparison. -/
theorem cardEq_congr_s {x k : Card} (hx : x.weight = none) (hk : k.weight = none)
    (h : cardEq x k = true) (e : Card) : cardEq e x = cardEq e k := by
  unfold cardEq at h ⊢
  rw [hx, hk] at *
  cases hsx : x.suit with
  | none => rw [hsx] at h; cases k.suit <;> simp at h
  | some sx =>
    cases hsk : k.suit with
    | none => rw [hsx, hsk] at h; simp at h
    | some sk =>
      rw [hsx, hsk] at h
      have : sx.symbol = sk.symbol := by simpa using h
      cases e.weight <;> cases e.suit <;> simp [hsx, hsk, this]

theorem countCardEq_congr {l : List Card} {x k : Card}
    (hcong : ∀ e, cardEq e x = cardEq e k) : countCardEq l x = countCardEq l k := by
  unfold countCardEq
  congr 1
  exact List.filter_congr (fun e _ => hcong e)

theorem dictFind_cons (p : Nat × List Card) (t : RepDict) (k : Nat) :
    dictFind (p :: t) k = if p.1 = k then some p.2 else dictFind t k := by
  unfold dictFind
  by_cases hp : p.1 = k
  · rw [List.find?_cons_of_pos _ (by simp [hp]), if_pos hp]
  · rw [List.find?_cons_of_neg _ (by simp [hp]), if_neg hp]

theorem dictFind_map_update (d : RepDict) (k k' : Nat) (c : Card) :
    dictFind (d.map (fun p => if p.1 == k then (p.1, p.2 ++ [c]) else p)) k'
      = if k' = k then (dictFind d k').map (fun b => b ++ [c]) else dictFind d k' := by
  by_cases hk : k' = k
  · subst hk
    rw [if_pos rfl]
    induction d with
    | nil => simp [dictFind]
    | cons p t ih =>
      by_cases hp : p.1 = k'
      · simp [dictFind_cons, hp]
      · simp only [List.map_cons, beq_iff_eq, hp, if_false, dictFind_cons]
        simpa [hp] using ih
  · rw [if_neg hk]
    induction d with
    | nil => simp [dictFind]
    | cons p t ih =>
      by_cases hp : p.1 = k
      · have hp' : ¬ p.1 = k' := by rw [hp]; exact fun he => hk he.symm
        have hk' : ¬ k = k' := fun he => hk he.symm
        simp only [List.map_cons, beq_iff_eq, hp, if_true, dictFind_cons, hp', hk', if_false]
        simpa [hp', hk'] using ih
      · by_cases hp' : p.1 = k'
        · simp [dictFind_cons, hp, hp', hk]
        · simp only [List.map_cons, beq_iff_eq, hp, if_false, dictFind_cons, hp']
          simpa [hp'] using ih

theorem dictFind_append_new (d : RepDict) (k : Nat) (c : Card) (k' : Nat) :
    dictFind (d ++ [(k, [c])]) k'
      = match dictFind d k' with
        | some b => some b
        | none => if k' = k then some [c] else none := by
  induction d with
  | nil =>
    simp only [List.nil_append]
    rw [dictFind_cons]
    by_cases hk : k' = k
    · rw [if_pos hk.symm]
      simp [dictFind, hk]
    · rw [if_neg (fun he => hk he.symm)]
      simp [dictFind, hk]
  | cons p t ih =>
    simp only [List.cons_append]
    rw [dictFind_cons, dictFind_cons]
    by_cases hp : p.1 = k'
    · rw [if_pos hp, if_pos hp]
    · rw [if_neg hp, if_neg hp]
      exact ih

theorem dictFind_dictAdd_self (d : RepDict) (k : Nat) (c : Card) :
    dictFind (dictAdd d k c) k = some (((dictFind d k).getD []) ++ [c]) := by
  unfold dictAdd
  cases hf : dictFind d k with
  | none =>
    simp only
    rw [dictFind_append_new, hf]
    simp
  | some b =>
    simp only
    rw [dictFind_map_update, if_pos rfl, hf]
    simp

theorem dictFind_dictAdd_other (d : RepDict) (k k' : Nat) (c : Card) (hne : k' ≠ k) :
    dictFind (dictAdd d k c) k' = dictFind d k' := by
  unfold dictAdd
  cases hf : dictFind d k with
  | none =>
    simp only
    rw [dictFind_append_new]
    cases hf' : dictFind d k' with
    | none => simp [hne]
    | some b => simp
  | some b =>
    simp only
    rw [dictFind_map_update, if_neg hne]

theorem dictAdd_keys (d : RepDict) (k : Nat) (c : Card) :
    (dictAdd d k c).map Prod.fst
      = if (dictFind d k).isSome then d.map Prod.fst else d.map Prod.fst ++ [k] := by
  unfold dictAdd
  cases hf : dictFind d k with
  | none => simp
  | some b =>
    simp only [Option.isSome_some, if_true, List.map_map]
    congr 1
    funext p
    by_cases hp : p.1 = k <;> simp [hp]

/-- One accumulator of `get_all_repeats`, run on its own. -/
def repFold (l : List Card) (key : Card → Card) (rest : List Card) (acc : RepeatsAcc) :
    RepeatsAcc :=
  rest.foldl (fun a c => repeatsStep l a (key c)) acc

theorem foldl_pair_split (f g : RepeatsAcc → Card → RepeatsAcc) :
    ∀ (rest : List Card) (a b : RepeatsAcc),
      rest.foldl (fun acc c => (f acc.1 c, g acc.2 c)) (a, b)
        = (rest.foldl f a, rest.foldl g b)
  | [], _, _ => rfl
  | c :: t, a, b => by
    simp only [List.foldl_cons]
    exact foldl_pair_split f g t (f a c) (g b c)

theorem get_all_repeats_eq (l : List Card) :
    get_all_repeats l
      = (repFold l weightCardOf l ⟨[], []⟩, repFold l suitCardOf l ⟨[], []⟩) := by
  unfold get_all_repeats repFold
  exact foldl_pair_split (fun a c => repeatsStep l a (weightCardOf c))
    (fun a c => repeatsStep l a (suitCardOf c)) l ⟨[], []⟩ ⟨[], []⟩

/-- The dictionary agrees bucket-by-bucket with filtering the seen keys by
their occurrence count. -/
def repDictOk (l : List Card) (acc : RepeatsAcc) : Prop :=
  ∀ n, dictFind acc.all n = toOpt (acc.cards.filter (fun k => countCardEq l k == n))

/-- The dictionary keys are exactly the counts realised by the seen keys. -/
def repKeysOk (l : List Card) (acc : RepeatsAcc) : Prop :=
  ∀ n, n ∈ acc.all.map Prod.fst ↔ ∃ x ∈ acc.cards, countCardEq l x = n

/-- The seen keys represent the processed cards, one per equivalence class. -/
def seenOk (key : Card → Card) (processed : List Card) (acc : RepeatsAcc) : Prop :=
  (∀ x ∈ acc.cards, ∃ c ∈ processed, x = key c)
  ∧ (∀ c ∈ processed, ∃ x ∈ acc.cards, cardEq x (key c) = true)
  ∧ acc.cards.Pairwise (fun a b => cardEq a b = false)

theorem repeatsStep_inv (l : List Card) (key : Card → Card) (processed : List Card)
    (acc : RepeatsAcc) (c : Card)
    (hrefl : cardEq (key c) (key c) = true)
    (hD : repDictOk l acc) (hK : repKeysOk l acc) (hS : seenOk key processed acc) :
    repDictOk l (repeatsStep l acc (key c)) ∧ repKeysOk l (repeatsStep l acc (key c))
    ∧ seenOk key (processed ++ [c]) (repeatsStep l acc (key c)) := by
  unfold repeatsStep
  by_cases hseen : acc.cards.any (fun e => cardEq e (key c)) = true
  · rw [if_pos hseen]
    refine ⟨hD, hK, ?_, ?_, hS.2.2⟩
    · intro x hx
      obtain ⟨c', hc', hxc⟩ := hS.1 x hx
      exact ⟨c', List.mem_append.mpr (Or.inl hc'), hxc⟩
    · intro c' hc'
      rcases List.mem_append.mp hc' with hmem | hmem
      · exact hS.2.1 c' hmem
      · have hcc : c' = c := by simpa using hmem
        rw [hcc]
        obtain ⟨x, hx, hxeq⟩ := List.any_eq_true.mp hseen
        exact ⟨x, hx, hxeq⟩
  · rw [if_neg hseen]
    have hall : ∀ e ∈ acc.cards, cardEq e (key c) = false := by
      intro e he
      by_contra hne
      exact hseen (List.any_eq_true.mpr ⟨e, he, by simpa using hne⟩)
    refine ⟨?_, ?_, ?_, ?_, ?_⟩
    · -- dictionary equation
      intro n
      show dictFind (dictAdd acc.all (countCardEq l (key c)) (key c)) n = _
      by_cases hn : n = countCardEq l (key c)
      · subst hn
        rw [dictFind_dictAdd_self, hD _, List.filter_append]
        have hone : (([key c] : List Card).filter
            (fun k => countCardEq l k == countCardEq l (key c))) = [key c] := by
          simp
        rw [hone]
        cases hfil : acc.cards.filter
            (fun k => countCardEq l k == countCardEq l (key c)) with
        | nil => simp [toOpt]
        | cons a t => simp [toOpt]
      · rw [dictFind_dictAdd_other _ _ _ _ hn, hD n, List.filter_append]
        have hzero : (([key c] : List Card).filter (fun k => countCardEq l k == n)) = [] := by
          simp
          omega
        rw [hzero, List.append_nil]
    · -- key set
      intro n
      show n ∈ (dictAdd acc.all (countCardEq l (key c)) (key c)).map Prod.fst ↔ _
      rw [dictAdd_keys]
      by_cases hsome : (dictFind acc.all (countCardEq l (key c))).isSome = true
      · rw [if_pos hsome]
        have hex : ∃ x ∈ acc.cards, countCardEq l x = countCardEq l (key c) := by
          have := hD (countCardEq l (key c))
          cases hfil : acc.cards.filter
              (fun k => countCardEq l k == countCardEq l (key c)) with
          | nil => rw [hfil] at this; simp [toOpt] at this; rw [this] at hsome; simp at hsome
          | cons a t =>
            have ha := List.mem_filter.mp (hfil ▸ List.mem_cons_self a t)
            exact ⟨a, ha.1, by simpa using ha.2⟩
        constructor
        · intro hmem
          obtain ⟨x, hx, hxc⟩ := (hK n).mp hmem
          exact ⟨x, List.mem_append.mpr (Or.inl hx), hxc⟩
        · rintro ⟨x, hx, hxc⟩
          rcases List.mem_append.mp hx with hx' | hx'
          · exact (hK n).mpr ⟨x, hx', hxc⟩
          · have : x = key c := by simpa using hx'
            subst this
            subst hxc
            exact (hK _).mpr hex
      · rw [if_neg hsome]
        constructor
        · intro hmem
          rcases List.mem_append.mp hmem with hm | hm
          · obtain ⟨x, hx, hxc⟩ := (hK n).mp hm
            exact ⟨x, List.mem_append.mpr (Or.inl hx), hxc⟩
          · have : n = countCardEq l (key c) := by simpa using hm
            exact ⟨key c, List.mem_append.mpr (Or.inr (by simp)), this.symm⟩
        · rintro ⟨x, hx, hxc⟩
          rcases List.mem_append.mp hx with hx' | hx'
          · exact List.mem_append.mpr (Or.inl ((hK n).mpr ⟨x, hx', hxc⟩))
          · have : x = key c := by simpa using hx'
            subst this
            exact List.mem_append.mpr (Or.inr (by simp [hxc]))
    · -- seen: origins
      intro x hx
      rcases List.mem_append.mp hx with hx' | hx'
      · obtain ⟨c', hc', hxc⟩ := hS.1 x hx'
        exact ⟨c', List.mem_append.mpr (Or.inl hc'), hxc⟩
      · have : x = key c := by simpa using hx'
        exact ⟨c, List.mem_append.mpr (Or.inr (by simp)), this⟩
    · -- seen: coverage
      intro c' hc'
      rcases List.mem_append.mp hc' with hm | hm
      · obtain ⟨x, hx, hxeq⟩ := hS.2.1 c' hm
        exact ⟨x, List.mem_append.mpr (Or.inl hx), hxeq⟩
      · have hcc : c' = c := by simpa using hm
        rw [hcc]
        exact ⟨key c, List.mem_append.mpr (Or.inr (by simp)), hrefl⟩
    · -- seen: pairwise distinct
      rw [List.pairwise_append]
      exact ⟨hS.2.2, List.pairwise_singleton .., by
        intro a ha b hb
        have : b = key c := by simpa using hb
        subst this
        exact hall a ha⟩

theorem repFold_inv (l : List Card) (key : Card → Card) :
    ∀ (rest processed : List Card) (acc : RepeatsAcc),
      (∀ c ∈ rest, cardEq (key c) (key c) = true) →
      repDictOk l acc → repKeysOk l acc → seenOk key processed acc →
      repDictOk l (repFold l key rest acc) ∧ repKeysOk l (repFold l key rest acc)
      ∧ seenOk key (processed ++ rest) (repFold l key rest acc)
  | [], processed, acc => by
    intro _ hD hK hS
    simpa [repFold] using ⟨hD, hK, hS⟩
  | c :: t, processed, acc => by
    intro hrefl hD hK hS
    obtain ⟨hD', hK', hS'⟩ :=
      repeatsStep_inv l key processed acc c (hrefl c (by simp)) hD hK hS
    have := repFold_inv l key t (processed ++ [c]) (repeatsStep l acc (key c))
      (fun c' hc' => hrefl c' (by simp [hc'])) hD' hK' hS'
    simpa [repFold, List.append_assoc] using this

theorem repeats_inv (l : List Card) (key : Card → Card)
    (hrefl : ∀ c ∈ l, cardEq (key c) (key c) = true) :
    repDictOk l (repFold l key l ⟨[], []⟩) ∧ repKeysOk l (repFold l key l ⟨[], []⟩)
    ∧ seenOk key l (repFold l key l ⟨[], []⟩) := by
  have := repFold_inv l key l [] ⟨[], []⟩ hrefl
    (fun n => by simp [dictFind, toOpt]) (fun n => by simp) ⟨by simp, by simp, by simp⟩
  simpa using this

/-! ## Consequences of the repeat characterisation -/

theorem validCards_mem {l : List Card} {c : Card} (h : validCards l = true) (hc : c ∈ l) :
    c.weight.isSome = true ∧ wNum c < 14 ∧ c.suit.isSome = true := by
  have := List.all_eq_true.mp h c hc
  simp only [Bool.and_eq_true, decide_eq_true_eq] at this
  exact ⟨this.1.1, this.1.2, this.2⟩

theorem validCards_perm {l l' : List Card} (hp : l.Perm l') (h : validCards l = true) :
    validCards l' = true := by
  simp only [validCards, List.all_eq_true] at h ⊢
  exact fun c hc => h c (hp.symm.subset hc)

/-- Number of cards of a given weight number. -/
def wcount (l : List Card) (w : Nat) : Nat := (l.filter (fun e => wNum e == w)).length

/-- Number of cards of a given suit. -/
def scount (l : List Card) (s : Option Suit) : Nat := (l.filter (fun e => e.suit == s)).length

theorem cardEq_weighted {a b : Card} (ha : a.weight.isSome = true)
    (hb : b.weight.isSome = true) : cardEq a b = (wNum a == wNum b) := by
  obtain ⟨wa, hwa⟩ := Option.isSome_iff_exists.mp ha
  obtain ⟨wb, hwb⟩ := Option.isSome_iff_exists.mp hb
  unfold cardEq wNum
  rw [hwa, hwb]

theorem wNum_weightCardOf (c : Card) : wNum (weightCardOf c) = wNum c := rfl

theorem weightCardOf_isSome {c : Card} (h : c.weight.isSome = true) :
    (weightCardOf c).weight.isSome = true := h

theorem cardEq_suit_key {e c : Card} (he : e.suit.isSome = true) (hc : c.suit.isSome = true) :
    cardEq e (suitCardOf c) = (e.suit == c.suit) := by
  obtain ⟨se, hse⟩ := Option.isSome_iff_exists.mp he
  obtain ⟨sc, hsc⟩ := Option.isSome_iff_exists.mp hc
  cases se with
  | mk ssym =>
    cases sc with
    | mk csym =>
      unfold cardEq suitCardOf
      simp only [hse, hsc]
      cases e.weight <;> simp [hse, hsc, Suit.mk.injEq]

theorem countCardEq_weight_key {l : List Card} {c : Card} (hval : validCards l = true)
    (hc : c.weight.isSome = true) : countCardEq l (weightCardOf c) = wcount l (wNum c) := by
  unfold countCardEq wcount
  congr 1
  apply List.filter_congr
  intro e he
  have hew := (validCards_mem hval he).1
  rw [cardEq_weighted hew (weightCardOf_isSome hc), wNum_weightCardOf]

theorem countCardEq_suit_key {l : List Card} {c : Card} (hval : validCards l = true)
    (hc : c.suit.isSome = true) : countCardEq l (suitCardOf c) = scount l c.suit := by
  unfold countCardEq scount
  congr 1
  apply List.filter_congr
  intro e he
  have hes := (validCards_mem hval he).2.2
  rw [cardEq_suit_key hes hc]

theorem foldl_max_le_init (ks : List Nat) (a : Nat) : a ≤ ks.foldl Nat.max a := by
  induction ks generalizing a with
  | nil => simp
  | cons q t ih =>
    simp only [List.foldl_cons]
    exact le_trans (Nat.le_max_left a q) (ih _)

theorem foldl_max_ge {ks : List Nat} {k : Nat} (hk : k ∈ ks) : ∀ a, k ≤ ks.foldl Nat.max a := by
  induction ks with
  | nil => simp at hk
  | cons q t ih =>
    intro a
    simp only [List.foldl_cons]
    rcases List.mem_cons.mp hk with h | h
    · subst h
      exact le_trans (Nat.le_max_right a k) (foldl_max_le_init t _)
    · exact ih h _

theorem foldl_max_mem_or (ks : List Nat) :
    ∀ a, ks.foldl Nat.max a ∈ ks ∨ ks.foldl Nat.max a = a := by
  induction ks with
  | nil => intro a; right; rfl
  | cons q t ih =>
    intro a
    simp only [List.foldl_cons]
    rcases ih (Nat.max a q) with h | h
    · exact Or.inl (List.mem_cons.mpr (Or.inr h))
    · rw [h]
      rcases Nat.le_total a q with hle | hle
      · have hm : Nat.max a q = q := by
          unfold Nat.max
          omega
        rw [hm]
        exact Or.inl (List.mem_cons.mpr (Or.inl rfl))
      · have hm : Nat.max a q = a := by
          unfold Nat.max
          omega
        rw [hm]
        right
        rfl

theorem suitKey_refl {c : Card} (h : c.suit.isSome = true) :
    cardEq (suitCardOf c) (suitCardOf c) = true := by
  obtain ⟨sc, hsc⟩ := Option.isSome_iff_exists.mp h
  unfold cardEq suitCardOf
  simp [hsc]

theorem weightKey_refl {c : Card} (h : c.weight.isSome = true) :
    cardEq (weightCardOf c) (weightCardOf c) = true := by
  obtain ⟨wc, hwc⟩ := Option.isSome_iff_exists.mp h
  unfold cardEq weightCardOf
  simp [hwc]

theorem cardEq_suitless {e k : Card} (he : e.suit.isSome = true)
    (hk : k.suit.isSome = true) (hkw : k.weight = none) :
    cardEq e k = (e.suit == k.suit) := by
  obtain ⟨se, hse⟩ := Option.isSome_iff_exists.mp he
  obtain ⟨sk, hsk⟩ := Option.isSome_iff_exists.mp hk
  cases se with
  | mk ssym =>
    cases sk with
    | mk ksym =>
      unfold cardEq
      rw [hkw]
      cases e.weight <;> simp [hse, hsk, Suit.mk.injEq]

theorem scount_self_pos {l : List Card} {c : Card} (hc : c ∈ l) : 1 ≤ scount l c.suit := by
  unfold scount
  have : c ∈ l.filter (fun e => e.suit == c.suit) := List.mem_filter.mpr ⟨hc, by simp⟩
  exact List.length_pos.mpr (fun hnil => by simp [hnil] at this)

theorem wcount_self_pos {l : List Card} {c : Card} (hc : c ∈ l) : 1 ≤ wcount l (wNum c) := by
  unfold wcount
  have : c ∈ l.filter (fun e => wNum e == wNum c) := List.mem_filter.mpr ⟨hc, by simp⟩
  exact List.length_pos.mpr (fun hnil => by simp [hnil] at this)

theorem flush_or_not_ne_nil {all : RepDict} (h : all ≠ []) :
    flush_or_not all
      = some { all := all,
               max_repeats := (all.map (fun p => p.1)).foldl Nat.max 0,
               five_or_more := decide (5 ≤ (all.map (fun p => p.1)).foldl Nat.max 0),
               flush_card :=
                 (dictFind all ((all.map (fun p => p.1)).foldl Nat.max 0)).bind List.head? } := by
  cases all with
  | nil => exact absurd rfl h
  | cons p t => rfl

theorem toOpt_eq_some {b bucket : List Card} (h : toOpt b = some bucket) : b = bucket ∧ b ≠ [] := by
  cases b with
  | nil => simp [toOpt] at h
  | cons a t => exact ⟨by simpa [toOpt] using h, by simp⟩

theorem toOpt_ne_nil {b : List Card} (h : b ≠ []) : toOpt b = some b := by
  cases b with
  | nil => exact absurd rfl h
  | cons a t => rfl

/-- The suit analysis of a valid non-empty card list: `flush_or_not` succeeds,
the flush card is a weightless suit key carrying the suit of maximal count,
and `five_or_more` holds exactly when some suit occurs five or more times. -/
theorem flush_analysis {l : List Card} (hne : l ≠ []) (hval : validCards l = true) :
    ∃ suit, flush_or_not (repFold l suitCardOf l ⟨[], []⟩).all = some suit
      ∧ (∃ fc c, suit.flush_card = some fc ∧ c ∈ l ∧ fc.weight = none
          ∧ fc.suit = c.suit ∧ scount l c.suit = suit.max_repeats)
      ∧ (suit.five_or_more = true ↔ ∃ c ∈ l, 5 ≤ scount l c.suit)
      ∧ (∀ c ∈ l, scount l c.suit ≤ suit.max_repeats) := by
  obtain ⟨hD, hK, hS1, hS2, hS3⟩ := repeats_inv l suitCardOf
    (fun c hc => suitKey_refl (validCards_mem hval hc).2.2)
  set acc := repFold l suitCardOf l ⟨[], []⟩ with hacc
  have hkey : ∀ x ∈ acc.cards, ∃ c ∈ l, x = suitCardOf c := hS1
  have hcount : ∀ x ∈ acc.cards, ∀ c ∈ l, x.suit = c.suit →
      countCardEq l x = scount l c.suit := by
    intro x hx c hc hsx
    have hcs := (validCards_mem hval hc).2.2
    obtain ⟨c', hc', hx'⟩ := hkey x hx
    have hxw : x.weight = none := by rw [hx']; rfl
    have hxs : x.suit.isSome = true := by rw [hsx]; exact hcs
    rw [← countCardEq_suit_key hval hcs]
    apply countCardEq_congr
    intro e
    have h1 : cardEq x (suitCardOf c) = true := by
      rw [cardEq_suitless (e := x) (k := suitCardOf c) hxs hcs rfl]
      show (x.suit == c.suit) = true
      simp [hsx]
    exact cardEq_congr_s hxw rfl h1 e
  obtain ⟨c0, hc0⟩ : ∃ c, c ∈ l := by
    cases l with
    | nil => exact absurd rfl hne
    | cons a t => exact ⟨a, by simp⟩
  obtain ⟨x0, hx0, hx0e⟩ := hS2 c0 hc0
  have hkeys_ne : acc.all.map Prod.fst ≠ [] := by
    intro hnil
    have := (hK (countCardEq l x0)).mpr ⟨x0, hx0, rfl⟩
    rw [hnil] at this
    simp at this
  have hall_ne : acc.all ≠ [] := by
    intro hnil
    exact hkeys_ne (by rw [hnil]; rfl)
  have hkeys_pos : ∀ k ∈ acc.all.map Prod.fst, 1 ≤ k := by
    intro k hk
    obtain ⟨x, hx, hxc⟩ := (hK k).mp hk
    obtain ⟨c, hc, hxe⟩ := hkey x hx
    have : countCardEq l x = scount l c.suit := by
      apply hcount x hx c hc
      simp [hxe, suitCardOf]
    rw [this] at hxc
    rw [← hxc]
    exact scount_self_pos hc
  have hmax_mem : (acc.all.map Prod.fst).foldl Nat.max 0 ∈ acc.all.map Prod.fst := by
    rcases foldl_max_mem_or (acc.all.map Prod.fst) 0 with h | h
    · exact h
    · exfalso
      obtain ⟨k0, hk0⟩ : ∃ k, k ∈ acc.all.map Prod.fst := by
        cases hlist : acc.all.map Prod.fst with
        | nil => exact absurd hlist hkeys_ne
        | cons a t => exact ⟨a, by simp⟩
      have h1 := hkeys_pos k0 hk0
      have h2 := foldl_max_ge hk0 0
      omega
  set m := (acc.all.map Prod.fst).foldl Nat.max 0 with hm
  obtain ⟨xm, hxm, hxmc⟩ := (hK m).mp hmax_mem
  have hfb : dictFind acc.all m = toOpt (acc.cards.filter (fun k => countCardEq l k == m)) :=
    hD m
  have hfil_ne : acc.cards.filter (fun k => countCardEq l k == m) ≠ [] := by
    intro hnil
    have : xm ∈ acc.cards.filter (fun k => countCardEq l k == m) :=
      List.mem_filter.mpr ⟨hxm, by simp [hxmc]⟩
    rw [hnil] at this
    simp at this
  have hmap_eq : acc.all.map (fun p => p.1) = acc.all.map Prod.fst := rfl
  obtain ⟨fc, hfc⟩ : ∃ fc,
      (acc.cards.filter (fun k => countCardEq l k == m)).head? = some fc := by
    cases hfil : acc.cards.filter (fun k => countCardEq l k == m) with
    | nil => exact absurd hfil hfil_ne
    | cons a t => exact ⟨a, rfl⟩
  have hfc_mem : fc ∈ acc.cards ∧ countCardEq l fc = m := by
    have hmem : fc ∈ acc.cards.filter (fun k => countCardEq l k == m) := by
      cases hfil : acc.cards.filter (fun k => countCardEq l k == m) with
      | nil => exact absurd hfil hfil_ne
      | cons a t =>
        rw [hfil] at hfc
        simp only [List.head?_cons, Option.some.injEq] at hfc
        simp [← hfc]
    have h2 := List.mem_filter.mp hmem
    exact ⟨h2.1, by simpa using h2.2⟩
  have hcount_le : ∀ c ∈ l, scount l c.suit ≤ m := by
    intro c hc
    obtain ⟨x, hx, hxe⟩ := hS2 c hc
    have hcs := (validCards_mem hval hc).2.2
    obtain ⟨c', hc', hxk⟩ := hkey x hx
    have hxw : x.weight = none := by rw [hxk]; rfl
    have hxs : x.suit.isSome = true := by
      rw [hxk]
      exact (validCards_mem hval hc').2.2
    have hsx : x.suit = c.suit := by
      have := cardEq_suitless hxs hcs (k := suitCardOf c) rfl
      rw [this] at hxe
      have : x.suit = (suitCardOf c).suit := by simpa using hxe
      exact this
    have hxc : countCardEq l x = scount l c.suit := hcount x hx c hc hsx
    have hkmem := (hK (countCardEq l x)).mpr ⟨x, hx, rfl⟩
    have := foldl_max_ge hkmem 0
    rw [hxc] at this
    exact this
  refine ⟨_, flush_or_not_ne_nil hall_ne, ?_, ?_, ?_⟩
  · obtain ⟨c, hc, hfce⟩ := hkey fc hfc_mem.1
    refine ⟨fc, c, ?_, hc, by simp [hfce, suitCardOf], by simp [hfce, suitCardOf], ?_⟩
    · show (dictFind acc.all ((acc.all.map (fun p => p.1)).foldl Nat.max 0)).bind
          List.head? = some fc
      rw [hmap_eq, ← hm, hfb, toOpt_ne_nil hfil_ne]
      simpa using hfc
    · show scount l c.suit = (acc.all.map (fun p => p.1)).foldl Nat.max 0
      rw [hmap_eq, ← hm, ← hfc_mem.2]
      exact (hcount fc hfc_mem.1 c hc (by simp [hfce, suitCardOf])).symm
  · show decide (5 ≤ (acc.all.map (fun p => p.1)).foldl Nat.max 0) = true ↔ _
    rw [hmap_eq, ← hm]
    simp only [decide_eq_true_eq]
    constructor
    · intro h5
      obtain ⟨c, hc, hfce⟩ := hkey fc hfc_mem.1
      refine ⟨c, hc, ?_⟩
      have := hcount fc hfc_mem.1 c hc (by simp [hfce, suitCardOf])
      rw [this] at hfc_mem
      omega
    · rintro ⟨c, hc, h5⟩
      exact le_trans h5 (hcount_le c hc)
  · show ∀ c ∈ l, scount l c.suit ≤ (acc.all.map (fun p => p.1)).foldl Nat.max 0
    rw [hmap_eq, ← hm]
    exact hcount_le

theorem mkSequence_five_order (cs : List Card)
    (h5 : (mkSequence cs).five_in_a_row = true) :
    ∃ oc, (mkSequence cs).order_cards = some oc := by
  unfold mkSequence at *
  split at h5
  · rename_i base hist hgo
    exact ⟨_, rfl⟩
  · rename_i hist hgo
    simp at h5

theorem select_combo_isSome (init_cards : List Card) (weight : WeightRepeats)
    (suit : SuitRepeats) (hfc : suit.flush_card.isSome = true) :
    (select_combo init_cards weight suit).isSome = true := by
  obtain ⟨fc, hfcv⟩ := Option.isSome_iff_exists.mp hfc
  unfold select_combo
  by_cases hf : suit.five_or_more = true
  · rw [if_neg (by simp [hf])]
    split
    · rename_i hnone
      rw [hnone] at hfcv
      simp at hfcv
    · rename_i fc' hfc'
      by_cases h5 :
          (mkSequence (init_cards.filter (fun card => cardEq card fc'))).five_in_a_row = true
      · rw [if_pos h5]
        obtain ⟨oc, hoc⟩ := mkSequence_five_order _ h5
        rw [hoc]
        simp
      · rw [if_neg h5]
        simp
  · rw [if_pos (by simp [Bool.not_eq_true] at hf; simp [hf])]
    cases h4 : weight.four with
    | some f => simp [h4]
    | none =>
      rw [if_neg (by simp [h4])]
      cases h3 : weight.three with
      | some t =>
        cases h2 : weight.two with
        | some p => simp [h3, h2]
        | none =>
          rw [if_neg (by simp [h3, h2])]
          by_cases h5 : (mkSequence init_cards).five_in_a_row = true
          · rw [if_pos h5]
            obtain ⟨oc, hoc⟩ := mkSequence_five_order _ h5
            rw [hoc]
            simp
          · rw [if_neg h5]
            rw [if_pos (by simp [h3])]
            simp [h3]
      | none =>
        rw [if_neg (by simp [h3])]
        by_cases h5 : (mkSequence init_cards).five_in_a_row = true
        · rw [if_pos h5]
          obtain ⟨oc, hoc⟩ := mkSequence_five_order _ h5
          rw [hoc]
          simp
        · rw [if_neg h5]
          rw [if_neg (by simp [h3])]
          cases hdd : weight.double_two with
          | some dd => simp [hdd]
          | none =>
            rw [if_neg (by simp [hdd])]
            cases h2 : weight.two with
            | some p => simp [h2]
            | none =>
              rw [if_neg (by simp [h2])]
              simp

/-- Classification of a non-empty concrete card group always succeeds. -/
theorem find_combo_isSome {l : List Card} (hne : l ≠ []) (hval : validCards l = true) :
    ∃ c, find_combo l = some c := by
  have hperm := sortCards_perm l
  have hvs : validCards (sortCards l) = true := validCards_perm hperm.symm hval
  have hnes : sortCards l ≠ [] := by
    intro h
    have hp : ([] : List Card).Perm l := h ▸ hperm
    exact hne hp.symm.eq_nil
  obtain ⟨suit, hfn, ⟨fc, c, hfcv, _, _, _, _⟩, hiff, hle⟩ := flush_analysis hnes hvs
  have hsel := select_combo_isSome (sortCards l)
    (get_repeat_kind (get_all_repeats (sortCards l)).1.all) suit (by rw [hfcv]; rfl)
  obtain ⟨r, hr⟩ := Option.isSome_iff_exists.mp hsel
  rcases r with ⟨ty, cs, seq⟩
  refine ⟨{ type := ty, cards := cs, init_cards := sortCards l,
            weight := get_repeat_kind (get_all_repeats (sortCards l)).1.all,
            suit := suit, sequence := seq }, ?_⟩
  unfold find_combo
  have h2 : (get_all_repeats (sortCards l)).2
      = repFold (sortCards l) suitCardOf (sortCards l) ⟨[], []⟩ := by
    rw [get_all_repeats_eq]
  rw [h2, hfn]
  simp only [hr]

/-! ## Claim C8: what classification rejects -/

/-- Five identical cards (a duplicated group the claim says must be rejected). -/
def c8_dup : List Card :=
  [Card.ofSymbols '3' 'd', Card.ofSymbols '3' 'd', Card.ofSymbols '3' 'd',
   Card.ofSymbols '3' 'd', Card.ofSymbols '3' 'd']

/-- A one-card group (a wrong-count group the claim says must be rejected). -/
def c8_short : List Card := [Card.ofSymbols '3' 'd']

/-- C8 counterexample: a group of five identical cards and a one-card group
are both classified without any failure (the duplicated group even comes back
as a flush), so classification does not fail on duplicate cards or wrong
card counts. -/
theorem C8_counterexample :
    hasDupCard c8_dup = true ∧ c8_dup.length = 5
    ∧ (∃ c, find_combo c8_dup = some c ∧ c.type = FLUSH)
    ∧ c8_short.length = 1 ∧ (find_combo c8_short).isSome = true := by
  refine ⟨by decide, by decide, ⟨(find_combo c8_dup).getD (mkBareCombo 0 []), by decide, by decide⟩,
    by decide, by decide⟩

/-- C8 amended: the classification pipeline never fails on a non-empty group
of concrete cards — duplicate cards and wrong card counts are not checked and
not rejected; the only group the pipeline itself rejects is the empty one
(the remaining failures of `Combo.__init__` are argument-shape and
card-symbol errors raised before any group exists). -/
theorem C8_classification_totality (l : List Card) (hne : l ≠ [])
    (hval : validCards l = true) :
    (∃ c, find_combo l = some c)
    ∧ (comboClassify l false).isSome = true
    ∧ (comboClassify l true).isSome = true
    ∧ find_combo ([] : List Card) = none := by
  obtain ⟨c, hc⟩ := find_combo_isSome hne hval
  refine ⟨⟨c, hc⟩, ?_, ?_, rfl⟩ <;>
    · unfold comboClassify
      rw [hc]
      rfl

theorem C8_classification_totality_witness :
    c8_dup ≠ [] ∧ validCards c8_dup = true
    ∧ ((∃ c, find_combo c8_dup = some c)
        ∧ (comboClassify c8_dup false).isSome = true
        ∧ (comboClassify c8_dup true).isSome = true
        ∧ find_combo ([] : List Card) = none) :=
  ⟨by decide, by decide, C8_classification_totality c8_dup (by decide) (by decide)⟩

/-! ## Characterisation of the sequence scan -/

/-- The pure presence-bit version of the `find_order` scan. -/
def scanB : List Bool → Nat → Nat → Nat → Option Nat
  | [], _, _, _ => none
  | b :: rest, i, base, row =>
    if b then
      (if row + 1 == 5 then some base else scanB rest (i + 1) base (row + 1))
    else scanB rest (i + 1) (i + 1) 0

theorem scanB_cons (b : Bool) (rest : List Bool) (i base row : Nat) :
    scanB (b :: rest) i base row
      = if b then
          (if row + 1 == 5 then some base else scanB rest (i + 1) base (row + 1))
        else scanB rest (i + 1) (i + 1) 0 := rfl

theorem find_order_go_fst : ∀ (cs : List Card) (i base row : Nat) (hist : List Nat),
    (find_order_go cs i base row hist).1 = scanB (cs.map (fun c => c.suit.isSome)) i base row
  | [], _, _, _, _ => rfl
  | c :: rest, i, base, row, hist => by
    unfold find_order_go
    cases hs : c.suit with
    | none =>
      simp only [List.map_cons, hs, Option.isSome_none, scanB_cons, Bool.false_eq_true, if_false]
      exact find_order_go_fst rest (i + 1) (i + 1) 0 hist
    | some s =>
      simp only [List.map_cons, hs, Option.isSome_some, scanB_cons, if_true]
      by_cases h5 : (row + 1 == 5) = true
      · simp only [h5, if_true]
      · simp only [h5, Bool.false_eq_true, if_false]
        exact find_order_go_fst rest (i + 1) base (row + 1) _

theorem find?_congr' {α : Type} (l : List α) (p q : α → Bool)
    (h : ∀ x ∈ l, p x = q x) : l.find? p = l.find? q := by
  induction l with
  | nil => rfl
  | cons a t ih =>
    by_cases ha : p a = true
    · rw [List.find?_cons_of_pos _ ha, List.find?_cons_of_pos _ (by rw [← h a (by simp)]; exact ha)]
    · rw [List.find?_cons_of_neg _ ha, List.find?_cons_of_neg _ (by rw [← h a (by simp)]; exact ha)]
      exact ih (fun x hx => h x (by simp [hx]))

/-- Five consecutive present bits starting at `b`. -/
def windowAt (bits : List Bool) (b : Nat) : Bool :=
  (List.range 5).all (fun j => bits.getD (b + j) false)

/-- The first (lowest) index carrying a five-window. -/
def relFirstWindow (bits : List Bool) : Option Nat :=
  (List.range bits.length).find? (fun b => windowAt bits b)

theorem windowAt_cons_succ (b : Bool) (rest : List Bool) (k : Nat) :
    windowAt (b :: rest) (k + 1) = windowAt rest k := by
  unfold windowAt
  congr 1
  funext j
  have : k + 1 + j = (k + j) + 1 := by omega
  rw [this]
  rfl

theorem relFirstWindow_shift {b : Bool} {rest : List Bool}
    (h0 : windowAt (b :: rest) 0 = false) :
    relFirstWindow (b :: rest) = (relFirstWindow rest).map (fun k => k + 1) := by
  unfold relFirstWindow
  have hlen : (b :: rest).length = rest.length + 1 := rfl
  rw [hlen, List.range_succ_eq_map]
  rw [List.find?_cons_of_neg _ (by simp [h0])]
  rw [List.find?_map]
  rw [find?_congr' (List.range rest.length) ((fun k => windowAt (b :: rest) k) ∘ Nat.succ)
      (fun k => windowAt rest k) (fun k _ => windowAt_cons_succ b rest k)]

/-- Appending `r` leading trues to the scan input is the same as starting the
scan with a pending run of length `r`. -/
theorem scanB_replicate : ∀ (r s : Nat) (bits : List Bool) (base : Nat), r + s ≤ 4 →
    scanB (List.replicate r true ++ bits) (base + s) base s
      = scanB bits (base + s + r) base (s + r)
  | 0, s, bits, base, _ => by simp
  | r + 1, s, bits, base, h => by
    show scanB (true :: (List.replicate r true ++ bits)) (base + s) base s = _
    rw [scanB_cons]
    have hne : (s + 1 == 5) = false := by
      have : s + 1 ≠ 5 := by omega
      simpa using this
    simp only [if_true, hne, Bool.false_eq_true, if_false]
    have harith : base + s + 1 = base + (s + 1) := by omega
    rw [harith]
    rw [scanB_replicate r (s + 1) bits base (by omega)]
    have e1 : base + (s + 1) + r = base + s + (r + 1) := by omega
    have e2 : s + 1 + r = s + (r + 1) := by omega
    rw [e1, e2]

theorem getD_cons_succ (a : Bool) (l : List Bool) (i : Nat) (d : Bool) :
    (a :: l).getD (i + 1) d = l.getD i d := rfl

theorem getD_replicate_append (q i : Nat) (rest : List Bool) :
    (List.replicate q true ++ rest).getD i false
      = if i < q then true else rest.getD (i - q) false := by
  induction q generalizing i with
  | zero => simp
  | succ q ih =>
    cases i with
    | zero => simp [List.replicate_succ]
    | succ i =>
      rw [List.replicate_succ]
      show (true :: (List.replicate q true ++ rest)).getD (i + 1) false = _
      rw [getD_cons_succ, ih]
      by_cases h : i < q
      · rw [if_pos h, if_pos (by omega)]
      · rw [if_neg h, if_neg (by omega)]
        congr 1
        omega

theorem windowAt_true_elim {bits : List Bool} {b : Nat} (h : windowAt bits b = true) :
    ∀ j, j < 5 → bits.getD (b + j) false = true := by
  intro j hj
  exact List.all_eq_true.mp h j (List.mem_range.mpr hj)

theorem windowAt_eq_true {bits : List Bool} {b : Nat}
    (h : ∀ j, j < 5 → bits.getD (b + j) false = true) : windowAt bits b = true :=
  List.all_eq_true.mpr (fun j hj => h j (List.mem_range.mp hj))

theorem windowAt_eq_false_of_bit {bits : List Bool} {b j : Nat} (hj : j < 5)
    (h : bits.getD (b + j) false = false) : windowAt bits b = false := by
  cases hall : windowAt bits b with
  | false => rfl
  | true => exact absurd (windowAt_true_elim hall j hj) (by rw [h]; simp)

theorem trues_decomp : ∀ (bits : List Bool),
    (∃ q rest', bits = List.replicate q true ++ false :: rest')
    ∨ (∃ L, bits = List.replicate L true)
  | [] => Or.inr ⟨0, rfl⟩
  | false :: rest => Or.inl ⟨0, rest, rfl⟩
  | true :: rest =>
    match trues_decomp rest with
    | Or.inl ⟨q, r', h⟩ => Or.inl ⟨q + 1, r', by rw [h, List.replicate_succ]; rfl⟩
    | Or.inr ⟨L, h⟩ => Or.inr ⟨L + 1, by rw [h, List.replicate_succ]⟩

theorem scanB_success : ∀ (bits : List Bool) (base : Nat),
    (∀ j, j < 5 → bits.getD j false = true) → scanB bits base base 0 = some base := by
  intro bits base h
  match bits with
  | [] => exact absurd (h 0 (by omega)) (by simp)
  | [b0] => exact absurd (h 1 (by omega)) (by simp)
  | [b0, b1] => exact absurd (h 2 (by omega)) (by simp)
  | [b0, b1, b2] => exact absurd (h 3 (by omega)) (by simp)
  | [b0, b1, b2, b3] => exact absurd (h 4 (by omega)) (by simp)
  | b0 :: b1 :: b2 :: b3 :: b4 :: rest =>
    have h0 : b0 = true := by simpa using h 0 (by omega)
    have h1 : b1 = true := by simpa using h 1 (by omega)
    have h2 : b2 = true := by simpa using h 2 (by omega)
    have h3 : b3 = true := by simpa using h 3 (by omega)
    have h4 : b4 = true := by simpa using h 4 (by omega)
    subst h0 h1 h2 h3 h4
    rfl

theorem relFirstWindow_of_window0 {bits : List Bool} (h : windowAt bits 0 = true) :
    relFirstWindow bits = some 0 := by
  have hb : bits.getD 0 false = true := by simpa using windowAt_true_elim h 0 (by omega)
  cases bits with
  | nil => simp at hb
  | cons b rest =>
    unfold relFirstWindow
    rw [show (b :: rest).length = rest.length + 1 from rfl, List.range_succ_eq_map]
    rw [List.find?_cons_of_pos _ (by simpa using h)]

theorem relFirst_prefix : ∀ (q : Nat) (rest : List Bool), q ≤ 4 →
    relFirstWindow (List.replicate q true ++ false :: rest)
      = (relFirstWindow rest).map (fun k => k + (q + 1))
  | 0, rest, _ => by
    have h0 : windowAt (false :: rest) 0 = false :=
      windowAt_eq_false_of_bit (j := 0) (by omega) (by simp)
    simpa using relFirstWindow_shift h0
  | q + 1, rest, hq => by
    have hfalse : (List.replicate (q + 1) true ++ false :: rest).getD (q + 1) false = false := by
      rw [getD_replicate_append, if_neg (by omega)]
      simp
    have h0 : windowAt (List.replicate (q + 1) true ++ false :: rest) 0 = false :=
      windowAt_eq_false_of_bit (j := q + 1) (by omega) (by simpa using hfalse)
    rw [List.replicate_succ] at h0 ⊢
    rw [show (true :: List.replicate q true) ++ false :: rest
        = true :: (List.replicate q true ++ false :: rest) from rfl] at h0 ⊢
    rw [relFirstWindow_shift h0, relFirst_prefix q rest (by omega), Option.map_map]
    cases relFirstWindow rest with
    | none => rfl
    | some k =>
      rfl

theorem relFirstWindow_replicate_true {L : Nat} (hL : L ≤ 4) :
    relFirstWindow (List.replicate L true) = none := by
  unfold relFirstWindow
  rw [List.find?_eq_none]
  intro b _
  have : (List.replicate L true).getD (b + 4) false = false := by
    rw [List.getD_eq_getElem?_getD]
    have : (List.replicate L true).length ≤ b + 4 := by
      simp
      omega
    rw [List.getElem?_eq_none this]
    rfl
  simp [windowAt_eq_false_of_bit (j := 4) (by omega) this]

theorem scanB_spec (bits : List Bool) (base : Nat) :
    scanB bits base base 0 = (relFirstWindow bits).map (fun k => k + base) := by
  by_cases h0 : windowAt bits 0 = true
  · have hj : ∀ j, j < 5 → bits.getD j false = true := by
      intro j hj
      simpa using windowAt_true_elim h0 j hj
    rw [scanB_success bits base hj, relFirstWindow_of_window0 h0]
    show some base = some (0 + base)
    congr 1
    omega
  · have h0' : windowAt bits 0 = false := by
      cases hw : windowAt bits 0 with
      | false => rfl
      | true => exact absurd hw h0
    rcases trues_decomp bits with ⟨q, rest', hbits⟩ | ⟨L, hbits⟩
    · have hq : q ≤ 4 := by
        by_contra hq5
        apply h0
        apply windowAt_eq_true
        intro j hj
        rw [hbits]
        simp only [Nat.zero_add]
        rw [getD_replicate_append, if_pos (by omega)]
      rw [hbits]
      have hscan : scanB (List.replicate q true ++ false :: rest') base base 0
          = scanB rest' (base + q + 1) (base + q + 1) 0 := by
        have hG := scanB_replicate q 0 (false :: rest') base (by omega)
        have e0 : base + 0 = base := rfl
        rw [e0] at hG
        rw [hG]
        rw [scanB_cons]
        simp only [Bool.false_eq_true, if_false]
      rw [hscan, scanB_spec rest' (base + q + 1), relFirst_prefix q rest' hq]
      cases relFirstWindow rest' with
      | none => rfl
      | some k =>
        show some (k + (base + q + 1)) = some (k + (q + 1) + base)
        congr 1
        omega
    · have hL : L ≤ 4 := by
        by_contra hL5
        apply h0
        apply windowAt_eq_true
        intro j hj
        rw [hbits]
        simp only [Nat.zero_add]
        rw [show (List.replicate L true) = List.replicate L true ++ ([] : List Bool) by simp]
        rw [getD_replicate_append, if_pos (by omega)]
      subst hbits
      have hscan : scanB (List.replicate L true) base base 0 = none := by
        have hG := scanB_replicate L 0 ([] : List Bool) base (by omega)
        have e0 : base + 0 = base := rfl
        rw [e0] at hG
        rw [show List.replicate L true = List.replicate L true ++ ([] : List Bool) by simp]
        rw [hG]
        rfl
      rw [hscan, relFirstWindow_replicate_true hL]
      rfl
termination_by bits.length
decreasing_by
  rw [hbits]
  simp only [List.length_append, List.length_replicate, List.length_cons]
  omega

/-! ## Characterisation of the rank table -/

/-- A card lands in rank slot `w` (its weight number is `w`). -/
def hitsSlot (w : Nat) (c : Card) : Bool :=
  match c.weight with
  | some x => x.number == w
  | none => false

/-- Weight number `w` occurs in the list. -/
def hasW (cs : List Card) (w : Nat) : Bool := cs.any (hitsSlot w)

/-- The abstract placeholder card of rank slot `n`. -/
def rankCard (n : Nat) : Card :=
  { weight := some { symbol := Weight.symbolOf n, number := n }, suit := none,
    in_hand := false }

/-- One step of the `get_rank` fold. -/
def rankStepF (rank : List Card) (card : Card) : List Card :=
  match card.weight with
  | some w => rank.set w.number card
  | none => rank

theorem get_rank_eq (cs : List Card) :
    get_rank cs = (cs.foldl rankStepF ((List.range 14).map rankCard)).reverse := rfl

theorem rank_fold_length : ∀ (cs acc : List Card),
    (cs.foldl rankStepF acc).length = acc.length
  | [], _ => rfl
  | c :: cs, acc => by
    rw [List.foldl_cons, rank_fold_length cs]
    unfold rankStepF
    cases c.weight with
    | none => rfl
    | some w => rw [List.length_set]

theorem getLast?_cons_getD {α : Type} : ∀ (l : List α) (c d : α),
    ((c :: l).getLast?).getD d = (l.getLast?).getD c
  | [], _, _ => rfl
  | x :: xs, c, d => by
    rw [List.getLast?_cons_cons]
    rw [getLast?_cons_getD xs x d, getLast?_cons_getD xs x c]

theorem rank_fold_getD : ∀ (cs acc : List Card) (i : Nat) (d : Card), i < acc.length →
    (cs.foldl rankStepF acc).getD i d
      = ((cs.filter (hitsSlot i)).getLast?).getD (acc.getD i d)
  | [], _, _, _, _ => rfl
  | c :: cs, acc, i, d, hi => by
    rw [List.foldl_cons]
    cases hw : c.weight with
    | none =>
      have hstep : rankStepF acc c = acc := by unfold rankStepF; rw [hw]
      have hhit : hitsSlot i c = false := by unfold hitsSlot; rw [hw]
      rw [hstep, List.filter_cons_of_neg (by rw [hhit]; simp), rank_fold_getD cs acc i d hi]
    | some w =>
      have hstep : rankStepF acc c = acc.set w.number c := by unfold rankStepF; rw [hw]
      rw [hstep]
      by_cases hn : w.number = i
      · have hhit : hitsSlot i c = true := by unfold hitsSlot; rw [hw]; simp [hn]
        have hset : (acc.set w.number c).getD i d = c := by
          rw [List.getD_eq_getElem?_getD, hn]
          simp [List.getElem?_set_self, hi]
        rw [rank_fold_getD cs (acc.set w.number c) i d (by rw [List.length_set]; exact hi),
          hset, List.filter_cons_of_pos (by rw [hhit]), getLast?_cons_getD]
      · have hhit : hitsSlot i c = false := by unfold hitsSlot; rw [hw]; simp [hn]
        have hset : (acc.set w.number c).getD i d = acc.getD i d := by
          rw [List.getD_eq_getElem?_getD, List.getD_eq_getElem?_getD,
            List.getElem?_set_ne hn]
        rw [rank_fold_getD cs (acc.set w.number c) i d (by rw [List.length_set]; exact hi),
          hset, List.filter_cons_of_neg (by rw [hhit]; simp)]

theorem rankInit_getD (n : Nat) (d : Card) (hn : n < 14) :
    (((List.range 14).map rankCard).getD n d) = rankCard n := by
  rw [List.getD_eq_getElem?_getD, List.getElem?_map, List.getElem?_range hn]
  rfl

theorem get_rank_length (cs : List Card) : (get_rank cs).length = 14 := by
  rw [get_rank_eq, List.length_reverse, rank_fold_length]
  simp

theorem get_rank_getD (cs : List Card) (i : Nat) (d : Card) (hi : i < 14) :
    (get_rank cs).getD i d
      = ((cs.filter (hitsSlot (13 - i))).getLast?).getD (rankCard (13 - i)) := by
  have hlen : (cs.foldl rankStepF ((List.range 14).map rankCard)).length = 14 := by
    rw [rank_fold_length]; simp
  rw [get_rank_eq, List.getD_eq_getElem?_getD,
    List.getElem?_reverse (by rw [hlen]; exact hi), hlen,
    ← List.getD_eq_getElem?_getD _ _ d,
    rank_fold_getD cs _ (13 - i) d (by rw [List.length_map, List.length_range]; omega),
    rankInit_getD (13 - i) d (by omega)]

/-- The presence bits the scanning loop of `find_order` actually reads:
`rank[i].suit` truthiness over the reversed rank table. -/
def rankBits (cs : List Card) : List Bool :=
  (get_rank cs).map (fun c => c.suit.isSome)

theorem rankBits_length (cs : List Card) : (rankBits cs).length = 14 := by
  rw [rankBits, List.length_map, get_rank_length]

theorem rankBits_getD (cs : List Card) (i : Nat) (hi : i < 14)
    (hsuit : ∀ c ∈ cs, c.suit.isSome = true) :
    (rankBits cs).getD i false = hasW cs (13 - i) := by
  have hmap : (rankBits cs).getD i false
      = ((get_rank cs).getD i (rankCard 0)).suit.isSome := by
    have hlt : i < (get_rank cs).length := by rw [get_rank_length]; exact hi
    rw [rankBits, List.getD_eq_getElem?_getD, List.getElem?_map,
      List.getElem?_eq_getElem hlt, List.getD_eq_getElem?_getD,
      List.getElem?_eq_getElem hlt]
    rfl
  rw [hmap, get_rank_getD cs i (rankCard 0) hi]
  cases hlast : (cs.filter (hitsSlot (13 - i))).getLast? with
  | none =>
    have hnil : cs.filter (hitsSlot (13 - i)) = [] := by
      cases hf : cs.filter (hitsSlot (13 - i)) with
      | nil => rfl
      | cons x xs => rw [hf] at hlast; simp [getLast?_cons_getD] at hlast
    have : hasW cs (13 - i) = false := by
      unfold hasW
      rw [List.any_eq_false]
      intro c hc
      have := List.filter_eq_nil_iff.mp hnil c hc
      simpa using this
    rw [this]
    rfl
  | some v =>
    have hv : v ∈ cs.filter (hitsSlot (13 - i)) := List.mem_of_mem_getLast? hlast
    have hvm := List.mem_filter.mp hv
    have : hasW cs (13 - i) = true := by
      unfold hasW
      rw [List.any_eq_true]
      exact ⟨v, hvm.1, hvm.2⟩
    rw [this]
    simpa using hsuit v hvm.1

theorem mkSequence_order (cards0 : List Card) :
    (mkSequence cards0).order_cards
      = (relFirstWindow (rankBits (seq_source cards0))).map
          (fun b => ((get_rank (seq_source cards0)).drop b).take 5) := by
  have hid : ∀ (o : Option Nat), Option.map (fun k => k + 0) o = o := by
    intro o
    cases o with
    | none => rfl
    | some k => rfl
  have hfst : (find_order_go (get_rank (seq_source cards0)) 0 0 0 []).1
      = relFirstWindow (rankBits (seq_source cards0)) := by
    rw [find_order_go_fst, scanB_spec]
    exact hid _
  unfold mkSequence
  rcases hgo : find_order_go (get_rank (seq_source cards0)) 0 0 0 [] with ⟨fst, hist⟩
  rw [hgo] at hfst
  cases fst with
  | none => rw [← hfst]; rfl
  | some base => rw [← hfst]; rfl

theorem mkSequence_five (cards0 : List Card) :
    (mkSequence cards0).five_in_a_row
      = (relFirstWindow (rankBits (seq_source cards0))).isSome := by
  have hid : ∀ (o : Option Nat), Option.map (fun k => k + 0) o = o := by
    intro o
    cases o with
    | none => rfl
    | some k => rfl
  have hfst : (find_order_go (get_rank (seq_source cards0)) 0 0 0 []).1
      = relFirstWindow (rankBits (seq_source cards0)) := by
    rw [find_order_go_fst, scanB_spec]
    exact hid _
  unfold mkSequence
  rcases hgo : find_order_go (get_rank (seq_source cards0)) 0 0 0 [] with ⟨fst, hist⟩
  rw [hgo] at hfst
  cases fst with
  | none => rw [← hfst]; rfl
  | some base => rw [← hfst]; rfl

/-! ## Claim C4: the wheel -/

theorem hasW_cons (c : Card) (cs : List Card) (w : Nat) :
    hasW (c :: cs) w = (hitsSlot w c || hasW cs w) := by
  simp [hasW]

theorem hitsSlot_wNum {w : Nat} {c : Card} (h : hitsSlot w c = true) : wNum c = w := by
  unfold hitsSlot at h
  unfold wNum
  cases hw : c.weight with
  | none => rw [hw] at h; simp at h
  | some x => rw [hw] at h; simpa using h

theorem slot_last {cs : List Card} {w : Nat} (h : hasW cs w = true) :
    ∃ cw, (cs.filter (hitsSlot w)).getLast? = some cw ∧ hitsSlot w cw = true := by
  obtain ⟨c, hc, hhit⟩ := List.any_eq_true.mp h
  cases hf : cs.filter (hitsSlot w) with
  | nil => exact absurd (List.mem_filter.mpr ⟨hc, hhit⟩) (by rw [hf]; simp)
  | cons x xs =>
    cases hl : (x :: xs).getLast? with
    | none =>
      rw [List.getLast?_eq_none_iff] at hl
      simp at hl
    | some v =>
      refine ⟨v, rfl, ?_⟩
      have hv : v ∈ cs.filter (hitsSlot w) := by
        rw [hf]
        exact List.mem_of_mem_getLast? hl
      exact (List.mem_filter.mp hv).2

theorem cardEq_aceKey {c : Card} {x : Weight} (hw : c.weight = some x) :
    cardEq c aceKey = (x.number == 13) := by
  have hak : aceKey.weight = some { symbol := 'A', number := 13 } := by decide
  unfold cardEq
  rw [hw, hak]

/-- When an ace is present, `seq_source` prepends the low-ace copy of the last
ace of the group. -/
theorem seq_source_of_ace {cards0 : List Card} (hval : validCards cards0 = true)
    (hA : hasW cards0 13 = true) :
    ∃ ace, (cards0.filter (fun c => cardEq c aceKey)).getLast? = some ace
      ∧ seq_source cards0
        = { weight := some { symbol := '1', number := 0 }, suit := ace.suit,
            in_hand := ace.in_hand } :: cards0 := by
  obtain ⟨c, hc, hhit⟩ := List.any_eq_true.mp hA
  obtain ⟨x, hx⟩ := Option.isSome_iff_exists.mp (validCards_mem hval hc).1
  have hx13 : x.number = 13 := by
    unfold hitsSlot at hhit
    rw [hx] at hhit
    simpa using hhit
  have hce : cardEq c aceKey = true := by
    rw [cardEq_aceKey hx]
    simp [hx13]
  have hany : cards0.any (fun e => cardEq e aceKey) = true :=
    List.any_eq_true.mpr ⟨c, hc, hce⟩
  obtain ⟨ace, hace, _⟩ :
      ∃ a, (cards0.filter (fun e => cardEq e aceKey)).getLast? = some a ∧ True := by
    cases hf : cards0.filter (fun e => cardEq e aceKey) with
    | nil => exact absurd (List.mem_filter.mpr ⟨hc, hce⟩) (by rw [hf]; simp)
    | cons y ys =>
      cases hl : (y :: ys).getLast? with
      | none =>
        rw [List.getLast?_eq_none_iff] at hl
        simp at hl
      | some a => exact ⟨a, rfl, trivial⟩
  refine ⟨ace, hace, ?_⟩
  unfold seq_source
  rw [if_pos hany]
  unfold one_more_ace
  rw [hace]

theorem list_eq_five {α : Type} : ∀ (l : List α) (d : α), l.length = 5 →
    l = [l.getD 0 d, l.getD 1 d, l.getD 2 d, l.getD 3 d, l.getD 4 d]
  | [a, b, c, e, f], _, _ => rfl
  | [], _, h => by simp at h
  | [_], _, h => by simp at h
  | [_, _], _, h => by simp at h
  | [_, _, _], _, h => by simp at h
  | [_, _, _, _], _, h => by simp at h
  | _ :: _ :: _ :: _ :: _ :: _ :: _, _, h => by
    simp only [List.length_cons] at h
    omega

theorem drop_take_getD {α : Type} (l : List α) (b j : Nat) (d : α) (hj : j < 5)
    (hlen : b + j < l.length) :
    ((l.drop b).take 5).getD j d = l.getD (b + j) d := by
  rw [List.getD_eq_getElem?_getD, List.getElem?_take, if_pos hj, List.getElem?_drop,
    List.getD_eq_getElem?_getD]

/-- C4: on a wheel group (weights A,2,3,4,5 present, no 6..K, no caller-made
low ace), the sequence analysis detects five-in-a-row anchored at the
low-ace window: the order cards carry weight numbers `[4,3,2,1,0]`, ending in
the injected low-ace copy (numeric value 0, suit and `in_hand` inherited from
the group's last ace), and any straight with these card weights compares
below any 6-high straight. -/
theorem C4_wheel (cards0 : List Card)
    (hval : validCards cards0 = true)
    (hA : hasW cards0 13 = true)
    (h1 : hasW cards0 1 = true) (h2 : hasW cards0 2 = true)
    (h3 : hasW cards0 3 = true) (h4 : hasW cards0 4 = true)
    (h0 : hasW cards0 0 = false)
    (hmid : ∀ w ∈ [5, 6, 7, 8, 9, 10, 11, 12], hasW cards0 w = false) :
    (mkSequence cards0).five_in_a_row = true
    ∧ ∃ oc ace,
        (mkSequence cards0).order_cards = some oc
        ∧ (cards0.filter (fun c => cardEq c aceKey)).getLast? = some ace
        ∧ weightsOf oc = [4, 3, 2, 1, 0]
        ∧ oc.getLast? = some { weight := some { symbol := '1', number := 0 },
                               suit := ace.suit, in_hand := ace.in_hand }
        ∧ (∀ c c' : Combo, c.type = STRAIGHT → c'.type = STRAIGHT →
            allWeighted c.cards = true → allWeighted c'.cards = true →
            weightsOf c.cards = weightsOf oc → weightsOf c'.cards = [5, 4, 3, 2, 1] →
            comboLt c c' = true) := by
  obtain ⟨ace, hace, hsrc⟩ := seq_source_of_ace hval hA
  have hacemem : ace ∈ cards0 := (List.mem_filter.mp (List.mem_of_mem_getLast? hace)).1
  have hinj : ∀ w, hitsSlot w
      ({ weight := some { symbol := '1', number := 0 }, suit := ace.suit,
         in_hand := ace.in_hand } : Card) = (0 == w) := fun _ => rfl
  have hsrcW : ∀ w, w ≠ 0 → hasW (seq_source cards0) w = hasW cards0 w := by
    intro w hw
    have h0w : ((0 : Nat) == w) = false := by
      cases w with
      | zero => exact absurd rfl hw
      | succ n => rfl
    rw [hsrc, hasW_cons, hinj w, h0w]
    simp
  have e4 : hasW (seq_source cards0) 4 = true := by rw [hsrcW 4 (by omega)]; exact h4
  have e3 : hasW (seq_source cards0) 3 = true := by rw [hsrcW 3 (by omega)]; exact h3
  have e2 : hasW (seq_source cards0) 2 = true := by rw [hsrcW 2 (by omega)]; exact h2
  have e1 : hasW (seq_source cards0) 1 = true := by rw [hsrcW 1 (by omega)]; exact h1
  have e0 : hasW (seq_source cards0) 0 = true := by
    rw [hsrc, hasW_cons, hinj 0]
    rfl
  have hf : ∀ w, 5 ≤ w → w ≤ 12 → hasW (seq_source cards0) w = false := by
    intro w h5 h12
    rw [hsrcW w (by omega)]
    apply hmid
    interval_cases w <;> simp
  have hsuits : ∀ c ∈ seq_source cards0, c.suit.isSome = true := by
    intro c hc
    rw [hsrc] at hc
    rcases List.mem_cons.mp hc with hc' | hc'
    · rw [hc']
      exact (validCards_mem hval hacemem).2.2
    · exact (validCards_mem hval hc').2.2
  have hB : ∀ i, i < 14 → (rankBits (seq_source cards0)).getD i false
      = hasW (seq_source cards0) (13 - i) :=
    fun i hi => rankBits_getD _ i hi hsuits
  have hw9 : windowAt (rankBits (seq_source cards0)) 9 = true := by
    apply windowAt_eq_true
    intro j hj
    rw [hB (9 + j) (by omega)]
    interval_cases j
    · exact e4
    · exact e3
    · exact e2
    · exact e1
    · exact e0
  have wfalse : ∀ (b j : Nat), b + j < 14 → j < 5 →
      hasW (seq_source cards0) (13 - (b + j)) = false →
      windowAt (rankBits (seq_source cards0)) b = false := by
    intro b j hbj hj hfw
    exact windowAt_eq_false_of_bit hj (by rw [hB (b + j) hbj]; exact hfw)
  have hwb0 := wfalse 0 1 (by omega) (by omega) (hf 12 (by omega) (by omega))
  have hwb1 := wfalse 1 0 (by omega) (by omega) (hf 12 (by omega) (by omega))
  have hwb2 := wfalse 2 0 (by omega) (by omega) (hf 11 (by omega) (by omega))
  have hwb3 := wfalse 3 0 (by omega) (by omega) (hf 10 (by omega) (by omega))
  have hwb4 := wfalse 4 0 (by omega) (by omega) (hf 9 (by omega) (by omega))
  have hwb5 := wfalse 5 0 (by omega) (by omega) (hf 8 (by omega) (by omega))
  have hwb6 := wfalse 6 0 (by omega) (by omega) (hf 7 (by omega) (by omega))
  have hwb7 := wfalse 7 0 (by omega) (by omega) (hf 6 (by omega) (by omega))
  have hwb8 := wfalse 8 0 (by omega) (by omega) (hf 5 (by omega) (by omega))
  have hrfw : relFirstWindow (rankBits (seq_source cards0)) = some 9 := by
    unfold relFirstWindow
    rw [rankBits_length]
    rw [show List.range 14 = [0, 1, 2, 3, 4, 5, 6, 7, 8, 9, 10, 11, 12, 13] from rfl]
    rw [List.find?_cons_of_neg _ (by simp [hwb0]), List.find?_cons_of_neg _ (by simp [hwb1]),
      List.find?_cons_of_neg _ (by simp [hwb2]), List.find?_cons_of_neg _ (by simp [hwb3]),
      List.find?_cons_of_neg _ (by simp [hwb4]), List.find?_cons_of_neg _ (by simp [hwb5]),
      List.find?_cons_of_neg _ (by simp [hwb6]), List.find?_cons_of_neg _ (by simp [hwb7]),
      List.find?_cons_of_neg _ (by simp [hwb8]),
      List.find?_cons_of_pos _ (by simpa using hw9)]
  have hfive : (mkSequence cards0).five_in_a_row = true := by
    rw [mkSequence_five, hrfw]
    rfl
  have horder : (mkSequence cards0).order_cards
      = some (((get_rank (seq_source cards0)).drop 9).take 5) := by
    rw [mkSequence_order, hrfw]
    rfl
  have hoclen : (((get_rank (seq_source cards0)).drop 9).take 5).length = 5 := by
    rw [List.length_take, List.length_drop, get_rank_length]
    decide
  have hget : ∀ (w : Nat), w ≤ 13 → hasW (seq_source cards0) w = true →
      ∃ cw, (∀ d, ((get_rank (seq_source cards0)).getD (13 - w) d) = cw)
        ∧ wNum cw = w := by
    intro w hw hW
    obtain ⟨cw, hlast, hhit⟩ := slot_last hW
    refine ⟨cw, ?_, hitsSlot_wNum hhit⟩
    intro d
    rw [get_rank_getD _ _ _ (by omega)]
    have he : 13 - (13 - w) = w := by omega
    rw [he, hlast]
    rfl
  obtain ⟨c4w, hc4, hn4⟩ := hget 4 (by omega) e4
  obtain ⟨c3w, hc3, hn3⟩ := hget 3 (by omega) e3
  obtain ⟨c2w, hc2, hn2⟩ := hget 2 (by omega) e2
  obtain ⟨c1w, hc1, hn1⟩ := hget 1 (by omega) e1
  have hslot0 : ∀ d, (get_rank (seq_source cards0)).getD 13 d
      = { weight := some { symbol := '1', number := 0 }, suit := ace.suit,
          in_hand := ace.in_hand } := by
    intro d
    rw [get_rank_getD _ _ _ (by omega)]
    have hfe : (seq_source cards0).filter (hitsSlot (13 - 13))
        = [{ weight := some { symbol := '1', number := 0 }, suit := ace.suit,
             in_hand := ace.in_hand }] := by
      rw [hsrc, List.filter_cons_of_pos (by rw [hinj]; rfl)]
      rw [List.filter_eq_nil_iff.mpr ?_]
      intro c hc
      have := List.any_eq_false.mp h0 c hc
      simpa using this
    rw [hfe]
    rfl
  have hgj : ∀ (j : Nat), j < 5 → ∀ d,
      (((get_rank (seq_source cards0)).drop 9).take 5).getD j d
        = (get_rank (seq_source cards0)).getD (9 + j) d :=
    fun j hj d => drop_take_getD _ 9 j d hj (by rw [get_rank_length]; omega)
  have hoc5 : ((get_rank (seq_source cards0)).drop 9).take 5
      = [c4w, c3w, c2w, c1w,
         { weight := some { symbol := '1', number := 0 }, suit := ace.suit,
           in_hand := ace.in_hand }] := by
    rw [list_eq_five _ (rankCard 0) hoclen]
    rw [hgj 0 (by omega), hgj 1 (by omega), hgj 2 (by omega), hgj 3 (by omega),
      hgj 4 (by omega)]
    rw [show (9 + 0 : Nat) = 13 - 4 from rfl, show (9 + 1 : Nat) = 13 - 3 from rfl,
      show (9 + 2 : Nat) = 13 - 2 from rfl, show (9 + 3 : Nat) = 13 - 1 from rfl,
      show (9 + 4 : Nat) = 13 from rfl]
    rw [hc4, hc3, hc2, hc1, hslot0]
  refine ⟨hfive, ((get_rank (seq_source cards0)).drop 9).take 5, ace, horder, hace, ?_, ?_, ?_⟩
  · rw [hoc5]
    unfold weightsOf
    simp only [List.map_cons, List.map_nil]
    rw [hn4, hn3, hn2, hn1]
    rfl
  · rw [hoc5]
    rfl
  · intro c c' hty hty' haw haw' hwc hwc'
    have hwoc : weightsOf (((get_rank (seq_source cards0)).drop 9).take 5) = [4, 3, 2, 1, 0] := by
      rw [hoc5]
      unfold weightsOf
      simp only [List.map_cons, List.map_nil]
      rw [hn4, hn3, hn2, hn1]
      rfl
    rw [hwoc] at hwc
    have hlc : c.cards.length = 5 := by
      have := congrArg List.length hwc
      simpa [weightsOf] using this
    have hlc' : c'.cards.length = 5 := by
      have := congrArg List.length hwc'
      simpa [weightsOf] using this
    unfold comboLt
    rw [hty, hty']
    have heqf : comboCardsEq c.cards c'.cards = false := by
      rw [comboCardsEq_spec c.cards c'.cards haw haw' (by omega), hwc, hwc']
      simp
    have hltt : comboCardsLt c.cards c'.cards = true := by
      rw [comboCardsLt_spec c.cards c'.cards haw haw', hwc, hwc']
      rfl
    rw [heqf, hltt]
    simp

/-- The wheel group `As/2h/3d/4c/5s`. -/
def c4_group : List Card :=
  [Card.ofSymbols 'A' 's', Card.ofSymbols '2' 'h', Card.ofSymbols '3' 'd',
   Card.ofSymbols '4' 'c', Card.ofSymbols '5' 's']

theorem C4_wheel_witness :
    (validCards c4_group = true ∧ hasW c4_group 13 = true ∧ hasW c4_group 1 = true
      ∧ hasW c4_group 4 = true ∧ hasW c4_group 0 = false
      ∧ (∀ w ∈ [5, 6, 7, 8, 9, 10, 11, 12], hasW c4_group w = false))
    ∧ ((mkSequence c4_group).five_in_a_row = true
       ∧ ∃ oc ace,
          (mkSequence c4_group).order_cards = some oc
          ∧ (c4_group.filter (fun c => cardEq c aceKey)).getLast? = some ace
          ∧ weightsOf oc = [4, 3, 2, 1, 0]
          ∧ oc.getLast? = some { weight := some { symbol := '1', number := 0 },
                                 suit := ace.suit, in_hand := ace.in_hand }
          ∧ (∀ c c' : Combo, c.type = STRAIGHT → c'.type = STRAIGHT →
              allWeighted c.cards = true → allWeighted c'.cards = true →
              weightsOf c.cards = weightsOf oc → weightsOf c'.cards = [5, 4, 3, 2, 1] →
              comboLt c c' = true)) :=
  ⟨⟨by decide, by decide, by decide, by decide, by decide, by decide⟩,
   C4_wheel c4_group (by decide) (by decide) (by decide) (by decide) (by decide)
     (by decide) (by decide) (by decide)⟩

/-! ## Characterisation of the weight-repeat analysis -/

theorem repFold_cards_sublist (l : List Card) (key : Card → Card) :
    ∀ (rest : List Card) (acc : RepeatsAcc),
      (repFold l key rest acc).cards.Sublist (acc.cards ++ rest.map key)
  | [], acc => by simp [repFold]
  | c :: rest, acc => by
    show (repFold l key rest (repeatsStep l acc (key c))).cards.Sublist _
    unfold repeatsStep
    by_cases h : acc.cards.any (fun e => cardEq e (key c)) = true
    · rw [if_pos h]
      refine (repFold_cards_sublist l key rest acc).trans ?_
      rw [List.map_cons]
      exact (List.sublist_cons_self (key c) (rest.map key)).append_left acc.cards
    · rw [if_neg h]
      have hs := repFold_cards_sublist l key rest
        ⟨acc.cards ++ [key c], dictAdd acc.all (countCardEq l (key c)) (key c)⟩
      rw [List.map_cons]
      have he : (acc.cards ++ [key c]) ++ rest.map key
          = acc.cards ++ (key c :: rest.map key) := by
        rw [List.append_assoc]
        rfl
      rw [he] at hs
      exact hs

/-- The weight analysis of a valid list: seen weight keys, their counts, the
buckets, and (for a sorted list) their ascending order. -/
theorem weight_analysis {s : List Card} (hval : validCards s = true) :
    (∀ x ∈ (repFold s weightCardOf s ⟨[], []⟩).cards,
        x.weight.isSome = true ∧ countCardEq s x = wcount s (wNum x))
    ∧ (∀ c ∈ s, ∃ x ∈ (repFold s weightCardOf s ⟨[], []⟩).cards, wNum x = wNum c)
    ∧ (repFold s weightCardOf s ⟨[], []⟩).cards.Pairwise (fun a b => cardEq a b = false)
    ∧ (∀ n, dictFind (repFold s weightCardOf s ⟨[], []⟩).all n
        = toOpt ((repFold s weightCardOf s ⟨[], []⟩).cards.filter
            (fun k => countCardEq s k == n)))
    ∧ (repFold s weightCardOf s ⟨[], []⟩).cards.Sublist (s.map weightCardOf) := by
  obtain ⟨hD, hK, hS1, hS2, hS3⟩ := repeats_inv s weightCardOf
    (fun c hc => weightKey_refl (validCards_mem hval hc).1)
  refine ⟨?_, ?_, hS3, hD, ?_⟩
  · intro x hx
    obtain ⟨c, hc, hxc⟩ := hS1 x hx
    have hcw := (validCards_mem hval hc).1
    constructor
    · rw [hxc]
      exact weightCardOf_isSome hcw
    · rw [hxc, countCardEq_weight_key hval hcw, wNum_weightCardOf]
  · intro c hc
    obtain ⟨x, hx, hxe⟩ := hS2 c hc
    refine ⟨x, hx, ?_⟩
    obtain ⟨c', hc', hxc'⟩ := hS1 x hx
    have hxw : x.weight.isSome = true := by
      rw [hxc']
      exact weightCardOf_isSome (validCards_mem hval hc').1
    have := cardEq_weighted hxw (weightCardOf_isSome (validCards_mem hval hc).1)
    rw [this, wNum_weightCardOf] at hxe
    simpa using hxe
  · have := repFold_cards_sublist s weightCardOf s ⟨[], []⟩
    simpa using this

theorem wcount_perm {l1 l2 : List Card} (h : l1.Perm l2) (w : Nat) :
    wcount l1 w = wcount l2 w := (h.filter _).length_eq

theorem scount_perm {l1 l2 : List Card} (h : l1.Perm l2) (s : Option Suit) :
    scount l1 s = scount l2 s := (h.filter _).length_eq

theorem two_weights_shape {F : List Card} {lw hw : Nat} (hlh : lw < hw)
    (hwa : ∀ x ∈ F, x.weight.isSome = true)
    (hmem : ∀ x ∈ F, wNum x = lw ∨ wNum x = hw)
    (hL : ∃ x ∈ F, wNum x = lw) (hH : ∃ x ∈ F, wNum x = hw)
    (hdist : F.Pairwise (fun a b => cardEq a b = false))
    (hsort : F.Pairwise (fun a b => wNum a ≤ wNum b)) :
    ∃ kL kH, F = [kL, kH] ∧ wNum kL = lw ∧ wNum kH = hw := by
  have hne : F.Pairwise (fun a b => wNum a ≠ wNum b) := by
    refine List.Pairwise.imp_of_mem ?_ hdist
    intro a b hma hmb hab heq
    rw [cardEq_weighted (hwa a hma) (hwa b hmb)] at hab
    simp [heq] at hab
  rcases F with _ | ⟨a, F1⟩
  · obtain ⟨x, hx, _⟩ := hL
    simp at hx
  rcases F1 with _ | ⟨b, F2⟩
  · obtain ⟨x, hx, hxl⟩ := hL
    obtain ⟨y, hy, hyh⟩ := hH
    have hxa : x = a := by simpa using hx
    have hya : y = a := by simpa using hy
    rw [hxa] at hxl
    rw [hya] at hyh
    omega
  rcases F2 with _ | ⟨cc, rest⟩
  · have hab_le : wNum a ≤ wNum b := List.rel_of_pairwise_cons hsort (by simp)
    have hab_ne : wNum a ≠ wNum b := List.rel_of_pairwise_cons hne (by simp)
    have m_a := hmem a (by simp)
    have m_b := hmem b (by simp)
    obtain ⟨x, hx, hxl⟩ := hL
    obtain ⟨y, hy, hyh⟩ := hH
    have hx' : x = a ∨ x = b := by simpa using hx
    have hy' : y = a ∨ y = b := by simpa using hy
    refine ⟨a, b, rfl, ?_, ?_⟩ <;>
      rcases m_a with h | h <;> rcases m_b with h' | h' <;>
      rcases hx' with hxx | hxx <;> rcases hy' with hyy | hyy <;>
      rw [hxx] at hxl <;> rw [hyy] at hyh <;> omega
  · exfalso
    have n1 : wNum a ≠ wNum b := List.rel_of_pairwise_cons hne (by simp)
    have n2 : wNum a ≠ wNum cc := List.rel_of_pairwise_cons hne (by simp)
    have n3 : wNum b ≠ wNum cc := List.rel_of_pairwise_cons (List.Pairwise.of_cons hne) (by simp)
    have m_a := hmem a (by simp)
    have m_b := hmem b (by simp)
    have m_c := hmem cc (by simp)
    rcases m_a with h | h <;> rcases m_b with h' | h' <;> rcases m_c with h'' | h'' <;> omega

/-- Two distinct triples (and nothing else repeated) drive `get_repeat_kind`
into the `double_three` branch: the set card is the higher triple's key, the
pair card the lower triple's key. -/
theorem two_triples_repeat_kind {s : List Card} (hval : validCards s = true)
    (hsorted : s.Pairwise (fun a b => wNum a ≤ wNum b))
    {lw hw : Nat} (hlh : lw < hw)
    (hcl : wcount s lw = 3) (hch : wcount s hw = 3)
    (hother : ∀ c ∈ s, wNum c ≠ lw → wNum c ≠ hw → wcount s (wNum c) ≤ 1) :
    ∃ kL kH,
      get_repeat_kind (repFold s weightCardOf s ⟨[], []⟩).all
        = { all := (repFold s weightCardOf s ⟨[], []⟩).all,
            three := some kH, two := some kL, double_three := true }
      ∧ wNum kH = hw ∧ wNum kL = lw
      ∧ kH.weight.isSome = true ∧ kL.weight.isSome = true := by
  obtain ⟨hKw, hKall, hKdist, hDict, hKsub⟩ := weight_analysis hval
  have hKcard : ∀ x ∈ (repFold s weightCardOf s ⟨[], []⟩).cards, ∃ c ∈ s, wNum x = wNum c := by
    intro x hx
    have hx' : x ∈ s.map weightCardOf := hKsub.subset hx
    obtain ⟨c, hc, hxc⟩ := List.mem_map.mp hx'
    exact ⟨c, hc, by rw [← hxc, wNum_weightCardOf]⟩
  have hKsort : (repFold s weightCardOf s ⟨[], []⟩).cards.Pairwise
      (fun a b => wNum a ≤ wNum b) :=
    List.Pairwise.sublist hKsub (List.pairwise_map.mpr hsorted)
  have hcases : ∀ x ∈ (repFold s weightCardOf s ⟨[], []⟩).cards,
      (wNum x = lw ∧ countCardEq s x = 3) ∨ (wNum x = hw ∧ countCardEq s x = 3)
      ∨ countCardEq s x ≤ 1 := by
    intro x hx
    obtain ⟨_, hxc⟩ := hKw x hx
    obtain ⟨c, hc, hwc⟩ := hKcard x hx
    by_cases h1 : wNum x = lw
    · left
      rw [hxc, h1, hcl]
      exact ⟨rfl, rfl⟩
    · by_cases h2 : wNum x = hw
      · right; left
        rw [hxc, h2, hch]
        exact ⟨rfl, rfl⟩
      · right; right
        rw [hxc, hwc]
        exact hother c hc (by rw [← hwc]; exact h1) (by rw [← hwc]; exact h2)
  have hrealize : ∀ w, wcount s w = 3 →
      ∃ x ∈ (repFold s weightCardOf s ⟨[], []⟩).cards, wNum x = w := by
    intro w hwc
    have hpos : 0 < (s.filter (fun e => wNum e == w)).length := by
      unfold wcount at hwc
      omega
    obtain ⟨c, hc⟩ := List.exists_mem_of_length_pos hpos
    have hcm := List.mem_filter.mp hc
    obtain ⟨x, hx, hxw⟩ := hKall c hcm.1
    exact ⟨x, hx, by rw [hxw]; simpa using hcm.2⟩
  obtain ⟨xL, hxL, hxLw⟩ := hrealize lw hcl
  obtain ⟨xH, hxH, hxHw⟩ := hrealize hw hch
  have hLF : xL ∈ (repFold s weightCardOf s ⟨[], []⟩).cards.filter
      (fun k => countCardEq s k == 3) := by
    refine List.mem_filter.mpr ⟨hxL, ?_⟩
    rcases hcases xL hxL with ⟨_, hc3⟩ | ⟨hcw, _⟩ | hc1
    · simp [hc3]
    · omega
    · obtain ⟨_, hxc⟩ := hKw xL hxL
      rw [hxc, hxLw, hcl] at hc1
      omega
  have hHF : xH ∈ (repFold s weightCardOf s ⟨[], []⟩).cards.filter
      (fun k => countCardEq s k == 3) := by
    refine List.mem_filter.mpr ⟨hxH, ?_⟩
    rcases hcases xH hxH with ⟨hcw, _⟩ | ⟨_, hc3⟩ | hc1
    · omega
    · simp [hc3]
    · obtain ⟨_, hxc⟩ := hKw xH hxH
      rw [hxc, hxHw, hch] at hc1
      omega
  obtain ⟨kL, kH, hFshape, hkLw, hkHw⟩ := two_weights_shape hlh
    (fun x hx => (hKw x (List.mem_filter.mp hx).1).1)
    (fun x hx => by
      rcases hcases x (List.mem_filter.mp hx).1 with ⟨h, _⟩ | ⟨h, _⟩ | hc1
      · exact Or.inl h
      · exact Or.inr h
      · have := (List.mem_filter.mp hx).2
        simp at this
        omega)
    ⟨xL, hLF, hxLw⟩ ⟨xH, hHF, hxHw⟩
    (List.Pairwise.sublist (List.filter_sublist _) hKdist)
    (List.Pairwise.sublist (List.filter_sublist _) hKsort)
  have h4none : dictFind (repFold s weightCardOf s ⟨[], []⟩).all 4 = none := by
    rw [hDict 4]
    have hnil : (repFold s weightCardOf s ⟨[], []⟩).cards.filter
        (fun k => countCardEq s k == 4) = [] := by
      rw [List.filter_eq_nil_iff]
      intro x hx
      rcases hcases x hx with ⟨_, hc⟩ | ⟨_, hc⟩ | hc <;> simp <;> omega
    rw [hnil]
    rfl
  have h3some : dictFind (repFold s weightCardOf s ⟨[], []⟩).all 3 = some [kL, kH] := by
    rw [hDict 3, hFshape]
    rfl
  have hkLsome : kL.weight.isSome = true := by
    have : kL ∈ (repFold s weightCardOf s ⟨[], []⟩).cards.filter
        (fun k => countCardEq s k == 3) := by rw [hFshape]; simp
    exact (hKw kL (List.mem_filter.mp this).1).1
  have hkHsome : kH.weight.isSome = true := by
    have : kH ∈ (repFold s weightCardOf s ⟨[], []⟩).cards.filter
        (fun k => countCardEq s k == 3) := by rw [hFshape]; simp
    exact (hKw kH (List.mem_filter.mp this).1).1
  refine ⟨kL, kH, ?_, hkHw, hkLw, hkHsome, hkLsome⟩
  unfold get_repeat_kind
  rw [h4none, h3some]
  rfl

theorem select_combo_full_house (init_cards : List Card) (all : RepDict)
    (kH kL : Card) (suit : SuitRepeats) (hfom : suit.five_or_more = false) :
    select_combo init_cards
      { all := all, three := some kH, two := some kL, double_three := true } suit
      = some (FULL_HOUSE, full_house_cards init_cards kH kL, mkSequence init_cards) := by
  unfold select_combo
  rw [hfom]
  rfl

/-- C5: a seven-card group with two distinct triples (all other weights
unrepeated) and no five-card suit classifies as a full house whose set is the
higher-weight triple and whose pair is two cards of the lower-weight
triple. -/
theorem C5_two_triples (l : List Card) (hlen : l.length = 7)
    (hval : validCards l = true)
    (lw hw : Nat) (hlh : lw < hw)
    (hcl : wcount l lw = 3) (hch : wcount l hw = 3)
    (hother : ∀ c ∈ l, wNum c ≠ lw → wNum c ≠ hw → wcount l (wNum c) ≤ 1)
    (hflush : ∀ c ∈ l, scount l c.suit ≤ 4) :
    ∃ c, find_combo l = some c
      ∧ c.type = FULL_HOUSE
      ∧ c.weight.double_three = true
      ∧ (∃ kH kL, c.weight.three = some kH ∧ c.weight.two = some kL
          ∧ wNum kH = hw ∧ wNum kL = lw
          ∧ c.cards = (sortCards l).filter (fun card => cardEq card kH)
              ++ ((sortCards l).filter (fun card => cardEq card kL)).take 2)
      ∧ weightsOf c.cards = [hw, hw, hw, lw, lw] := by
  have hperm := sortCards_perm l
  have hvs : validCards (sortCards l) = true := validCards_perm hperm.symm hval
  have hcl' : wcount (sortCards l) lw = 3 := (wcount_perm hperm lw).trans hcl
  have hch' : wcount (sortCards l) hw = 3 := (wcount_perm hperm hw).trans hch
  have hsorted : (sortCards l).Pairwise (fun a b => wNum a ≤ wNum b) :=
    sortCards_sorted_wNum (fun c hc => (validCards_mem hval hc).1)
  have hother' : ∀ c ∈ sortCards l, wNum c ≠ lw → wNum c ≠ hw →
      wcount (sortCards l) (wNum c) ≤ 1 := by
    intro c hc hnl hnh
    rw [wcount_perm hperm (wNum c)]
    exact hother c (hperm.mem_iff.mp hc) hnl hnh
  obtain ⟨kL, kH, hRK, hkHw, hkLw, hkHsome, hkLsome⟩ :=
    two_triples_repeat_kind hvs hsorted hlh hcl' hch' hother'
  have hnes : sortCards l ≠ [] := by
    intro h
    rw [h] at hcl'
    simp [wcount] at hcl'
  obtain ⟨suitR, hfn, ⟨fc, cfl, hfcv, _, _, _, _⟩, hiff, hle⟩ := flush_analysis hnes hvs
  have hfom : suitR.five_or_more = false := by
    cases hfb : suitR.five_or_more with
    | false => rfl
    | true =>
      obtain ⟨c, hc, h5⟩ := hiff.mp hfb
      have := hflush c (hperm.mem_iff.mp hc)
      have hsc : scount (sortCards l) c.suit = scount l c.suit := scount_perm hperm c.suit
      omega
  have h1 : (get_all_repeats (sortCards l)).1
      = repFold (sortCards l) weightCardOf (sortCards l) ⟨[], []⟩ := by
    rw [get_all_repeats_eq]
  have hsel : select_combo (sortCards l)
      (get_repeat_kind (get_all_repeats (sortCards l)).1.all) suitR
      = some (FULL_HOUSE, full_house_cards (sortCards l) kH kL,
          mkSequence (sortCards l)) := by
    rw [h1, hRK]
    exact select_combo_full_house (sortCards l) _ kH kL suitR hfom
  have hfiltH : (sortCards l).filter (fun card => cardEq card kH)
      = (sortCards l).filter (fun card => wNum card == hw) :=
    List.filter_congr (fun c hc => by
      rw [cardEq_weighted (validCards_mem hvs hc).1 hkHsome, hkHw])
  have hfiltL : (sortCards l).filter (fun card => cardEq card kL)
      = (sortCards l).filter (fun card => wNum card == lw) :=
    List.filter_congr (fun c hc => by
      rw [cardEq_weighted (validCards_mem hvs hc).1 hkLsome, hkLw])
  have hlenH : ((sortCards l).filter (fun card => wNum card == hw)).length = 3 := hch'
  have hlenL : ((sortCards l).filter (fun card => wNum card == lw)).length = 3 := hcl'
  have hA : weightsOf ((sortCards l).filter (fun card => wNum card == hw))
      = [hw, hw, hw] := by
    rw [show [hw, hw, hw] = List.replicate 3 hw from rfl, List.eq_replicate_iff]
    constructor
    · rw [weightsOf, List.length_map, hlenH]
    · intro b hb
      obtain ⟨c, hc, hcb⟩ := List.mem_map.mp hb
      have hcw := (List.mem_filter.mp hc).2
      simp at hcw
      rw [← hcb]
      exact hcw
  have hB : weightsOf (((sortCards l).filter (fun card => wNum card == lw)).take 2)
      = [lw, lw] := by
    rw [show [lw, lw] = List.replicate 2 lw from rfl, List.eq_replicate_iff]
    constructor
    · rw [weightsOf, List.length_map, List.length_take, hlenL]
      decide
    · intro b hb
      obtain ⟨c, hc, hcb⟩ := List.mem_map.mp hb
      have hc' : c ∈ (sortCards l).filter (fun card => wNum card == lw) :=
        List.take_subset 2 _ hc
      have hcw := (List.mem_filter.mp hc').2
      simp at hcw
      rw [← hcb]
      exact hcw
  refine ⟨{ type := FULL_HOUSE, cards := full_house_cards (sortCards l) kH kL,
            init_cards := sortCards l,
            weight := get_repeat_kind (get_all_repeats (sortCards l)).1.all,
            suit := suitR, sequence := mkSequence (sortCards l) },
    ?_, rfl, ?_, ?_, ?_⟩
  · unfold find_combo
    have h2 : (get_all_repeats (sortCards l)).2
        = repFold (sortCards l) suitCardOf (sortCards l) ⟨[], []⟩ := by
      rw [get_all_repeats_eq]
    rw [h2, hfn]
    simp only [hsel]
  · show (get_repeat_kind (get_all_repeats (sortCards l)).1.all).double_three = true
    rw [h1, hRK]
  · refine ⟨kH, kL, ?_, ?_, hkHw, hkLw, rfl⟩
    · show (get_repeat_kind (get_all_repeats (sortCards l)).1.all).three = some kH
      rw [h1, hRK]
    · show (get_repeat_kind (get_all_repeats (sortCards l)).1.all).two = some kL
      rw [h1, hRK]
  · show weightsOf (full_house_cards (sortCards l) kH kL) = [hw, hw, hw, lw, lw]
    unfold full_house_cards
    rw [hfiltH, hfiltL]
    unfold weightsOf
    rw [List.map_append]
    unfold weightsOf at hA hB
    rw [hA, hB]
    rfl

/-- The spec's two-triple example group `3c/3d/3h/7c/7d/7h/2s`. -/
def c5_group : List Card :=
  [Card.ofSymbols '3' 'c', Card.ofSymbols '3' 'd', Card.ofSymbols '3' 'h',
   Card.ofSymbols '7' 'c', Card.ofSymbols '7' 'd', Card.ofSymbols '7' 'h',
   Card.ofSymbols '2' 's']

theorem C5_two_triples_witness :
    (c5_group.length = 7 ∧ validCards c5_group = true ∧ 2 < 6
      ∧ wcount c5_group 2 = 3 ∧ wcount c5_group 6 = 3
      ∧ (∀ c ∈ c5_group, wNum c ≠ 2 → wNum c ≠ 6 → wcount c5_group (wNum c) ≤ 1)
      ∧ (∀ c ∈ c5_group, scount c5_group c.suit ≤ 4))
    ∧ (∃ c, find_combo c5_group = some c
        ∧ c.type = FULL_HOUSE
        ∧ c.weight.double_three = true
        ∧ (∃ kH kL, c.weight.three = some kH ∧ c.weight.two = some kL
            ∧ wNum kH = 6 ∧ wNum kL = 2
            ∧ c.cards = (sortCards c5_group).filter (fun card => cardEq card kH)
                ++ ((sortCards c5_group).filter (fun card => cardEq card kL)).take 2)
        ∧ weightsOf c.cards = [6, 6, 6, 2, 2]) :=
  ⟨⟨by decide, by decide, by decide, by decide, by decide, by decide, by decide⟩,
   C5_two_triples c5_group (by decide) (by decide) 2 6 (by decide) (by decide)
     (by decide) (by decide) (by decide)⟩

/-! ## Claim C1: the flush selector -/

theorem filter_disjoint_length {α : Type} (l : List α) (p q : α → Bool)
    (h : ∀ x ∈ l, ¬(p x = true ∧ q x = true)) :
    (l.filter p).length + (l.filter q).length ≤ l.length := by
  induction l with
  | nil => simp
  | cons a t ih =>
    have iht := ih (fun x hx => h x (by simp [hx]))
    by_cases hp : p a = true
    · have hq : q a = false := by
        cases hqa : q a with
        | false => rfl
        | true => exact absurd ⟨hp, hqa⟩ (h a (by simp))
      simp only [List.filter_cons, hp, hq, if_true, Bool.false_eq_true, if_false,
        List.length_cons]
      omega
    · have hp' : p a = false := by
        cases hpa : p a with
        | false => rfl
        | true => exact absurd hpa hp
      by_cases hq : q a = true
      · simp only [List.filter_cons, hp', hq, if_true, Bool.false_eq_true, if_false,
          List.length_cons]
        omega
      · have hq' : q a = false := by
          cases hqa : q a with
          | false => rfl
          | true => exact absurd hqa hq
        simp only [List.filter_cons, hp', hq', Bool.false_eq_true, if_false,
          List.length_cons]
        omega

theorem flush_pick_seq_source (cs : List Card) (h5 : 5 ≤ cs.length) :
    flush_pick (seq_source cs) = flush_pick cs := by
  unfold seq_source
  by_cases hany : cs.any (fun e => cardEq e aceKey) = true
  · rw [if_pos hany]
    unfold one_more_ace
    cases hl : (cs.filter (fun card => cardEq card aceKey)).getLast? with
    | none => rfl
    | some ace =>
      unfold flush_pick
      rw [List.length_cons]
      have he : cs.length + 1 - 5 = (cs.length - 5) + 1 := by omega
      rw [he, List.drop_succ_cons]
  · rw [if_neg hany]

theorem mkSequence_cards (cs : List Card) : (mkSequence cs).cards = seq_source cs := by
  unfold mkSequence
  rcases hgo : find_order_go (get_rank (seq_source cs)) 0 0 0 [] with ⟨fst, hist⟩
  cases fst <;> rfl

/-- C1: when some suit of a valid group of at most 7 cards occurs at least
five times, the classifier takes the flush branch: the kind is flush or
straight flush — straight flush exactly when the sequence analysis restricted
to that suit's cards finds five in a row (its order cards becoming the
combination), plain flush otherwise, made of the top five cards of that suit
in descending weight order; no weight-repeat kind and no plain straight is
considered. -/
theorem C1_flush_selector (l : List Card) (hval : validCards l = true)
    (hlen : l.length ≤ 7) (c0 : Card) (hc0 : c0 ∈ l) (h5 : 5 ≤ scount l c0.suit) :
    ∃ c, find_combo l = some c
      ∧ (c.type = FLUSH ∨ c.type = STRAIGHT_FLUSH)
      ∧ (c.type = STRAIGHT_FLUSH
          ↔ (mkSequence ((sortCards l).filter (fun card => card.suit == c0.suit))).five_in_a_row
            = true)
      ∧ (c.type = STRAIGHT_FLUSH →
          c.sequence = mkSequence ((sortCards l).filter (fun card => card.suit == c0.suit))
          ∧ c.sequence.order_cards = some c.cards)
      ∧ (c.type = FLUSH →
          c.cards = flush_pick ((sortCards l).filter (fun card => card.suit == c0.suit))
          ∧ c.cards.Pairwise (fun a b => wNum b ≤ wNum a)
          ∧ (∀ x ∈ c.cards, x.suit = c0.suit)) := by
  have hne : l ≠ [] := fun h => by rw [h] at hc0; simp at hc0
  have hperm := sortCards_perm l
  have hvs : validCards (sortCards l) = true := validCards_perm hperm.symm hval
  have hnes : sortCards l ≠ [] := fun h => hne ((h ▸ hperm).symm.eq_nil)
  obtain ⟨c, hfc⟩ := find_combo_isSome hne hval
  obtain ⟨suitR, ty, cs, seq, hfn, hsel, hcrec⟩ := find_combo_some_decomp hfc
  obtain ⟨suitR', hfn', ⟨fc, cm, hfcv, hcm_mem, hfcw, hfcs, hcm_count⟩, hiff, hle⟩ :=
    flush_analysis hnes hvs
  have h2 : (get_all_repeats (sortCards l)).2
      = repFold (sortCards l) suitCardOf (sortCards l) ⟨[], []⟩ := by
    rw [get_all_repeats_eq]
  rw [h2] at hfn
  have hsuitEq : suitR = suitR' := by
    rw [hfn] at hfn'
    exact Option.some.inj hfn'
  subst hsuitEq
  have hc0s : c0 ∈ sortCards l := hperm.mem_iff.mpr hc0
  have h5s : 5 ≤ scount (sortCards l) c0.suit := by
    rw [scount_perm hperm]
    exact h5
  have hfom : suitR.five_or_more = true := hiff.mpr ⟨c0, hc0s, h5s⟩
  have hcml : 5 ≤ scount (sortCards l) cm.suit := by
    rw [hcm_count]
    exact le_trans h5s (hle c0 hc0s)
  have hsuit_eq : cm.suit = c0.suit := by
    by_contra hne2
    have hdisjH : ∀ x ∈ sortCards l,
        ¬((x.suit == c0.suit) = true ∧ (x.suit == cm.suit) = true) := by
      intro x hx hb
      obtain ⟨hx1, hx2⟩ := hb
      simp at hx1 hx2
      apply hne2
      rw [← hx2, hx1]
    have hdisj := filter_disjoint_length (sortCards l)
      (fun e => e.suit == c0.suit) (fun e => e.suit == cm.suit) hdisjH
    have hslen : (sortCards l).length = l.length := hperm.length_eq
    unfold scount at h5s hcml
    omega
  have hfcs0 : fc.suit = c0.suit := by rw [hfcs, hsuit_eq]
  have hfcsome : fc.suit.isSome = true := by
    rw [hfcs]
    exact (validCards_mem hvs hcm_mem).2.2
  rcases select_combo_cases hsel with ⟨hfom', -, -⟩ | ⟨-, fc2, hfc2, hseq, hcase⟩
  · rw [hfom] at hfom'
    exact Bool.noConfusion hfom'
  · have hfc2v : fc = fc2 := by
      rw [hfcv] at hfc2
      exact Option.some.inj hfc2
    subst hfc2v
    have hfilt : (sortCards l).filter (fun card => cardEq card fc)
        = (sortCards l).filter (fun card => card.suit == c0.suit) := by
      apply List.filter_congr
      intro card hcard
      rw [cardEq_suitless (validCards_mem hvs hcard).2.2 hfcsome hfcw, hfcs0]
    rw [hfilt] at hseq
    subst hcrec
    have hsorted_sc : ((sortCards l).filter (fun card => card.suit == c0.suit)).Pairwise
        (fun a b => wNum a ≤ wNum b) :=
      List.Pairwise.sublist (List.filter_sublist _)
        (sortCards_sorted_wNum (fun cx hcx => (validCards_mem hval hcx).1))
    rcases hcase with ⟨h5r, hoc, hty⟩ | ⟨h5r, hty, hcs⟩
    · subst hty
      refine ⟨_, hfc, Or.inr rfl, ?_, ?_, ?_⟩
      · exact ⟨fun _ => hseq ▸ h5r, fun _ => rfl⟩
      · intro _
        exact ⟨hseq, hoc⟩
      · intro habs
        exact absurd (show (9 : Nat) = 6 from habs) (by decide)
    · subst hty
      subst hcs
      have hcards : flush_pick seq.cards
          = flush_pick ((sortCards l).filter (fun card => card.suit == c0.suit)) := by
        rw [hseq, mkSequence_cards]
        exact flush_pick_seq_source _ h5s
      refine ⟨_, hfc, Or.inl rfl, ?_, ?_, ?_⟩
      · constructor
        · intro habs
          exact absurd (show (6 : Nat) = 9 from habs) (by decide)
        · intro hfive
          rw [← hseq] at hfive
          rw [h5r] at hfive
          exact Bool.noConfusion hfive
      · intro habs
        exact absurd (show (6 : Nat) = 9 from habs) (by decide)
      · intro _
        refine ⟨hcards, ?_, ?_⟩
        · show (flush_pick seq.cards).Pairwise (fun a b => wNum b ≤ wNum a)
          rw [hcards]
          unfold flush_pick
          rw [List.pairwise_reverse]
          exact List.Pairwise.sublist (List.drop_sublist _ _) hsorted_sc
        · intro x hx
          have hx' : x ∈ flush_pick seq.cards := hx
          rw [hcards] at hx'
          unfold flush_pick at hx'
          have hx1 := List.mem_reverse.mp hx'
          have hx2 := List.drop_subset _ _ hx1
          have := (List.mem_filter.mp hx2).2
          simpa using this

/-- A seven-card group with five spades and no straight flush. -/
def c1_group : List Card :=
  [Card.ofSymbols '2' 's', Card.ofSymbols '4' 's', Card.ofSymbols '7' 's',
   Card.ofSymbols '9' 's', Card.ofSymbols 'J' 's', Card.ofSymbols 'A' 'h',
   Card.ofSymbols '3' 'd']

theorem C1_flush_selector_witness :
    (validCards c1_group = true ∧ c1_group.length ≤ 7
      ∧ Card.ofSymbols '2' 's' ∈ c1_group
      ∧ 5 ≤ scount c1_group (Card.ofSymbols '2' 's').suit)
    ∧ (∃ c, find_combo c1_group = some c
        ∧ (c.type = FLUSH ∨ c.type = STRAIGHT_FLUSH)
        ∧ (c.type = STRAIGHT_FLUSH
            ↔ (mkSequence ((sortCards c1_group).filter
                (fun card => card.suit == (Card.ofSymbols '2' 's').suit))).five_in_a_row
              = true)
        ∧ (c.type = STRAIGHT_FLUSH →
            c.sequence = mkSequence ((sortCards c1_group).filter
              (fun card => card.suit == (Card.ofSymbols '2' 's').suit))
            ∧ c.sequence.order_cards = some c.cards)
        ∧ (c.type = FLUSH →
            c.cards = flush_pick ((sortCards c1_group).filter
              (fun card => card.suit == (Card.ofSymbols '2' 's').suit))
            ∧ c.cards.Pairwise (fun a b => wNum b ≤ wNum a)
            ∧ (∀ x ∈ c.cards, x.suit = (Card.ofSymbols '2' 's').suit))) :=
  ⟨⟨by decide, by decide, by decide, by decide⟩,
   C1_flush_selector c1_group (by decide) (by decide) (Card.ofSymbols '2' 's')
     (by decide) (by decide)⟩

/-! ## Claim C2: shape of the classified combination -/

theorem beq_comm_nat (a b : Nat) : (a == b) = (b == a) := by
  by_cases h : a = b
  · simp [h]
  · simp [h, Ne.symm h]

theorem filter_not_length {α : Type} (l : List α) (p : α → Bool) :
    (l.filter p).length + (l.filter (fun x => !(p x))).length = l.length := by
  induction l with
  | nil => rfl
  | cons a t ih =>
    by_cases hp : p a = true
    · simp only [List.filter_cons, hp, Bool.not_true, if_true, Bool.false_eq_true, if_false,
        List.length_cons]
      omega
    · have hp' : p a = false := by
        cases hpa : p a with
        | false => rfl
        | true => exact absurd hpa hp
      simp only [List.filter_cons, hp', Bool.not_false, if_true, Bool.false_eq_true, if_false,
        List.length_cons]
      omega

theorem filter_or_length {α : Type} (l : List α) (p q : α → Bool)
    (hdisj : ∀ x ∈ l, ¬(p x = true ∧ q x = true)) :
    (l.filter (fun x => p x || q x)).length = (l.filter p).length + (l.filter q).length := by
  induction l with
  | nil => rfl
  | cons a t ih =>
    have iht := ih (fun x hx => hdisj x (by simp [hx]))
    by_cases hp : p a = true
    · have hq : q a = false := by
        cases hqa : q a with
        | false => rfl
        | true => exact absurd ⟨hp, hqa⟩ (hdisj a (by simp))
      rw [List.filter_cons_of_pos (by rw [hp]; rfl), List.filter_cons_of_pos hp,
        List.filter_cons_of_neg (by rw [hq]; simp), List.length_cons, List.length_cons,
        iht]
      omega
    · have hp' : p a = false := by
        cases hpa : p a with
        | false => rfl
        | true => exact absurd hpa hp
      by_cases hq : q a = true
      · rw [List.filter_cons_of_pos (by rw [hp', hq]; rfl), List.filter_cons_of_pos hq,
          List.filter_cons_of_neg (by rw [hp']; simp), List.length_cons, List.length_cons,
          iht]
        omega
      · have hq' : q a = false := by
          cases hqa : q a with
          | false => rfl
          | true => exact absurd hqa hq
        rw [List.filter_cons_of_neg (by rw [hp', hq']; simp),
          List.filter_cons_of_neg (by rw [hp']; simp),
          List.filter_cons_of_neg (by rw [hq']; simp), iht]

theorem any_const {α : Type} : ∀ (l : List α) (p : α → Bool) (b : Bool), l ≠ [] →
    (∀ e ∈ l, p e = b) → l.any p = b
  | [], _, _, hne, _ => absurd rfl hne
  | [a], p, b, _, h => by simp [h a (by simp)]
  | a :: a2 :: t, p, b, _, h => by
    rw [List.any_cons, h a (by simp),
      any_const (a2 :: t) p b (by simp) (fun e he => h e (by simp [he]))]
    cases b <;> rfl

theorem flush_pick_length {xs : List Card} (h : 5 ≤ xs.length) :
    (flush_pick xs).length = 5 := by
  unfold flush_pick
  rw [List.length_reverse, List.length_drop]
  omega

theorem flush_pick_desc {xs : List Card} (hs : xs.Pairwise (fun a b => wNum a ≤ wNum b)) :
    (flush_pick xs).Pairwise (fun a b => wNum b ≤ wNum a) := by
  unfold flush_pick
  rw [List.pairwise_reverse]
  exact hs.sublist (List.drop_sublist _ _)

theorem seq_source_length (cs : List Card) : cs.length ≤ (seq_source cs).length := by
  unfold seq_source
  by_cases hany : cs.any (fun e => cardEq e aceKey) = true
  · rw [if_pos hany]
    unfold one_more_ace
    cases hl : (cs.filter (fun card => cardEq card aceKey)).getLast? with
    | none => exact le_refl _
    | some ace => simp
  · rw [if_neg hany]

theorem seq_source_sorted {cs : List Card} (hs : cs.Pairwise (fun a b => wNum a ≤ wNum b)) :
    (seq_source cs).Pairwise (fun a b => wNum a ≤ wNum b) := by
  unfold seq_source
  by_cases hany : cs.any (fun e => cardEq e aceKey) = true
  · rw [if_pos hany]
    unfold one_more_ace
    cases hl : (cs.filter (fun card => cardEq card aceKey)).getLast? with
    | none => exact hs
    | some ace =>
      refine List.Pairwise.cons ?_ hs
      intro x _
      exact Nat.zero_le _
  · rw [if_neg hany]
    exact hs

theorem seq_source_suits {cs : List Card} (hval : validCards cs = true) :
    ∀ c ∈ seq_source cs, c.suit.isSome = true := by
  unfold seq_source
  by_cases hany : cs.any (fun e => cardEq e aceKey) = true
  · rw [if_pos hany]
    unfold one_more_ace
    cases hl : (cs.filter (fun card => cardEq card aceKey)).getLast? with
    | none => exact fun c hc => (validCards_mem hval hc).2.2
    | some ace =>
      intro c hc
      rcases List.mem_cons.mp hc with h | h
      · rw [h]
        show ace.suit.isSome = true
        exact (validCards_mem hval
          (List.mem_filter.mp (List.mem_of_mem_getLast? hl)).1).2.2
      · exact (validCards_mem hval h).2.2
  · rw [if_neg hany]
    exact fun c hc => (validCards_mem hval hc).2.2

theorem validCards_sublist {l1 l2 : List Card} (h : l1.Sublist l2)
    (hval : validCards l2 = true) : validCards l1 = true := by
  unfold validCards at *
  rw [List.all_eq_true] at *
  exact fun c hc => hval c (h.subset hc)

theorem sorted_filter_append {s : List Card}
    (hsorted : s.Pairwise (fun a b => wNum a ≤ wNum b)) {w1 w2 : Nat} (h12 : w1 < w2) :
    s.filter (fun card => (wNum card == w1) || (wNum card == w2))
      = s.filter (fun card => wNum card == w1) ++ s.filter (fun card => wNum card == w2) := by
  induction s with
  | nil => rfl
  | cons a t ih =>
    have iht := ih (List.Pairwise.of_cons hsorted)
    by_cases h1 : wNum a = w1
    · have hc1 : (wNum a == w1) = true := by simp [h1]
      have hc2 : (wNum a == w2) = false := by simp; omega
      rw [List.filter_cons_of_pos (by rw [hc1]; rfl),
        show (a :: t).filter (fun card => wNum card == w1)
          = a :: t.filter (fun card => wNum card == w1)
          from List.filter_cons_of_pos hc1,
        show (a :: t).filter (fun card => wNum card == w2)
          = t.filter (fun card => wNum card == w2)
          from List.filter_cons_of_neg (by rw [hc2]; simp),
        iht, List.cons_append]
    · by_cases h2 : wNum a = w2
      · have hc1 : (wNum a == w1) = false := by simp [h1]
        have hc2 : (wNum a == w2) = true := by simp [h2]
        have ht1 : t.filter (fun card => wNum card == w1) = [] := by
          rw [List.filter_eq_nil_iff]
          intro x hx
          have hax := List.rel_of_pairwise_cons hsorted hx
          simp
          omega
        rw [List.filter_cons_of_pos (by rw [hc1, hc2]; rfl),
          show (a :: t).filter (fun card => wNum card == w1)
            = t.filter (fun card => wNum card == w1)
            from List.filter_cons_of_neg (by rw [hc1]; simp),
          show (a :: t).filter (fun card => wNum card == w2)
            = a :: t.filter (fun card => wNum card == w2)
            from List.filter_cons_of_pos hc2,
          iht, ht1]
        rfl
      · have hc1 : (wNum a == w1) = false := by simp [h1]
        have hc2 : (wNum a == w2) = false := by simp [h2]
        rw [List.filter_cons_of_neg (by rw [hc1, hc2]; simp),
          show (a :: t).filter (fun card => wNum card == w1)
            = t.filter (fun card => wNum card == w1)
            from List.filter_cons_of_neg (by rw [hc1]; simp),
          show (a :: t).filter (fun card => wNum card == w2)
            = t.filter (fun card => wNum card == w2)
            from List.filter_cons_of_neg (by rw [hc2]; simp),
          iht]

theorem relFirstWindow_le {bits : List Bool} {b : Nat} (h : relFirstWindow bits = some b) :
    b + 4 < bits.length := by
  unfold relFirstWindow at h
  have hfind := List.find?_some h
  have hb4 := windowAt_true_elim hfind 4 (by omega)
  by_contra hge
  rw [List.getD_eq_getElem?_getD, List.getElem?_eq_none (by omega)] at hb4
  simp at hb4

/-- The order cards of a detected run: five cards, strictly descending rank
slots. -/
theorem mkSequence_order_desc (cards0 : List Card)
    (hsuit : ∀ c ∈ seq_source cards0, c.suit.isSome = true)
    {oc : List Card} (hoc : (mkSequence cards0).order_cards = some oc) :
    oc.length = 5 ∧ oc.Pairwise (fun a b => wNum b ≤ wNum a) := by
  rw [mkSequence_order] at hoc
  cases hrfw : relFirstWindow (rankBits (seq_source cards0)) with
  | none =>
    rw [hrfw] at hoc
    simp at hoc
  | some b =>
    rw [hrfw] at hoc
    have hoc2 : ((get_rank (seq_source cards0)).drop b).take 5 = oc := Option.some.inj hoc
    have hble : b + 4 < 14 := by
      have := relFirstWindow_le hrfw
      rwa [rankBits_length] at this
    have hwin : windowAt (rankBits (seq_source cards0)) b = true := by
      unfold relFirstWindow at hrfw
      exact List.find?_some hrfw
    have hslot : ∀ j, j < 5 → ∀ d,
        wNum ((get_rank (seq_source cards0)).getD (b + j) d) = 13 - (b + j) := by
      intro j hj d
      have hbit := windowAt_true_elim hwin j hj
      rw [rankBits_getD _ _ (by omega) hsuit] at hbit
      obtain ⟨cw, hlast, hhit⟩ := slot_last hbit
      rw [get_rank_getD _ _ _ (by omega), hlast]
      exact hitsSlot_wNum hhit
    have hoclen : oc.length = 5 := by
      rw [← hoc2, List.length_take, List.length_drop, get_rank_length]
      omega
    refine ⟨hoclen, ?_⟩
    have hgj : ∀ j, j < 5 → ∀ d, oc.getD j d = (get_rank (seq_source cards0)).getD (b + j) d := by
      intro j hj d
      rw [← hoc2]
      exact drop_take_getD _ b j d hj (by rw [get_rank_length]; omega)
    have hwj : ∀ j, j < 5 → wNum (oc.getD j (rankCard 0)) = 13 - (b + j) := by
      intro j hj
      rw [hgj j hj]
      exact hslot j hj _
    rw [list_eq_five oc (rankCard 0) hoclen]
    have h0 := hwj 0 (by omega)
    have h1 := hwj 1 (by omega)
    have h2 := hwj 2 (by omega)
    have h3 := hwj 3 (by omega)
    have h4 := hwj 4 (by omega)
    simp only [List.pairwise_cons, List.mem_cons, List.mem_singleton, List.not_mem_nil,
      List.Pairwise.nil]
    refine ⟨?_, ?_, ?_, ?_, by simp⟩ <;> intro x hx <;>
      rcases hx with h | h | h | h | h <;> first
        | (rw [h, h0] <;> omega)
        | (rw [h, h1] <;> omega)
        | (rw [h, h2] <;> omega)
        | (rw [h, h3] <;> omega)
        | (rw [h, h4] <;> omega)
        | (simp at h)

theorem get_other_cards_full (self all : List Card)
    (hsorted : all.Pairwise (fun a b => wNum a ≤ wNum b))
    (hpool : 1 ≤ (all.filter (fun card => !(self.any (fun e => cardEq e card)))).length) :
    ∃ ks, get_other_cards self all = self ++ ks
      ∧ ks.Pairwise (fun a b => wNum b ≤ wNum a)
      ∧ ks.length = min (5 - self.length)
          (all.filter (fun card => !(self.any (fun e => cardEq e card)))).length := by
  unfold get_other_cards
  cases hpoolnil : all.filter (fun card => !(self.any (fun e => cardEq e card))) with
  | nil =>
    rw [hpoolnil] at hpool
    simp at hpool
  | cons a t =>
    refine ⟨(a :: t).reverse.take (5 - self.length), rfl, ?_, ?_⟩
    · have hsub : (a :: t).Sublist all := by
        rw [← hpoolnil]
        exact List.filter_sublist _
      have hasc := hsorted.sublist hsub
      exact (List.pairwise_reverse.mpr hasc).sublist (List.take_sublist _ _)
    · rw [List.length_take, List.length_reverse]

theorem pool_const {s : List Card} (hval : validCards s = true) (self : List Card)
    {w0 : Nat} (hne : self ≠ []) (hw : ∀ e ∈ self, e.weight.isSome = true ∧ wNum e = w0) :
    s.filter (fun card => !(self.any (fun e => cardEq e card)))
      = s.filter (fun card => !(wNum card == w0)) := by
  apply List.filter_congr
  intro card hcard
  have hcw := (validCards_mem hval hcard).1
  have hany : self.any (fun e => cardEq e card) = (w0 == wNum card) := by
    apply any_const self _ _ hne
    intro e he
    rw [cardEq_weighted (hw e he).1 hcw, (hw e he).2]
  rw [hany, beq_comm_nat]

theorem pool_const_length {s : List Card} (hval : validCards s = true) (self : List Card)
    {w0 : Nat} (hne : self ≠ []) (hw : ∀ e ∈ self, e.weight.isSome = true ∧ wNum e = w0) :
    (s.filter (fun card => !(self.any (fun e => cardEq e card)))).length
      = s.length - wcount s w0 := by
  rw [pool_const hval self hne hw]
  have h1 := filter_not_length s (fun card => wNum card == w0)
  have h2 : (s.filter (fun card => wNum card == w0)).length = wcount s w0 := rfl
  omega

theorem list_eq_two {α : Type} : ∀ (l : List α), l.length = 2 → ∃ a b, l = [a, b]
  | [a, b], _ => ⟨a, b, rfl⟩
  | [], h => by simp at h
  | [_], h => by simp at h
  | _ :: _ :: _ :: _, h => by
    simp only [List.length_cons] at h
    omega

/-- Per-branch facts about `get_repeat_kind` over the weight dictionary of a
valid sorted list: each selected key card is weighted and realises the
corresponding occurrence count. -/
theorem repeat_kind_cases {s : List Card} (hval : validCards s = true)
    (hsorted : s.Pairwise (fun a b => wNum a ≤ wNum b)) :
    (∀ f, (get_repeat_kind (repFold s weightCardOf s ⟨[], []⟩).all).four = some f →
        f.weight.isSome = true ∧ wcount s (wNum f) = 4)
    ∧ (∀ t, (get_repeat_kind (repFold s weightCardOf s ⟨[], []⟩).all).three = some t →
        t.weight.isSome = true ∧ wcount s (wNum t) = 3)
    ∧ (∀ p, (get_repeat_kind (repFold s weightCardOf s ⟨[], []⟩).all).two = some p →
        p.weight.isSome = true ∧ 2 ≤ wcount s (wNum p) ∧ wcount s (wNum p) ≤ 3)
    ∧ (∀ dd, (get_repeat_kind (repFold s weightCardOf s ⟨[], []⟩).all).double_two = some dd →
        ∃ k1 k2, dd = [k1, k2] ∧ k1.weight.isSome = true ∧ k2.weight.isSome = true
          ∧ wNum k1 < wNum k2 ∧ wcount s (wNum k1) = 2 ∧ wcount s (wNum k2) = 2)
    ∧ (∀ p, (get_repeat_kind (repFold s weightCardOf s ⟨[], []⟩).all).three = none →
        (get_repeat_kind (repFold s weightCardOf s ⟨[], []⟩).all).two = some p →
        wcount s (wNum p) = 2) := by
  obtain ⟨hKw, hKall, hKdist, hDict, hKsub⟩ := weight_analysis hval
  have hKsort : (repFold s weightCardOf s ⟨[], []⟩).cards.Pairwise
      (fun a b => wNum a ≤ wNum b) :=
    List.Pairwise.sublist hKsub (List.pairwise_map.mpr hsorted)
  have hbfact : ∀ (n : Nat) (x : Card), x ∈ (repFold s weightCardOf s ⟨[], []⟩).cards.filter
      (fun k => countCardEq s k == n) → x.weight.isSome = true ∧ wcount s (wNum x) = n := by
    intro n x hx
    obtain ⟨hxK, hpred⟩ := List.mem_filter.mp hx
    obtain ⟨hw, hc⟩ := hKw x hxK
    simp at hpred
    exact ⟨hw, by rw [← hc]; exact hpred⟩
  cases hb4 : (repFold s weightCardOf s ⟨[], []⟩).cards.filter
      (fun k => countCardEq s k == 4) with
  | cons f4 t4 =>
    have hGR : get_repeat_kind (repFold s weightCardOf s ⟨[], []⟩).all
        = { all := (repFold s weightCardOf s ⟨[], []⟩).all, four := some f4 } := by
      unfold get_repeat_kind
      rw [hDict 4, hb4]
      rfl
    rw [hGR]
    refine ⟨?_, ?_, ?_, ?_, ?_⟩
    · intro f hf
      have hf4 : f4 = f := Option.some.inj hf
      subst hf4
      exact hbfact 4 f4 (by rw [hb4]; simp)
    · intro t ht
      exact absurd ht (by simp)
    · intro p hp
      exact absurd hp (by simp)
    · intro dd hdd
      exact absurd hdd (by simp)
    · intro p h3 hp
      exact absurd hp (by simp)
  | nil =>
    cases hb3 : (repFold s weightCardOf s ⟨[], []⟩).cards.filter
        (fun k => countCardEq s k == 3) with
    | cons f3 t3 =>
      have hm3 : ∀ x, (f3 :: t3).getLast? = some x →
          x.weight.isSome = true ∧ wcount s (wNum x) = 3 := by
        intro x hx
        refine hbfact 3 x ?_
        rw [hb3]
        exact List.mem_of_mem_getLast? hx
      cases t3 with
      | nil =>
        cases hb2 : (repFold s weightCardOf s ⟨[], []⟩).cards.filter
            (fun k => countCardEq s k == 2) with
        | nil =>
          have hGR : get_repeat_kind (repFold s weightCardOf s ⟨[], []⟩).all
              = { all := (repFold s weightCardOf s ⟨[], []⟩).all, three := some f3 } := by
            unfold get_repeat_kind
            rw [hDict 4, hb4, hDict 3, hb3, hDict 2, hb2]
            rfl
          rw [hGR]
          refine ⟨fun f hf => absurd hf (by simp), ?_, fun p hp => absurd hp (by simp),
            fun dd hdd => absurd hdd (by simp), fun p h3 hp => absurd h3 (by simp)⟩
          intro t ht
          have h3 : f3 = t := Option.some.inj ht
          subst h3
          exact hbfact 3 f3 (by rw [hb3]; simp)
        | cons f2 t2 =>
          have hGR : get_repeat_kind (repFold s weightCardOf s ⟨[], []⟩).all
              = { all := (repFold s weightCardOf s ⟨[], []⟩).all, three := some f3,
                  two := (f2 :: t2).getLast? } := by
            unfold get_repeat_kind
            rw [hDict 4, hb4, hDict 3, hb3, hDict 2, hb2]
            rfl
          rw [hGR]
          refine ⟨fun f hf => absurd hf (by simp), ?_, ?_,
            fun dd hdd => absurd hdd (by simp), fun p h3 hp => absurd h3 (by simp)⟩
          · intro t ht
            have h3 : f3 = t := Option.some.inj ht
            subst h3
            exact hbfact 3 f3 (by rw [hb3]; simp)
          · intro p hp
            have hp2 := hbfact 2 p (by
              rw [hb2]
              exact List.mem_of_mem_getLast? hp)
            exact ⟨hp2.1, by omega, by omega⟩
      | cons k2 t3' =>
        cases t3' with
        | nil =>
          have hGR : get_repeat_kind (repFold s weightCardOf s ⟨[], []⟩).all
              = { all := (repFold s weightCardOf s ⟨[], []⟩).all, three := some k2,
                  two := some f3, double_three := true } := by
            unfold get_repeat_kind
            rw [hDict 4, hb4, hDict 3, hb3]
            rfl
          rw [hGR]
          refine ⟨fun f hf => absurd hf (by simp), ?_, ?_,
            fun dd hdd => absurd hdd (by simp), fun p h3 hp => absurd h3 (by simp)⟩
          · intro t ht
            have h3 : k2 = t := Option.some.inj ht
            subst h3
            exact hbfact 3 k2 (by rw [hb3]; simp)
          · intro p hp
            have h3 : f3 = p := Option.some.inj hp
            subst h3
            have := hbfact 3 f3 (by rw [hb3]; simp)
            exact ⟨this.1, by omega, by omega⟩
        | cons k3 t3'' =>
          cases hb2 : (repFold s weightCardOf s ⟨[], []⟩).cards.filter
              (fun k => countCardEq s k == 2) with
          | nil =>
            have hGR : get_repeat_kind (repFold s weightCardOf s ⟨[], []⟩).all
                = { all := (repFold s weightCardOf s ⟨[], []⟩).all,
                    three := (f3 :: k2 :: k3 :: t3'').getLast? } := by
              unfold get_repeat_kind
              rw [hDict 4, hb4, hDict 3, hb3, hDict 2, hb2]
              rfl
            rw [hGR]
            refine ⟨fun f hf => absurd hf (by simp), ?_, fun p hp => absurd hp (by simp),
              fun dd hdd => absurd hdd (by simp), fun p h3 hp => absurd h3 (by simp)⟩
            intro t ht
            exact hm3 t ht
          | cons f2 t2 =>
            have hGR : get_repeat_kind (repFold s weightCardOf s ⟨[], []⟩).all
                = { all := (repFold s weightCardOf s ⟨[], []⟩).all,
                    three := (f3 :: k2 :: k3 :: t3'').getLast?,
                    two := (f2 :: t2).getLast? } := by
              unfold get_repeat_kind
              rw [hDict 4, hb4, hDict 3, hb3, hDict 2, hb2]
              rfl
            rw [hGR]
            refine ⟨fun f hf => absurd hf (by simp), ?_, ?_,
              fun dd hdd => absurd hdd (by simp), ?_⟩
            · intro t ht
              exact hm3 t ht
            · intro p hp
              have hp2 := hbfact 2 p (by
                rw [hb2]
                exact List.mem_of_mem_getLast? hp)
              exact ⟨hp2.1, by omega, by omega⟩
            · intro p h3 hp
              exact absurd h3 (by
                simp only []
                intro hcontr
                cases hcr : (f3 :: k2 :: k3 :: t3'').getLast? with
                | none =>
                  rw [List.getLast?_eq_none_iff] at hcr
                  simp at hcr
                | some v =>
                  rw [hcr] at hcontr
                  simp at hcontr)
    | nil =>
      cases hb2 : (repFold s weightCardOf s ⟨[], []⟩).cards.filter
          (fun k => countCardEq s k == 2) with
      | nil =>
        have hGR : get_repeat_kind (repFold s weightCardOf s ⟨[], []⟩).all
            = { all := (repFold s weightCardOf s ⟨[], []⟩).all } := by
          unfold get_repeat_kind
          rw [hDict 4, hb4, hDict 3, hb3, hDict 2, hb2]
          rfl
        rw [hGR]
        exact ⟨fun f hf => absurd hf (by simp), fun t ht => absurd ht (by simp),
          fun p hp => absurd hp (by simp), fun dd hdd => absurd hdd (by simp),
          fun p h3 hp => absurd hp (by simp)⟩
      | cons f2 t2 =>
        cases t2 with
        | nil =>
          have hGR : get_repeat_kind (repFold s weightCardOf s ⟨[], []⟩).all
              = { all := (repFold s weightCardOf s ⟨[], []⟩).all, two := some f2 } := by
            unfold get_repeat_kind
            rw [hDict 4, hb4, hDict 3, hb3, hDict 2, hb2]
            rfl
          rw [hGR]
          refine ⟨fun f hf => absurd hf (by simp), fun t ht => absurd ht (by simp), ?_,
            fun dd hdd => absurd hdd (by simp), ?_⟩
          · intro p hp
            have h2 : f2 = p := Option.some.inj hp
            subst h2
            have := hbfact 2 f2 (by rw [hb2]; simp)
            exact ⟨this.1, by omega, by omega⟩
          · intro p h3 hp
            have h2 : f2 = p := Option.some.inj hp
            subst h2
            exact (hbfact 2 f2 (by rw [hb2]; simp)).2
        | cons f2' t2' =>
          have hGR0 : get_repeat_kind (repFold s weightCardOf s ⟨[], []⟩).all
              = (if (f2 :: f2' :: t2').length > 1 then
                  { all := (repFold s weightCardOf s ⟨[], []⟩).all,
                    double_two := some ((f2 :: f2' :: t2').drop ((f2 :: f2' :: t2').length - 2)),
                    triple_two := (f2 :: f2' :: t2').length == 3 }
                 else
                  { all := (repFold s weightCardOf s ⟨[], []⟩).all,
                    two := (f2 :: f2' :: t2').getLast? }) := by
            unfold get_repeat_kind
            rw [hDict 4, hb4, hDict 3, hb3, hDict 2, hb2]
            rfl
          have hGR : get_repeat_kind (repFold s weightCardOf s ⟨[], []⟩).all
              = { all := (repFold s weightCardOf s ⟨[], []⟩).all,
                  double_two := some ((f2 :: f2' :: t2').drop ((f2 :: f2' :: t2').length - 2)),
                  triple_two := (f2 :: f2' :: t2').length == 3 } := by
            rw [hGR0, if_pos (by simp only [List.length_cons]; omega)]
          rw [hGR]
          refine ⟨fun f hf => absurd hf (by simp), fun t ht => absurd ht (by simp),
            fun p hp => absurd hp (by simp), ?_, fun p h3 hp => absurd hp (by simp)⟩
          intro dd hdd
          have hddv : (f2 :: f2' :: t2').drop ((f2 :: f2' :: t2').length - 2) = dd :=
            Option.some.inj hdd
          have hddsub : dd.Sublist (f2 :: f2' :: t2') := by
            rw [← hddv]
            exact List.drop_sublist _ _
          have hddlen : dd.length = 2 := by
            rw [← hddv, List.length_drop]
            simp only [List.length_cons]
            omega
          obtain ⟨k1, k2, hdd2⟩ := list_eq_two dd hddlen
          have hsubK : dd.Sublist (repFold s weightCardOf s ⟨[], []⟩).cards := by
            refine hddsub.trans ?_
            rw [← hb2]
            exact List.filter_sublist _
          have hk1m : k1 ∈ (repFold s weightCardOf s ⟨[], []⟩).cards.filter
              (fun k => countCardEq s k == 2) := by
            rw [hb2]
            exact hddsub.subset (by rw [hdd2]; simp)
          have hk2m : k2 ∈ (repFold s weightCardOf s ⟨[], []⟩).cards.filter
              (fun k => countCardEq s k == 2) := by
            rw [hb2]
            exact hddsub.subset (by rw [hdd2]; simp)
          obtain ⟨hk1w, hk1c⟩ := hbfact 2 k1 hk1m
          obtain ⟨hk2w, hk2c⟩ := hbfact 2 k2 hk2m
          have hddsort : dd.Pairwise (fun a b => wNum a ≤ wNum b) :=
            List.Pairwise.sublist hsubK hKsort
          have hdddist : dd.Pairwise (fun a b => cardEq a b = false) :=
            List.Pairwise.sublist hsubK hKdist
          rw [hdd2] at hddsort hdddist
          have hle12 : wNum k1 ≤ wNum k2 := List.rel_of_pairwise_cons hddsort (by simp)
          have hne12 : cardEq k1 k2 = false := List.rel_of_pairwise_cons hdddist (by simp)
          rw [cardEq_weighted hk1w hk2w] at hne12
          have hlt12 : wNum k1 < wNum k2 := by
            rcases Nat.lt_or_ge (wNum k1) (wNum k2) with h | h
            · exact h
            · have : wNum k1 = wNum k2 := by omega
              rw [this] at hne12
              simp at hne12
          exact ⟨k1, k2, hdd2, hk1w, hk2w, hlt12, hk1c, hk2c⟩

/-- Spec-side (claim C2): length of the combination-defining prefix per kind,
as the specification describes the output order. -/
def specDefiningLen (ty : Nat) : Nat :=
  if ty == FOUR_OF_A_KIND then 4
  else if ty == FULL_HOUSE then 5
  else if ty == THREE_OF_A_KIND then 3
  else if ty == TWO_PAIRS then 4
  else if ty == ONE_PAIR then 2
  else 0

/-- Spec-side (claim C2): the five cards come combination-defining-first (each
defining sub-group of one weight), kickers last in descending weight order;
kinds whose five cards are all defining are wholly descending. -/
def specOrderedCards (ty : Nat) (cards : List Card) : Prop :=
  (cards.drop (specDefiningLen ty)).Pairwise (fun a b => wNum b ≤ wNum a)
  ∧ (ty = FOUR_OF_A_KIND → ∃ w, ∀ x ∈ cards.take 4, wNum x = w)
  ∧ (ty = FULL_HOUSE → ∃ w1 w2, (∀ x ∈ cards.take 3, wNum x = w1)
      ∧ (∀ x ∈ cards.drop 3, wNum x = w2))
  ∧ (ty = THREE_OF_A_KIND → ∃ w, ∀ x ∈ cards.take 3, wNum x = w)
  ∧ (ty = TWO_PAIRS → ∃ w1 w2, (∀ x ∈ cards.take 2, wNum x = w1)
      ∧ (∀ x ∈ (cards.drop 2).take 2, wNum x = w2))
  ∧ (ty = ONE_PAIR → ∃ w, ∀ x ∈ cards.take 2, wNum x = w)
  ∧ ((ty = HIGH_CARD ∨ ty = STRAIGHT ∨ ty = FLUSH ∨ ty = STRAIGHT_FLUSH) →
      cards.Pairwise (fun a b => wNum b ≤ wNum a))

/-- The shared analysis of the `get_other_cards` kinds: the combination is the
weight-equal defining cards followed by descending kickers, five in total. -/
theorem branch_common (l : List Card) (hval : validCards l = true) (hlen5 : 5 ≤ l.length)
    (key : Card) (n : Nat) (hkw : key.weight.isSome = true)
    (hkc : wcount (sortCards l) (wNum key) = n) (hn2 : 2 ≤ n) (hn4 : n ≤ 4) :
    ∃ ks, get_other_cards ((sortCards l).filter (fun card => cardEq card key)) (sortCards l)
        = (sortCards l).filter (fun card => cardEq card key) ++ ks
      ∧ ks.Pairwise (fun a b => wNum b ≤ wNum a)
      ∧ ((sortCards l).filter (fun card => cardEq card key)).length = n
      ∧ ks.length = 5 - n
      ∧ (∀ x ∈ (sortCards l).filter (fun card => cardEq card key), wNum x = wNum key) := by
  have hperm := sortCards_perm l
  have hvs : validCards (sortCards l) = true := validCards_perm hperm.symm hval
  have hslen : (sortCards l).length = l.length := hperm.length_eq
  have hsorted : (sortCards l).Pairwise (fun a b => wNum a ≤ wNum b) :=
    sortCards_sorted_wNum (fun c hc => (validCards_mem hval hc).1)
  have hfe : (sortCards l).filter (fun card => cardEq card key)
      = (sortCards l).filter (fun card => wNum card == wNum key) :=
    List.filter_congr (fun c hc => cardEq_weighted (validCards_mem hvs hc).1 hkw)
  have hselflen : ((sortCards l).filter (fun card => cardEq card key)).length = n := by
    rw [hfe]
    exact hkc
  have hwconst : ∀ x ∈ (sortCards l).filter (fun card => cardEq card key), wNum x = wNum key := by
    intro x hx
    obtain ⟨hxm, hxp⟩ := List.mem_filter.mp hx
    rw [cardEq_weighted (validCards_mem hvs hxm).1 hkw] at hxp
    simpa using hxp
  have hselfne : (sortCards l).filter (fun card => cardEq card key) ≠ [] := by
    intro h0
    rw [h0] at hselflen
    simp at hselflen
    omega
  have hpoollen : ((sortCards l).filter (fun card =>
      !(((sortCards l).filter (fun card => cardEq card key)).any
        (fun e => cardEq e card)))).length = (sortCards l).length - n := by
    rw [pool_const_length hvs _ hselfne
      (fun e he => ⟨(validCards_mem hvs (List.mem_filter.mp he).1).1, hwconst e he⟩), hkc]
  have hpool1 : 1 ≤ ((sortCards l).filter (fun card =>
      !(((sortCards l).filter (fun card => cardEq card key)).any
        (fun e => cardEq e card)))).length := by
    omega
  obtain ⟨ks, hks, hksdesc, hkslen⟩ := get_other_cards_full _ _ hsorted hpool1
  refine ⟨ks, hks, hksdesc, hselflen, ?_, hwconst⟩
  rw [hkslen, hselflen, hpoollen, Nat.min_eq_left (by omega)]

/-- C2: a valid group of five to seven cards is always classified, the
combination has exactly five cards, and they are ordered defining-cards-first
with descending kickers, per kind. -/
theorem C2_output_shape (l : List Card)
    (hval : validCards l = true) (hlen5 : 5 ≤ l.length) (hlen7 : l.length ≤ 7) :
    ∃ c, find_combo l = some c ∧ c.cards.length = 5 ∧ specOrderedCards c.type c.cards := by
  have hne : l ≠ [] := by
    intro h
    rw [h] at hlen5
    simp at hlen5
  have hperm := sortCards_perm l
  have hvs : validCards (sortCards l) = true := validCards_perm hperm.symm hval
  have hslen : (sortCards l).length = l.length := hperm.length_eq
  have hsorted : (sortCards l).Pairwise (fun a b => wNum a ≤ wNum b) :=
    sortCards_sorted_wNum (fun c hc => (validCards_mem hval hc).1)
  obtain ⟨c, hfc⟩ := find_combo_isSome hne hval
  obtain ⟨suitR, ty, cs, seq, hfn, hsel, hcrec⟩ := find_combo_some_decomp hfc
  have h1 : (get_all_repeats (sortCards l)).1
      = repFold (sortCards l) weightCardOf (sortCards l) ⟨[], []⟩ := by
    rw [get_all_repeats_eq]
  obtain ⟨hK4, hK3, hK2, hKdd, hK2'⟩ := repeat_kind_cases hvs hsorted
  refine ⟨c, hfc, ?_⟩
  subst hcrec
  show cs.length = 5 ∧ specOrderedCards ty cs
  rcases select_combo_cases hsel with ⟨hfom, hseqeq, hcase⟩ | ⟨hfom, fc, hfcv, hseqeq, hcase⟩
  · -- no flush
    rcases hcase with ⟨f, hfour, htyv, hcsv⟩
      | ⟨hf4n, t, p, ht3, hp2, htyv, hcsv⟩
      | ⟨hf4n, h32, h5r, hoc, htyv⟩
      | ⟨hf4n, h32, h5r, t, ht3, htyv, hcsv⟩
      | ⟨hf4n, hf3n, h5r, dd, hddv, htyv, hcsv⟩
      | ⟨hf4n, hf3n, h5r, hddn, p, hp2, htyv, hcsv⟩
      | ⟨hf4n, hf3n, hp2n, hddn, h5r, htyv, hcsv⟩
    · -- four of a kind
      subst htyv
      subst hcsv
      rw [h1] at hfour
      obtain ⟨hfw, hfc4⟩ := hK4 f hfour
      obtain ⟨ks, hdec, hksdesc, hselflen, hkslen, hwconst⟩ :=
        branch_common l hval hlen5 f 4 hfw hfc4 (by omega) (by omega)
      have hcardseq : four_of_a_kind_cards (sortCards l) f
          = (sortCards l).filter (fun card => cardEq card f) ++ ks := hdec
      constructor
      · rw [hcardseq, List.length_append, hselflen, hkslen]
      · refine ⟨?_, ?_, fun h => absurd h (by decide), fun h => absurd h (by decide),
          fun h => absurd h (by decide), fun h => absurd h (by decide),
          fun h => by rcases h with h | h | h | h <;> exact absurd h (by decide)⟩
        · show ((four_of_a_kind_cards (sortCards l) f).drop 4).Pairwise _
          rw [hcardseq, ← hselflen, List.drop_left]
          exact hksdesc
        · intro _
          refine ⟨wNum f, ?_⟩
          intro x hx
          rw [hcardseq, ← hselflen, List.take_left] at hx
          exact hwconst x hx
    · -- full house
      subst htyv
      subst hcsv
      rw [h1] at ht3 hp2
      obtain ⟨htw, htc3⟩ := hK3 t ht3
      obtain ⟨hpw, hpc2, hpc3⟩ := hK2 p hp2
      have hfeT : (sortCards l).filter (fun card => cardEq card t)
          = (sortCards l).filter (fun card => wNum card == wNum t) :=
        List.filter_congr (fun cx hcx => cardEq_weighted (validCards_mem hvs hcx).1 htw)
      have hTlen : ((sortCards l).filter (fun card => cardEq card t)).length = 3 := by
        rw [hfeT]
        exact htc3
      have hPlenF : ((sortCards l).filter (fun card => cardEq card p)).length
          = wcount (sortCards l) (wNum p) := by
        rw [List.filter_congr (fun cx hcx => cardEq_weighted (validCards_mem hvs hcx).1 hpw)]
        rfl
      have hPlen : (((sortCards l).filter (fun card => cardEq card p)).take 2).length = 2 := by
        rw [List.length_take, hPlenF]
        omega
      have hTconst : ∀ x ∈ (sortCards l).filter (fun card => cardEq card t),
          wNum x = wNum t := by
        intro x hx
        obtain ⟨hxm, hxp⟩ := List.mem_filter.mp hx
        rw [cardEq_weighted (validCards_mem hvs hxm).1 htw] at hxp
        simpa using hxp
      have hPconst : ∀ x ∈ ((sortCards l).filter (fun card => cardEq card p)).take 2,
          wNum x = wNum p := by
        intro x hx
        have hx' := List.take_subset 2 _ hx
        obtain ⟨hxm, hxp⟩ := List.mem_filter.mp hx'
        rw [cardEq_weighted (validCards_mem hvs hxm).1 hpw] at hxp
        simpa using hxp
      have hlenFH : (full_house_cards (sortCards l) t p).length = 5 := by
        unfold full_house_cards
        rw [List.length_append, hTlen, hPlen]
      constructor
      · exact hlenFH
      · refine ⟨?_, fun h => absurd h (by decide), ?_, fun h => absurd h (by decide),
          fun h => absurd h (by decide), fun h => absurd h (by decide),
          fun h => by rcases h with h | h | h | h <;> exact absurd h (by decide)⟩
        · show ((full_house_cards (sortCards l) t p).drop 5).Pairwise _
          rw [List.drop_eq_nil_of_le (by rw [hlenFH])]
          exact List.Pairwise.nil
        · intro _
          refine ⟨wNum t, wNum p, ?_, ?_⟩
          · intro x hx
            unfold full_house_cards at hx
            rw [← hTlen, List.take_left] at hx
            exact hTconst x hx
          · intro x hx
            unfold full_house_cards at hx
            rw [← hTlen, List.drop_left] at hx
            exact hPconst x hx
    · -- straight
      subst htyv
      have hoc' : (mkSequence (sortCards l)).order_cards = some cs := by
        rw [← hseqeq]
        exact hoc
      obtain ⟨hoclen, hocdesc⟩ := mkSequence_order_desc (sortCards l)
        (seq_source_suits hvs) hoc'
      refine ⟨hoclen, ?_, fun h => absurd h (by decide), fun h => absurd h (by decide),
        fun h => absurd h (by decide), fun h => absurd h (by decide),
        fun h => absurd h (by decide), fun _ => hocdesc⟩
      show (cs.drop 0).Pairwise _
      rw [List.drop_zero]
      exact hocdesc
    · -- three of a kind
      subst htyv
      subst hcsv
      rw [h1] at ht3
      obtain ⟨htw, htc3⟩ := hK3 t ht3
      obtain ⟨ks, hdec, hksdesc, hselflen, hkslen, hwconst⟩ :=
        branch_common l hval hlen5 t 3 htw htc3 (by omega) (by omega)
      have hcardseq : three_of_a_kind_cards (sortCards l) t
          = (sortCards l).filter (fun card => cardEq card t) ++ ks := hdec
      constructor
      · rw [hcardseq, List.length_append, hselflen, hkslen]
      · refine ⟨?_, fun h => absurd h (by decide), fun h => absurd h (by decide), ?_,
          fun h => absurd h (by decide), fun h => absurd h (by decide),
          fun h => by rcases h with h | h | h | h <;> exact absurd h (by decide)⟩
        · show ((three_of_a_kind_cards (sortCards l) t).drop 3).Pairwise _
          rw [hcardseq, ← hselflen, List.drop_left]
          exact hksdesc
        · intro _
          refine ⟨wNum t, ?_⟩
          intro x hx
          rw [hcardseq, ← hselflen, List.take_left] at hx
          exact hwconst x hx
    · -- two pairs
      subst htyv
      subst hcsv
      rw [h1] at hddv
      obtain ⟨k1, k2, hdd2, hk1w, hk2w, h12, hc1, hc2⟩ := hKdd dd hddv
      subst hdd2
      have hpairs : (sortCards l).filter (fun card => [k1, k2].any (fun e => cardEq e card))
          = (sortCards l).filter (fun card => (wNum card == wNum k1) || (wNum card == wNum k2)) := by
        apply List.filter_congr
        intro cx hcx
        have hcw := (validCards_mem hvs hcx).1
        show (cardEq k1 cx || (cardEq k2 cx || false)) = _
        rw [cardEq_weighted hk1w hcw, cardEq_weighted hk2w hcw, Bool.or_false,
          beq_comm_nat (wNum k1), beq_comm_nat (wNum k2)]
      have hsplit := sorted_filter_append hsorted h12
      have hF1len : ((sortCards l).filter (fun card => wNum card == wNum k1)).length = 2 := hc1
      have hF2len : ((sortCards l).filter (fun card => wNum card == wNum k2)).length = 2 := hc2
      have hF1const : ∀ x ∈ (sortCards l).filter (fun card => wNum card == wNum k1),
          wNum x = wNum k1 := by
        intro x hx
        have := (List.mem_filter.mp hx).2
        simpa using this
      have hF2const : ∀ x ∈ (sortCards l).filter (fun card => wNum card == wNum k2),
          wNum x = wNum k2 := by
        intro x hx
        have := (List.mem_filter.mp hx).2
        simpa using this
      have hself : ((sortCards l).filter
            (fun card => [k1, k2].any (fun e => cardEq e card))).drop 2
          ++ ((sortCards l).filter (fun card => [k1, k2].any (fun e => cardEq e card))).take 2
          = (sortCards l).filter (fun card => wNum card == wNum k2)
            ++ (sortCards l).filter (fun card => wNum card == wNum k1) := by
        rw [hpairs, hsplit, ← hF1len, List.drop_left, List.take_left]
      have hselfany : ∀ cx ∈ sortCards l,
          ((sortCards l).filter (fun card => wNum card == wNum k2)
            ++ (sortCards l).filter (fun card => wNum card == wNum k1)).any
              (fun e => cardEq e cx)
          = ((wNum cx == wNum k1) || (wNum cx == wNum k2)) := by
        intro cx hcx
        have hcw := (validCards_mem hvs hcx).1
        rw [List.any_append]
        have h2 : ((sortCards l).filter (fun card => wNum card == wNum k2)).any
            (fun e => cardEq e cx) = (wNum k2 == wNum cx) := by
          apply any_const _ _ _ (by intro h0; rw [h0] at hF2len; simp at hF2len)
          intro e he
          rw [cardEq_weighted (validCards_mem hvs (List.mem_filter.mp he).1).1 hcw,
            hF2const e he]
        have h1' : ((sortCards l).filter (fun card => wNum card == wNum k1)).any
            (fun e => cardEq e cx) = (wNum k1 == wNum cx) := by
          apply any_const _ _ _ (by intro h0; rw [h0] at hF1len; simp at hF1len)
          intro e he
          rw [cardEq_weighted (validCards_mem hvs (List.mem_filter.mp he).1).1 hcw,
            hF1const e he]
        rw [h2, h1', beq_comm_nat (wNum k2), beq_comm_nat (wNum k1), Bool.or_comm]
      have hpool : (sortCards l).filter (fun card =>
            !(((sortCards l).filter (fun card => wNum card == wNum k2)
              ++ (sortCards l).filter (fun card => wNum card == wNum k1)).any
                (fun e => cardEq e card)))
          = (sortCards l).filter (fun card =>
              !((wNum card == wNum k1) || (wNum card == wNum k2))) := by
        apply List.filter_congr
        intro cx hcx
        rw [hselfany cx hcx]
      have hpoolor : ((sortCards l).filter (fun card =>
            (wNum card == wNum k1) || (wNum card == wNum k2))).length = 4 := by
        rw [filter_or_length _ _ _ (by
          intro x hx hb
          obtain ⟨hb1, hb2⟩ := hb
          simp at hb1 hb2
          omega)]
        rw [hF1len, hF2len]
      have hpoollen : ((sortCards l).filter (fun card =>
            !(((sortCards l).filter (fun card => wNum card == wNum k2)
              ++ (sortCards l).filter (fun card => wNum card == wNum k1)).any
                (fun e => cardEq e card)))).length = (sortCards l).length - 4 := by
        rw [hpool]
        have := filter_not_length (sortCards l)
          (fun card => (wNum card == wNum k1) || (wNum card == wNum k2))
        omega
      have hpool1 : 1 ≤ ((sortCards l).filter (fun card =>
          !(((sortCards l).filter (fun card => wNum card == wNum k2)
            ++ (sortCards l).filter (fun card => wNum card == wNum k1)).any
              (fun e => cardEq e card)))).length := by
        omega
      obtain ⟨ks, hks, hksdesc, hkslen⟩ := get_other_cards_full _ _ hsorted hpool1
      have hselflen : ((sortCards l).filter (fun card => wNum card == wNum k2)
          ++ (sortCards l).filter (fun card => wNum card == wNum k1)).length = 4 := by
        rw [List.length_append, hF1len, hF2len]
      have hcardsv : two_pairs_cards (sortCards l) [k1, k2]
          = ((sortCards l).filter (fun card => wNum card == wNum k2)
              ++ (sortCards l).filter (fun card => wNum card == wNum k1)) ++ ks := by
        unfold two_pairs_cards
        rw [hself]
        exact hks
      have hkslen' : ks.length = 1 := by
        rw [hkslen, hselflen, hpoollen, Nat.min_eq_left (by omega)]
      constructor
      · rw [hcardsv, List.length_append, hselflen, hkslen']
      · refine ⟨?_, fun h => absurd h (by decide), fun h => absurd h (by decide),
          fun h => absurd h (by decide), ?_, fun h => absurd h (by decide),
          fun h => by rcases h with h | h | h | h <;> exact absurd h (by decide)⟩
        · show ((two_pairs_cards (sortCards l) [k1, k2]).drop 4).Pairwise _
          rw [hcardsv, ← hselflen, List.drop_left]
          exact hksdesc
        · intro _
          have hdrop2 : (((sortCards l).filter (fun card => wNum card == wNum k2))
              ++ (((sortCards l).filter (fun card => wNum card == wNum k1)) ++ ks)).drop 2
              = ((sortCards l).filter (fun card => wNum card == wNum k1)) ++ ks := by
            rw [← hF2len]
            exact List.drop_left _ _
          have htakeF2 : (((sortCards l).filter (fun card => wNum card == wNum k2))
              ++ (((sortCards l).filter (fun card => wNum card == wNum k1)) ++ ks)).take 2
              = (sortCards l).filter (fun card => wNum card == wNum k2) := by
            rw [← hF2len]
            exact List.take_left _ _
          have htakeF1 : (((sortCards l).filter (fun card => wNum card == wNum k1)) ++ ks).take 2
              = (sortCards l).filter (fun card => wNum card == wNum k1) := by
            rw [← hF1len]
            exact List.take_left _ _
          refine ⟨wNum k2, wNum k1, ?_, ?_⟩
          · intro x hx
            rw [hcardsv, List.append_assoc, htakeF2] at hx
            exact hF2const x hx
          · intro x hx
            rw [hcardsv, List.append_assoc, hdrop2, htakeF1] at hx
            exact hF1const x hx
    · -- one pair
      subst htyv
      subst hcsv
      rw [h1] at hp2 hf3n
      have hpc2 : wcount (sortCards l) (wNum p) = 2 := hK2' p hf3n hp2
      have hpw : p.weight.isSome = true := (hK2 p hp2).1
      obtain ⟨ks, hdec, hksdesc, hselflen, hkslen, hwconst⟩ :=
        branch_common l hval hlen5 p 2 hpw hpc2 (by omega) (by omega)
      have hcardseq : one_pair_cards (sortCards l) p
          = (sortCards l).filter (fun card => cardEq card p) ++ ks := hdec
      constructor
      · rw [hcardseq, List.length_append, hselflen, hkslen]
      · refine ⟨?_, fun h => absurd h (by decide), fun h => absurd h (by decide),
          fun h => absurd h (by decide), fun h => absurd h (by decide), ?_,
          fun h => by rcases h with h | h | h | h <;> exact absurd h (by decide)⟩
        · show ((one_pair_cards (sortCards l) p).drop 2).Pairwise _
          rw [hcardseq, ← hselflen, List.drop_left]
          exact hksdesc
        · intro _
          refine ⟨wNum p, ?_⟩
          intro x hx
          rw [hcardseq, ← hselflen, List.take_left] at hx
          exact hwconst x hx
    · -- high card
      subst htyv
      subst hcsv
      have hlen : (high_card_cards (sortCards l)).length = 5 :=
        flush_pick_length (by omega)
      have hdesc : (high_card_cards (sortCards l)).Pairwise (fun a b => wNum b ≤ wNum a) :=
        flush_pick_desc hsorted
      refine ⟨hlen, ?_, fun h => absurd h (by decide), fun h => absurd h (by decide),
        fun h => absurd h (by decide), fun h => absurd h (by decide),
        fun h => absurd h (by decide), fun _ => hdesc⟩
      show ((high_card_cards (sortCards l)).drop 0).Pairwise _
      rw [List.drop_zero]
      exact hdesc
  · -- flush branch
    obtain ⟨suitR', hfn', ⟨fc', cm, hfcv', hcm_mem, hfcw, hfcs, hcm_count⟩, hiff, hle⟩ :=
      flush_analysis (by
        intro h
        rw [h] at hslen
        simp at hslen
        omega) hvs
    have h2 : (get_all_repeats (sortCards l)).2
        = repFold (sortCards l) suitCardOf (sortCards l) ⟨[], []⟩ := by
      rw [get_all_repeats_eq]
    rw [h2] at hfn
    have hsuitEq : suitR = suitR' := by
      rw [hfn] at hfn'
      exact Option.some.inj hfn'
    subst hsuitEq
    have hfcEq : fc = fc' := by
      rw [hfcv] at hfcv'
      exact Option.some.inj hfcv'
    subst hfcEq
    have hfcsome : fc.suit.isSome = true := by
      rw [hfcs]
      exact (validCards_mem hvs hcm_mem).2.2
    obtain ⟨c0, hc0, h5c⟩ := hiff.mp hfom
    have h5cm : 5 ≤ scount (sortCards l) cm.suit := by
      rw [hcm_count]
      exact le_trans h5c (hle c0 hc0)
    have hfilt : (sortCards l).filter (fun card => cardEq card fc)
        = (sortCards l).filter (fun card => card.suit == cm.suit) := by
      apply List.filter_congr
      intro card hcard
      rw [cardEq_suitless (validCards_mem hvs hcard).2.2 hfcsome hfcw, hfcs]
    have hfl5 : 5 ≤ ((sortCards l).filter (fun card => cardEq card fc)).length := by
      rw [hfilt]
      exact h5cm
    have hfval : validCards ((sortCards l).filter (fun card => cardEq card fc)) = true :=
      validCards_sublist (List.filter_sublist _) hvs
    have hfsorted : ((sortCards l).filter (fun card => cardEq card fc)).Pairwise
        (fun a b => wNum a ≤ wNum b) :=
      List.Pairwise.sublist (List.filter_sublist _) hsorted
    rcases hcase with ⟨h5r, hoc, htyv⟩ | ⟨h5r, htyv, hcsv⟩
    · -- straight flush
      subst htyv
      have hoc' : (mkSequence ((sortCards l).filter (fun card => cardEq card fc))).order_cards
          = some cs := by
        rw [← hseqeq]
        exact hoc
      obtain ⟨hoclen, hocdesc⟩ := mkSequence_order_desc _ (seq_source_suits hfval) hoc'
      refine ⟨hoclen, ?_, fun h => absurd h (by decide), fun h => absurd h (by decide),
        fun h => absurd h (by decide), fun h => absurd h (by decide),
        fun h => absurd h (by decide), fun _ => hocdesc⟩
      show (cs.drop 0).Pairwise _
      rw [List.drop_zero]
      exact hocdesc
    · -- flush
      subst htyv
      subst hcsv
      have hseqcards : seq.cards
          = seq_source ((sortCards l).filter (fun card => cardEq card fc)) := by
        rw [hseqeq, mkSequence_cards]
      have h5seq : 5 ≤ seq.cards.length := by
        rw [hseqcards]
        exact le_trans hfl5 (seq_source_length _)
      have hseqsorted : seq.cards.Pairwise (fun a b => wNum a ≤ wNum b) := by
        rw [hseqcards]
        exact seq_source_sorted hfsorted
      have hlenF : (flush_pick seq.cards).length = 5 := flush_pick_length h5seq
      have hdescF : (flush_pick seq.cards).Pairwise (fun a b => wNum b ≤ wNum a) :=
        flush_pick_desc hseqsorted
      refine ⟨hlenF, ?_, fun h => absurd h (by decide), fun h => absurd h (by decide),
        fun h => absurd h (by decide), fun h => absurd h (by decide),
        fun h => absurd h (by decide), fun _ => hdescF⟩
      show ((flush_pick seq.cards).drop 0).Pairwise _
      rw [List.drop_zero]
      exact hdescF

/-- A seven-card two-pair group. -/
def c2_group : List Card :=
  [Card.ofSymbols 'K' 's', Card.ofSymbols 'K' 'd', Card.ofSymbols '9' 'h',
   Card.ofSymbols '9' 'c', Card.ofSymbols '5' 's', Card.ofSymbols '3' 'd',
   Card.ofSymbols '2' 'h']

theorem C2_output_shape_witness :
    (validCards c2_group = true ∧ 5 ≤ c2_group.length ∧ c2_group.length ≤ 7)
    ∧ (∃ c, find_combo c2_group = some c ∧ c.cards.length = 5
        ∧ specOrderedCards c.type c.cards) :=
  ⟨⟨by decide, by decide, by decide⟩,
   C2_output_shape c2_group (by decide) (by decide) (by decide)⟩

/-! ## Claim C6: stable-sort characterisations -/

theorem filter_orderedInsert (a : Card) (w : Nat) (ha : a.weight.isSome = true) :
    ∀ (L : List Card), (∀ c ∈ L, c.weight.isSome = true) →
    L.Pairwise (fun x y => wNum x ≤ wNum y) →
    (orderedInsertCard a L).filter (fun c => wNum c == w)
      = (if wNum a == w then a :: L.filter (fun c => wNum c == w)
         else L.filter (fun c => wNum c == w))
  | [], _, _ => by
    unfold orderedInsertCard
    by_cases hw : wNum a = w
    · rw [if_pos (by simp [hw]), List.filter_cons_of_pos (by simp [hw])]
    · rw [if_neg (by simp [hw]), List.filter_cons_of_neg (by simp [hw])]
  | b :: L, hws, hsort => by
    unfold orderedInsertCard
    have hbw : b.weight.isSome = true := hws b (by simp)
    by_cases hle : cardLe a b = true
    · rw [if_pos hle]
      by_cases hw : wNum a = w
      · rw [if_pos (by simp [hw]),
          List.filter_cons_of_pos (by simp [hw])]
      · rw [if_neg (by simp [hw]),
          List.filter_cons_of_neg (by simp [hw])]
    · rw [if_neg hle]
      have hba : wNum b < wNum a := by
        have := cardLe_of_not_cardLe hle
        have hab := (cardLe_iff_wNum hbw ha).mp this
        by_contra hc
        have : wNum a ≤ wNum b := by omega
        exact hle ((cardLe_iff_wNum ha hbw).mpr this)
      have ih := filter_orderedInsert a w ha L (fun c hc => hws c (by simp [hc]))
        (List.Pairwise.of_cons hsort)
      by_cases hw : wNum a = w
      · have hbnot : (wNum b == w) = false := by
          simp
          omega
        rw [if_pos (by simp [hw])] at ih ⊢
        rw [show ((b :: orderedInsertCard a L).filter (fun c => wNum c == w))
            = (orderedInsertCard a L).filter (fun c => wNum c == w)
            from List.filter_cons_of_neg (by rw [hbnot]; simp), ih,
          show ((b :: L).filter (fun c => wNum c == w)) = L.filter (fun c => wNum c == w)
            from List.filter_cons_of_neg (by rw [hbnot]; simp)]
      · rw [if_neg (by simp [hw])] at ih ⊢
        by_cases hbw' : wNum b = w
        · rw [show ((b :: orderedInsertCard a L).filter (fun c => wNum c == w))
              = b :: (orderedInsertCard a L).filter (fun c => wNum c == w)
              from List.filter_cons_of_pos (by simp [hbw']), ih,
            show ((b :: L).filter (fun c => wNum c == w))
              = b :: L.filter (fun c => wNum c == w)
              from List.filter_cons_of_pos (by simp [hbw'])]
        · rw [show ((b :: orderedInsertCard a L).filter (fun c => wNum c == w))
              = (orderedInsertCard a L).filter (fun c => wNum c == w)
              from List.filter_cons_of_neg (by simp [hbw']), ih,
            show ((b :: L).filter (fun c => wNum c == w))
              = L.filter (fun c => wNum c == w)
              from List.filter_cons_of_neg (by simp [hbw'])]

/-- The stable sort leaves each weight class in input order. -/
theorem sortCards_filter_weight (w : Nat) :
    ∀ (m : List Card), (∀ c ∈ m, c.weight.isSome = true) →
    (sortCards m).filter (fun c => wNum c == w) = m.filter (fun c => wNum c == w)
  | [], _ => rfl
  | a :: t, hws => by
    have ha : a.weight.isSome = true := hws a (by simp)
    have hts : ∀ c ∈ t, c.weight.isSome = true := fun c hc => hws c (by simp [hc])
    have hsorted : (sortCards t).Pairwise (fun x y => cardLe x y = true) :=
      sortCards_pairwise hts
    have hmem : ∀ c ∈ sortCards t, c.weight.isSome = true :=
      fun c hc => hts c ((sortCards_perm t).mem_iff.mp hc)
    have hsortw : (sortCards t).Pairwise (fun x y => wNum x ≤ wNum y) :=
      sortCards_sorted_wNum hts
    show (orderedInsertCard a (sortCards t)).filter (fun c => wNum c == w) = _
    rw [filter_orderedInsert a w ha (sortCards t) hmem hsortw,
      sortCards_filter_weight w t hts]
    by_cases hw : wNum a = w
    · rw [if_pos (by simp [hw]),
        show ((a :: t).filter (fun c => wNum c == w)) = a :: t.filter (fun c => wNum c == w)
          from List.filter_cons_of_pos (by simp [hw])]
    · rw [if_neg (by simp [hw]),
        show ((a :: t).filter (fun c => wNum c == w)) = t.filter (fun c => wNum c == w)
          from List.filter_cons_of_neg (by simp [hw])]

theorem sorted_strict_unique : ∀ (xs ys : List Card), xs.Perm ys →
    xs.Pairwise (fun a b => wNum a < wNum b) → ys.Pairwise (fun a b => wNum a < wNum b) →
    xs = ys
  | [], ys, hperm, _, _ => hperm.nil_eq
  | a :: xs, [], hperm, _, _ => by simpa using hperm.length_eq
  | a :: xs, b :: ys, hperm, hx, hy => by
    have hab : a = b := by
      have haim : a ∈ b :: ys := hperm.subset (by simp)
      have hbim : b ∈ a :: xs := hperm.symm.subset (by simp)
      rcases List.mem_cons.mp haim with h | h
      · exact h
      · rcases List.mem_cons.mp hbim with h2 | h2
        · exact h2.symm
        · have h1 := List.rel_of_pairwise_cons hy h
          have h2' := List.rel_of_pairwise_cons hx h2
          omega
    subst hab
    have htail : xs.Perm ys := (List.perm_cons a).mp hperm
    rw [sorted_strict_unique xs ys htail (List.Pairwise.of_cons hx)
      (List.Pairwise.of_cons hy)]

/-- Sorting a strictly descending list reverses it. -/
theorem sortCards_strict_desc {m : List Card} (hws : ∀ c ∈ m, c.weight.isSome = true)
    (hdesc : m.Pairwise (fun a b => wNum b < wNum a)) : sortCards m = m.reverse := by
  apply sorted_strict_unique
  · exact (sortCards_perm m).trans (List.reverse_perm m).symm
  · have hlt : (sortCards m).Pairwise (fun a b => wNum a ≤ wNum b) :=
      sortCards_sorted_wNum hws
    have h1 : (m.map wNum).Pairwise (fun a b => a ≠ b) :=
      List.pairwise_map.mpr (hdesc.imp (fun h => by omega))
    have h2 : ((sortCards m).map wNum).Pairwise (fun a b => a ≠ b) :=
      (((sortCards_perm m).map wNum).pairwise_iff (fun h => Ne.symm h)).mpr h1
    have hne : (sortCards m).Pairwise (fun a b => wNum a ≠ wNum b) :=
      List.pairwise_map.mp h2
    exact (hlt.and hne).imp (fun h => by omega)
  · rw [List.pairwise_reverse]
    exact hdesc

theorem list_eq_one {α : Type} : ∀ (l : List α), l.length = 1 → ∃ a, l = [a]
  | [a], _ => ⟨a, rfl⟩
  | [], h => by simp at h
  | _ :: _ :: _, h => by
    simp only [List.length_cons] at h
    omega

/-- Distinctness of the cards as a pairwise relation. -/
def cardsDistinct (l : List Card) : Prop :=
  l.Pairwise (fun a b => ¬(wNum b = wNum a ∧ b.suit = a.suit))

theorem hasDupCard_pairwise : ∀ {l : List Card}, hasDupCard l = false → cardsDistinct l
  | [], _ => List.Pairwise.nil
  | c :: r, h => by
    unfold hasDupCard at h
    rw [Bool.or_eq_false_iff] at h
    refine List.Pairwise.cons ?_ (hasDupCard_pairwise h.2)
    intro e he hcontr
    have := List.any_eq_false.mp h.1 e he
    simp at this
    exact absurd (this hcontr.1) (by simp [hcontr.2])

theorem cardsDistinct_perm {l1 l2 : List Card} (h : l1.Perm l2) (hd : cardsDistinct l1) :
    cardsDistinct l2 := by
  refine (h.pairwise_iff ?_).mp hd
  intro a b hab hcontr
  exact hab ⟨hcontr.1.symm, hcontr.2.symm⟩

/-- Every suit symbol is one of the four legal ones. -/
def suitsOk (l : List Card) : Bool :=
  l.all (fun c => match c.suit with
    | some su => su.symbol == 'c' || su.symbol == 'd' || su.symbol == 'h' || su.symbol == 's'
    | none => false)

theorem suitsOk_mem {l : List Card} (h : suitsOk l = true) {c : Card} (hc : c ∈ l) :
    c.suit ∈ [some { symbol := 'c' }, some { symbol := 'd' },
      some { symbol := 'h' }, some ({ symbol := 's' } : Suit)] := by
  have := List.all_eq_true.mp h c hc
  cases hsu : c.suit with
  | none => rw [hsu] at this; simp at this
  | some su =>
    rw [hsu] at this
    simp only [Bool.or_eq_true, beq_iff_eq] at this
    cases su with
    | mk sym =>
      simp only at this
      rcases this with ((h' | h') | h') | h' <;> simp [h']

theorem suitsOk_perm {l1 l2 : List Card} (h : l1.Perm l2) (hs : suitsOk l1 = true) :
    suitsOk l2 = true := by
  unfold suitsOk at *
  rw [List.all_eq_true] at *
  exact fun c hc => hs c (h.mem_iff.mpr hc)

/-- At most four distinct cards share one weight. -/
theorem wcount_le_four {l : List Card} (hsu : suitsOk l = true)
    (hdist : cardsDistinct l) (w : Nat) : wcount l w ≤ 4 := by
  have hFsub : (l.filter (fun e => wNum e == w)).Sublist l := List.filter_sublist _
  have hFdist : cardsDistinct (l.filter (fun e => wNum e == w)) :=
    List.Pairwise.sublist hFsub hdist
  have hFsuits : (l.filter (fun e => wNum e == w)).Pairwise
      (fun a b => a.suit ≠ b.suit) := by
    refine List.Pairwise.imp_of_mem ?_ hFdist
    intro a b hma hmb hab hcontr
    have hwa := (List.mem_filter.mp hma).2
    have hwb := (List.mem_filter.mp hmb).2
    simp at hwa hwb
    exact hab ⟨by omega, hcontr.symm⟩
  have hnodup : ((l.filter (fun e => wNum e == w)).map (fun c => c.suit)).Nodup :=
    List.pairwise_map.mpr hFsuits
  have hsubset : ∀ x ∈ (l.filter (fun e => wNum e == w)).map (fun c => c.suit),
      x ∈ [some { symbol := 'c' }, some { symbol := 'd' },
        some { symbol := 'h' }, some ({ symbol := 's' } : Suit)] := by
    intro x hx
    obtain ⟨c, hc, hcx⟩ := List.mem_map.mp hx
    rw [← hcx]
    exact suitsOk_mem hsu (hFsub.subset hc)
  have := (List.subperm_of_subset hnodup hsubset).length_le
  rw [List.length_map] at this
  exact this

theorem weight_keys_card {s : List Card}
    (hKsub : (repFold s weightCardOf s ⟨[], []⟩).cards.Sublist (s.map weightCardOf)) :
    ∀ x ∈ (repFold s weightCardOf s ⟨[], []⟩).cards, ∃ c ∈ s, wNum x = wNum c := by
  intro x hx
  obtain ⟨c, hc, hxc⟩ := List.mem_map.mp (hKsub.subset hx)
  exact ⟨c, hc, by rw [← hxc, wNum_weightCardOf]⟩

theorem bucket_empty {s : List Card} (hval : validCards s = true) (n : Nat)
    (hn : ∀ c ∈ s, wcount s (wNum c) ≠ n) :
    (repFold s weightCardOf s ⟨[], []⟩).cards.filter (fun k => countCardEq s k == n) = [] := by
  obtain ⟨hKw, hKall, hKdist, hDict, hKsub⟩ := weight_analysis hval
  rw [List.filter_eq_nil_iff]
  intro x hx
  obtain ⟨_, hxc⟩ := hKw x hx
  obtain ⟨c, hc, hwc⟩ := weight_keys_card hKsub x hx
  rw [hxc, hwc]
  simp
  exact hn c hc

theorem bucket_single {s : List Card} (hval : validCards s = true) {n w0 : Nat}
    (hreal : ∃ c ∈ s, wNum c = w0) (hw0 : wcount s w0 = n)
    (huniq : ∀ c ∈ s, wcount s (wNum c) = n → wNum c = w0) :
    ∃ k, (repFold s weightCardOf s ⟨[], []⟩).cards.filter (fun k => countCardEq s k == n)
        = [k] ∧ wNum k = w0 ∧ k.weight.isSome = true := by
  obtain ⟨hKw, hKall, hKdist, hDict, hKsub⟩ := weight_analysis hval
  obtain ⟨c0, hc0, hc0w⟩ := hreal
  obtain ⟨x0, hx0, hx0w⟩ := hKall c0 hc0
  have hx0F : x0 ∈ (repFold s weightCardOf s ⟨[], []⟩).cards.filter
      (fun k => countCardEq s k == n) := by
    refine List.mem_filter.mpr ⟨hx0, ?_⟩
    rw [(hKw x0 hx0).2, hx0w, hc0w, hw0]
    simp
  have hFw : ∀ x ∈ (repFold s weightCardOf s ⟨[], []⟩).cards.filter
      (fun k => countCardEq s k == n), wNum x = w0 := by
    intro x hx
    obtain ⟨hxK, hxp⟩ := List.mem_filter.mp hx
    obtain ⟨c, hc, hwc⟩ := weight_keys_card hKsub x hxK
    simp at hxp
    rw [(hKw x hxK).2, hwc] at hxp
    rw [hwc]
    exact huniq c hc hxp
  have hFdist : ((repFold s weightCardOf s ⟨[], []⟩).cards.filter
      (fun k => countCardEq s k == n)).Pairwise (fun a b => cardEq a b = false) :=
    List.Pairwise.sublist (List.filter_sublist _) hKdist
  have hFwt : ∀ x ∈ (repFold s weightCardOf s ⟨[], []⟩).cards.filter
      (fun k => countCardEq s k == n), x.weight.isSome = true :=
    fun x hx => (hKw x (List.mem_filter.mp hx).1).1
  cases hF : (repFold s weightCardOf s ⟨[], []⟩).cards.filter
      (fun k => countCardEq s k == n) with
  | nil =>
    rw [hF] at hx0F
    simp at hx0F
  | cons a t =>
    cases t with
    | nil => exact ⟨a, rfl, hFw a (by rw [hF]; simp), hFwt a (by rw [hF]; simp)⟩
    | cons b t2 =>
      exfalso
      have hab : cardEq a b = false := by
        rw [hF] at hFdist
        exact List.rel_of_pairwise_cons hFdist (by simp)
      rw [cardEq_weighted (hFwt a (by rw [hF]; simp)) (hFwt b (by rw [hF]; simp))] at hab
      have ha := hFw a (by rw [hF]; simp)
      have hb := hFw b (by rw [hF]; simp)
      rw [ha, hb] at hab
      simp at hab

theorem profile_none {s : List Card} (hval : validCards s = true)
    (h1 : ∀ c ∈ s, wcount s (wNum c) ≤ 1) :
    get_repeat_kind (repFold s weightCardOf s ⟨[], []⟩).all
      = { all := (repFold s weightCardOf s ⟨[], []⟩).all } := by
  obtain ⟨hKw, hKall, hKdist, hDict, hKsub⟩ := weight_analysis hval
  have h4 := bucket_empty hval 4 (fun c hc => by have := h1 c hc; omega)
  have h3 := bucket_empty hval 3 (fun c hc => by have := h1 c hc; omega)
  have h2 := bucket_empty hval 2 (fun c hc => by have := h1 c hc; omega)
  unfold get_repeat_kind
  rw [hDict 4, h4, hDict 3, h3, hDict 2, h2]
  rfl

theorem profile_four {s : List Card} (hval : validCards s = true) {wf : Nat}
    (hreal : ∃ c ∈ s, wNum c = wf) (h4 : wcount s wf = 4)
    (huniq : ∀ c ∈ s, wNum c ≠ wf → wcount s (wNum c) ≤ 1) :
    ∃ kF, get_repeat_kind (repFold s weightCardOf s ⟨[], []⟩).all
        = { all := (repFold s weightCardOf s ⟨[], []⟩).all, four := some kF }
      ∧ wNum kF = wf ∧ kF.weight.isSome = true := by
  obtain ⟨hKw, hKall, hKdist, hDict, hKsub⟩ := weight_analysis hval
  obtain ⟨kF, hb4, hkw, hkt⟩ := bucket_single hval hreal h4 (fun c hc hcnt => by
    by_contra hne
    have := huniq c hc hne
    omega)
  refine ⟨kF, ?_, hkw, hkt⟩
  unfold get_repeat_kind
  rw [hDict 4, hb4]
  rfl

theorem profile_one_pair {s : List Card} (hval : validCards s = true) {wp : Nat}
    (hreal : ∃ c ∈ s, wNum c = wp) (h2 : wcount s wp = 2)
    (huniq : ∀ c ∈ s, wNum c ≠ wp → wcount s (wNum c) ≤ 1) :
    ∃ kP, get_repeat_kind (repFold s weightCardOf s ⟨[], []⟩).all
        = { all := (repFold s weightCardOf s ⟨[], []⟩).all, two := some kP }
      ∧ wNum kP = wp ∧ kP.weight.isSome = true := by
  obtain ⟨hKw, hKall, hKdist, hDict, hKsub⟩ := weight_analysis hval
  have hcnt : ∀ c ∈ s, wNum c ≠ wp → wcount s (wNum c) ≤ 1 := huniq
  have hb4 := bucket_empty hval 4 (fun c hc => by
    by_cases hw : wNum c = wp
    · rw [hw, h2]; omega
    · have := hcnt c hc hw; omega)
  have hb3 := bucket_empty hval 3 (fun c hc => by
    by_cases hw : wNum c = wp
    · rw [hw, h2]; omega
    · have := hcnt c hc hw; omega)
  obtain ⟨kP, hb2, hkw, hkt⟩ := bucket_single hval hreal h2 (fun c hc hcnt2 => by
    by_contra hne
    have := hcnt c hc hne
    omega)
  refine ⟨kP, ?_, hkw, hkt⟩
  unfold get_repeat_kind
  rw [hDict 4, hb4, hDict 3, hb3, hDict 2, hb2]
  rfl

theorem profile_two_pairs {s : List Card} (hval : validCards s = true)
    (hsorted : s.Pairwise (fun a b => wNum a ≤ wNum b)) {w1 w2 : Nat} (h12 : w1 < w2)
    (hreal1 : ∃ c ∈ s, wNum c = w1) (hreal2 : ∃ c ∈ s, wNum c = w2)
    (hc1 : wcount s w1 = 2) (hc2 : wcount s w2 = 2)
    (huniq : ∀ c ∈ s, wNum c ≠ w1 → wNum c ≠ w2 → wcount s (wNum c) ≤ 1) :
    ∃ k1 k2, get_repeat_kind (repFold s weightCardOf s ⟨[], []⟩).all
        = { all := (repFold s weightCardOf s ⟨[], []⟩).all, double_two := some [k1, k2] }
      ∧ wNum k1 = w1 ∧ wNum k2 = w2
      ∧ k1.weight.isSome = true ∧ k2.weight.isSome = true := by
  obtain ⟨hKw, hKall, hKdist, hDict, hKsub⟩ := weight_analysis hval
  have hKsort : (repFold s weightCardOf s ⟨[], []⟩).cards.Pairwise
      (fun a b => wNum a ≤ wNum b) :=
    List.Pairwise.sublist hKsub (List.pairwise_map.mpr hsorted)
  have hb4 := bucket_empty hval 4 (fun c hc => by
    by_cases hx1 : wNum c = w1
    · rw [hx1, hc1]; omega
    · by_cases hx2 : wNum c = w2
      · rw [hx2, hc2]; omega
      · have := huniq c hc hx1 hx2; omega)
  have hb3 := bucket_empty hval 3 (fun c hc => by
    by_cases hx1 : wNum c = w1
    · rw [hx1, hc1]; omega
    · by_cases hx2 : wNum c = w2
      · rw [hx2, hc2]; omega
      · have := huniq c hc hx1 hx2; omega)
  have hF2mem : ∀ x ∈ (repFold s weightCardOf s ⟨[], []⟩).cards.filter
      (fun k => countCardEq s k == 2), wNum x = w1 ∨ wNum x = w2 := by
    intro x hx
    obtain ⟨hxK, hxp⟩ := List.mem_filter.mp hx
    obtain ⟨c, hc, hwc⟩ := weight_keys_card hKsub x hxK
    simp at hxp
    rw [(hKw x hxK).2, hwc] at hxp
    rw [hwc]
    by_contra hcontr
    push_neg at hcontr
    have := huniq c hc hcontr.1 hcontr.2
    omega
  have hrealK : ∀ w, wcount s w = 2 → (∃ c ∈ s, wNum c = w) →
      ∃ x ∈ (repFold s weightCardOf s ⟨[], []⟩).cards.filter
        (fun k => countCardEq s k == 2), wNum x = w := by
    intro w hw ⟨c, hc, hcw⟩
    obtain ⟨x, hx, hxw⟩ := hKall c hc
    refine ⟨x, List.mem_filter.mpr ⟨hx, ?_⟩, by rw [hxw, hcw]⟩
    rw [(hKw x hx).2, hxw, hcw, hw]
    simp
  obtain ⟨x1, hx1F, hx1w⟩ := hrealK w1 hc1 hreal1
  obtain ⟨x2, hx2F, hx2w⟩ := hrealK w2 hc2 hreal2
  obtain ⟨k1, k2, hshape, hk1, hk2⟩ := two_weights_shape h12
    (fun x hx => (hKw x (List.mem_filter.mp hx).1).1) hF2mem
    ⟨x1, hx1F, hx1w⟩ ⟨x2, hx2F, hx2w⟩
    (List.Pairwise.sublist (List.filter_sublist _) hKdist)
    (List.Pairwise.sublist (List.filter_sublist _) hKsort)
  have hk1t : k1.weight.isSome = true :=
    (hKw k1 (List.mem_filter.mp (by rw [hshape]; simp : k1 ∈ _)).1).1
  have hk2t : k2.weight.isSome = true :=
    (hKw k2 (List.mem_filter.mp (by rw [hshape]; simp : k2 ∈ _)).1).1
  refine ⟨k1, k2, ?_, hk1, hk2, hk1t, hk2t⟩
  unfold get_repeat_kind
  rw [hDict 4, hb4, hDict 3, hb3, hDict 2, hshape]
  rfl

theorem profile_full_house {s : List Card} (hval : validCards s = true) {wt wp : Nat}
    (hne : wt ≠ wp)
    (hrT : ∃ c ∈ s, wNum c = wt) (h3 : wcount s wt = 3)
    (hrP : ∃ c ∈ s, wNum c = wp) (h2 : wcount s wp = 2)
    (huniq : ∀ c ∈ s, wNum c ≠ wt → wNum c ≠ wp → wcount s (wNum c) ≤ 1) :
    ∃ kT kP, get_repeat_kind (repFold s weightCardOf s ⟨[], []⟩).all
        = { all := (repFold s weightCardOf s ⟨[], []⟩).all, three := some kT, two := some kP }
      ∧ wNum kT = wt ∧ wNum kP = wp
      ∧ kT.weight.isSome = true ∧ kP.weight.isSome = true := by
  obtain ⟨hKw, hKall, hKdist, hDict, hKsub⟩ := weight_analysis hval
  have hb4 := bucket_empty hval 4 (fun c hc => by
    by_cases hx1 : wNum c = wt
    · rw [hx1, h3]; omega
    · by_cases hx2 : wNum c = wp
      · rw [hx2, h2]; omega
      · have := huniq c hc hx1 hx2; omega)
  obtain ⟨kT, hb3, hkTw, hkTt⟩ := bucket_single hval hrT h3 (fun c hc hcnt => by
    by_contra hcne
    by_cases hx2 : wNum c = wp
    · rw [hx2, h2] at hcnt; omega
    · have := huniq c hc hcne hx2; omega)
  obtain ⟨kP, hb2, hkPw, hkPt⟩ := bucket_single hval hrP h2 (fun c hc hcnt => by
    by_contra hcne
    by_cases hx1 : wNum c = wt
    · rw [hx1, h3] at hcnt; omega
    · have := huniq c hc hx1 hcne; omega)
  refine ⟨kT, kP, ?_, hkTw, hkPw, hkTt, hkPt⟩
  unfold get_repeat_kind
  rw [hDict 4, hb4, hDict 3, hb3, hDict 2, hb2]
  rfl

/-! ### Evaluating the selector on each repeat profile -/

theorem select_combo_four_eval (init : List Card) (all : RepDict) (kF : Card)
    (suit : SuitRepeats) (hfom : suit.five_or_more = false) :
    select_combo init { all := all, four := some kF } suit
      = some (FOUR_OF_A_KIND, four_of_a_kind_cards init kF, mkSequence init) := by
  unfold select_combo
  rw [hfom]
  rfl

theorem select_combo_fh_eval (init : List Card) (all : RepDict) (kT kP : Card) (b : Bool)
    (suit : SuitRepeats) (hfom : suit.five_or_more = false) :
    select_combo init { all := all, three := some kT, two := some kP, double_three := b } suit
      = some (FULL_HOUSE, full_house_cards init kT kP, mkSequence init) := by
  unfold select_combo
  rw [hfom]
  rfl

theorem select_combo_straight_eval (init : List Card) (all : RepDict) (oc : List Card)
    (suit : SuitRepeats) (hfom : suit.five_or_more = false)
    (h5 : (mkSequence init).five_in_a_row = true)
    (hoc : (mkSequence init).order_cards = some oc) :
    select_combo init { all := all } suit = some (STRAIGHT, oc, mkSequence init) := by
  unfold select_combo
  rw [hfom, h5, hoc]
  rfl

theorem select_combo_one_pair_eval (init : List Card) (all : RepDict) (kP : Card)
    (suit : SuitRepeats) (hfom : suit.five_or_more = false)
    (h5 : (mkSequence init).five_in_a_row = false) :
    select_combo init { all := all, two := some kP } suit
      = some (ONE_PAIR, one_pair_cards init kP, mkSequence init) := by
  unfold select_combo
  rw [hfom, h5]
  rfl

theorem select_combo_two_pairs_eval (init : List Card) (all : RepDict) (dd : List Card)
    (suit : SuitRepeats) (hfom : suit.five_or_more = false)
    (h5 : (mkSequence init).five_in_a_row = false) :
    select_combo init { all := all, double_two := some dd } suit
      = some (TWO_PAIRS, two_pairs_cards init dd, mkSequence init) := by
  unfold select_combo
  rw [hfom, h5]
  rfl

theorem select_combo_high_eval (init : List Card) (all : RepDict)
    (suit : SuitRepeats) (hfom : suit.five_or_more = false)
    (h5 : (mkSequence init).five_in_a_row = false) :
    select_combo init { all := all } suit
      = some (HIGH_CARD, high_card_cards init, mkSequence init) := by
  unfold select_combo
  rw [hfom, h5]
  rfl

theorem select_combo_sf_eval (init : List Card) (weight : WeightRepeats) (fc : Card)
    (oc : List Card) (suit : SuitRepeats) (hfom : suit.five_or_more = true)
    (hfc : suit.flush_card = some fc)
    (h5 : (mkSequence (init.filter (fun card => cardEq card fc))).five_in_a_row = true)
    (hoc : (mkSequence (init.filter (fun card => cardEq card fc))).order_cards = some oc) :
    select_combo init weight suit
      = some (STRAIGHT_FLUSH, oc,
          mkSequence (init.filter (fun card => cardEq card fc))) := by
  unfold select_combo
  rw [hfom, hfc]
  simp only [Bool.not_true, Bool.false_eq_true, if_false]
  rw [h5, hoc]
  simp

theorem select_combo_flush_eval (init : List Card) (weight : WeightRepeats) (fc : Card)
    (suit : SuitRepeats) (hfom : suit.five_or_more = true)
    (hfc : suit.flush_card = some fc)
    (h5 : (mkSequence (init.filter (fun card => cardEq card fc))).five_in_a_row = false) :
    select_combo init weight suit
      = some (FLUSH,
          flush_pick (mkSequence (init.filter (fun card => cardEq card fc))).cards,
          mkSequence (init.filter (fun card => cardEq card fc))) := by
  unfold select_combo
  rw [hfom, hfc]
  simp only [Bool.not_true, Bool.false_eq_true, if_false]
  rw [h5]
  simp

theorem find_combo_assemble {l : List Card} {suit : SuitRepeats} {ty : Nat}
    {cs : List Card} {seq : Sequence}
    (hfn : flush_or_not (repFold (sortCards l) suitCardOf (sortCards l) ⟨[], []⟩).all
      = some suit)
    (hsel : select_combo (sortCards l)
      (get_repeat_kind (get_all_repeats (sortCards l)).1.all) suit = some (ty, cs, seq)) :
    find_combo l = some { type := ty, cards := cs, init_cards := sortCards l,
                          weight := get_repeat_kind (get_all_repeats (sortCards l)).1.all,
                          suit := suit, sequence := seq } := by
  unfold find_combo
  have h2 : (get_all_repeats (sortCards l)).2
      = repFold (sortCards l) suitCardOf (sortCards l) ⟨[], []⟩ := by
    rw [get_all_repeats_eq]
  rw [h2, hfn]
  simp only [hsel]

/-! ## Claim C6: round-trip re-classification -/

theorem hitsSlot_of_wNum {c : Card} {w : Nat} (hws : c.weight.isSome = true)
    (h : wNum c = w) : hitsSlot w c = true := by
  obtain ⟨x, hx⟩ := Option.isSome_iff_exists.mp hws
  unfold wNum at h
  rw [hx] at h
  have hn : x.number = w := h
  unfold hitsSlot
  rw [hx]
  simp [hn]

/-- `seq_source` either leaves the list alone or prepends the low-ace copy of
one of its aces. -/
theorem seq_source_shape {m : List Card} (hval : validCards m = true) :
    seq_source m = m
    ∨ ∃ ace, ace ∈ m ∧ wNum ace = 13
        ∧ seq_source m
          = { weight := some { symbol := '1', number := 0 }, suit := ace.suit,
              in_hand := ace.in_hand } :: m := by
  by_cases hany : m.any (fun e => cardEq e aceKey) = true
  · obtain ⟨c, hc, hce⟩ := List.any_eq_true.mp hany
    have hcw := (validCards_mem hval hc).1
    obtain ⟨x, hx⟩ := Option.isSome_iff_exists.mp hcw
    have h13 : wNum c = 13 := by
      rw [cardEq_aceKey hx] at hce
      unfold wNum
      rw [hx]
      simpa using hce
    have hA : hasW m 13 = true :=
      List.any_eq_true.mpr ⟨c, hc, hitsSlot_of_wNum hcw h13⟩
    obtain ⟨ace, hace, hsrc⟩ := seq_source_of_ace hval hA
    have hacemem : ace ∈ m := (List.mem_filter.mp (List.mem_of_mem_getLast? hace)).1
    have hacee : cardEq ace aceKey = true :=
      (List.mem_filter.mp (List.mem_of_mem_getLast? hace)).2
    have hacew := (validCards_mem hval hacemem).1
    obtain ⟨y, hy⟩ := Option.isSome_iff_exists.mp hacew
    have hace13 : wNum ace = 13 := by
      rw [cardEq_aceKey hy] at hacee
      unfold wNum
      rw [hy]
      simpa using hacee
    exact Or.inr ⟨ace, hacemem, hace13, hsrc⟩
  · left
    unfold seq_source
    rw [if_neg hany]

/-- Weight numbers present in the sequence source: the group's own weights,
plus `0` exactly when the group holds an ace. -/
theorem hasW_seq_source_iff {m : List Card} (hval : validCards m = true) (w : Nat) :
    hasW (seq_source m) w = true ↔ (hasW m w = true ∨ (w = 0 ∧ hasW m 13 = true)) := by
  constructor
  · intro h
    obtain ⟨c, hc, hhit⟩ := List.any_eq_true.mp h
    rcases seq_source_shape hval with hsrc | ⟨ace, hacem, hace13, hsrc⟩
    · rw [hsrc] at hc
      exact Or.inl (List.any_eq_true.mpr ⟨c, hc, hhit⟩)
    · rw [hsrc] at hc
      rcases List.mem_cons.mp hc with hc' | hc'
      · right
        have hw0 : wNum c = 0 := by rw [hc']; rfl
        have hcw : w = 0 := by rw [← hitsSlot_wNum hhit, hw0]
        refine ⟨hcw, List.any_eq_true.mpr ⟨ace, hacem, ?_⟩⟩
        exact hitsSlot_of_wNum (validCards_mem hval hacem).1 hace13
      · exact Or.inl (List.any_eq_true.mpr ⟨c, hc', hhit⟩)
  · intro h
    rcases h with h | ⟨hw0, h13⟩
    · obtain ⟨c, hc, hhit⟩ := List.any_eq_true.mp h
      rcases seq_source_shape hval with hsrc | ⟨ace, hacem, hace13, hsrc⟩
      · rw [hsrc]
        exact List.any_eq_true.mpr ⟨c, hc, hhit⟩
      · rw [hsrc]
        exact List.any_eq_true.mpr ⟨c, by simp [hc], hhit⟩
    · subst hw0
      obtain ⟨ace, hace, hsrc⟩ := seq_source_of_ace hval h13
      rw [hsrc]
      refine List.any_eq_true.mpr
        ⟨{ weight := some { symbol := '1', number := 0 }, suit := ace.suit,
           in_hand := ace.in_hand }, by simp, ?_⟩
      rfl

/-- The sequence source of a valid group is again a valid group. -/
theorem seq_source_valid {m : List Card} (hval : validCards m = true) :
    validCards (seq_source m) = true := by
  rcases seq_source_shape hval with hsrc | ⟨ace, hacem, _, hsrc⟩
  · rw [hsrc]; exact hval
  · rw [hsrc]
    unfold validCards at *
    rw [List.all_cons, hval, Bool.and_true]
    have hsu := (validCards_mem hval hacem).2.2
    simp only [Bool.and_eq_true, decide_eq_true_eq]
    refine ⟨⟨rfl, ?_⟩, hsu⟩
    show (0 : Nat) < 14
    omega

theorem hasW_sub_of_mem {cs s : List Card} (h : ∀ c ∈ cs, c ∈ s) {w : Nat}
    (hw : hasW cs w = true) : hasW s w = true := by
  obtain ⟨c, hc, hhit⟩ := List.any_eq_true.mp hw
  exact List.any_eq_true.mpr ⟨c, h c hc, hhit⟩

/-- If every weight of one source occurs in another, a five-window in the
first forces a five-window in the second. -/
theorem relFW_isSome_mono {s1 s2 : List Card}
    (hs1 : ∀ c ∈ s1, c.suit.isSome = true) (hs2 : ∀ c ∈ s2, c.suit.isSome = true)
    (hw : ∀ w, hasW s1 w = true → hasW s2 w = true)
    (hsome : (relFirstWindow (rankBits s1)).isSome = true) :
    (relFirstWindow (rankBits s2)).isSome = true := by
  unfold relFirstWindow at *
  obtain ⟨b, hbmem, hbw⟩ := List.find?_isSome.mp hsome
  have hb14 : b < 14 := by
    rw [List.mem_range, rankBits_length] at hbmem
    exact hbmem
  apply List.find?_isSome.mpr
  refine ⟨b, by rw [List.mem_range, rankBits_length]; exact hb14, ?_⟩
  have hw2 : windowAt (rankBits s2) b = true := by
    apply windowAt_eq_true
    intro j hj
    have hb4 : b + 4 < 14 := by
      have hbit := windowAt_true_elim hbw 4 (by omega)
      by_contra hge
      rw [List.getD_eq_getElem?_getD,
        List.getElem?_eq_none (by rw [rankBits_length]; omega)] at hbit
      simp at hbit
    have hbit := windowAt_true_elim hbw j hj
    rw [rankBits_getD _ _ (by omega) hs1] at hbit
    rw [rankBits_getD _ _ (by omega) hs2]
    exact hw _ hbit
  exact hw2

theorem find?_range_first (p : Nat → Bool) : ∀ (b n : Nat), b < n → p b = true →
    (∀ j, j < b → p j = false) → (List.range n).find? p = some b
  | 0, n, hb, hp, _ => by
    cases n with
    | zero => omega
    | succ m =>
      rw [List.range_succ_eq_map]
      rw [List.find?_cons_of_pos _ hp]
  | b + 1, n, hb, hp, hprev => by
    cases n with
    | zero => omega
    | succ m =>
      rw [List.range_succ_eq_map]
      rw [List.find?_cons_of_neg _ (by simp [hprev 0 (by omega)])]
      rw [List.find?_map]
      rw [find?_range_first (p ∘ Nat.succ) b m (by omega) hp
        (fun j hj => hprev (j + 1) (by omega))]
      rfl

theorem relFirstWindow_exact {bits : List Bool} {b : Nat} (hlen : bits.length = 14)
    (hb : b < 14) (hw : windowAt bits b = true)
    (hprev : ∀ j, j < b → windowAt bits j = false) :
    relFirstWindow bits = some b := by
  unfold relFirstWindow
  rw [hlen]
  exact find?_range_first _ b 14 hb hw hprev

theorem hitsSlot_false_of_wNum {c : Card} {w : Nat} (h : wNum c ≠ w) :
    hitsSlot w c = false := by
  unfold hitsSlot
  cases hw : c.weight with
  | none => rfl
  | some x =>
    unfold wNum at h
    rw [hw] at h
    simpa using h

theorem filter_single_of_distinct {w : Nat} :
    ∀ {L : List Card} {x : Card}, x ∈ L →
    L.Pairwise (fun a c => wNum a ≠ wNum c) →
    x.weight.isSome = true → wNum x = w →
    L.filter (hitsSlot w) = [x]
  | [], x, hx, _, _, _ => absurd hx (by simp)
  | h :: t, x, hx, hdist, hxw, hxv => by
    rcases List.mem_cons.mp hx with hxh | hxt
    · subst hxh
      have htnil : t.filter (hitsSlot w) = [] := by
        rw [List.filter_eq_nil_iff]
        intro c hc
        have hne : wNum x ≠ wNum c := List.rel_of_pairwise_cons hdist hc
        rw [hitsSlot_false_of_wNum (fun hcontr => hne (by rw [hcontr, hxv]))]
        simp
      rw [List.filter_cons_of_pos (hitsSlot_of_wNum hxw hxv), htnil]
    · have hne : wNum h ≠ wNum x := List.rel_of_pairwise_cons hdist hxt
      rw [List.filter_cons_of_neg
        (by rw [hitsSlot_false_of_wNum (fun hcontr => hne (by rw [hcontr, hxv]))]; simp)]
      exact filter_single_of_distinct hxt (List.Pairwise.of_cons hdist) hxw hxv

/-- A successful run: five slot cards with consecutive descending weights
`13-b .. 9-b`, each a member of the sequence source. -/
theorem mkSequence_order_profile (cards0 : List Card)
    (hsuit : ∀ c ∈ seq_source cards0, c.suit.isSome = true)
    {oc : List Card} (hoc : (mkSequence cards0).order_cards = some oc) :
    ∃ b, b ≤ 9 ∧ oc.length = 5
      ∧ (∀ j, j < 5 → ∀ d, wNum (oc.getD j d) = 13 - (b + j))
      ∧ (∀ x ∈ oc, x ∈ seq_source cards0) := by
  rw [mkSequence_order] at hoc
  cases hrfw : relFirstWindow (rankBits (seq_source cards0)) with
  | none => rw [hrfw] at hoc; simp at hoc
  | some b =>
    rw [hrfw] at hoc
    have hoc2 : ((get_rank (seq_source cards0)).drop b).take 5 = oc := Option.some.inj hoc
    have hble : b + 4 < 14 := by
      have := relFirstWindow_le hrfw
      rwa [rankBits_length] at this
    have hwin : windowAt (rankBits (seq_source cards0)) b = true := by
      unfold relFirstWindow at hrfw
      exact List.find?_some hrfw
    have hslot : ∀ j, j < 5 → ∃ cw, (∀ d, (get_rank (seq_source cards0)).getD (b + j) d = cw)
        ∧ wNum cw = 13 - (b + j) ∧ cw ∈ seq_source cards0 := by
      intro j hj
      have hbit := windowAt_true_elim hwin j hj
      rw [rankBits_getD _ _ (by omega) hsuit] at hbit
      obtain ⟨cw, hlast, hhit⟩ := slot_last hbit
      refine ⟨cw, ?_, hitsSlot_wNum hhit,
        (List.mem_filter.mp (List.mem_of_mem_getLast? hlast)).1⟩
      intro d
      rw [get_rank_getD _ _ _ (by omega), hlast]
      rfl
    have hoclen : oc.length = 5 := by
      rw [← hoc2, List.length_take, List.length_drop, get_rank_length]
      omega
    have hgj : ∀ j, j < 5 → ∀ d, oc.getD j d = (get_rank (seq_source cards0)).getD (b + j) d := by
      intro j hj d
      rw [← hoc2]
      exact drop_take_getD _ b j d hj (by rw [get_rank_length]; omega)
    have hjmem : ∀ j, j < 5 → oc.getD j (rankCard 0) ∈ seq_source cards0 := by
      intro j hjj
      obtain ⟨cw, hcw, _, hcm⟩ := hslot j hjj
      rw [hgj j hjj, hcw]
      exact hcm
    refine ⟨b, by omega, hoclen, ?_, ?_⟩
    · intro j hj d
      obtain ⟨cw, hcw, hcwn, _⟩ := hslot j hj
      rw [hgj j hj d, hcw d, hcwn]
    · intro x hx
      rw [list_eq_five oc (rankCard 0) hoclen] at hx
      simp only [List.mem_cons, List.not_mem_nil, or_false] at hx
      rcases hx with h | h | h | h | h
      · rw [h]; exact hjmem 0 (by omega)
      · rw [h]; exact hjmem 1 (by omega)
      · rw [h]; exact hjmem 2 (by omega)
      · rw [h]; exact hjmem 3 (by omega)
      · rw [h]; exact hjmem 4 (by omega)

/-- The shared slot computation for re-running the sequence analysis on a
bare straight: first window at `b`, slice reproducing the five cards. -/
theorem rerun_core_aux {m : List Card} {b : Nat} (hb : b ≤ 9) (hlen : m.length = 5)
    (hws : ∀ c ∈ m, c.weight.isSome = true)
    (hw : ∀ j, j < 5 → ∀ d, wNum (m.getD j d) = 13 - (b + j))
    (hmem : ∀ j, j < 5 → m.getD j (rankCard 0) ∈ m)
    {src : List Card}
    (hsuits : ∀ c ∈ src, c.suit.isSome = true)
    (hdist : src.Pairwise (fun a c => wNum a ≠ wNum c))
    (hmemsrc : ∀ j, j < 5 → m.getD j (rankCard 0) ∈ src)
    (hsrcw : ∀ w, hasW src w = true → w = 0 ∨ ∃ j, j < 5 ∧ w = 13 - (b + j)) :
    relFirstWindow (rankBits src) = some b
    ∧ ((get_rank src).drop b).take 5 = m := by
  have hW_true : ∀ j, j < 5 → hasW src (13 - (b + j)) = true := by
    intro j hj
    exact List.any_eq_true.mpr ⟨m.getD j (rankCard 0), hmemsrc j hj,
      hitsSlot_of_wNum (hws _ (hmem j hj)) (hw j hj _)⟩
  have hbits : ∀ i, i < 14 → (rankBits src).getD i false = hasW src (13 - i) :=
    fun i hi => rankBits_getD _ i hi hsuits
  have hwinb : windowAt (rankBits src) b = true := by
    apply windowAt_eq_true
    intro j hj
    rw [hbits (b + j) (by omega)]
    exact hW_true j hj
  have hwinprev : ∀ b', b' < b → windowAt (rankBits src) b' = false := by
    intro b' hb'
    apply @windowAt_eq_false_of_bit (rankBits src) b' 0 (by omega)
    rw [Nat.add_zero, hbits b' (by omega)]
    cases hW : hasW src (13 - b') with
    | false => rfl
    | true =>
      exfalso
      rcases hsrcw _ hW with h0 | ⟨j, hj, hjv⟩
      · omega
      · omega
  have hrfw : relFirstWindow (rankBits src) = some b :=
    relFirstWindow_exact (rankBits_length src) (by omega) hwinb hwinprev
  have hfilter : ∀ j, j < 5 → src.filter (hitsSlot (13 - (b + j))) = [m.getD j (rankCard 0)] :=
    fun j hj => filter_single_of_distinct (hmemsrc j hj) hdist (hws _ (hmem j hj))
      (hw j hj (rankCard 0))
  have hslotv : ∀ j, j < 5 → ∀ d, (get_rank src).getD (b + j) d = m.getD j (rankCard 0) := by
    intro j hj d
    rw [get_rank_getD _ _ _ (by omega), hfilter j hj]
    rfl
  have hlen5 : (((get_rank src).drop b).take 5).length = 5 := by
    rw [List.length_take, List.length_drop, get_rank_length]
    omega
  have hslice : ((get_rank src).drop b).take 5 = m := by
    rw [list_eq_five _ (rankCard 0) hlen5]
    have hgj : ∀ j, j < 5 → (((get_rank src).drop b).take 5).getD j (rankCard 0)
        = (get_rank src).getD (b + j) (rankCard 0) :=
      fun j hj => drop_take_getD _ b j _ hj (by rw [get_rank_length]; omega)
    rw [hgj 0 (by omega), hgj 1 (by omega), hgj 2 (by omega), hgj 3 (by omega),
      hgj 4 (by omega), hslotv 0 (by omega) _, hslotv 1 (by omega) _, hslotv 2 (by omega) _,
      hslotv 3 (by omega) _, hslotv 4 (by omega) _]
    exact (list_eq_five m (rankCard 0) hlen).symm
  exact ⟨hrfw, hslice⟩


/-- Re-running the sequence analysis on the sorted five cards of a detected
straight finds the same window and reports the same five cards. -/
theorem rerun_core {m : List Card} {b : Nat} (hb : b ≤ 9) (hlen : m.length = 5)
    (hval : validCards m = true)
    (hw : ∀ j, j < 5 → ∀ d, wNum (m.getD j d) = 13 - (b + j)) :
    (mkSequence (sortCards m)).five_in_a_row = true
    ∧ (mkSequence (sortCards m)).order_cards = some m := by
  have hm5 := list_eq_five m (rankCard 0) hlen
  have hws : ∀ c ∈ m, c.weight.isSome = true := fun c hc => (validCards_mem hval hc).1
  have hw0 := hw 0 (by omega) (rankCard 0)
  have hw1 := hw 1 (by omega) (rankCard 0)
  have hw2 := hw 2 (by omega) (rankCard 0)
  have hw3 := hw 3 (by omega) (rankCard 0)
  have hw4 := hw 4 (by omega) (rankCard 0)
  have hmem : ∀ j, j < 5 → m.getD j (rankCard 0) ∈ m := by
    intro j hj
    have hlt : j < m.length := by omega
    rw [List.getD_eq_getElem?_getD, List.getElem?_eq_getElem hlt]
    show m[j] ∈ m
    exact List.getElem_mem hlt
  have hmw : ∀ c ∈ m, ∃ j, j < 5 ∧ wNum c = 13 - (b + j) := by
    intro c hc
    rw [hm5] at hc
    simp only [List.mem_cons, List.not_mem_nil, or_false] at hc
    rcases hc with h | h | h | h | h
    · exact ⟨0, by omega, by rw [h, hw0]⟩
    · exact ⟨1, by omega, by rw [h, hw1]⟩
    · exact ⟨2, by omega, by rw [h, hw2]⟩
    · exact ⟨3, by omega, by rw [h, hw3]⟩
    · exact ⟨4, by omega, by rw [h, hw4]⟩
  have hmapw : m.map wNum
      = [13 - b, 13 - (b + 1), 13 - (b + 2), 13 - (b + 3), 13 - (b + 4)] := by
    conv_lhs => rw [hm5]
    simp only [List.map_cons, List.map_nil]
    rw [hw0, hw1, hw2, hw3, hw4]
    rw [Nat.add_zero]
  have hmp : (m.map wNum).Pairwise (fun a c => c < a) := by
    rw [hmapw]
    refine List.Pairwise.cons ?_ (List.Pairwise.cons ?_ (List.Pairwise.cons ?_
      (List.Pairwise.cons ?_ (List.Pairwise.cons (by simp) List.Pairwise.nil)))) <;>
      intro x hx <;> simp only [List.mem_cons, List.not_mem_nil, or_false] at hx <;>
      first
        | (rcases hx with h | h | h | h <;> subst h <;> omega)
        | (rcases hx with h | h | h <;> subst h <;> omega)
        | (rcases hx with h | h <;> subst h <;> omega)
        | (subst hx; omega)
  have hdesc : m.Pairwise (fun a c => wNum c < wNum a) := List.pairwise_map.mp hmp
  have hdistm : m.Pairwise (fun a c => wNum a ≠ wNum c) :=
    hdesc.imp (fun h => by omega)
  have hrevperm : (m.reverse).Perm m := List.reverse_perm m
  have hvalrev : validCards m.reverse = true := validCards_perm hrevperm.symm hval
  have hsort : sortCards m = m.reverse := sortCards_strict_desc hws hdesc
  have hsuits_src : ∀ c ∈ seq_source m.reverse, c.suit.isSome = true :=
    seq_source_suits hvalrev
  have hdistrev : (m.reverse).Pairwise (fun a c => wNum a ≠ wNum c) := by
    rw [List.pairwise_reverse]
    exact hdistm.imp (fun h => Ne.symm h)
  have hmemrev : ∀ j, j < 5 → m.getD j (rankCard 0) ∈ m.reverse :=
    fun j hj => List.mem_reverse.mpr (hmem j hj)
  have hsrcw : ∀ w, hasW (seq_source m.reverse) w = true →
      w = 0 ∨ ∃ j, j < 5 ∧ w = 13 - (b + j) := by
    intro w hW
    rcases (hasW_seq_source_iff hvalrev w).mp hW with h | ⟨h0, _⟩
    · obtain ⟨c, hc, hhit⟩ := List.any_eq_true.mp h
      obtain ⟨j, hj, hjv⟩ := hmw c (List.mem_reverse.mp hc)
      exact Or.inr ⟨j, hj, by rw [← hjv]; exact (hitsSlot_wNum hhit).symm⟩
    · exact Or.inl h0
  have hmemsrc : ∀ j, j < 5 → m.getD j (rankCard 0) ∈ seq_source m.reverse := by
    intro j hj
    rcases seq_source_shape hvalrev with hsrc | ⟨ace, hacem, h13, hsrc⟩
    · rw [hsrc]; exact hmemrev j hj
    · rw [hsrc]; exact List.mem_cons_of_mem _ (hmemrev j hj)
  have hdistsrc : (seq_source m.reverse).Pairwise (fun a c => wNum a ≠ wNum c) := by
    rcases seq_source_shape hvalrev with hsrc | ⟨ace, hacem, h13, hsrc⟩
    · rw [hsrc]; exact hdistrev
    · obtain ⟨j0, hj0, hjv0⟩ := hmw ace (List.mem_reverse.mp hacem)
      have h130 : (13 : Nat) = 13 - (b + j0) := by rw [← hjv0, h13]
      have hb0 : b = 0 := by omega
      rw [hsrc]
      refine List.Pairwise.cons ?_ hdistrev
      intro c hc
      obtain ⟨j, hj, hjv⟩ := hmw c (List.mem_reverse.mp hc)
      show (0 : Nat) ≠ wNum c
      rw [hjv]
      omega
  obtain ⟨hrfw, hslice⟩ := rerun_core_aux hb hlen hws hw hmem hsuits_src hdistsrc hmemsrc hsrcw
  constructor
  · rw [hsort, mkSequence_five, hrfw]
    rfl
  · rw [hsort, mkSequence_order, hrfw]
    show some (((get_rank (seq_source m.reverse)).drop b).take 5) = some m
    rw [hslice]

theorem sorted_perm_of_strict_desc {p m : List Card} (hperm : p.Perm m)
    (hpasc : p.Pairwise (fun a c => wNum a ≤ wNum c))
    (hmdesc : m.Pairwise (fun a c => wNum c < wNum a)) : p = m.reverse := by
  apply sorted_strict_unique
  · exact hperm.trans (List.reverse_perm m).symm
  · have h1 : (m.map wNum).Pairwise (fun a c => a ≠ c) :=
      List.pairwise_map.mpr (hmdesc.imp (fun h => by omega))
    have h2 : (p.map wNum).Pairwise (fun a c => a ≠ c) :=
      ((hperm.map wNum).pairwise_iff (fun h => Ne.symm h)).mpr h1
    have hne : p.Pairwise (fun a c => wNum a ≠ wNum c) := List.pairwise_map.mp h2
    exact (hpasc.and hne).imp (fun h => by omega)
  · rw [List.pairwise_reverse]
    exact hmdesc
    |>.imp (fun h => h)

theorem filter_const_all {F : List Card} {w0 : Nat} (hF : ∀ x ∈ F, wNum x = w0) :
    F.filter (fun c => wNum c == w0) = F :=
  List.filter_eq_self.mpr (fun a ha => by simp [hF a ha])

theorem filter_const_nil {F : List Card} {w0 w : Nat} (hF : ∀ x ∈ F, wNum x = w0)
    (hne : w ≠ w0) : F.filter (fun c => wNum c == w) = [] := by
  rw [List.filter_eq_nil_iff]
  intro x hx
  rw [hF x hx]
  simp
  omega

theorem filter_ne_key_nil {ks : List Card} {w0 : Nat} (hk : ∀ x ∈ ks, wNum x ≠ w0) :
    ks.filter (fun c => wNum c == w0) = [] := by
  rw [List.filter_eq_nil_iff]
  intro x hx
  simpa using hk x hx

theorem length_filter_cons_le {α : Type} (a : α) (t : List α) (p : α → Bool) :
    (t.filter p).length ≤ ((a :: t).filter p).length := by
  rw [List.filter_cons]
  cases p a with
  | true => simp
  | false => simp

theorem pairwise_ne_weights_of_count :
    ∀ {m : List Card}, (∀ x ∈ m, (m.filter (fun c => wNum c == wNum x)).length ≤ 1) →
    m.Pairwise (fun a c => wNum a ≠ wNum c)
  | [], _ => List.Pairwise.nil
  | a :: t, h => by
    refine List.Pairwise.cons ?_ (pairwise_ne_weights_of_count (fun x hx => ?_))
    · intro x hx hcontr
      have ha := h a (by simp)
      have hfc : ((a :: t).filter (fun c => wNum c == wNum a))
          = a :: t.filter (fun c => wNum c == wNum a) :=
        List.filter_cons_of_pos (by simp)
      have hxmem : x ∈ t.filter (fun c => wNum c == wNum a) :=
        List.mem_filter.mpr ⟨hx, by simp [hcontr]⟩
      rw [hfc] at ha
      have := List.length_pos_of_mem hxmem
      simp only [List.length_cons] at ha
      omega
    · have := h x (by simp [hx])
      have hle := length_filter_cons_le a t (fun c => wNum c == wNum x)
      omega

/-- Re-running `get_other_cards` on the sorted five-card combination
reconstructs exactly the same list. -/
theorem regroup_single_key (cs F ks : List Card) (w0 : Nat) (key' : Card)
    (hvalcs : validCards cs = true) (hcs : cs = F ++ ks)
    (hF : ∀ x ∈ F, wNum x = w0) (hFne : F ≠ [])
    (hkw : ∀ x ∈ ks, wNum x ≠ w0) (hkdesc : ks.Pairwise (fun a c => wNum c < wNum a))
    (hksne : ks ≠ []) (hlen5 : cs.length = 5)
    (hk'w : key'.weight.isSome = true) (hk'v : wNum key' = w0) :
    get_other_cards ((sortCards cs).filter (fun card => cardEq card key')) (sortCards cs)
      = cs := by
  have hperm := sortCards_perm cs
  have hvs : validCards (sortCards cs) = true := validCards_perm hperm.symm hvalcs
  have hws : ∀ c ∈ cs, c.weight.isSome = true := fun c hc => (validCards_mem hvalcs hc).1
  have hself : (sortCards cs).filter (fun card => cardEq card key') = F := by
    have he : (sortCards cs).filter (fun card => cardEq card key')
        = (sortCards cs).filter (fun card => wNum card == w0) := by
      apply List.filter_congr
      intro c hc
      rw [cardEq_weighted (validCards_mem hvs hc).1 hk'w, hk'v]
    rw [he, sortCards_filter_weight w0 cs hws, hcs, List.filter_append,
      filter_const_all hF, filter_ne_key_nil hkw, List.append_nil]
  have hFw' : ∀ e ∈ F, e.weight.isSome = true ∧ wNum e = w0 := by
    intro e he
    exact ⟨hws e (by rw [hcs]; exact List.mem_append_left _ he), hF e he⟩
  have hpool : (sortCards cs).filter
      (fun card => !(F.any (fun e => cardEq e card))) = ks.reverse := by
    have hp1 : (sortCards cs).filter (fun card => !(F.any (fun e => cardEq e card)))
        = (sortCards cs).filter (fun card => !(wNum card == w0)) :=
      pool_const hvs F hFne hFw'
    have hp2 : ((sortCards cs).filter (fun card => !(wNum card == w0))).Perm
        (cs.filter (fun card => !(wNum card == w0))) := hperm.filter _
    have hp3 : cs.filter (fun card => !(wNum card == w0)) = ks := by
      rw [hcs, List.filter_append]
      rw [show F.filter (fun card => !(wNum card == w0)) = [] from ?_,
        show ks.filter (fun card => !(wNum card == w0)) = ks from ?_, List.nil_append]
      · apply List.filter_eq_self.mpr
        intro a ha
        simpa using hkw a ha
      · rw [List.filter_eq_nil_iff]
        intro x hx
        simp [hF x hx]
    have hsorted : ((sortCards cs).filter (fun card => !(wNum card == w0))).Pairwise
        (fun a c => wNum a ≤ wNum c) :=
      List.Pairwise.sublist (List.filter_sublist _) (sortCards_sorted_wNum hws)
    rw [hp1]
    exact sorted_perm_of_strict_desc (hp3 ▸ hp2) hsorted hkdesc
  rw [hself]
  unfold get_other_cards
  rw [hpool]
  cases hkr : ks.reverse with
  | nil => exact absurd (by rw [← List.reverse_reverse ks, hkr]; rfl) hksne
  | cons y ys =>
    show F ++ ((y :: ys).reverse.take (5 - F.length)) = cs
    rw [← hkr, List.reverse_reverse]
    have hlen : F.length + ks.length = 5 := by
      rw [hcs, List.length_append] at hlen5
      omega
    rw [show 5 - F.length = ks.length from by omega, List.take_length]
    exact hcs.symm

theorem validCards_of_mem {s cs : List Card} (h : ∀ x ∈ cs, x ∈ s)
    (hval : validCards s = true) : validCards cs = true := by
  unfold validCards
  rw [List.all_eq_true]
  intro c hc
  have := validCards_mem hval (h c hc)
  simp only [Bool.and_eq_true, decide_eq_true_eq]
  exact ⟨⟨this.1, this.2.1⟩, this.2.2⟩

theorem scount_le_of_not_all {s : List Card} {su : Option Suit} {x : Card}
    (hlen : s.length ≤ 5) (hx : x ∈ s) (hxs : x.suit ≠ su) : scount s su ≤ 4 := by
  by_contra hgt
  have hsub : (s.filter (fun e => e.suit == su)).Sublist s := List.filter_sublist _
  have hle : s.length ≤ (s.filter (fun e => e.suit == su)).length := by
    have : 5 ≤ scount s su := by omega
    unfold scount at this
    omega
  have heq : s.filter (fun e => e.suit == su) = s := hsub.eq_of_length_le hle
  have hxf : x ∈ s.filter (fun e => e.suit == su) := by rw [heq]; exact hx
  have := (List.mem_filter.mp hxf).2
  exact hxs (by simpa using this)

theorem scount_bound_from_pair {cs : List Card} {x y : Card} (hlen : cs.length ≤ 5)
    (hx : x ∈ cs) (hy : y ∈ cs) (hne : x.suit ≠ y.suit) (su : Option Suit) :
    scount cs su ≤ 4 := by
  by_cases hxs : x.suit = su
  · exact scount_le_of_not_all hlen hy (fun h => hne (by rw [hxs, h]))
  · exact scount_le_of_not_all hlen hx hxs

theorem pair_suits_differ {s : List Card} (hdist : cardsDistinct s) {F : List Card}
    {w0 : Nat} (hFsub : F.Sublist s) (hFw : ∀ x ∈ F, wNum x = w0)
    (hFlen : 2 ≤ F.length) : ∃ x y, x ∈ F ∧ y ∈ F ∧ x.suit ≠ y.suit := by
  have hFd : cardsDistinct F := List.Pairwise.sublist hFsub hdist
  cases hF : F with
  | nil => rw [hF] at hFlen; simp at hFlen
  | cons a t =>
    cases ht : t with
    | nil => rw [hF, ht] at hFlen; simp at hFlen
    | cons c r =>
      rw [hF, ht] at hFd
      have hrel := List.rel_of_pairwise_cons hFd (show c ∈ c :: r by simp)
      have hwa : wNum a = w0 := hFw a (by rw [hF]; simp)
      have hwc : wNum c = w0 := hFw c (by rw [hF, ht]; simp)
      refine ⟨a, c, by simp, by simp, ?_⟩
      intro hcontr
      exact hrel ⟨by rw [hwa, hwc], hcontr.symm⟩

/-- The suit analysis of a five-card group with two differing suits: some
record with `five_or_more` false. -/
theorem rerun_suit_low {cs : List Card} (hval : validCards cs = true) (hne : cs ≠ [])
    (hsc : ∀ su, scount cs su ≤ 4) :
    ∃ suit2, flush_or_not (repFold (sortCards cs) suitCardOf (sortCards cs) ⟨[], []⟩).all
        = some suit2 ∧ suit2.five_or_more = false := by
  have hperm := sortCards_perm cs
  have hvs : validCards (sortCards cs) = true := validCards_perm hperm.symm hval
  have hsne : sortCards cs ≠ [] := by
    intro h0
    have := hperm.length_eq
    rw [h0] at this
    exact hne (List.eq_nil_of_length_eq_zero this.symm)
  obtain ⟨suit2, hfn, _, hiff, _⟩ := flush_analysis hsne hvs
  refine ⟨suit2, hfn, ?_⟩
  cases hfom : suit2.five_or_more with
  | false => rfl
  | true =>
    exfalso
    obtain ⟨c, hc, h5c⟩ := hiff.mp hfom
    rw [scount_perm hperm c.suit] at h5c
    have := hsc c.suit
    omega

/-- The suit analysis of five same-suited cards: `five_or_more` true and a
flush card matching every group member. -/
theorem rerun_suit_high {cs : List Card} (hval : validCards cs = true)
    (hlen : cs.length = 5) {su0 : Option Suit} (hsu : ∀ x ∈ cs, x.suit = su0) :
    ∃ suit2 fc2,
      flush_or_not (repFold (sortCards cs) suitCardOf (sortCards cs) ⟨[], []⟩).all
        = some suit2
      ∧ suit2.five_or_more = true ∧ suit2.flush_card = some fc2
      ∧ (sortCards cs).filter (fun card => cardEq card fc2) = sortCards cs := by
  have hperm := sortCards_perm cs
  have hvs : validCards (sortCards cs) = true := validCards_perm hperm.symm hval
  have hsne : sortCards cs ≠ [] := by
    intro h0
    have := hperm.length_eq
    rw [h0] at this
    simp at this
    omega
  obtain ⟨suit2, hfn, ⟨fc2, c2, hfc2, hc2mem, hfc2w, hfc2s, hcount⟩, hiff, hle⟩ :=
    flush_analysis hsne hvs
  have hsu' : ∀ x ∈ sortCards cs, x.suit = su0 := fun x hx => hsu x (hperm.mem_iff.mp hx)
  have hc2su : c2.suit = su0 := hsu' c2 hc2mem
  have hfull : (sortCards cs).filter (fun e => e.suit == c2.suit) = sortCards cs := by
    apply List.filter_eq_self.mpr
    intro a ha
    rw [hsu' a ha, hc2su]
    simp
  have hsc5 : scount (sortCards cs) c2.suit = 5 := by
    unfold scount
    rw [hfull, hperm.length_eq, hlen]
  refine ⟨suit2, fc2, hfn, hiff.mpr ⟨c2, hc2mem, by omega⟩, hfc2, ?_⟩
  have hfcsome : fc2.suit.isSome = true := by
    rw [hfc2s, hc2su]
    obtain ⟨c0, hc0⟩ : ∃ c, c ∈ cs := by
      cases hcs : cs with
      | nil => rw [hcs] at hlen; simp at hlen
      | cons a t => exact ⟨a, by simp⟩
    rw [← hsu c0 hc0]
    exact (validCards_mem hval hc0).2.2
  apply List.filter_eq_self.mpr
  intro a ha
  rw [cardEq_suitless (validCards_mem hvs ha).2.2 hfcsome hfc2w, hfc2s, hsu' a ha, hc2su]
  simp

theorem profile_three {s : List Card} (hval : validCards s = true) {wt : Nat}
    (hreal : ∃ c ∈ s, wNum c = wt) (h3 : wcount s wt = 3)
    (huniq : ∀ c ∈ s, wNum c ≠ wt → wcount s (wNum c) ≤ 1) :
    ∃ kT, get_repeat_kind (repFold s weightCardOf s ⟨[], []⟩).all
        = { all := (repFold s weightCardOf s ⟨[], []⟩).all, three := some kT }
      ∧ wNum kT = wt ∧ kT.weight.isSome = true := by
  obtain ⟨hKw, hKall, hKdist, hDict, hKsub⟩ := weight_analysis hval
  have hb4 := bucket_empty hval 4 (fun c hc => by
    by_cases hx : wNum c = wt
    · rw [hx, h3]; omega
    · have := huniq c hc hx; omega)
  have hb2 := bucket_empty hval 2 (fun c hc => by
    by_cases hx : wNum c = wt
    · rw [hx, h3]; omega
    · have := huniq c hc hx; omega)
  obtain ⟨kT, hb3, hkw, hkt⟩ := bucket_single hval hreal h3 (fun c hc hcnt => by
    by_contra hcne
    have := huniq c hc hcne
    omega)
  refine ⟨kT, ?_, hkw, hkt⟩
  unfold get_repeat_kind
  rw [hDict 4, hb4, hDict 3, hb3, hDict 2, hb2]
  rfl

theorem select_combo_three_eval (init : List Card) (all : RepDict) (kT : Card)
    (suit : SuitRepeats) (hfom : suit.five_or_more = false)
    (h5 : (mkSequence init).five_in_a_row = false) :
    select_combo init { all := all, three := some kT } suit
      = some (THREE_OF_A_KIND, three_of_a_kind_cards init kT, mkSequence init) := by
  unfold select_combo
  rw [hfom, h5]
  rfl

theorem hitsSlot_beq {c : Card} (hws : c.weight.isSome = true) (w : Nat) :
    hitsSlot w c = (wNum c == w) := by
  obtain ⟨x, hx⟩ := Option.isSome_iff_exists.mp hws
  unfold hitsSlot wNum
  rw [hx]

theorem filter_weight_single {ks : List Card} {x : Card} (hx : x ∈ ks)
    (hdist : ks.Pairwise (fun a c => wNum a ≠ wNum c))
    (hws : ∀ c ∈ ks, c.weight.isSome = true) :
    ks.filter (fun c => wNum c == wNum x) = [x] := by
  have h1 : ks.filter (fun c => wNum c == wNum x) = ks.filter (hitsSlot (wNum x)) :=
    List.filter_congr (fun c hc => (hitsSlot_beq (hws c hc) (wNum x)).symm)
  rw [h1]
  exact filter_single_of_distinct hx hdist (hws x hx) rfl

/-- Shared weight-count facts for a five-card combination made of one constant
weight group plus distinct-weight kickers. -/
theorem second_run_common {cs F ks : List Card} {w0 n : Nat}
    (hvalcs : validCards cs = true) (hcs : cs = F ++ ks)
    (hF : ∀ x ∈ F, wNum x = w0) (hFlen : F.length = n)
    (hn2 : 1 ≤ n)
    (hkw : ∀ x ∈ ks, wNum x ≠ w0)
    (hkdesc : ks.Pairwise (fun a c => wNum c < wNum a)) :
    wcount (sortCards cs) w0 = n
    ∧ (∃ c ∈ sortCards cs, wNum c = w0)
    ∧ (∀ c ∈ sortCards cs, wNum c ≠ w0 → wcount (sortCards cs) (wNum c) ≤ 1) := by
  have hperm := sortCards_perm cs
  have hws : ∀ c ∈ cs, c.weight.isSome = true := fun c hc => (validCards_mem hvalcs hc).1
  have hkdist : ks.Pairwise (fun a c => wNum a ≠ wNum c) := hkdesc.imp (fun h => by omega)
  have hksws : ∀ c ∈ ks, c.weight.isSome = true :=
    fun c hc => hws c (by rw [hcs]; exact List.mem_append_right _ hc)
  have hcW : wcount cs w0 = n := by
    unfold wcount
    rw [hcs, List.filter_append, filter_const_all hF, filter_ne_key_nil hkw,
      List.append_nil, hFlen]
  have hcK : ∀ x ∈ ks, wcount cs (wNum x) = 1 := by
    intro x hx
    unfold wcount
    rw [hcs, List.filter_append, filter_const_nil hF (hkw x hx),
      filter_weight_single hx hkdist hksws, List.nil_append]
    rfl
  refine ⟨by rw [wcount_perm hperm]; exact hcW, ?_, ?_⟩
  · obtain ⟨f0, hf0⟩ : ∃ f0, f0 ∈ F := by
      cases hFv : F with
      | nil => rw [hFv] at hFlen; simp at hFlen; omega
      | cons a t => exact ⟨a, by simp⟩
    exact ⟨f0, hperm.mem_iff.mpr (by rw [hcs]; exact List.mem_append_left _ hf0), hF f0 hf0⟩
  · intro c hc hcw
    have hcm : c ∈ cs := hperm.mem_iff.mp hc
    rw [wcount_perm hperm]
    rw [hcs] at hcm
    rcases List.mem_append.mp hcm with hmf | hmk
    · exact absurd (hF c hmf) hcw
    · rw [hcK c hmk]

theorem second_run_four {cs F ks : List Card} {w0 : Nat}
    (hvalcs : validCards cs = true) (hcs : cs = F ++ ks)
    (hF : ∀ x ∈ F, wNum x = w0) (hFlen : F.length = 4)
    (hkw : ∀ x ∈ ks, wNum x ≠ w0)
    (hkdesc : ks.Pairwise (fun a c => wNum c < wNum a))
    (hlen5 : cs.length = 5)
    (hsc : ∀ su, scount cs su ≤ 4) :
    ∃ c', find_combo cs = some c' ∧ c'.type = FOUR_OF_A_KIND ∧ c'.cards = cs := by
  have hperm := sortCards_perm cs
  have hvs : validCards (sortCards cs) = true := validCards_perm hperm.symm hvalcs
  have hne : cs ≠ [] := by intro h0; rw [h0] at hlen5; simp at hlen5
  obtain ⟨hcW, hreal, huniq⟩ := second_run_common hvalcs hcs hF hFlen (by omega) hkw hkdesc
  obtain ⟨kF, hGR, hkFw, hkFt⟩ := profile_four hvs hreal hcW huniq
  obtain ⟨suit2, hfn2, hfom2⟩ := rerun_suit_low hvalcs hne hsc
  have h1 : (get_all_repeats (sortCards cs)).1
      = repFold (sortCards cs) weightCardOf (sortCards cs) ⟨[], []⟩ := by
    rw [get_all_repeats_eq]
  have hsel : select_combo (sortCards cs)
      (get_repeat_kind (get_all_repeats (sortCards cs)).1.all) suit2
      = some (FOUR_OF_A_KIND, four_of_a_kind_cards (sortCards cs) kF,
          mkSequence (sortCards cs)) := by
    rw [h1, hGR]
    exact select_combo_four_eval _ _ kF suit2 hfom2
  refine ⟨_, find_combo_assemble hfn2 hsel, rfl, ?_⟩
  show four_of_a_kind_cards (sortCards cs) kF = cs
  unfold four_of_a_kind_cards
  exact regroup_single_key cs F ks w0 kF hvalcs hcs hF
    (by intro h0; rw [h0] at hFlen; simp at hFlen) hkw hkdesc
    (by
      intro h0
      rw [hcs, List.length_append, hFlen, h0] at hlen5
      simp only [List.length_nil] at hlen5
      omega)
    hlen5 hkFt hkFw

theorem second_run_three {cs F ks : List Card} {w0 : Nat}
    (hvalcs : validCards cs = true) (hcs : cs = F ++ ks)
    (hF : ∀ x ∈ F, wNum x = w0) (hFlen : F.length = 3)
    (hkw : ∀ x ∈ ks, wNum x ≠ w0)
    (hkdesc : ks.Pairwise (fun a c => wNum c < wNum a))
    (hlen5 : cs.length = 5)
    (hsc : ∀ su, scount cs su ≤ 4)
    (h5' : (mkSequence (sortCards cs)).five_in_a_row = false) :
    ∃ c', find_combo cs = some c' ∧ c'.type = THREE_OF_A_KIND ∧ c'.cards = cs := by
  have hperm := sortCards_perm cs
  have hvs : validCards (sortCards cs) = true := validCards_perm hperm.symm hvalcs
  have hne : cs ≠ [] := by intro h0; rw [h0] at hlen5; simp at hlen5
  obtain ⟨hcW, hreal, huniq⟩ := second_run_common hvalcs hcs hF hFlen (by omega) hkw hkdesc
  obtain ⟨kT, hGR, hkTw, hkTt⟩ := profile_three hvs hreal hcW huniq
  obtain ⟨suit2, hfn2, hfom2⟩ := rerun_suit_low hvalcs hne hsc
  have h1 : (get_all_repeats (sortCards cs)).1
      = repFold (sortCards cs) weightCardOf (sortCards cs) ⟨[], []⟩ := by
    rw [get_all_repeats_eq]
  have hsel : select_combo (sortCards cs)
      (get_repeat_kind (get_all_repeats (sortCards cs)).1.all) suit2
      = some (THREE_OF_A_KIND, three_of_a_kind_cards (sortCards cs) kT,
          mkSequence (sortCards cs)) := by
    rw [h1, hGR]
    exact select_combo_three_eval _ _ kT suit2 hfom2 h5'
  refine ⟨_, find_combo_assemble hfn2 hsel, rfl, ?_⟩
  show three_of_a_kind_cards (sortCards cs) kT = cs
  unfold three_of_a_kind_cards
  exact regroup_single_key cs F ks w0 kT hvalcs hcs hF
    (by intro h0; rw [h0] at hFlen; simp at hFlen) hkw hkdesc
    (by
      intro h0
      rw [hcs, List.length_append, hFlen, h0] at hlen5
      simp only [List.length_nil] at hlen5
      omega)
    hlen5 hkTt hkTw

theorem second_run_one_pair {cs F ks : List Card} {w0 : Nat}
    (hvalcs : validCards cs = true) (hcs : cs = F ++ ks)
    (hF : ∀ x ∈ F, wNum x = w0) (hFlen : F.length = 2)
    (hkw : ∀ x ∈ ks, wNum x ≠ w0)
    (hkdesc : ks.Pairwise (fun a c => wNum c < wNum a))
    (hlen5 : cs.length = 5)
    (hsc : ∀ su, scount cs su ≤ 4)
    (h5' : (mkSequence (sortCards cs)).five_in_a_row = false) :
    ∃ c', find_combo cs = some c' ∧ c'.type = ONE_PAIR ∧ c'.cards = cs := by
  have hperm := sortCards_perm cs
  have hvs : validCards (sortCards cs) = true := validCards_perm hperm.symm hvalcs
  have hne : cs ≠ [] := by intro h0; rw [h0] at hlen5; simp at hlen5
  obtain ⟨hcW, hreal, huniq⟩ := second_run_common hvalcs hcs hF hFlen (by omega) hkw hkdesc
  obtain ⟨kP, hGR, hkPw, hkPt⟩ := profile_one_pair hvs hreal hcW huniq
  obtain ⟨suit2, hfn2, hfom2⟩ := rerun_suit_low hvalcs hne hsc
  have h1 : (get_all_repeats (sortCards cs)).1
      = repFold (sortCards cs) weightCardOf (sortCards cs) ⟨[], []⟩ := by
    rw [get_all_repeats_eq]
  have hsel : select_combo (sortCards cs)
      (get_repeat_kind (get_all_repeats (sortCards cs)).1.all) suit2
      = some (ONE_PAIR, one_pair_cards (sortCards cs) kP,
          mkSequence (sortCards cs)) := by
    rw [h1, hGR]
    exact select_combo_one_pair_eval _ _ kP suit2 hfom2 h5'
  refine ⟨_, find_combo_assemble hfn2 hsel, rfl, ?_⟩
  show one_pair_cards (sortCards cs) kP = cs
  unfold one_pair_cards
  exact regroup_single_key cs F ks w0 kP hvalcs hcs hF
    (by intro h0; rw [h0] at hFlen; simp at hFlen) hkw hkdesc
    (by
      intro h0
      rw [hcs, List.length_append, hFlen, h0] at hlen5
      simp only [List.length_nil] at hlen5
      omega)
    hlen5 hkPt hkPw

theorem sorted_filter_key (cs : List Card) (hvalcs : validCards cs = true) (key : Card)
    (hkw : key.weight.isSome = true) :
    (sortCards cs).filter (fun card => cardEq card key)
      = cs.filter (fun card => wNum card == wNum key) := by
  have hws : ∀ c ∈ cs, c.weight.isSome = true := fun c hc => (validCards_mem hvalcs hc).1
  have hvs := validCards_perm (sortCards_perm cs).symm hvalcs
  have he : (sortCards cs).filter (fun card => cardEq card key)
      = (sortCards cs).filter (fun card => wNum card == wNum key) :=
    List.filter_congr (fun c hc => cardEq_weighted (validCards_mem hvs hc).1 hkw)
  rw [he, sortCards_filter_weight _ cs hws]

theorem second_run_full_house {cs T P : List Card} {wt wp : Nat}
    (hvalcs : validCards cs = true) (hcs : cs = T ++ P)
    (hT : ∀ x ∈ T, wNum x = wt) (hTlen : T.length = 3)
    (hP : ∀ x ∈ P, wNum x = wp) (hPlen : P.length = 2)
    (hwtp : wt ≠ wp)
    (hsc : ∀ su, scount cs su ≤ 4) :
    ∃ c', find_combo cs = some c' ∧ c'.type = FULL_HOUSE ∧ c'.cards = cs := by
  have hperm := sortCards_perm cs
  have hvs : validCards (sortCards cs) = true := validCards_perm hperm.symm hvalcs
  have hlen5 : cs.length = 5 := by rw [hcs, List.length_append, hTlen, hPlen]
  have hne : cs ≠ [] := by intro h0; rw [h0] at hlen5; simp at hlen5
  have hcT : wcount cs wt = 3 := by
    unfold wcount
    rw [hcs, List.filter_append, filter_const_all hT, filter_const_nil hP hwtp,
      List.append_nil, hTlen]
  have hcP : wcount cs wp = 2 := by
    unfold wcount
    rw [hcs, List.filter_append, filter_const_all hP,
      filter_const_nil hT (fun h => hwtp h.symm), List.nil_append, hPlen]
  have hrealT : ∃ c ∈ sortCards cs, wNum c = wt := by
    obtain ⟨t0, ht0⟩ : ∃ t0, t0 ∈ T := by
      cases hTv : T with
      | nil => rw [hTv] at hTlen; simp at hTlen
      | cons a t => exact ⟨a, by simp⟩
    exact ⟨t0, hperm.mem_iff.mpr (by rw [hcs]; exact List.mem_append_left _ ht0), hT t0 ht0⟩
  have hrealP : ∃ c ∈ sortCards cs, wNum c = wp := by
    obtain ⟨p0, hp0⟩ : ∃ p0, p0 ∈ P := by
      cases hPv : P with
      | nil => rw [hPv] at hPlen; simp at hPlen
      | cons a t => exact ⟨a, by simp⟩
    exact ⟨p0, hperm.mem_iff.mpr (by rw [hcs]; exact List.mem_append_right _ hp0), hP p0 hp0⟩
  have huniq : ∀ c ∈ sortCards cs, wNum c ≠ wt → wNum c ≠ wp →
      wcount (sortCards cs) (wNum c) ≤ 1 := by
    intro c hc hct hcp
    have hcm : c ∈ cs := hperm.mem_iff.mp hc
    rw [hcs] at hcm
    rcases List.mem_append.mp hcm with hmf | hmk
    · exact absurd (hT c hmf) hct
    · exact absurd (hP c hmk) hcp
  obtain ⟨kT, kP, hGR, hkTw, hkPw, hkTt, hkPt⟩ := profile_full_house hvs hwtp hrealT
    (by rw [wcount_perm hperm]; exact hcT) hrealP
    (by rw [wcount_perm hperm]; exact hcP) huniq
  obtain ⟨suit2, hfn2, hfom2⟩ := rerun_suit_low hvalcs hne hsc
  have h1 : (get_all_repeats (sortCards cs)).1
      = repFold (sortCards cs) weightCardOf (sortCards cs) ⟨[], []⟩ := by
    rw [get_all_repeats_eq]
  have hsel : select_combo (sortCards cs)
      (get_repeat_kind (get_all_repeats (sortCards cs)).1.all) suit2
      = some (FULL_HOUSE, full_house_cards (sortCards cs) kT kP,
          mkSequence (sortCards cs)) := by
    rw [h1, hGR]
    exact select_combo_fh_eval _ _ kT kP false suit2 hfom2
  refine ⟨_, find_combo_assemble hfn2 hsel, rfl, ?_⟩
  show full_house_cards (sortCards cs) kT kP = cs
  unfold full_house_cards
  have hfT : (sortCards cs).filter (fun card => cardEq card kT) = T := by
    rw [sorted_filter_key cs hvalcs kT hkTt, hkTw, hcs, List.filter_append,
      filter_const_all hT, filter_const_nil hP hwtp, List.append_nil]
  have hfP : (sortCards cs).filter (fun card => cardEq card kP) = P := by
    rw [sorted_filter_key cs hvalcs kP hkPt, hkPw, hcs, List.filter_append,
      filter_const_all hP, filter_const_nil hT (fun h => hwtp h.symm), List.nil_append]
  rw [hfT, hfP, show P.take 2 = P from by rw [← hPlen]; exact List.take_length P]
  exact hcs.symm

theorem regroup_two_pairs (cs F2 F1 : List Card) (w1 w2 : Nat) (k k1 k2 : Card)
    (hvalcs : validCards cs = true) (hcs : cs = F2 ++ F1 ++ [k]) (h12 : w1 < w2)
    (hF2 : ∀ x ∈ F2, wNum x = w2) (hF2len : F2.length = 2)
    (hF1 : ∀ x ∈ F1, wNum x = w1) (hF1len : F1.length = 2)
    (hk1 : wNum k ≠ w1) (hk2 : wNum k ≠ w2)
    (hk1w : k1.weight.isSome = true) (hk2w : k2.weight.isSome = true)
    (hk1v : wNum k1 = w1) (hk2v : wNum k2 = w2) :
    two_pairs_cards (sortCards cs) [k1, k2] = cs := by
  have hperm := sortCards_perm cs
  have hvs : validCards (sortCards cs) = true := validCards_perm hperm.symm hvalcs
  have hws : ∀ c ∈ cs, c.weight.isSome = true := fun c hc => (validCards_mem hvalcs hc).1
  have hsorted : (sortCards cs).Pairwise (fun a c => wNum a ≤ wNum c) :=
    sortCards_sorted_wNum hws
  have hkfil1 : [k].filter (fun c => wNum c == w1) = [] := by simp [hk1]
  have hkfil2 : [k].filter (fun c => wNum c == w2) = [] := by simp [hk2]
  have hpairs : (sortCards cs).filter (fun card => [k1, k2].any (fun e => cardEq e card))
      = (sortCards cs).filter (fun card => (wNum card == w1) || (wNum card == w2)) := by
    apply List.filter_congr
    intro cx hcx
    have hcw := (validCards_mem hvs hcx).1
    show (cardEq k1 cx || (cardEq k2 cx || false)) = _
    rw [cardEq_weighted hk1w hcw, cardEq_weighted hk2w hcw, Bool.or_false, hk1v, hk2v,
      beq_comm_nat w1, beq_comm_nat w2]
  have hFil1 : (sortCards cs).filter (fun card => wNum card == w1) = F1 := by
    rw [sortCards_filter_weight _ cs hws, hcs, List.filter_append, List.filter_append,
      filter_const_nil hF2 (by omega), filter_const_all hF1, hkfil1, List.append_nil,
      List.nil_append]
  have hFil2 : (sortCards cs).filter (fun card => wNum card == w2) = F2 := by
    rw [sortCards_filter_weight _ cs hws, hcs, List.filter_append, List.filter_append,
      filter_const_all hF2, filter_const_nil hF1 (by omega), hkfil2, List.append_nil,
      List.append_nil]
  have hP12 : (sortCards cs).filter (fun card => [k1, k2].any (fun e => cardEq e card))
      = F1 ++ F2 := by
    rw [hpairs, sorted_filter_append hsorted h12, hFil1, hFil2]
  have hdrop : (F1 ++ F2).drop 2 = F2 := by
    rw [← hF1len]
    exact List.drop_left _ _
  have htake : (F1 ++ F2).take 2 = F1 := by
    rw [← hF1len]
    exact List.take_left _ _
  have hF2ws : ∀ e ∈ F2, e.weight.isSome = true :=
    fun e he => hws e
      (by rw [hcs]; exact List.mem_append_left _ (List.mem_append_left _ he))
  have hF1ws : ∀ e ∈ F1, e.weight.isSome = true :=
    fun e he => hws e
      (by rw [hcs]; exact List.mem_append_left _ (List.mem_append_right _ he))
  have hselfany : ∀ cx ∈ sortCards cs, (F2 ++ F1).any (fun e => cardEq e cx)
      = ((wNum cx == w1) || (wNum cx == w2)) := by
    intro cx hcx
    have hcw := (validCards_mem hvs hcx).1
    rw [List.any_append]
    have h2a : F2.any (fun e => cardEq e cx) = (w2 == wNum cx) := by
      apply any_const _ _ _ (by intro h0; rw [h0] at hF2len; simp at hF2len)
      intro e he
      rw [cardEq_weighted (hF2ws e he) hcw, hF2 e he]
    have h1a : F1.any (fun e => cardEq e cx) = (w1 == wNum cx) := by
      apply any_const _ _ _ (by intro h0; rw [h0] at hF1len; simp at hF1len)
      intro e he
      rw [cardEq_weighted (hF1ws e he) hcw, hF1 e he]
    rw [h2a, h1a, beq_comm_nat w2, beq_comm_nat w1, Bool.or_comm]
  have hpool : (sortCards cs).filter
      (fun card => !((F2 ++ F1).any (fun e => cardEq e card))) = [k] := by
    have hp1 : (sortCards cs).filter (fun card => !((F2 ++ F1).any (fun e => cardEq e card)))
        = (sortCards cs).filter (fun card => !((wNum card == w1) || (wNum card == w2))) :=
      List.filter_congr (fun cx hcx => by rw [hselfany cx hcx])
    have hp2 : ((sortCards cs).filter
        (fun card => !((wNum card == w1) || (wNum card == w2)))).Perm
        (cs.filter (fun card => !((wNum card == w1) || (wNum card == w2)))) :=
      hperm.filter _
    have hf2nil : F2.filter (fun card => !((wNum card == w1) || (wNum card == w2))) = [] := by
      rw [List.filter_eq_nil_iff]
      intro x hx
      simp [hF2 x hx]
    have hf1nil : F1.filter (fun card => !((wNum card == w1) || (wNum card == w2))) = [] := by
      rw [List.filter_eq_nil_iff]
      intro x hx
      simp [hF1 x hx]
    have hfk : [k].filter (fun card => !((wNum card == w1) || (wNum card == w2))) = [k] := by
      simp [hk1, hk2]
    have hp3 : cs.filter (fun card => !((wNum card == w1) || (wNum card == w2))) = [k] := by
      rw [hcs, List.filter_append, List.filter_append, hf2nil, hf1nil, hfk]
      rfl
    rw [hp1]
    exact List.Perm.eq_singleton (hp3 ▸ hp2)
  unfold two_pairs_cards
  rw [hP12, hdrop, htake]
  unfold get_other_cards
  rw [hpool]
  show (F2 ++ F1) ++ ([k].reverse.take (5 - (F2 ++ F1).length)) = cs
  rw [show 5 - (F2 ++ F1).length = 1 from by rw [List.length_append, hF2len, hF1len]]
  show (F2 ++ F1) ++ [k] = cs
  exact hcs.symm

theorem second_run_two_pairs {cs F2 F1 : List Card} {w1 w2 : Nat} {k : Card}
    (hvalcs : validCards cs = true) (hcs : cs = F2 ++ F1 ++ [k]) (h12 : w1 < w2)
    (hF2 : ∀ x ∈ F2, wNum x = w2) (hF2len : F2.length = 2)
    (hF1 : ∀ x ∈ F1, wNum x = w1) (hF1len : F1.length = 2)
    (hk1 : wNum k ≠ w1) (hk2 : wNum k ≠ w2)
    (hsc : ∀ su, scount cs su ≤ 4)
    (h5' : (mkSequence (sortCards cs)).five_in_a_row = false) :
    ∃ c', find_combo cs = some c' ∧ c'.type = TWO_PAIRS ∧ c'.cards = cs := by
  have hperm := sortCards_perm cs
  have hvs : validCards (sortCards cs) = true := validCards_perm hperm.symm hvalcs
  have hws : ∀ c ∈ cs, c.weight.isSome = true := fun c hc => (validCards_mem hvalcs hc).1
  have hsorted : (sortCards cs).Pairwise (fun a c => wNum a ≤ wNum c) :=
    sortCards_sorted_wNum hws
  have hlen5 : cs.length = 5 := by
    rw [hcs, List.length_append, List.length_append, hF2len, hF1len]
    rfl
  have hne : cs ≠ [] := by intro h0; rw [h0] at hlen5; simp at hlen5
  have hkfil1 : [k].filter (fun c => wNum c == w1) = [] := by simp [hk1]
  have hkfil2 : [k].filter (fun c => wNum c == w2) = [] := by simp [hk2]
  have hc1 : wcount cs w1 = 2 := by
    unfold wcount
    rw [hcs, List.filter_append, List.filter_append, filter_const_nil hF2 (by omega),
      filter_const_all hF1, hkfil1, List.append_nil, List.nil_append, hF1len]
  have hc2 : wcount cs w2 = 2 := by
    unfold wcount
    rw [hcs, List.filter_append, List.filter_append, filter_const_all hF2,
      filter_const_nil hF1 (by omega), hkfil2, List.append_nil, List.append_nil, hF2len]
  have hck : wcount cs (wNum k) = 1 := by
    unfold wcount
    rw [hcs, List.filter_append, List.filter_append, filter_const_nil hF2 hk2,
      filter_const_nil hF1 hk1, List.nil_append, List.nil_append]
    simp
  have hreal1 : ∃ c ∈ sortCards cs, wNum c = w1 := by
    obtain ⟨p0, hp0⟩ : ∃ p0, p0 ∈ F1 := by
      cases hv : F1 with
      | nil => rw [hv] at hF1len; simp at hF1len
      | cons a t => exact ⟨a, by simp⟩
    exact ⟨p0, hperm.mem_iff.mpr
      (by rw [hcs]; exact List.mem_append_left _ (List.mem_append_right _ hp0)), hF1 p0 hp0⟩
  have hreal2 : ∃ c ∈ sortCards cs, wNum c = w2 := by
    obtain ⟨p0, hp0⟩ : ∃ p0, p0 ∈ F2 := by
      cases hv : F2 with
      | nil => rw [hv] at hF2len; simp at hF2len
      | cons a t => exact ⟨a, by simp⟩
    exact ⟨p0, hperm.mem_iff.mpr
      (by rw [hcs]; exact List.mem_append_left _ (List.mem_append_left _ hp0)), hF2 p0 hp0⟩
  have huniq : ∀ c ∈ sortCards cs, wNum c ≠ w1 → wNum c ≠ w2 →
      wcount (sortCards cs) (wNum c) ≤ 1 := by
    intro c hc hcw1 hcw2
    have hcm : c ∈ cs := hperm.mem_iff.mp hc
    rw [wcount_perm hperm]
    rw [hcs] at hcm
    rcases List.mem_append.mp hcm with hmf | hmk
    · rcases List.mem_append.mp hmf with hm2 | hm1
      · exact absurd (hF2 c hm2) hcw2
      · exact absurd (hF1 c hm1) hcw1
    · have hck' : c = k := by simpa using hmk
      rw [hck', hck]
  obtain ⟨k1, k2, hGR, hk1v, hk2v, hk1w, hk2w⟩ := profile_two_pairs hvs hsorted h12 hreal1
    hreal2 (by rw [wcount_perm hperm]; exact hc1) (by rw [wcount_perm hperm]; exact hc2)
    huniq
  obtain ⟨suit2, hfn2, hfom2⟩ := rerun_suit_low hvalcs hne hsc
  have h1 : (get_all_repeats (sortCards cs)).1
      = repFold (sortCards cs) weightCardOf (sortCards cs) ⟨[], []⟩ := by
    rw [get_all_repeats_eq]
  have hsel : select_combo (sortCards cs)
      (get_repeat_kind (get_all_repeats (sortCards cs)).1.all) suit2
      = some (TWO_PAIRS, two_pairs_cards (sortCards cs) [k1, k2],
          mkSequence (sortCards cs)) := by
    rw [h1, hGR]
    exact select_combo_two_pairs_eval _ _ [k1, k2] suit2 hfom2 h5'
  refine ⟨_, find_combo_assemble hfn2 hsel, rfl, ?_⟩
  show two_pairs_cards (sortCards cs) [k1, k2] = cs
  exact regroup_two_pairs cs F2 F1 w1 w2 k k1 k2 hvalcs hcs h12 hF2 hF2len hF1 hF1len
    hk1 hk2 hk1w hk2w hk1v hk2v

/-- A window in the re-run source forces one in the original source: the
re-run five cards carry no weight the original group lacked. -/
theorem second_five_false {cs s : List Card} (hvalcs : validCards cs = true)
    (hvals : validCards s = true)
    (hmem : ∀ x ∈ cs, x ∈ s)
    (h5s : (mkSequence s).five_in_a_row = false) :
    (mkSequence (sortCards cs)).five_in_a_row = false := by
  have hperm := sortCards_perm cs
  have hvs : validCards (sortCards cs) = true := validCards_perm hperm.symm hvalcs
  rw [mkSequence_five] at h5s ⊢
  cases h5 : (relFirstWindow (rankBits (seq_source (sortCards cs)))).isSome with
  | false => rfl
  | true =>
    exfalso
    have hs1 := seq_source_suits hvs
    have hs2 := seq_source_suits hvals
    have hwmono : ∀ w, hasW (seq_source (sortCards cs)) w = true →
        hasW (seq_source s) w = true := by
      intro w hW
      rcases (hasW_seq_source_iff hvs w).mp hW with h | ⟨h0, h13⟩
      · apply (hasW_seq_source_iff hvals w).mpr
        left
        obtain ⟨c, hc, hhit⟩ := List.any_eq_true.mp h
        exact List.any_eq_true.mpr ⟨c, hmem c (hperm.mem_iff.mp hc), hhit⟩
      · apply (hasW_seq_source_iff hvals w).mpr
        right
        refine ⟨h0, ?_⟩
        obtain ⟨c, hc, hhit⟩ := List.any_eq_true.mp h13
        exact List.any_eq_true.mpr ⟨c, hmem c (hperm.mem_iff.mp hc), hhit⟩
    have hsome := relFW_isSome_mono hs1 hs2 hwmono h5
    rw [hsome] at h5s
    simp at h5s

theorem straight_weights_distinct {cs : List Card} {b : Nat} (hb : b ≤ 9)
    (hlen : cs.length = 5)
    (hw : ∀ j, j < 5 → ∀ d, wNum (cs.getD j d) = 13 - (b + j)) :
    cs.Pairwise (fun a c => wNum c < wNum a) := by
  have hm5 := list_eq_five cs (rankCard 0) hlen
  have hw0 := hw 0 (by omega) (rankCard 0)
  have hw1 := hw 1 (by omega) (rankCard 0)
  have hw2 := hw 2 (by omega) (rankCard 0)
  have hw3 := hw 3 (by omega) (rankCard 0)
  have hw4 := hw 4 (by omega) (rankCard 0)
  have hmapw : cs.map wNum
      = [13 - b, 13 - (b + 1), 13 - (b + 2), 13 - (b + 3), 13 - (b + 4)] := by
    conv_lhs => rw [hm5]
    simp only [List.map_cons, List.map_nil]
    rw [hw0, hw1, hw2, hw3, hw4]
    rw [Nat.add_zero]
  have hmp : (cs.map wNum).Pairwise (fun a c => c < a) := by
    rw [hmapw]
    refine List.Pairwise.cons ?_ (List.Pairwise.cons ?_ (List.Pairwise.cons ?_
      (List.Pairwise.cons ?_ (List.Pairwise.cons (by simp) List.Pairwise.nil)))) <;>
      intro x hx <;> simp only [List.mem_cons, List.not_mem_nil, or_false] at hx <;>
      first
        | (rcases hx with h | h | h | h <;> subst h <;> omega)
        | (rcases hx with h | h | h <;> subst h <;> omega)
        | (rcases hx with h | h <;> subst h <;> omega)
        | (subst hx; omega)
  exact List.pairwise_map.mp hmp

/-- Strictly distinct weights: each weight occurs once in the sorted copy. -/
theorem distinct_profile_none {cs : List Card} (hvalcs : validCards cs = true)
    (hdist : cs.Pairwise (fun a c => wNum a ≠ wNum c)) :
    ∀ c ∈ sortCards cs, wcount (sortCards cs) (wNum c) ≤ 1 := by
  have hperm := sortCards_perm cs
  have hws : ∀ c ∈ cs, c.weight.isSome = true := fun c hc => (validCards_mem hvalcs hc).1
  intro c hc
  rw [wcount_perm hperm]
  unfold wcount
  rw [filter_weight_single (hperm.mem_iff.mp hc) hdist hws]
  simp

theorem second_run_high {cs : List Card}
    (hvalcs : validCards cs = true) (hlen5 : cs.length = 5)
    (hdesc : cs.Pairwise (fun a c => wNum c < wNum a))
    (hsc : ∀ su, scount cs su ≤ 4)
    (h5' : (mkSequence (sortCards cs)).five_in_a_row = false) :
    ∃ c', find_combo cs = some c' ∧ c'.type = HIGH_CARD ∧ c'.cards = cs := by
  have hperm := sortCards_perm cs
  have hvs : validCards (sortCards cs) = true := validCards_perm hperm.symm hvalcs
  have hws : ∀ c ∈ cs, c.weight.isSome = true := fun c hc => (validCards_mem hvalcs hc).1
  have hne : cs ≠ [] := by intro h0; rw [h0] at hlen5; simp at hlen5
  have hGR := profile_none hvs
    (distinct_profile_none hvalcs (hdesc.imp (fun h => by omega)))
  obtain ⟨suit2, hfn2, hfom2⟩ := rerun_suit_low hvalcs hne hsc
  have h1 : (get_all_repeats (sortCards cs)).1
      = repFold (sortCards cs) weightCardOf (sortCards cs) ⟨[], []⟩ := by
    rw [get_all_repeats_eq]
  have hsel : select_combo (sortCards cs)
      (get_repeat_kind (get_all_repeats (sortCards cs)).1.all) suit2
      = some (HIGH_CARD, high_card_cards (sortCards cs), mkSequence (sortCards cs)) := by
    rw [h1, hGR]
    exact select_combo_high_eval _ _ suit2 hfom2 h5'
  refine ⟨_, find_combo_assemble hfn2 hsel, rfl, ?_⟩
  show high_card_cards (sortCards cs) = cs
  have hsort : sortCards cs = cs.reverse := sortCards_strict_desc hws hdesc
  unfold high_card_cards
  rw [hsort, List.length_reverse, hlen5]
  show (cs.reverse.drop 0).reverse = cs
  rw [List.drop_zero, List.reverse_reverse]

theorem second_run_straight {cs : List Card} {b : Nat}
    (hvalcs : validCards cs = true) (hb : b ≤ 9) (hlen5 : cs.length = 5)
    (hw : ∀ j, j < 5 → ∀ d, wNum (cs.getD j d) = 13 - (b + j))
    (hsc : ∀ su, scount cs su ≤ 4) :
    ∃ c', find_combo cs = some c' ∧ c'.type = STRAIGHT ∧ c'.cards = cs := by
  have hperm := sortCards_perm cs
  have hvs : validCards (sortCards cs) = true := validCards_perm hperm.symm hvalcs
  have hne : cs ≠ [] := by intro h0; rw [h0] at hlen5; simp at hlen5
  have hdesc := straight_weights_distinct hb hlen5 hw
  obtain ⟨h5'', hoc''⟩ := rerun_core hb hlen5 hvalcs hw
  have hGR := profile_none hvs
    (distinct_profile_none hvalcs (hdesc.imp (fun h => by omega)))
  obtain ⟨suit2, hfn2, hfom2⟩ := rerun_suit_low hvalcs hne hsc
  have h1 : (get_all_repeats (sortCards cs)).1
      = repFold (sortCards cs) weightCardOf (sortCards cs) ⟨[], []⟩ := by
    rw [get_all_repeats_eq]
  have hsel : select_combo (sortCards cs)
      (get_repeat_kind (get_all_repeats (sortCards cs)).1.all) suit2
      = some (STRAIGHT, cs, mkSequence (sortCards cs)) := by
    rw [h1, hGR]
    exact select_combo_straight_eval _ _ cs suit2 hfom2 h5'' hoc''
  exact ⟨_, find_combo_assemble hfn2 hsel, rfl, rfl⟩

theorem second_run_flush {cs : List Card} {su0 : Option Suit}
    (hvalcs : validCards cs = true) (hlen5 : cs.length = 5)
    (hdesc : cs.Pairwise (fun a c => wNum c < wNum a))
    (hsu : ∀ x ∈ cs, x.suit = su0)
    (h5' : (mkSequence (sortCards cs)).five_in_a_row = false) :
    ∃ c', find_combo cs = some c' ∧ c'.type = FLUSH ∧ c'.cards = cs := by
  have hperm := sortCards_perm cs
  have hvs : validCards (sortCards cs) = true := validCards_perm hperm.symm hvalcs
  have hws : ∀ c ∈ cs, c.weight.isSome = true := fun c hc => (validCards_mem hvalcs hc).1
  obtain ⟨suit2, fc2, hfn2, hfom2, hfc2, hfull⟩ := rerun_suit_high hvalcs hlen5 hsu
  have hsel : select_combo (sortCards cs)
      (get_repeat_kind (get_all_repeats (sortCards cs)).1.all) suit2
      = some (FLUSH,
          flush_pick (mkSequence ((sortCards cs).filter
            (fun card => cardEq card fc2))).cards,
          mkSequence ((sortCards cs).filter (fun card => cardEq card fc2))) :=
    select_combo_flush_eval _ _ fc2 suit2 hfom2 hfc2 (by rw [hfull]; exact h5')
  refine ⟨_, find_combo_assemble hfn2 hsel, rfl, ?_⟩
  show flush_pick (mkSequence ((sortCards cs).filter
    (fun card => cardEq card fc2))).cards = cs
  have h5len : 5 ≤ (sortCards cs).length := by rw [hperm.length_eq, hlen5]
  rw [hfull, mkSequence_cards, flush_pick_seq_source _ h5len]
  have hsort : sortCards cs = cs.reverse := sortCards_strict_desc hws hdesc
  unfold flush_pick
  rw [hsort, List.length_reverse, hlen5]
  show (cs.reverse.drop 0).reverse = cs
  rw [List.drop_zero, List.reverse_reverse]

theorem second_run_sf {cs : List Card} {su0 : Option Suit} {b : Nat}
    (hvalcs : validCards cs = true) (hb : b ≤ 9) (hlen5 : cs.length = 5)
    (hw : ∀ j, j < 5 → ∀ d, wNum (cs.getD j d) = 13 - (b + j))
    (hsu : ∀ x ∈ cs, x.suit = su0) :
    ∃ c', find_combo cs = some c' ∧ c'.type = STRAIGHT_FLUSH ∧ c'.cards = cs := by
  obtain ⟨suit2, fc2, hfn2, hfom2, hfc2, hfull⟩ := rerun_suit_high hvalcs hlen5 hsu
  obtain ⟨h5'', hoc''⟩ := rerun_core hb hlen5 hvalcs hw
  have hsel : select_combo (sortCards cs)
      (get_repeat_kind (get_all_repeats (sortCards cs)).1.all) suit2
      = some (STRAIGHT_FLUSH, cs,
          mkSequence ((sortCards cs).filter (fun card => cardEq card fc2))) :=
    select_combo_sf_eval _ _ fc2 cs suit2 hfom2 hfc2
      (by rw [hfull]; exact h5'') (by rw [hfull]; exact hoc'')
  exact ⟨_, find_combo_assemble hfn2 hsel, rfl, rfl⟩

theorem five_weights_mem {cs : List Card} {b : Nat} (hlen : cs.length = 5)
    (hw : ∀ j, j < 5 → ∀ d, wNum (cs.getD j d) = 13 - (b + j)) :
    ∀ c ∈ cs, ∃ j, j < 5 ∧ wNum c = 13 - (b + j) := by
  have hm5 := list_eq_five cs (rankCard 0) hlen
  have hw0 := hw 0 (by omega) (rankCard 0)
  have hw1 := hw 1 (by omega) (rankCard 0)
  have hw2 := hw 2 (by omega) (rankCard 0)
  have hw3 := hw 3 (by omega) (rankCard 0)
  have hw4 := hw 4 (by omega) (rankCard 0)
  intro c hc
  rw [hm5] at hc
  simp only [List.mem_cons, List.not_mem_nil, or_false] at hc
  rcases hc with h | h | h | h | h
  · exact ⟨0, by omega, by rw [h, hw0]⟩
  · exact ⟨1, by omega, by rw [h, hw1]⟩
  · exact ⟨2, by omega, by rw [h, hw2]⟩
  · exact ⟨3, by omega, by rw [h, hw3]⟩
  · exact ⟨4, by omega, by rw [h, hw4]⟩

/-- The five cards of a straight taken from a group with no five-suit repeat
cannot all share a suit: the group itself would hold five cards of that suit
(counting the seeding ace for the injected low ace). -/
theorem straight_no_flush_rerun {l : List Card} (hval : validCards l = true)
    {cs : List Card} {b : Nat} (hb : b ≤ 9) (hlen5 : cs.length = 5)
    (hw : ∀ j, j < 5 → ∀ d, wNum (cs.getD j d) = 13 - (b + j))
    (hmemsrc : ∀ x ∈ cs, x ∈ seq_source (sortCards l))
    (hnof : ∀ c ∈ sortCards l, scount (sortCards l) c.suit ≤ 4) :
    ∀ su, scount cs su ≤ 4 := by
  have hvs : validCards (sortCards l) = true := validCards_perm (sortCards_perm l).symm hval
  have hvalcs : validCards cs = true := validCards_of_mem hmemsrc (seq_source_valid hvs)
  have hwscs : ∀ c ∈ cs, c.weight.isSome = true := fun c hc => (validCards_mem hvalcs hc).1
  have hdist : cs.Pairwise (fun a c => wNum a ≠ wNum c) :=
    (straight_weights_distinct hb hlen5 hw).imp (fun h => by omega)
  have hnodup : cs.Nodup := hdist.imp (fun h heq => h (by rw [heq]))
  have hmw := five_weights_mem hlen5 hw
  intro su
  by_contra hgt
  have h5su : 5 ≤ scount cs su := by omega
  have hfull : cs.filter (fun e => e.suit == su) = cs := by
    apply (List.filter_sublist cs).eq_of_length_le
    unfold scount at h5su
    omega
  have hall : ∀ x ∈ cs, x.suit = su := by
    intro x hx
    have hx' : x ∈ cs.filter (fun e => e.suit == su) := by rw [hfull]; exact hx
    have := (List.mem_filter.mp hx').2
    simpa using this
  have hmain : (∀ x ∈ cs, x ∈ sortCards l) → False := by
    intro hsub
    obtain ⟨x0, hx0⟩ : ∃ x, x ∈ cs := by
      cases hcsv : cs with
      | nil => rw [hcsv] at hlen5; simp at hlen5
      | cons a t => exact ⟨a, by simp⟩
    have hsubf : ∀ x ∈ cs, x ∈ (sortCards l).filter (fun e => e.suit == su) := by
      intro x hx
      exact List.mem_filter.mpr ⟨hsub x hx, by simp [hall x hx]⟩
    have hle := (List.subperm_of_subset hnodup hsubf).length_le
    rw [hlen5] at hle
    have hb4 := hnof x0 (hsub x0 hx0)
    rw [hall x0 hx0] at hb4
    unfold scount at hb4
    omega
  rcases seq_source_shape hvs with hsrc | ⟨ace, hacem, hace13, hsrc⟩
  · exact hmain (fun x hx => by have := hmemsrc x hx; rwa [hsrc] at this)
  · by_cases hcase : ∀ x ∈ cs, x ∈ sortCards l
    · exact hmain hcase
    · push_neg at hcase
      obtain ⟨xla, hxla, hxns⟩ := hcase
      have hxsrc := hmemsrc xla hxla
      rw [hsrc] at hxsrc
      have hxeq : xla = { weight := some { symbol := '1', number := 0 },
                          suit := ace.suit, in_hand := ace.in_hand } := by
        rcases List.mem_cons.mp hxsrc with h | h
        · exact h
        · exact absurd h hxns
      have hxw0 : wNum xla = 0 := by rw [hxeq]; rfl
      obtain ⟨j0, hj0, hjv0⟩ := hmw xla hxla
      have hb9 : b = 9 := by omega
      have hacesu : ace.suit = su := by
        have := hall xla hxla
        rw [hxeq] at this
        exact this
      have hlow : ∀ x ∈ cs, wNum x ≤ 4 := by
        intro x hx
        obtain ⟨j, hj, hjv⟩ := hmw x hx
        omega
      have h0len : cs.filter (fun c => wNum c == (0 : Nat)) = [xla] := by
        have h01 : cs.filter (fun c => wNum c == wNum xla) = [xla] :=
          filter_weight_single hxla hdist hwscs
        rw [hxw0] at h01
        exact h01
      have hrestlen : (cs.filter (fun c => !(wNum c == (0 : Nat)))).length = 4 := by
        have h1 := filter_not_length cs (fun c => wNum c == (0 : Nat))
        rw [h0len] at h1
        simp only [List.length_cons, List.length_nil] at h1
        omega
      have hrestmem : ∀ x ∈ cs.filter (fun c => !(wNum c == (0 : Nat))), x ∈ sortCards l := by
        intro x hx
        obtain ⟨hxm, hxp⟩ := List.mem_filter.mp hx
        have hxsrc' := hmemsrc x hxm
        rw [hsrc] at hxsrc'
        rcases List.mem_cons.mp hxsrc' with h | h
        · exfalso
          have : wNum x = 0 := by rw [h]; rfl
          rw [this] at hxp
          simp at hxp
        · exact h
      have hWnodup : (ace :: cs.filter (fun c => !(wNum c == (0 : Nat)))).Nodup := by
        refine List.Pairwise.cons ?_ ?_
        · intro x hx hcontr
          have hxm := (List.mem_filter.mp hx).1
          have hx4 := hlow x hxm
          rw [← hcontr] at hx4
          rw [hace13] at hx4
          omega
        · exact (hdist.sublist (List.filter_sublist _)).imp (fun h heq => h (by rw [heq]))
      have hWsub : ∀ x ∈ ace :: cs.filter (fun c => !(wNum c == (0 : Nat))),
          x ∈ (sortCards l).filter (fun e => e.suit == su) := by
        intro x hx
        rcases List.mem_cons.mp hx with h | h
        · subst h
          exact List.mem_filter.mpr ⟨hacem, by simp [hacesu]⟩
        · refine List.mem_filter.mpr ⟨hrestmem x h, ?_⟩
          have := hall x (List.mem_filter.mp h).1
          simp [this]
      have hle := (List.subperm_of_subset hWnodup hWsub).length_le
      simp only [List.length_cons, hrestlen] at hle
      have hb4 := hnof ace hacem
      rw [hacesu] at hb4
      unfold scount at hb4
      omega

theorem four_none_bucket {s : List Card} (hval : validCards s = true)
    (h4 : (get_repeat_kind (repFold s weightCardOf s ⟨[], []⟩).all).four = none) :
    (repFold s weightCardOf s ⟨[], []⟩).cards.filter
      (fun k => countCardEq s k == 4) = [] := by
  obtain ⟨hKw, hKall, hKdist, hDict, hKsub⟩ := weight_analysis hval
  cases hf : (repFold s weightCardOf s ⟨[], []⟩).cards.filter
      (fun k => countCardEq s k == 4) with
  | nil => rfl
  | cons a t =>
    exfalso
    have hsome : (get_repeat_kind (repFold s weightCardOf s ⟨[], []⟩).all).four = some a := by
      unfold get_repeat_kind
      rw [hDict 4, hf]
      rfl
    rw [h4] at hsome
    simp at hsome

theorem three_none_bucket {s : List Card} (hval : validCards s = true)
    (h4 : (get_repeat_kind (repFold s weightCardOf s ⟨[], []⟩).all).four = none)
    (h3 : (get_repeat_kind (repFold s weightCardOf s ⟨[], []⟩).all).three = none) :
    (repFold s weightCardOf s ⟨[], []⟩).cards.filter
      (fun k => countCardEq s k == 3) = [] := by
  obtain ⟨hKw, hKall, hKdist, hDict, hKsub⟩ := weight_analysis hval
  have hb4 := four_none_bucket hval h4
  cases hf : (repFold s weightCardOf s ⟨[], []⟩).cards.filter
      (fun k => countCardEq s k == 3) with
  | nil => rfl
  | cons a t =>
    exfalso
    have hsome : (get_repeat_kind (repFold s weightCardOf s ⟨[], []⟩).all).three
        = (a :: t).getLast? := by
      unfold get_repeat_kind
      rw [hDict 4, hb4, hDict 3, hf]
      simp only [toOpt]
      split
      · rfl
      · rfl
    rw [h3] at hsome
    have := List.getLast?_eq_none_iff.mp hsome.symm
    simp at this

theorem two_none_bucket {s : List Card} (hval : validCards s = true)
    (h4 : (get_repeat_kind (repFold s weightCardOf s ⟨[], []⟩).all).four = none)
    (h3 : (get_repeat_kind (repFold s weightCardOf s ⟨[], []⟩).all).three = none)
    (h2 : (get_repeat_kind (repFold s weightCardOf s ⟨[], []⟩).all).two = none)
    (hdd : (get_repeat_kind (repFold s weightCardOf s ⟨[], []⟩).all).double_two = none) :
    (repFold s weightCardOf s ⟨[], []⟩).cards.filter
      (fun k => countCardEq s k == 2) = [] := by
  obtain ⟨hKw, hKall, hKdist, hDict, hKsub⟩ := weight_analysis hval
  have hb4 := four_none_bucket hval h4
  have hb3 := three_none_bucket hval h4 h3
  cases hf : (repFold s weightCardOf s ⟨[], []⟩).cards.filter
      (fun k => countCardEq s k == 2) with
  | nil => rfl
  | cons a t =>
    exfalso
    by_cases hl : (a :: t).length > 1
    · have hsome : (get_repeat_kind (repFold s weightCardOf s ⟨[], []⟩).all).double_two
          = some ((a :: t).drop ((a :: t).length - 2)) := by
        unfold get_repeat_kind
        rw [hDict 4, hb4, hDict 3, hb3, hDict 2, hf]
        simp only [toOpt]
        rw [if_pos hl]
      rw [hdd] at hsome
      simp at hsome
    · have hsome : (get_repeat_kind (repFold s weightCardOf s ⟨[], []⟩).all).two
          = (a :: t).getLast? := by
        unfold get_repeat_kind
        rw [hDict 4, hb4, hDict 3, hb3, hDict 2, hf]
        simp only [toOpt]
        rw [if_neg hl]
      rw [h2] at hsome
      have := List.getLast?_eq_none_iff.mp hsome.symm
      simp at this

theorem bucket_mem_of_count {s : List Card} (hval : validCards s = true) {c : Card}
    (hc : c ∈ s) :
    ∃ x ∈ (repFold s weightCardOf s ⟨[], []⟩).cards.filter
      (fun k => countCardEq s k == wcount s (wNum c)), wNum x = wNum c := by
  obtain ⟨hKw, hKall, hKdist, hDict, hKsub⟩ := weight_analysis hval
  obtain ⟨x, hx, hxw⟩ := hKall c hc
  exact ⟨x, List.mem_filter.mpr ⟨hx, by rw [(hKw x hx).2, hxw]; simp⟩, hxw⟩

/-- When the repeat kind carries both a set and a pair, their weights differ. -/
theorem three_two_distinct {s : List Card} (hval : validCards s = true) {t p : Card}
    (ht : (get_repeat_kind (repFold s weightCardOf s ⟨[], []⟩).all).three = some t)
    (hp : (get_repeat_kind (repFold s weightCardOf s ⟨[], []⟩).all).two = some p) :
    wNum t ≠ wNum p := by
  obtain ⟨hKw, hKall, hKdist, hDict, hKsub⟩ := weight_analysis hval
  have hbfact : ∀ (n : Nat) (x : Card),
      x ∈ (repFold s weightCardOf s ⟨[], []⟩).cards.filter
        (fun k => countCardEq s k == n) →
      x.weight.isSome = true ∧ wcount s (wNum x) = n := by
    intro n x hx
    obtain ⟨hxK, hpred⟩ := List.mem_filter.mp hx
    obtain ⟨hw, hc⟩ := hKw x hxK
    simp at hpred
    exact ⟨hw, by rw [← hc]; exact hpred⟩
  have hb4 : (repFold s weightCardOf s ⟨[], []⟩).cards.filter
      (fun k => countCardEq s k == 4) = [] := by
    cases hf4 : (repFold s weightCardOf s ⟨[], []⟩).cards.filter
        (fun k => countCardEq s k == 4) with
    | nil => rfl
    | cons a4 t4 =>
      exfalso
      have hnone : (get_repeat_kind (repFold s weightCardOf s ⟨[], []⟩).all).three = none := by
        unfold get_repeat_kind
        rw [hDict 4, hf4]
        rfl
      rw [ht] at hnone
      simp at hnone
  cases hf3 : (repFold s weightCardOf s ⟨[], []⟩).cards.filter
      (fun k => countCardEq s k == 3) with
  | nil =>
    exfalso
    have hnone : (get_repeat_kind (repFold s weightCardOf s ⟨[], []⟩).all).three = none := by
      unfold get_repeat_kind
      rw [hDict 4, hb4, hDict 3, hf3, hDict 2]
      cases hf2 : (repFold s weightCardOf s ⟨[], []⟩).cards.filter
          (fun k => countCardEq s k == 2) with
      | nil => rfl
      | cons a2 t2 =>
        simp only [toOpt]
        split
        · rfl
        · rfl
    rw [ht] at hnone
    simp at hnone
  | cons a3 t3 =>
    have hsub3 : (a3 :: t3).Sublist (repFold s weightCardOf s ⟨[], []⟩).cards := by
      rw [← hf3]
      exact List.filter_sublist _
    by_cases hl : ((a3 :: t3).length == 2) = true
    · obtain ⟨x, y, hxy⟩ := list_eq_two (a3 :: t3) (by simpa using hl)
      have h3v : (get_repeat_kind (repFold s weightCardOf s ⟨[], []⟩).all).three
          = some y := by
        unfold get_repeat_kind
        rw [hDict 4, hb4, hDict 3, hf3, hxy]
        rfl
      have h2v : (get_repeat_kind (repFold s weightCardOf s ⟨[], []⟩).all).two
          = some x := by
        unfold get_repeat_kind
        rw [hDict 4, hb4, hDict 3, hf3, hxy]
        rfl
      have hty : t = y := by
        rw [h3v] at ht
        exact (Option.some.inj ht).symm
      have hpx : p = x := by
        rw [h2v] at hp
        exact (Option.some.inj hp).symm
      have hxyK : ([x, y] : List Card).Sublist (repFold s weightCardOf s ⟨[], []⟩).cards := by
        rw [← hxy]
        exact hsub3
      have hrel : cardEq x y = false :=
        List.rel_of_pairwise_cons (List.Pairwise.sublist hxyK hKdist) (by simp)
      have hxw : x.weight.isSome = true :=
        (hbfact 3 x (by rw [hf3, hxy]; simp)).1
      have hyw : y.weight.isSome = true :=
        (hbfact 3 y (by rw [hf3, hxy]; simp)).1
      rw [cardEq_weighted hxw hyw] at hrel
      simp at hrel
      rw [hty, hpx]
      omega
    · have h3v : (get_repeat_kind (repFold s weightCardOf s ⟨[], []⟩).all).three
          = (a3 :: t3).getLast? := by
        unfold get_repeat_kind
        rw [hDict 4, hb4, hDict 3, hf3, hDict 2]
        cases hf2 : (repFold s weightCardOf s ⟨[], []⟩).cards.filter
            (fun k => countCardEq s k == 2) with
        | nil =>
          simp only [toOpt]
          split
          · rfl
          · rfl
        | cons a2 t2 =>
          simp only [toOpt]
          split
          · rfl
          · rfl
      have htmem : t ∈ (a3 :: t3) := by
        rw [h3v] at ht
        exact List.mem_of_mem_getLast? ht
      have ht3 : wcount s (wNum t) = 3 := (hbfact 3 t (by rw [hf3]; exact htmem)).2
      cases hf2 : (repFold s weightCardOf s ⟨[], []⟩).cards.filter
          (fun k => countCardEq s k == 2) with
      | nil =>
        exfalso
        have h2n : (get_repeat_kind (repFold s weightCardOf s ⟨[], []⟩).all).two = none := by
          unfold get_repeat_kind
          rw [hDict 4, hb4, hDict 3, hf3, hDict 2, hf2]
          simp only [toOpt]
          split
          next hcond => exact absurd hcond hl
          next => rfl
        rw [hp] at h2n
        simp at h2n
      | cons a2 t2 =>
        have h2v : (get_repeat_kind (repFold s weightCardOf s ⟨[], []⟩).all).two
            = (a2 :: t2).getLast? := by
          unfold get_repeat_kind
          rw [hDict 4, hb4, hDict 3, hf3, hDict 2, hf2]
          simp only [toOpt]
          split
          next hcond => exact absurd hcond hl
          next => rfl
        have hpmem : p ∈ (a2 :: t2) := by
          rw [h2v] at hp
          exact List.mem_of_mem_getLast? hp
        have hp2 : wcount s (wNum p) = 2 := (hbfact 2 p (by rw [hf2]; exact hpmem)).2
        intro heq
        rw [heq, hp2] at ht3
        simp at ht3

/-- A bare set (no pair) leaves every other weight unrepeated in a group of at
most seven cards. -/
theorem three_some_two_none {s : List Card} (hval : validCards s = true)
    (hs7 : s.length ≤ 7) {t : Card}
    (ht : (get_repeat_kind (repFold s weightCardOf s ⟨[], []⟩).all).three = some t)
    (h2 : (get_repeat_kind (repFold s weightCardOf s ⟨[], []⟩).all).two = none) :
    ∀ c ∈ s, wNum c ≠ wNum t → ¬(2 ≤ wcount s (wNum c) ∧ wcount s (wNum c) ≤ 4) := by
  obtain ⟨hKw, hKall, hKdist, hDict, hKsub⟩ := weight_analysis hval
  have hbfact : ∀ (n : Nat) (x : Card),
      x ∈ (repFold s weightCardOf s ⟨[], []⟩).cards.filter
        (fun k => countCardEq s k == n) →
      x.weight.isSome = true ∧ wcount s (wNum x) = n := by
    intro n x hx
    obtain ⟨hxK, hpred⟩ := List.mem_filter.mp hx
    obtain ⟨hw, hc⟩ := hKw x hxK
    simp at hpred
    exact ⟨hw, by rw [← hc]; exact hpred⟩
  have hb4 : (repFold s weightCardOf s ⟨[], []⟩).cards.filter
      (fun k => countCardEq s k == 4) = [] := by
    cases hf4 : (repFold s weightCardOf s ⟨[], []⟩).cards.filter
        (fun k => countCardEq s k == 4) with
    | nil => rfl
    | cons a4 t4 =>
      exfalso
      have hnone : (get_repeat_kind (repFold s weightCardOf s ⟨[], []⟩).all).three = none := by
        unfold get_repeat_kind
        rw [hDict 4, hf4]
        rfl
      rw [ht] at hnone
      simp at hnone
  cases hf3 : (repFold s weightCardOf s ⟨[], []⟩).cards.filter
      (fun k => countCardEq s k == 3) with
  | nil =>
    exfalso
    have hnone : (get_repeat_kind (repFold s weightCardOf s ⟨[], []⟩).all).three = none := by
      unfold get_repeat_kind
      rw [hDict 4, hb4, hDict 3, hf3, hDict 2]
      cases hf2 : (repFold s weightCardOf s ⟨[], []⟩).cards.filter
          (fun k => countCardEq s k == 2) with
      | nil => rfl
      | cons a2 t2 =>
        simp only [toOpt]
        split
        · rfl
        · rfl
    rw [ht] at hnone
    simp at hnone
  | cons a3 t3 =>
    have hsub3 : (a3 :: t3).Sublist (repFold s weightCardOf s ⟨[], []⟩).cards := by
      rw [← hf3]
      exact List.filter_sublist _
    by_cases hl : ((a3 :: t3).length == 2) = true
    · exfalso
      obtain ⟨x, y, hxy⟩ := list_eq_two (a3 :: t3) (by simpa using hl)
      have h2v : (get_repeat_kind (repFold s weightCardOf s ⟨[], []⟩).all).two
          = some x := by
        unfold get_repeat_kind
        rw [hDict 4, hb4, hDict 3, hf3, hxy]
        rfl
      rw [h2] at h2v
      simp at h2v
    · have hb2 : (repFold s weightCardOf s ⟨[], []⟩).cards.filter
          (fun k => countCardEq s k == 2) = [] := by
        cases hf2 : (repFold s weightCardOf s ⟨[], []⟩).cards.filter
            (fun k => countCardEq s k == 2) with
        | nil => rfl
        | cons a2 t2 =>
          exfalso
          have h2v : (get_repeat_kind (repFold s weightCardOf s ⟨[], []⟩).all).two
              = (a2 :: t2).getLast? := by
            unfold get_repeat_kind
            rw [hDict 4, hb4, hDict 3, hf3, hDict 2, hf2]
            simp only [toOpt]
            split
            next hcond => exact absurd hcond hl
            next => rfl
          rw [h2] at h2v
          have := List.getLast?_eq_none_iff.mp h2v.symm
          simp at this
      intro c hc hct hcontr
      obtain ⟨hcnt2, hcnt4⟩ := hcontr
      obtain ⟨xc, hxcF, hxcw⟩ := bucket_mem_of_count hval hc
      have hcases : wcount s (wNum c) = 2 ∨ wcount s (wNum c) = 3
          ∨ wcount s (wNum c) = 4 := by omega
      rcases hcases with hn | hn | hn
      · rw [hn] at hxcF
        rw [hb2] at hxcF
        simp at hxcF
      · -- a third distinct triple would need nine cards
        rw [hn] at hxcF
        rw [hf3] at hxcF
        have h3v : (get_repeat_kind (repFold s weightCardOf s ⟨[], []⟩).all).three
            = (a3 :: t3).getLast? := by
          unfold get_repeat_kind
          rw [hDict 4, hb4, hDict 3, hf3, hDict 2, hb2]
          simp only [toOpt]
          split
          next hcond => exact absurd hcond hl
          next => rfl
        have htmem : t ∈ (a3 :: t3) := by
          rw [h3v] at ht
          exact List.mem_of_mem_getLast? ht
        have ht3 : wcount s (wNum t) = 3 := (hbfact 3 t (by rw [hf3]; exact htmem)).2
        have hlen1 : (a3 :: t3).length ≠ 1 := by
          intro h1
          have ht30 : t3 = [] := by
            simp only [List.length_cons] at h1
            exact List.eq_nil_of_length_eq_zero (by omega)
          rw [ht30] at htmem hxcF
          simp at htmem hxcF
          exact hct (by rw [← hxcw, hxcF, ← htmem])
        have hlen3 : 3 ≤ (a3 :: t3).length := by
          have hne2' : (a3 :: t3).length ≠ 2 := by simpa using hl
          have h1le : 1 ≤ (a3 :: t3).length := by simp
          omega
        obtain ⟨b3, r3, ht3'⟩ : ∃ b r, t3 = b :: r := by
          cases t3 with
          | nil => simp at hlen3
          | cons b r => exact ⟨b, r, rfl⟩
        subst ht3'
        obtain ⟨c3, s3, hr3'⟩ : ∃ cc r, r3 = cc :: r := by
          cases r3 with
          | nil => simp at hlen3
          | cons cc r => exact ⟨cc, r, rfl⟩
        subst hr3'
        have hsubw : ([a3, b3, c3] : List Card).Sublist
            (repFold s weightCardOf s ⟨[], []⟩).cards :=
          List.Sublist.trans
            ((((List.nil_sublist s3).cons₂ c3).cons₂ b3).cons₂ a3) hsub3
        have hmemf : ∀ z ∈ ([a3, b3, c3] : List Card),
            z ∈ (repFold s weightCardOf s ⟨[], []⟩).cards.filter
              (fun k => countCardEq s k == 3) := by
          intro z hz
          rw [hf3]
          simp only [List.mem_cons, List.not_mem_nil, or_false] at hz
          rcases hz with hz | hz | hz
          · rw [hz]; simp
          · rw [hz]; simp
          · rw [hz]; simp
        have hw3 : ∀ z ∈ ([a3, b3, c3] : List Card), wcount s (wNum z) = 3 :=
          fun z hz => (hbfact 3 z (hmemf z hz)).2
        have hdist3 : ([a3, b3, c3] : List Card).Pairwise
            (fun a c => wNum a ≠ wNum c) := by
          have hpw : ([a3, b3, c3] : List Card).Pairwise
              (fun a c => cardEq a c = false) :=
            List.Pairwise.sublist hsubw hKdist
          refine hpw.imp_of_mem ?_
          intro a c hma hmc hrel heq
          have haw := (hbfact 3 a (hmemf a hma)).1
          have hcw := (hbfact 3 c (hmemf c hmc)).1
          rw [cardEq_weighted haw hcw] at hrel
          simp at hrel
          exact hrel heq
        have hw1 := hw3 a3 (by simp)
        have hw2 := hw3 b3 (by simp)
        have hw3' := hw3 c3 (by simp)
        have h12 : wNum a3 ≠ wNum b3 :=
          List.rel_of_pairwise_cons hdist3 (show b3 ∈ [b3, c3] by simp)
        have h13 : wNum a3 ≠ wNum c3 :=
          List.rel_of_pairwise_cons hdist3 (show c3 ∈ [b3, c3] by simp)
        have h23 : wNum b3 ≠ wNum c3 :=
          List.rel_of_pairwise_cons (List.Pairwise.of_cons hdist3)
            (show c3 ∈ [c3] by simp)
        have hor : (s.filter (fun e => (wNum e == wNum a3) || (wNum e == wNum b3))).length
            = 6 := by
          rw [filter_or_length s _ _ (by
            intro x hx hb
            obtain ⟨hbb1, hbb2⟩ := hb
            simp at hbb1 hbb2
            rw [hbb1] at hbb2
            exact h12 hbb2)]
          have e1 : (s.filter (fun e => wNum e == wNum a3)).length = 3 := hw1
          have e2 : (s.filter (fun e => wNum e == wNum b3)).length = 3 := hw2
          omega
        have hdisj := filter_disjoint_length s
          (fun e => (wNum e == wNum a3) || (wNum e == wNum b3))
          (fun e => wNum e == wNum c3)
          (by
            intro x hx hb
            obtain ⟨hbb1, hbb2⟩ := hb
            simp at hbb1 hbb2
            rcases hbb1 with hbb1 | hbb1
            · exact h13 (by rw [← hbb1]; exact hbb2)
            · exact h23 (by rw [← hbb1]; exact hbb2))
        have e3 : (s.filter (fun e => wNum e == wNum c3)).length = 3 := hw3'
        rw [hor, e3] at hdisj
        omega
      · rw [hn] at hxcF
        rw [hb4] at hxcF
        simp at hxcF

/-- A single pair leaves every other weight unrepeated. -/
theorem one_pair_profile_inv {s : List Card} (hval : validCards s = true) {p : Card}
    (h4 : (get_repeat_kind (repFold s weightCardOf s ⟨[], []⟩).all).four = none)
    (h3 : (get_repeat_kind (repFold s weightCardOf s ⟨[], []⟩).all).three = none)
    (hp : (get_repeat_kind (repFold s weightCardOf s ⟨[], []⟩).all).two = some p) :
    ∀ c ∈ s, wNum c ≠ wNum p → ¬(2 ≤ wcount s (wNum c) ∧ wcount s (wNum c) ≤ 4) := by
  obtain ⟨hKw, hKall, hKdist, hDict, hKsub⟩ := weight_analysis hval
  have hb4 := four_none_bucket hval h4
  have hb3 := three_none_bucket hval h4 h3
  intro c hc hcp hcontr
  obtain ⟨hcnt2, hcnt4⟩ := hcontr
  obtain ⟨xc, hxcF, hxcw⟩ := bucket_mem_of_count hval hc
  have hcases : wcount s (wNum c) = 2 ∨ wcount s (wNum c) = 3
      ∨ wcount s (wNum c) = 4 := by omega
  rcases hcases with hn | hn | hn
  · rw [hn] at hxcF
    cases hf2 : (repFold s weightCardOf s ⟨[], []⟩).cards.filter
        (fun k => countCardEq s k == 2) with
    | nil =>
      rw [hf2] at hxcF
      simp at hxcF
    | cons a2 t2 =>
      rw [hf2] at hxcF
      by_cases hlgt : (a2 :: t2).length > 1
      · have hn2 : (get_repeat_kind (repFold s weightCardOf s ⟨[], []⟩).all).two = none := by
          unfold get_repeat_kind
          rw [hDict 4, hb4, hDict 3, hb3, hDict 2, hf2]
          simp only [toOpt]
          rw [if_pos hlgt]
        rw [hp] at hn2
        simp at hn2
      · have ht20 : t2 = [] := by
          cases t2 with
          | nil => rfl
          | cons b2 r2 => simp at hlgt
        have h2v : (get_repeat_kind (repFold s weightCardOf s ⟨[], []⟩).all).two
            = (a2 :: t2).getLast? := by
          unfold get_repeat_kind
          rw [hDict 4, hb4, hDict 3, hb3, hDict 2, hf2]
          simp only [toOpt]
          rw [if_neg hlgt]
        rw [hp, ht20] at h2v
        have hpa : p = a2 := Option.some.inj h2v
        rw [ht20] at hxcF
        simp at hxcF
        rw [hxcF, ← hpa] at hxcw
        exact hcp hxcw.symm
  · rw [hn] at hxcF
    rw [hb3] at hxcF
    simp at hxcF
  · rw [hn] at hxcF
    rw [hb4] at hxcF
    simp at hxcF

/-- An empty repeat kind leaves every weight unrepeated. -/
theorem high_profile_inv {s : List Card} (hval : validCards s = true)
    (h4 : (get_repeat_kind (repFold s weightCardOf s ⟨[], []⟩).all).four = none)
    (h3 : (get_repeat_kind (repFold s weightCardOf s ⟨[], []⟩).all).three = none)
    (h2 : (get_repeat_kind (repFold s weightCardOf s ⟨[], []⟩).all).two = none)
    (hdd : (get_repeat_kind (repFold s weightCardOf s ⟨[], []⟩).all).double_two = none) :
    ∀ c ∈ s, ¬(2 ≤ wcount s (wNum c) ∧ wcount s (wNum c) ≤ 4) := by
  have hb4 := four_none_bucket hval h4
  have hb3 := three_none_bucket hval h4 h3
  have hb2 := two_none_bucket hval h4 h3 h2 hdd
  intro c hc hcontr
  obtain ⟨hcnt2, hcnt4⟩ := hcontr
  obtain ⟨xc, hxcF, hxcw⟩ := bucket_mem_of_count hval hc
  have hcases : wcount s (wNum c) = 2 ∨ wcount s (wNum c) = 3
      ∨ wcount s (wNum c) = 4 := by omega
  rcases hcases with hn | hn | hn
  · rw [hn, hb2] at hxcF
    simp at hxcF
  · rw [hn, hb3] at hxcF
    simp at hxcF
  · rw [hn, hb4] at hxcF
    simp at hxcF

theorem get_other_cards_full2 (self all : List Card)
    (hsorted : all.Pairwise (fun a b => wNum a ≤ wNum b))
    (hpool : 1 ≤ (all.filter (fun card => !(self.any (fun e => cardEq e card)))).length) :
    ∃ ks, get_other_cards self all = self ++ ks
      ∧ ks.Pairwise (fun a b => wNum b ≤ wNum a)
      ∧ ks.length = min (5 - self.length)
          (all.filter (fun card => !(self.any (fun e => cardEq e card)))).length
      ∧ ks.Sublist ((all.filter (fun card => !(self.any (fun e => cardEq e card)))).reverse) := by
  unfold get_other_cards
  cases hpoolnil : all.filter (fun card => !(self.any (fun e => cardEq e card))) with
  | nil =>
    rw [hpoolnil] at hpool
    simp at hpool
  | cons a t =>
    refine ⟨(a :: t).reverse.take (5 - self.length), rfl, ?_, ?_, ?_⟩
    · have hsub : (a :: t).Sublist all := by
        rw [← hpoolnil]
        exact List.filter_sublist _
      have hasc := hsorted.sublist hsub
      exact (List.pairwise_reverse.mpr hasc).sublist (List.take_sublist _ _)
    · rw [List.length_take, List.length_reverse]
    · exact List.take_sublist _ _

/-- `branch_common` with kicker membership, weights and occurrence bounds
made explicit. -/
theorem branch_common2 (l : List Card) (hval : validCards l = true) (hlen5 : 5 ≤ l.length)
    (key : Card) (n : Nat) (hkw : key.weight.isSome = true)
    (hkc : wcount (sortCards l) (wNum key) = n) (hn2 : 2 ≤ n) (hn4 : n ≤ 4) :
    ∃ ks, get_other_cards ((sortCards l).filter (fun card => cardEq card key)) (sortCards l)
        = (sortCards l).filter (fun card => cardEq card key) ++ ks
      ∧ ks.Pairwise (fun a b => wNum b ≤ wNum a)
      ∧ ((sortCards l).filter (fun card => cardEq card key)).length = n
      ∧ ks.length = 5 - n
      ∧ (∀ x ∈ (sortCards l).filter (fun card => cardEq card key), wNum x = wNum key)
      ∧ (∀ x ∈ ks, x ∈ sortCards l ∧ wNum x ≠ wNum key)
      ∧ (∀ w, (ks.filter (fun c => wNum c == w)).length ≤ wcount (sortCards l) w) := by
  have hperm := sortCards_perm l
  have hvs : validCards (sortCards l) = true := validCards_perm hperm.symm hval
  have hslen : (sortCards l).length = l.length := hperm.length_eq
  have hsorted : (sortCards l).Pairwise (fun a b => wNum a ≤ wNum b) :=
    sortCards_sorted_wNum (fun c hc => (validCards_mem hval hc).1)
  have hfe : (sortCards l).filter (fun card => cardEq card key)
      = (sortCards l).filter (fun card => wNum card == wNum key) :=
    List.filter_congr (fun c hc => cardEq_weighted (validCards_mem hvs hc).1 hkw)
  have hselflen : ((sortCards l).filter (fun card => cardEq card key)).length = n := by
    rw [hfe]
    exact hkc
  have hwconst : ∀ x ∈ (sortCards l).filter (fun card => cardEq card key),
      wNum x = wNum key := by
    intro x hx
    obtain ⟨hxm, hxp⟩ := List.mem_filter.mp hx
    rw [cardEq_weighted (validCards_mem hvs hxm).1 hkw] at hxp
    simpa using hxp
  have hselfne : (sortCards l).filter (fun card => cardEq card key) ≠ [] := by
    intro h0
    rw [h0] at hselflen
    simp at hselflen
    omega
  have hpoolc : (sortCards l).filter (fun card =>
      !(((sortCards l).filter (fun card => cardEq card key)).any
        (fun e => cardEq e card)))
      = (sortCards l).filter (fun card => !(wNum card == wNum key)) :=
    pool_const hvs _ hselfne
      (fun e he => ⟨(validCards_mem hvs (List.mem_filter.mp he).1).1, hwconst e he⟩)
  have hpoollen : ((sortCards l).filter (fun card =>
      !(((sortCards l).filter (fun card => cardEq card key)).any
        (fun e => cardEq e card)))).length = (sortCards l).length - n := by
    rw [hpoolc]
    have h1 := filter_not_length (sortCards l) (fun card => wNum card == wNum key)
    have h2 : ((sortCards l).filter (fun card => wNum card == wNum key)).length
        = wcount (sortCards l) (wNum key) := rfl
    omega
  have hpool1 : 1 ≤ ((sortCards l).filter (fun card =>
      !(((sortCards l).filter (fun card => cardEq card key)).any
        (fun e => cardEq e card)))).length := by
    omega
  obtain ⟨ks, hks, hksdesc, hkslen, hksub⟩ := get_other_cards_full2 _ _ hsorted hpool1
  rw [hpoolc] at hksub
  refine ⟨ks, hks, hksdesc, hselflen, ?_, hwconst, ?_, ?_⟩
  · rw [hkslen, hselflen, hpoollen, Nat.min_eq_left (by omega)]
  · intro x hx
    have hxrev : x ∈ ((sortCards l).filter (fun card => !(wNum card == wNum key))).reverse :=
      hksub.subset hx
    have hxp : x ∈ (sortCards l).filter (fun card => !(wNum card == wNum key)) :=
      List.mem_reverse.mp hxrev
    obtain ⟨hxm, hxpr⟩ := List.mem_filter.mp hxp
    refine ⟨hxm, ?_⟩
    intro hcontr
    rw [hcontr] at hxpr
    simp at hxpr
  · intro w
    have h1 : (ks.filter (fun c => wNum c == w)).length
        ≤ ((((sortCards l).filter (fun card => !(wNum card == wNum key))).reverse).filter
            (fun c => wNum c == w)).length :=
      (hksub.filter _).length_le
    have h2 : ((((sortCards l).filter (fun card => !(wNum card == wNum key))).reverse).filter
          (fun c => wNum c == w)).length
        = (((sortCards l).filter (fun card => !(wNum card == wNum key))).filter
            (fun c => wNum c == w)).length :=
      ((List.reverse_perm _).filter _).length_eq
    have h3 : (((sortCards l).filter (fun card => !(wNum card == wNum key))).filter
          (fun c => wNum c == w)).length
        ≤ ((sortCards l).filter (fun c => wNum c == w)).length :=
      ((List.filter_sublist _).filter _).length_le
    have h4 : ((sortCards l).filter (fun c => wNum c == w)).length
        = wcount (sortCards l) w := rfl
    omega

theorem no_flush_rerun_plain {l cs : List Card} (hlen5 : cs.length = 5)
    (hnodup : cs.Nodup) (hmem : ∀ x ∈ cs, x ∈ sortCards l)
    (hnof : ∀ c ∈ sortCards l, scount (sortCards l) c.suit ≤ 4) :
    ∀ su, scount cs su ≤ 4 := by
  intro su
  by_contra hgt
  have h5su : 5 ≤ scount cs su := by omega
  have hfull : cs.filter (fun e => e.suit == su) = cs := by
    apply (List.filter_sublist cs).eq_of_length_le
    unfold scount at h5su
    omega
  have hall : ∀ x ∈ cs, x.suit = su := by
    intro x hx
    have hx' : x ∈ cs.filter (fun e => e.suit == su) := by rw [hfull]; exact hx
    have := (List.mem_filter.mp hx').2
    simpa using this
  obtain ⟨x0, hx0⟩ : ∃ x, x ∈ cs := by
    cases hcsv : cs with
    | nil => rw [hcsv] at hlen5; simp at hlen5
    | cons a t => exact ⟨a, by simp⟩
  have hsubf : ∀ x ∈ cs, x ∈ (sortCards l).filter (fun e => e.suit == su) := by
    intro x hx
    exact List.mem_filter.mpr ⟨hmem x hx, by simp [hall x hx]⟩
  have hle := (List.subperm_of_subset hnodup hsubf).length_le
  rw [hlen5] at hle
  have hb4 := hnof x0 (hmem x0 hx0)
  rw [hall x0 hx0] at hb4
  unfold scount at hb4
  omega

/-- First-run four-of-a-kind branch: the reported cards re-classify to the
same four of a kind. -/
theorem c6_branch_four (l : List Card)
    (hval : validCards l = true) (hlen5 : 5 ≤ l.length)
    (hdup : hasDupCard l = false) (hsu : suitsOk l = true)
    {f : Card}
    (hfour : (get_repeat_kind
      (repFold (sortCards l) weightCardOf (sortCards l) ⟨[], []⟩).all).four = some f)
    (hnof : ∀ c ∈ sortCards l, scount (sortCards l) c.suit ≤ 4) :
    ∃ c', find_combo (four_of_a_kind_cards (sortCards l) f) = some c'
      ∧ c'.type = FOUR_OF_A_KIND
      ∧ c'.cards = four_of_a_kind_cards (sortCards l) f := by
  have hperm := sortCards_perm l
  have hvs : validCards (sortCards l) = true := validCards_perm hperm.symm hval
  have hsorted : (sortCards l).Pairwise (fun a b => wNum a ≤ wNum b) :=
    sortCards_sorted_wNum (fun c hc => (validCards_mem hval hc).1)
  have hdists : cardsDistinct (sortCards l) :=
    cardsDistinct_perm hperm.symm (hasDupCard_pairwise hdup)
  obtain ⟨hK4, _, _, _, _⟩ := repeat_kind_cases hvs hsorted
  obtain ⟨hfw, hfc4⟩ := hK4 f hfour
  obtain ⟨ks, hdec, hksdesc, hselflen, hkslen, hwconst, hksfacts, hkscnt⟩ :=
    branch_common2 l hval hlen5 f 4 hfw hfc4 (by omega) (by omega)
  have hcs : four_of_a_kind_cards (sortCards l) f
      = (sortCards l).filter (fun card => cardEq card f) ++ ks := hdec
  obtain ⟨k, hk⟩ := list_eq_one ks (by rw [hkslen])
  have hksdesc' : ks.Pairwise (fun a c => wNum c < wNum a) := by
    rw [hk]
    exact List.pairwise_singleton _ _
  have hmemcs : ∀ x ∈ (sortCards l).filter (fun card => cardEq card f) ++ ks,
      x ∈ sortCards l := by
    intro x hx
    rcases List.mem_append.mp hx with h | h
    · exact (List.mem_filter.mp h).1
    · exact (hksfacts x h).1
  have hvalcs : validCards ((sortCards l).filter (fun card => cardEq card f) ++ ks)
      = true := validCards_of_mem hmemcs hvs
  have hlencs : ((sortCards l).filter (fun card => cardEq card f) ++ ks).length = 5 := by
    rw [List.length_append, hselflen, hkslen]
  obtain ⟨x, y, hxF, hyF, hxy⟩ := pair_suits_differ hdists (List.filter_sublist _)
    hwconst (by omega)
  have hsc : ∀ su, scount ((sortCards l).filter (fun card => cardEq card f) ++ ks) su ≤ 4 :=
    fun su => scount_bound_from_pair (by omega) (List.mem_append_left _ hxF)
      (List.mem_append_left _ hyF) hxy su
  rw [hcs]
  exact second_run_four hvalcs rfl hwconst hselflen
    (fun x hx => (hksfacts x hx).2) hksdesc' hlencs hsc

/-- First-run three-of-a-kind branch. -/
theorem c6_branch_three (l : List Card)
    (hval : validCards l = true) (hlen5 : 5 ≤ l.length) (hlen7 : l.length ≤ 7)
    (hdup : hasDupCard l = false) (hsu : suitsOk l = true)
    {t : Card}
    (hthree : (get_repeat_kind
      (repFold (sortCards l) weightCardOf (sortCards l) ⟨[], []⟩).all).three = some t)
    (h2none : (get_repeat_kind
      (repFold (sortCards l) weightCardOf (sortCards l) ⟨[], []⟩).all).two = none)
    (hfive : (mkSequence (sortCards l)).five_in_a_row = false)
    (hnof : ∀ c ∈ sortCards l, scount (sortCards l) c.suit ≤ 4) :
    ∃ c', find_combo (three_of_a_kind_cards (sortCards l) t) = some c'
      ∧ c'.type = THREE_OF_A_KIND
      ∧ c'.cards = three_of_a_kind_cards (sortCards l) t := by
  have hperm := sortCards_perm l
  have hvs : validCards (sortCards l) = true := validCards_perm hperm.symm hval
  have hslen : (sortCards l).length = l.length := hperm.length_eq
  have hsorted : (sortCards l).Pairwise (fun a b => wNum a ≤ wNum b) :=
    sortCards_sorted_wNum (fun c hc => (validCards_mem hval hc).1)
  have hdists : cardsDistinct (sortCards l) :=
    cardsDistinct_perm hperm.symm (hasDupCard_pairwise hdup)
  have hsus : suitsOk (sortCards l) = true := suitsOk_perm hperm.symm hsu
  obtain ⟨_, hK3, _, _, _⟩ := repeat_kind_cases hvs hsorted
  obtain ⟨htw, htc3⟩ := hK3 t hthree
  obtain ⟨ks, hdec, hksdesc, hselflen, hkslen, hwconst, hksfacts, hkscnt⟩ :=
    branch_common2 l hval hlen5 t 3 htw htc3 (by omega) (by omega)
  have hcs : three_of_a_kind_cards (sortCards l) t
      = (sortCards l).filter (fun card => cardEq card t) ++ ks := hdec
  have hkuniq := three_some_two_none hvs (by omega) hthree h2none
  have hkcnt1 : ∀ x ∈ ks, (ks.filter (fun c => wNum c == wNum x)).length ≤ 1 := by
    intro x hx
    have hxm := (hksfacts x hx).1
    have hxt := (hksfacts x hx).2
    have hb := hkuniq x hxm hxt
    have hle4 := wcount_le_four hsus hdists (wNum x)
    have hpos : 1 ≤ wcount (sortCards l) (wNum x) := wcount_self_pos hxm
    have := hkscnt (wNum x)
    omega
  have hkdist : ks.Pairwise (fun a c => wNum a ≠ wNum c) :=
    pairwise_ne_weights_of_count hkcnt1
  have hksdesc' : ks.Pairwise (fun a c => wNum c < wNum a) :=
    (hksdesc.and hkdist).imp (fun h => by omega)
  have hmemcs : ∀ x ∈ (sortCards l).filter (fun card => cardEq card t) ++ ks,
      x ∈ sortCards l := by
    intro x hx
    rcases List.mem_append.mp hx with h | h
    · exact (List.mem_filter.mp h).1
    · exact (hksfacts x h).1
  have hvalcs : validCards ((sortCards l).filter (fun card => cardEq card t) ++ ks)
      = true := validCards_of_mem hmemcs hvs
  have hlencs : ((sortCards l).filter (fun card => cardEq card t) ++ ks).length = 5 := by
    rw [List.length_append, hselflen, hkslen]
  obtain ⟨x, y, hxF, hyF, hxy⟩ := pair_suits_differ hdists (List.filter_sublist _)
    hwconst (by omega)
  have hsc : ∀ su, scount ((sortCards l).filter (fun card => cardEq card t) ++ ks) su ≤ 4 :=
    fun su => scount_bound_from_pair (by omega) (List.mem_append_left _ hxF)
      (List.mem_append_left _ hyF) hxy su
  have h5' := second_five_false hvalcs hvs hmemcs hfive
  rw [hcs]
  exact second_run_three hvalcs rfl hwconst hselflen
    (fun x hx => (hksfacts x hx).2) hksdesc' hlencs hsc h5'

/-- First-run one-pair branch. -/
theorem c6_branch_one_pair (l : List Card)
    (hval : validCards l = true) (hlen5 : 5 ≤ l.length)
    (hdup : hasDupCard l = false) (hsu : suitsOk l = true)
    {p : Card}
    (h4none : (get_repeat_kind
      (repFold (sortCards l) weightCardOf (sortCards l) ⟨[], []⟩).all).four = none)
    (h3none : (get_repeat_kind
      (repFold (sortCards l) weightCardOf (sortCards l) ⟨[], []⟩).all).three = none)
    (hp : (get_repeat_kind
      (repFold (sortCards l) weightCardOf (sortCards l) ⟨[], []⟩).all).two = some p)
    (hfive : (mkSequence (sortCards l)).five_in_a_row = false)
    (hnof : ∀ c ∈ sortCards l, scount (sortCards l) c.suit ≤ 4) :
    ∃ c', find_combo (one_pair_cards (sortCards l) p) = some c'
      ∧ c'.type = ONE_PAIR
      ∧ c'.cards = one_pair_cards (sortCards l) p := by
  have hperm := sortCards_perm l
  have hvs : validCards (sortCards l) = true := validCards_perm hperm.symm hval
  have hsorted : (sortCards l).Pairwise (fun a b => wNum a ≤ wNum b) :=
    sortCards_sorted_wNum (fun c hc => (validCards_mem hval hc).1)
  have hdists : cardsDistinct (sortCards l) :=
    cardsDistinct_perm hperm.symm (hasDupCard_pairwise hdup)
  have hsus : suitsOk (sortCards l) = true := suitsOk_perm hperm.symm hsu
  obtain ⟨_, _, hK2, _, hK2'⟩ := repeat_kind_cases hvs hsorted
  have hpw : p.weight.isSome = true := (hK2 p hp).1
  have hpc2 : wcount (sortCards l) (wNum p) = 2 := hK2' p h3none hp
  obtain ⟨ks, hdec, hksdesc, hselflen, hkslen, hwconst, hksfacts, hkscnt⟩ :=
    branch_common2 l hval hlen5 p 2 hpw hpc2 (by omega) (by omega)
  have hcs : one_pair_cards (sortCards l) p
      = (sortCards l).filter (fun card => cardEq card p) ++ ks := hdec
  have hkuniq := one_pair_profile_inv hvs h4none h3none hp
  have hkcnt1 : ∀ x ∈ ks, (ks.filter (fun c => wNum c == wNum x)).length ≤ 1 := by
    intro x hx
    have hxm := (hksfacts x hx).1
    have hxt := (hksfacts x hx).2
    have hb := hkuniq x hxm hxt
    have hle4 := wcount_le_four hsus hdists (wNum x)
    have hpos : 1 ≤ wcount (sortCards l) (wNum x) := wcount_self_pos hxm
    have := hkscnt (wNum x)
    omega
  have hkdist : ks.Pairwise (fun a c => wNum a ≠ wNum c) :=
    pairwise_ne_weights_of_count hkcnt1
  have hksdesc' : ks.Pairwise (fun a c => wNum c < wNum a) :=
    (hksdesc.and hkdist).imp (fun h => by omega)
  have hmemcs : ∀ x ∈ (sortCards l).filter (fun card => cardEq card p) ++ ks,
      x ∈ sortCards l := by
    intro x hx
    rcases List.mem_append.mp hx with h | h
    · exact (List.mem_filter.mp h).1
    · exact (hksfacts x h).1
  have hvalcs : validCards ((sortCards l).filter (fun card => cardEq card p) ++ ks)
      = true := validCards_of_mem hmemcs hvs
  have hlencs : ((sortCards l).filter (fun card => cardEq card p) ++ ks).length = 5 := by
    rw [List.length_append, hselflen, hkslen]
  obtain ⟨x, y, hxF, hyF, hxy⟩ := pair_suits_differ hdists (List.filter_sublist _)
    hwconst (by omega)
  have hsc : ∀ su, scount ((sortCards l).filter (fun card => cardEq card p) ++ ks) su ≤ 4 :=
    fun su => scount_bound_from_pair (by omega) (List.mem_append_left _ hxF)
      (List.mem_append_left _ hyF) hxy su
  have h5' := second_five_false hvalcs hvs hmemcs hfive
  rw [hcs]
  exact second_run_one_pair hvalcs rfl hwconst hselflen
    (fun x hx => (hksfacts x hx).2) hksdesc' hlencs hsc h5'

/-- First-run full-house branch. -/
theorem c6_branch_full_house (l : List Card)
    (hval : validCards l = true) (hlen5 : 5 ≤ l.length)
    (hdup : hasDupCard l = false) (hsu : suitsOk l = true)
    {t p : Card}
    (ht3 : (get_repeat_kind
      (repFold (sortCards l) weightCardOf (sortCards l) ⟨[], []⟩).all).three = some t)
    (hp2 : (get_repeat_kind
      (repFold (sortCards l) weightCardOf (sortCards l) ⟨[], []⟩).all).two = some p)
    (hnof : ∀ c ∈ sortCards l, scount (sortCards l) c.suit ≤ 4) :
    ∃ c', find_combo (full_house_cards (sortCards l) t p) = some c'
      ∧ c'.type = FULL_HOUSE
      ∧ c'.cards = full_house_cards (sortCards l) t p := by
  have hperm := sortCards_perm l
  have hvs : validCards (sortCards l) = true := validCards_perm hperm.symm hval
  have hsorted : (sortCards l).Pairwise (fun a b => wNum a ≤ wNum b) :=
    sortCards_sorted_wNum (fun c hc => (validCards_mem hval hc).1)
  have hdists : cardsDistinct (sortCards l) :=
    cardsDistinct_perm hperm.symm (hasDupCard_pairwise hdup)
  obtain ⟨_, hK3, hK2, _, _⟩ := repeat_kind_cases hvs hsorted
  obtain ⟨htw, htc3⟩ := hK3 t ht3
  obtain ⟨hpw, hpc2, hpc3⟩ := hK2 p hp2
  have hwtp : wNum t ≠ wNum p := three_two_distinct hvs ht3 hp2
  have hfeT : (sortCards l).filter (fun card => cardEq card t)
      = (sortCards l).filter (fun card => wNum card == wNum t) :=
    List.filter_congr (fun cx hcx => cardEq_weighted (validCards_mem hvs hcx).1 htw)
  have hfeP : (sortCards l).filter (fun card => cardEq card p)
      = (sortCards l).filter (fun card => wNum card == wNum p) :=
    List.filter_congr (fun cx hcx => cardEq_weighted (validCards_mem hvs hcx).1 hpw)
  have hTlen : ((sortCards l).filter (fun card => cardEq card t)).length = 3 := by
    rw [hfeT]
    exact htc3
  have hPlen2 : 2 ≤ ((sortCards l).filter (fun card => cardEq card p)).length := by
    rw [hfeP]
    have he : ((sortCards l).filter (fun card => wNum card == wNum p)).length
        = wcount (sortCards l) (wNum p) := rfl
    omega
  have hP2len : (((sortCards l).filter (fun card => cardEq card p)).take 2).length = 2 := by
    rw [List.length_take]
    omega
  have hTconst : ∀ x ∈ (sortCards l).filter (fun card => cardEq card t),
      wNum x = wNum t := by
    intro x hx
    have := (List.mem_filter.mp hx).2
    rw [cardEq_weighted (validCards_mem hvs (List.mem_filter.mp hx).1).1 htw] at this
    simpa using this
  have hPconst : ∀ x ∈ ((sortCards l).filter (fun card => cardEq card p)).take 2,
      wNum x = wNum p := by
    intro x hx
    have hx' := List.take_subset 2 _ hx
    have := (List.mem_filter.mp hx').2
    rw [cardEq_weighted (validCards_mem hvs (List.mem_filter.mp hx').1).1 hpw] at this
    simpa using this
  have hcs : full_house_cards (sortCards l) t p
      = (sortCards l).filter (fun card => cardEq card t)
        ++ ((sortCards l).filter (fun card => cardEq card p)).take 2 := rfl
  have hmemcs : ∀ x ∈ (sortCards l).filter (fun card => cardEq card t)
      ++ ((sortCards l).filter (fun card => cardEq card p)).take 2,
      x ∈ sortCards l := by
    intro x hx
    rcases List.mem_append.mp hx with h | h
    · exact (List.mem_filter.mp h).1
    · exact (List.mem_filter.mp (List.take_subset 2 _ h)).1
  have hvalcs : validCards ((sortCards l).filter (fun card => cardEq card t)
      ++ ((sortCards l).filter (fun card => cardEq card p)).take 2) = true :=
    validCards_of_mem hmemcs hvs
  obtain ⟨x, y, hxF, hyF, hxy⟩ := pair_suits_differ hdists (List.filter_sublist _)
    hTconst (by omega)
  have hlencs : ((sortCards l).filter (fun card => cardEq card t)
      ++ ((sortCards l).filter (fun card => cardEq card p)).take 2).length = 5 := by
    rw [List.length_append, hTlen, hP2len]
  have hsc : ∀ su, scount ((sortCards l).filter (fun card => cardEq card t)
      ++ ((sortCards l).filter (fun card => cardEq card p)).take 2) su ≤ 4 :=
    fun su => scount_bound_from_pair (by omega) (List.mem_append_left _ hxF)
      (List.mem_append_left _ hyF) hxy su
  rw [hcs]
  exact second_run_full_house hvalcs rfl hTconst hTlen hPconst hP2len hwtp hsc

/-- First-run two-pairs branch. -/
theorem c6_branch_two_pairs (l : List Card)
    (hval : validCards l = true) (hlen5 : 5 ≤ l.length)
    (hdup : hasDupCard l = false) (hsu : suitsOk l = true)
    {dd : List Card}
    (hddv : (get_repeat_kind
      (repFold (sortCards l) weightCardOf (sortCards l) ⟨[], []⟩).all).double_two = some dd)
    (hfive : (mkSequence (sortCards l)).five_in_a_row = false)
    (hnof : ∀ c ∈ sortCards l, scount (sortCards l) c.suit ≤ 4) :
    ∃ c', find_combo (two_pairs_cards (sortCards l) dd) = some c'
      ∧ c'.type = TWO_PAIRS
      ∧ c'.cards = two_pairs_cards (sortCards l) dd := by
  have hperm := sortCards_perm l
  have hvs : validCards (sortCards l) = true := validCards_perm hperm.symm hval
  have hslen : (sortCards l).length = l.length := hperm.length_eq
  have hsorted : (sortCards l).Pairwise (fun a b => wNum a ≤ wNum b) :=
    sortCards_sorted_wNum (fun c hc => (validCards_mem hval hc).1)
  have hdists : cardsDistinct (sortCards l) :=
    cardsDistinct_perm hperm.symm (hasDupCard_pairwise hdup)
  obtain ⟨_, _, _, hKdd, _⟩ := repeat_kind_cases hvs hsorted
  obtain ⟨k1, k2, hdd2, hk1w, hk2w, h12, hc1, hc2⟩ := hKdd dd hddv
  subst hdd2
  have hpairs : (sortCards l).filter (fun card => [k1, k2].any (fun e => cardEq e card))
      = (sortCards l).filter
          (fun card => (wNum card == wNum k1) || (wNum card == wNum k2)) := by
    apply List.filter_congr
    intro cx hcx
    have hcw := (validCards_mem hvs hcx).1
    show (cardEq k1 cx || (cardEq k2 cx || false)) = _
    rw [cardEq_weighted hk1w hcw, cardEq_weighted hk2w hcw, Bool.or_false,
      beq_comm_nat (wNum k1), beq_comm_nat (wNum k2)]
  have hsplit := sorted_filter_append hsorted h12
  have hF1len : ((sortCards l).filter (fun card => wNum card == wNum k1)).length = 2 := hc1
  have hF2len : ((sortCards l).filter (fun card => wNum card == wNum k2)).length = 2 := hc2
  have hF1const : ∀ x ∈ (sortCards l).filter (fun card => wNum card == wNum k1),
      wNum x = wNum k1 := by
    intro x hx
    have := (List.mem_filter.mp hx).2
    simpa using this
  have hF2const : ∀ x ∈ (sortCards l).filter (fun card => wNum card == wNum k2),
      wNum x = wNum k2 := by
    intro x hx
    have := (List.mem_filter.mp hx).2
    simpa using this
  have hself : ((sortCards l).filter
        (fun card => [k1, k2].any (fun e => cardEq e card))).drop 2
      ++ ((sortCards l).filter (fun card => [k1, k2].any (fun e => cardEq e card))).take 2
      = (sortCards l).filter (fun card => wNum card == wNum k2)
        ++ (sortCards l).filter (fun card => wNum card == wNum k1) := by
    rw [hpairs, hsplit, ← hF1len, List.drop_left, List.take_left]
  have hselfany : ∀ cx ∈ sortCards l,
      ((sortCards l).filter (fun card => wNum card == wNum k2)
        ++ (sortCards l).filter (fun card => wNum card == wNum k1)).any
          (fun e => cardEq e cx)
      = ((wNum cx == wNum k1) || (wNum cx == wNum k2)) := by
    intro cx hcx
    have hcw := (validCards_mem hvs hcx).1
    rw [List.any_append]
    have h2' : ((sortCards l).filter (fun card => wNum card == wNum k2)).any
        (fun e => cardEq e cx) = (wNum k2 == wNum cx) := by
      apply any_const _ _ _ (by intro h0; rw [h0] at hF2len; simp at hF2len)
      intro e he
      rw [cardEq_weighted (validCards_mem hvs (List.mem_filter.mp he).1).1 hcw,
        hF2const e he]
    have h1' : ((sortCards l).filter (fun card => wNum card == wNum k1)).any
        (fun e => cardEq e cx) = (wNum k1 == wNum cx) := by
      apply any_const _ _ _ (by intro h0; rw [h0] at hF1len; simp at hF1len)
      intro e he
      rw [cardEq_weighted (validCards_mem hvs (List.mem_filter.mp he).1).1 hcw,
        hF1const e he]
    rw [h2', h1', beq_comm_nat (wNum k2), beq_comm_nat (wNum k1), Bool.or_comm]
  have hpool : (sortCards l).filter (fun card =>
        !(((sortCards l).filter (fun card => wNum card == wNum k2)
          ++ (sortCards l).filter (fun card => wNum card == wNum k1)).any
            (fun e => cardEq e card)))
      = (sortCards l).filter (fun card =>
          !((wNum card == wNum k1) || (wNum card == wNum k2))) := by
    apply List.filter_congr
    intro cx hcx
    rw [hselfany cx hcx]
  have hpoolor : ((sortCards l).filter (fun card =>
        (wNum card == wNum k1) || (wNum card == wNum k2))).length = 4 := by
    rw [filter_or_length _ _ _ (by
      intro x hx hb
      obtain ⟨hb1, hb2⟩ := hb
      simp at hb1 hb2
      omega)]
    rw [hF1len, hF2len]
  have hpoollen : ((sortCards l).filter (fun card =>
        !(((sortCards l).filter (fun card => wNum card == wNum k2)
          ++ (sortCards l).filter (fun card => wNum card == wNum k1)).any
            (fun e => cardEq e card)))).length = (sortCards l).length - 4 := by
    rw [hpool]
    have := filter_not_length (sortCards l)
      (fun card => (wNum card == wNum k1) || (wNum card == wNum k2))
    omega
  have hpool1 : 1 ≤ ((sortCards l).filter (fun card =>
      !(((sortCards l).filter (fun card => wNum card == wNum k2)
        ++ (sortCards l).filter (fun card => wNum card == wNum k1)).any
          (fun e => cardEq e card)))).length := by
    omega
  obtain ⟨ks, hks, hksdesc, hkslen, hksub⟩ := get_other_cards_full2 _ _ hsorted hpool1
  have hselflen : ((sortCards l).filter (fun card => wNum card == wNum k2)
      ++ (sortCards l).filter (fun card => wNum card == wNum k1)).length = 4 := by
    rw [List.length_append, hF1len, hF2len]
  have hcardsv : two_pairs_cards (sortCards l) [k1, k2]
      = ((sortCards l).filter (fun card => wNum card == wNum k2)
          ++ (sortCards l).filter (fun card => wNum card == wNum k1)) ++ ks := by
    unfold two_pairs_cards
    rw [hself]
    exact hks
  have hkslen' : ks.length = 1 := by
    rw [hkslen, hselflen, hpoollen, Nat.min_eq_left (by omega)]
  obtain ⟨k, hkeq⟩ := list_eq_one ks hkslen'
  have hkpool : k ∈ (sortCards l).filter (fun card =>
      !((wNum card == wNum k1) || (wNum card == wNum k2))) := by
    have h1 : k ∈ ks := by rw [hkeq]; simp
    have h2 := hksub.subset h1
    rw [hpool] at h2
    exact List.mem_reverse.mp h2
  have hkmem : k ∈ sortCards l := (List.mem_filter.mp hkpool).1
  have hkw12 := (List.mem_filter.mp hkpool).2
  have hkw1 : wNum k ≠ wNum k1 := by
    simp at hkw12
    omega
  have hkw2 : wNum k ≠ wNum k2 := by
    simp at hkw12
    omega
  have hcs : two_pairs_cards (sortCards l) [k1, k2]
      = (sortCards l).filter (fun card => wNum card == wNum k2)
        ++ (sortCards l).filter (fun card => wNum card == wNum k1) ++ [k] := by
    rw [hcardsv, hkeq]
  have hmemcs : ∀ x ∈ (sortCards l).filter (fun card => wNum card == wNum k2)
      ++ (sortCards l).filter (fun card => wNum card == wNum k1) ++ [k],
      x ∈ sortCards l := by
    intro x hx
    rcases List.mem_append.mp hx with h | h
    · rcases List.mem_append.mp h with h' | h'
      · exact (List.mem_filter.mp h').1
      · exact (List.mem_filter.mp h').1
    · have : x = k := by simpa using h
      rw [this]
      exact hkmem
  have hvalcs : validCards ((sortCards l).filter (fun card => wNum card == wNum k2)
      ++ (sortCards l).filter (fun card => wNum card == wNum k1) ++ [k]) = true :=
    validCards_of_mem hmemcs hvs
  obtain ⟨x, y, hxF, hyF, hxy⟩ := pair_suits_differ hdists (List.filter_sublist _)
    hF1const (by omega)
  have hlencs : ((sortCards l).filter (fun card => wNum card == wNum k2)
      ++ (sortCards l).filter (fun card => wNum card == wNum k1) ++ [k]).length = 5 := by
    rw [List.length_append, List.length_append, hF1len, hF2len]
    rfl
  have hsc : ∀ su, scount ((sortCards l).filter (fun card => wNum card == wNum k2)
      ++ (sortCards l).filter (fun card => wNum card == wNum k1) ++ [k]) su ≤ 4 :=
    fun su => scount_bound_from_pair (by omega)
      (List.mem_append_left _ (List.mem_append_right _ hxF))
      (List.mem_append_left _ (List.mem_append_right _ hyF)) hxy su
  have h5' := second_five_false hvalcs hvs hmemcs hfive
  rw [hcs]
  exact second_run_two_pairs hvalcs rfl h12 hF2const hF2len hF1const hF1len
    hkw1 hkw2 hsc h5'

/-- First-run high-card branch. -/
theorem c6_branch_high (l : List Card)
    (hval : validCards l = true) (hlen5 : 5 ≤ l.length)
    (hdup : hasDupCard l = false) (hsu : suitsOk l = true)
    (h4 : (get_repeat_kind
      (repFold (sortCards l) weightCardOf (sortCards l) ⟨[], []⟩).all).four = none)
    (h3 : (get_repeat_kind
      (repFold (sortCards l) weightCardOf (sortCards l) ⟨[], []⟩).all).three = none)
    (h2 : (get_repeat_kind
      (repFold (sortCards l) weightCardOf (sortCards l) ⟨[], []⟩).all).two = none)
    (hdd : (get_repeat_kind
      (repFold (sortCards l) weightCardOf (sortCards l) ⟨[], []⟩).all).double_two = none)
    (hfive : (mkSequence (sortCards l)).five_in_a_row = false)
    (hnof : ∀ c ∈ sortCards l, scount (sortCards l) c.suit ≤ 4) :
    ∃ c', find_combo (high_card_cards (sortCards l)) = some c'
      ∧ c'.type = HIGH_CARD
      ∧ c'.cards = high_card_cards (sortCards l) := by
  have hperm := sortCards_perm l
  have hvs : validCards (sortCards l) = true := validCards_perm hperm.symm hval
  have hslen : (sortCards l).length = l.length := hperm.length_eq
  have hsorted : (sortCards l).Pairwise (fun a b => wNum a ≤ wNum b) :=
    sortCards_sorted_wNum (fun c hc => (validCards_mem hval hc).1)
  have hdists : cardsDistinct (sortCards l) :=
    cardsDistinct_perm hperm.symm (hasDupCard_pairwise hdup)
  have hsus : suitsOk (sortCards l) = true := suitsOk_perm hperm.symm hsu
  have hinv := high_profile_inv hvs h4 h3 h2 hdd
  have hcnt1 : ∀ x ∈ sortCards l,
      ((sortCards l).filter (fun c => wNum c == wNum x)).length ≤ 1 := by
    intro x hx
    have hb := hinv x hx
    have hle4 := wcount_le_four hsus hdists (wNum x)
    have hpos : 1 ≤ wcount (sortCards l) (wNum x) := wcount_self_pos hx
    have he : ((sortCards l).filter (fun c => wNum c == wNum x)).length
        = wcount (sortCards l) (wNum x) := rfl
    omega
  have hne_s : (sortCards l).Pairwise (fun a c => wNum a ≠ wNum c) :=
    pairwise_ne_weights_of_count hcnt1
  have hcseq : high_card_cards (sortCards l)
      = ((sortCards l).drop ((sortCards l).length - 5)).reverse := rfl
  have hD_asc : ((sortCards l).drop ((sortCards l).length - 5)).Pairwise
      (fun a c => wNum a ≤ wNum c) := hsorted.sublist (List.drop_sublist _ _)
  have hD_ne : ((sortCards l).drop ((sortCards l).length - 5)).Pairwise
      (fun a c => wNum a ≠ wNum c) := hne_s.sublist (List.drop_sublist _ _)
  have hD_strict : ((sortCards l).drop ((sortCards l).length - 5)).Pairwise
      (fun a c => wNum a < wNum c) := (hD_asc.and hD_ne).imp (fun h => by omega)
  have hdesc_cs : (((sortCards l).drop ((sortCards l).length - 5)).reverse).Pairwise
      (fun a c => wNum c < wNum a) := List.pairwise_reverse.mpr hD_strict
  have hlencs : (((sortCards l).drop ((sortCards l).length - 5)).reverse).length = 5 := by
    rw [List.length_reverse, List.length_drop]
    omega
  have hmemcs : ∀ x ∈ ((sortCards l).drop ((sortCards l).length - 5)).reverse,
      x ∈ sortCards l := by
    intro x hx
    exact List.drop_subset _ _ (List.mem_reverse.mp hx)
  have hvalcs : validCards (((sortCards l).drop ((sortCards l).length - 5)).reverse)
      = true := validCards_of_mem hmemcs hvs
  have hnodup : (((sortCards l).drop ((sortCards l).length - 5)).reverse).Nodup :=
    hdesc_cs.imp (fun h heq => by rw [heq] at h; omega)
  have hsc := no_flush_rerun_plain hlencs hnodup hmemcs hnof
  have h5' := second_five_false hvalcs hvs hmemcs hfive
  rw [hcseq]
  exact second_run_high hvalcs hlencs hdesc_cs hsc h5'

/-- First-run straight branch. -/
theorem c6_branch_straight (l : List Card)
    (hval : validCards l = true) (hlen5 : 5 ≤ l.length)
    {cs : List Card}
    (hoc : (mkSequence (sortCards l)).order_cards = some cs)
    (hnof : ∀ c ∈ sortCards l, scount (sortCards l) c.suit ≤ 4) :
    ∃ c', find_combo cs = some c' ∧ c'.type = STRAIGHT ∧ c'.cards = cs := by
  have hperm := sortCards_perm l
  have hvs : validCards (sortCards l) = true := validCards_perm hperm.symm hval
  obtain ⟨b, hb9, hlencs, hwj, hmemb⟩ :=
    mkSequence_order_profile (sortCards l) (seq_source_suits hvs) hoc
  have hvalcs : validCards cs = true :=
    validCards_of_mem hmemb (seq_source_valid hvs)
  have hsc := straight_no_flush_rerun hval hb9 hlencs hwj hmemb hnof
  exact second_run_straight hvalcs hb9 hlencs hwj hsc

/-- First-run flush branch. -/
theorem c6_branch_flush (l : List Card)
    (hval : validCards l = true) (hdup : hasDupCard l = false)
    {fc : Card} (hfcw : fc.weight = none) (hfcsome : fc.suit.isSome = true)
    (hfl5 : 5 ≤ ((sortCards l).filter (fun card => cardEq card fc)).length)
    (h5r : (mkSequence ((sortCards l).filter
      (fun card => cardEq card fc))).five_in_a_row = false) :
    ∃ c', find_combo (flush_pick (mkSequence ((sortCards l).filter
        (fun card => cardEq card fc))).cards) = some c'
      ∧ c'.type = FLUSH
      ∧ c'.cards = flush_pick (mkSequence ((sortCards l).filter
          (fun card => cardEq card fc))).cards := by
  have hperm := sortCards_perm l
  have hvs : validCards (sortCards l) = true := validCards_perm hperm.symm hval
  have hsorted : (sortCards l).Pairwise (fun a b => wNum a ≤ wNum b) :=
    sortCards_sorted_wNum (fun c hc => (validCards_mem hval hc).1)
  have hdists : cardsDistinct (sortCards l) :=
    cardsDistinct_perm hperm.symm (hasDupCard_pairwise hdup)
  have hfval : validCards ((sortCards l).filter (fun card => cardEq card fc)) = true :=
    validCards_sublist (List.filter_sublist _) hvs
  have hFsuit : ∀ x ∈ (sortCards l).filter (fun card => cardEq card fc),
      x.suit = fc.suit := by
    intro x hx
    obtain ⟨hxm, hxp⟩ := List.mem_filter.mp hx
    rw [cardEq_suitless (validCards_mem hvs hxm).2.2 hfcsome hfcw] at hxp
    simpa using hxp
  have hFsorted : ((sortCards l).filter (fun card => cardEq card fc)).Pairwise
      (fun a b => wNum a ≤ wNum b) := hsorted.sublist (List.filter_sublist _)
  have hFdistc : cardsDistinct ((sortCards l).filter (fun card => cardEq card fc)) :=
    List.Pairwise.sublist (List.filter_sublist _) hdists
  have hFne : ((sortCards l).filter (fun card => cardEq card fc)).Pairwise
      (fun a c => wNum a ≠ wNum c) := by
    refine hFdistc.imp_of_mem ?_
    intro a c hma hmc hrel heq
    exact hrel ⟨heq.symm, by rw [hFsuit a hma, hFsuit c hmc]⟩
  have hcseq : flush_pick (mkSequence ((sortCards l).filter
        (fun card => cardEq card fc))).cards
      = (((sortCards l).filter (fun card => cardEq card fc)).drop
          (((sortCards l).filter (fun card => cardEq card fc)).length - 5)).reverse := by
    rw [mkSequence_cards, flush_pick_seq_source _ hfl5]
    rfl
  have hD_asc := hFsorted.sublist
    (List.drop_sublist (((sortCards l).filter (fun card => cardEq card fc)).length - 5) _)
  have hD_ne := hFne.sublist
    (List.drop_sublist (((sortCards l).filter (fun card => cardEq card fc)).length - 5) _)
  have hD_strict : ((((sortCards l).filter (fun card => cardEq card fc))).drop
      (((sortCards l).filter (fun card => cardEq card fc)).length - 5)).Pairwise
      (fun a c => wNum a < wNum c) := (hD_asc.and hD_ne).imp (fun h => by omega)
  have hdesc_cs := List.pairwise_reverse.mpr hD_strict
  have hlencs : (((((sortCards l).filter (fun card => cardEq card fc))).drop
      (((sortCards l).filter (fun card => cardEq card fc)).length - 5)).reverse).length
      = 5 := by
    rw [List.length_reverse, List.length_drop]
    omega
  have hmemF : ∀ x ∈ ((((sortCards l).filter (fun card => cardEq card fc))).drop
      (((sortCards l).filter (fun card => cardEq card fc)).length - 5)).reverse,
      x ∈ (sortCards l).filter (fun card => cardEq card fc) := by
    intro x hx
    exact List.drop_subset _ _ (List.mem_reverse.mp hx)
  have hvalcs : validCards (((((sortCards l).filter (fun card => cardEq card fc))).drop
      (((sortCards l).filter (fun card => cardEq card fc)).length - 5)).reverse) = true :=
    validCards_of_mem hmemF hfval
  have hsu_cs : ∀ x ∈ ((((sortCards l).filter (fun card => cardEq card fc))).drop
      (((sortCards l).filter (fun card => cardEq card fc)).length - 5)).reverse,
      x.suit = fc.suit := fun x hx => hFsuit x (hmemF x hx)
  have h5' := second_five_false hvalcs hfval hmemF h5r
  rw [hcseq]
  exact second_run_flush hvalcs hlencs hdesc_cs hsu_cs h5'

/-- First-run straight-flush branch. -/
theorem c6_branch_sf (l : List Card)
    (hval : validCards l = true)
    {fc : Card} (hfcw : fc.weight = none) (hfcsome : fc.suit.isSome = true)
    {cs : List Card}
    (hoc : (mkSequence ((sortCards l).filter
      (fun card => cardEq card fc))).order_cards = some cs) :
    ∃ c', find_combo cs = some c' ∧ c'.type = STRAIGHT_FLUSH ∧ c'.cards = cs := by
  have hperm := sortCards_perm l
  have hvs : validCards (sortCards l) = true := validCards_perm hperm.symm hval
  have hfval : validCards ((sortCards l).filter (fun card => cardEq card fc)) = true :=
    validCards_sublist (List.filter_sublist _) hvs
  have hFsuit : ∀ x ∈ (sortCards l).filter (fun card => cardEq card fc),
      x.suit = fc.suit := by
    intro x hx
    obtain ⟨hxm, hxp⟩ := List.mem_filter.mp hx
    rw [cardEq_suitless (validCards_mem hvs hxm).2.2 hfcsome hfcw] at hxp
    simpa using hxp
  obtain ⟨b, hb9, hlencs, hwj, hmemb⟩ :=
    mkSequence_order_profile _ (seq_source_suits hfval) hoc
  have hvalcs : validCards cs = true :=
    validCards_of_mem hmemb (seq_source_valid hfval)
  have hsrc_su : ∀ x ∈ seq_source ((sortCards l).filter (fun card => cardEq card fc)),
      x.suit = fc.suit := by
    rcases seq_source_shape hfval with hsrc | ⟨ace, hacem, h13, hsrc⟩
    · rw [hsrc]
      exact hFsuit
    · rw [hsrc]
      intro x hx
      rcases List.mem_cons.mp hx with h | h
      · rw [h]
        show ace.suit = fc.suit
        exact hFsuit ace hacem
      · exact hFsuit x h
  have hsu_cs : ∀ x ∈ cs, x.suit = fc.suit := fun x hx => hsrc_su x (hmemb x hx)
  exact second_run_sf hvalcs hb9 hlencs hwj hsu_cs

/-- C6: for every valid group of 5-7 distinct real-suited cards, classifying
the group and then re-classifying the exact reported 5-card combination list
as a fresh card group yields the same combination kind and the same card
order as the first classification. -/
theorem C6_round_trip (l : List Card)
    (hval : validCards l = true) (hlen5 : 5 ≤ l.length) (hlen7 : l.length ≤ 7)
    (hdup : hasDupCard l = false) (hsu : suitsOk l = true) :
    ∃ c c', find_combo l = some c ∧ find_combo c.cards = some c'
      ∧ c'.type = c.type ∧ c'.cards = c.cards := by
  have hne : l ≠ [] := by
    intro h
    rw [h] at hlen5
    simp at hlen5
  have hperm := sortCards_perm l
  have hvs : validCards (sortCards l) = true := validCards_perm hperm.symm hval
  have hslen : (sortCards l).length = l.length := hperm.length_eq
  obtain ⟨c, hfc⟩ := find_combo_isSome hne hval
  obtain ⟨suitR, ty, cs, seq, hfn, hsel, hcrec⟩ := find_combo_some_decomp hfc
  have h1 : (get_all_repeats (sortCards l)).1
      = repFold (sortCards l) weightCardOf (sortCards l) ⟨[], []⟩ := by
    rw [get_all_repeats_eq]
  have h2 : (get_all_repeats (sortCards l)).2
      = repFold (sortCards l) suitCardOf (sortCards l) ⟨[], []⟩ := by
    rw [get_all_repeats_eq]
  obtain ⟨suitR', hfn', ⟨fc', cm, hfcv', hcm_mem, hfcw', hfcs', hcm_count⟩, hiff, hle⟩ :=
    flush_analysis (show sortCards l ≠ [] by
      intro h
      rw [h] at hslen
      simp at hslen
      omega) hvs
  rw [h2] at hfn
  have hsuitEq : suitR = suitR' := by
    rw [hfn] at hfn'
    exact Option.some.inj hfn'
  subst hsuitEq
  subst hcrec
  rcases select_combo_cases hsel with ⟨hfom, hseqeq, hcase⟩ | ⟨hfom, fc, hfcv, hseqeq, hcase⟩
  · -- no flush suit: every suit count is at most four
    have hnof : ∀ x ∈ sortCards l, scount (sortCards l) x.suit ≤ 4 := by
      intro x hx
      by_contra hcon
      have h5x : suitR.five_or_more = true := hiff.mpr ⟨x, hx, by omega⟩
      rw [hfom] at h5x
      simp at h5x
    subst hseqeq
    rcases hcase with ⟨f, hfour, htyv, hcsv⟩
      | ⟨hf4n, t, p, ht3, hp2, htyv, hcsv⟩
      | ⟨hf4n, h32, h5r, hoc, htyv⟩
      | ⟨hf4n, h32, h5r, t, ht3, htyv, hcsv⟩
      | ⟨hf4n, hf3n, h5r, dd, hddv, htyv, hcsv⟩
      | ⟨hf4n, hf3n, h5r, hddn, p, hp2, htyv, hcsv⟩
      | ⟨hf4n, hf3n, hp2n, hddn, h5r, htyv, hcsv⟩
    · -- four of a kind
      subst htyv
      subst hcsv
      rw [h1] at hfour
      obtain ⟨c', hfc2, hty2, hcs2⟩ :=
        c6_branch_four l hval hlen5 hdup hsu hfour hnof
      exact ⟨_, c', hfc, hfc2, hty2, hcs2⟩
    · -- full house
      subst htyv
      subst hcsv
      rw [h1] at ht3 hp2
      obtain ⟨c', hfc2, hty2, hcs2⟩ :=
        c6_branch_full_house l hval hlen5 hdup hsu ht3 hp2 hnof
      exact ⟨_, c', hfc, hfc2, hty2, hcs2⟩
    · -- straight
      subst htyv
      obtain ⟨c', hfc2, hty2, hcs2⟩ :=
        c6_branch_straight l hval hlen5 hoc hnof
      exact ⟨_, c', hfc, hfc2, hty2, hcs2⟩
    · -- three of a kind
      subst htyv
      subst hcsv
      rw [h1] at ht3 h32
      have h2sf : (get_repeat_kind
          (repFold (sortCards l) weightCardOf (sortCards l) ⟨[], []⟩).all).two.isSome
          = false := by
        rw [ht3] at h32
        simpa using h32
      have h2none : (get_repeat_kind
          (repFold (sortCards l) weightCardOf (sortCards l) ⟨[], []⟩).all).two = none :=
        Option.not_isSome_iff_eq_none.mp (by simp [h2sf])
      obtain ⟨c', hfc2, hty2, hcs2⟩ :=
        c6_branch_three l hval hlen5 hlen7 hdup hsu ht3 h2none h5r hnof
      exact ⟨_, c', hfc, hfc2, hty2, hcs2⟩
    · -- two pairs
      subst htyv
      subst hcsv
      rw [h1] at hddv
      obtain ⟨c', hfc2, hty2, hcs2⟩ :=
        c6_branch_two_pairs l hval hlen5 hdup hsu hddv h5r hnof
      exact ⟨_, c', hfc, hfc2, hty2, hcs2⟩
    · -- one pair
      subst htyv
      subst hcsv
      rw [h1] at hf4n hf3n hp2
      obtain ⟨c', hfc2, hty2, hcs2⟩ :=
        c6_branch_one_pair l hval hlen5 hdup hsu hf4n hf3n hp2 h5r hnof
      exact ⟨_, c', hfc, hfc2, hty2, hcs2⟩
    · -- high card
      subst htyv
      subst hcsv
      rw [h1] at hf4n hf3n hp2n hddn
      obtain ⟨c', hfc2, hty2, hcs2⟩ :=
        c6_branch_high l hval hlen5 hdup hsu hf4n hf3n hp2n hddn h5r hnof
      exact ⟨_, c', hfc, hfc2, hty2, hcs2⟩
  · -- flush suit present
    have hfcEq : fc = fc' := by
      rw [hfcv] at hfcv'
      exact Option.some.inj hfcv'
    subst hfcEq
    have hfcsome : fc.suit.isSome = true := by
      rw [hfcs']
      exact (validCards_mem hvs hcm_mem).2.2
    obtain ⟨c0, hc0, h5c⟩ := hiff.mp hfom
    have h5cm : 5 ≤ scount (sortCards l) cm.suit := by
      rw [hcm_count]
      exact le_trans h5c (hle c0 hc0)
    have hfilt : (sortCards l).filter (fun card => cardEq card fc)
        = (sortCards l).filter (fun card => card.suit == cm.suit) := by
      apply List.filter_congr
      intro card hcard
      rw [cardEq_suitless (validCards_mem hvs hcard).2.2 hfcsome hfcw', hfcs']
    have hfl5 : 5 ≤ ((sortCards l).filter (fun card => cardEq card fc)).length := by
      rw [hfilt]
      exact h5cm
    subst hseqeq
    rcases hcase with ⟨h5r, hoc, htyv⟩ | ⟨h5r, htyv, hcsv⟩
    · -- straight flush
      subst htyv
      obtain ⟨c', hfc2, hty2, hcs2⟩ :=
        c6_branch_sf l hval hfcw' hfcsome hoc
      exact ⟨_, c', hfc, hfc2, hty2, hcs2⟩
    · -- flush
      subst htyv
      subst hcsv
      obtain ⟨c', hfc2, hty2, hcs2⟩ :=
        c6_branch_flush l hval hdup hfcw' hfcsome hfl5 h5r
      exact ⟨_, c', hfc, hfc2, hty2, hcs2⟩

/-- A seven-card group instantiating the round-trip theorem. -/
def c6_group : List Card :=
  [Card.ofSymbols 'A' 's', Card.ofSymbols 'K' 'd', Card.ofSymbols '9' 'h',
   Card.ofSymbols '9' 'c', Card.ofSymbols '5' 's', Card.ofSymbols '3' 'd',
   Card.ofSymbols '2' 'h']

theorem C6_round_trip_witness :
    (validCards c6_group = true ∧ 5 ≤ c6_group.length ∧ c6_group.length ≤ 7
      ∧ hasDupCard c6_group = false ∧ suitsOk c6_group = true)
    ∧ ∃ c c', find_combo c6_group = some c ∧ find_combo c.cards = some c'
        ∧ c'.type = c.type ∧ c'.cards = c.cards :=
  ⟨⟨by decide, by decide, by decide, by decide, by decide⟩,
   C6_round_trip c6_group (by decide) (by decide) (by decide) (by decide) (by decide)⟩
